import Mathlib

/-! OpenDarkBASIC: command index, semantic converter, code generation, driver
and argument definitions.

A shallow embedding of `odb-compiler/src/commands/CommandIndex.cpp`, of
`odb-compiler/src/ir/semantic/ASTConverter.cpp` (expressions, statements and
`generateProgram`), of `TargetTriple::getLLVMTargetTriple`, of the plugin order of
`DBPEngineInterface::generateEntryPoint` and of `generateCommandCall`, of the
`accept` functions of `ast/Assignment.cpp` and `ast/Loop.cpp`, of the output name
of `odb-cli/src/Codegen.cpp` and of `odb-cli/argdefgen/src/action.c`, followed by
the properties established about them.

The two places where the embedding has to choose are these. The container
behind `CommandIndex::lookup` is declared in a header outside the sources and
is modelled as keeping insertion order. `std::sort` is not a stable sort, so
the sorting routine is a parameter of the converter and the properties are
proved for every routine with the guarantees of `std::sort`
(`StdSort`); `insertionSort` is such a routine. The routine that the call
`std::sort` runs in a build with the GNU C++ library is embedded as
`libstdcxx.sort`.
-/

set_option autoImplicit false

namespace odb

/-! ## Command catalogue (`odb::cmd`) -/

namespace cmd

/-- Modelled from the spec: the alphabet of `cmd::Command::Type` (declared in
`Command.hpp`, which is not part of the sources at hand). The spec lists the
tags Integer, Float, String, Double, Long, Dword, Void and the two
engine-internal markers `X` and `A`. -/
inductive CommandType
  | Integer
  | Float
  | String
  | Double
  | Long
  | Dword
  | Void
  | X
  | A
  deriving DecidableEq, Repr

/-- One declared argument of a command; only its `type` is read by the code
under study. -/
structure Arg where
  type : CommandType
  deriving DecidableEq, Repr

/-- A command overload, with the fields passed to the constructor
`Command(library, dbSymbol, cppSymbol, returnType, args)`. The library handle
is represented by the file name that `library()->getFilename()` yields. -/
structure Command where
  library : String
  dbSymbol : String
  cppSymbol : String
  returnType : CommandType
  args : List Arg
  deriving DecidableEq, Repr

/-- Modelled from the spec: `str::toLower` (declared in `odb-sdk/Str.hpp`, not
part of the sources at hand) produces the lowercased key of a display name. -/
def toLower (s : String) : String :=
  String.mk (s.data.map Char.toLower)

/-- The index. `commands_` is the `std::vector` of `addCommand`.
Modelled from the spec: `commandLookupTable_` is declared in
`CommandIndex.hpp`, which is not part of the sources at hand; the code only
shows `emplace(key, value)` and `equal_range(key)` on it. The spec states that
`lookup` returns the overloads in insertion order, so the table is the list of
its `(key, value)` entries in the order of their insertion. -/
structure CommandIndex where
  commands_ : List Command
  commandLookupTable_ : List (String × Command)
  deriving Repr

namespace CommandIndex

/-- A freshly constructed index. -/
def empty : CommandIndex :=
  { commands_ := [], commandLookupTable_ := [] }

/-- Embedding of `CommandIndex::addCommand`: append to the vector and add an entry keyed
by the display name to the table. -/
def addCommand (idx : CommandIndex) (command : Command) : CommandIndex :=
  { commands_ := idx.commands_ ++ [command],
    commandLookupTable_ := idx.commandLookupTable_ ++ [(command.dbSymbol, command)] }

/-- The index obtained from a sequence of `addCommand` calls. -/
def ofList (cs : List Command) : CommandIndex :=
  cs.foldl addCommand empty

/-- The argument loop of the `compare` lambda: it walks both argument vectors
while neither is exhausted and stops with `false` at the first differing type. -/
def compareArgs : List Arg → List Arg → Bool
  | x :: xs, y :: ys => if x.type ≠ y.type then false else compareArgs xs ys
  | _, _ => true

/-- The `compare` lambda of `findConflicts`. -/
def compare (a b : Command) : Bool :=
  if compareArgs a.args b.args = false then false
  else if a.args.length ≠ b.args.length then false
  else if a.returnType ≠ b.returnType then false
  else true

/-- Lookup in the local `std::unordered_map` of `findConflicts` (keys are
unique, so the first entry with the key is the only one). -/
def mapFind (map_ : List (String × List Command)) (key : String) : Option (List Command) :=
  (map_.find? (fun e => e.1 == key)).map (fun e => e.2)

/-- The outer loop of `findConflicts` over the remaining commands, with the
local map as accumulator. `map_.insert` leaves the map untouched when the key
is present, and the code never extends the stored vector. -/
def findConflictsLoop : List (String × List Command) → List Command → Bool
  | _, [] => false
  | map_, c :: rest =>
    match mapFind map_ (toLower c.dbSymbol) with
    | none => findConflictsLoop (map_ ++ [(toLower c.dbSymbol, [c])]) rest
    | some overloads =>
      if overloads.any (fun overload => compare c overload) then true
      else findConflictsLoop map_ rest

/-- Embedding of `CommandIndex::findConflicts`. -/
def findConflicts (idx : CommandIndex) : Bool :=
  findConflictsLoop [] idx.commands_

/-- Embedding of `CommandIndex::lookup`: the values of the table entries whose key equals
`commandName`, in table order. -/
def lookup (idx : CommandIndex) (commandName : String) : List Command :=
  (idx.commandLookupTable_.filter (fun e => e.1 == commandName)).map (fun e => e.2)

/-- Embedding of `CommandIndex::commands`. -/
def commands (idx : CommandIndex) : List Command :=
  idx.commands_

/-- Embedding of `CommandIndex::commandNamesAsList`. -/
def commandNamesAsList (idx : CommandIndex) : List String :=
  idx.commands_.map (fun c => c.dbSymbol)

/-- Embedding of `CommandIndex::librariesAsList`. -/
def librariesAsList (idx : CommandIndex) : List String :=
  idx.commands_.map (fun c => c.library)

end CommandIndex

end cmd

/-! ## `std::sort` of the GNU C++ library

The converter calls `std::sort`; the routine belongs to the C++ library. The
definitions below follow `bits/stl_algo.h` and `bits/stl_heap.h` of libstdc++
function by function, the vector as a list and an iterator as a position in
it. -/

namespace libstdcxx

/-- The call `__comp(__a, __b)` on two iterators into the vector `v`, given as
positions. No function below compares at a position outside the vector when
the comparator is a strict weak ordering; such a comparison is `false` here. -/
def compAt {α : Type} (comp : α → α → Bool) (v : List α) (a b : Nat) : Bool :=
  match v[a]?, v[b]? with
  | some x, some y => comp x y
  | _, _ => false

/-- The call `std::iter_swap(__a, __b)`. -/
def iter_swap {α : Type} (v : List α) (a b : Nat) : List α :=
  match v[a]?, v[b]? with
  | some x, some y => (v.set a y).set b x
  | _, _ => v

/-- Embedding of `std::__move_median_to_first`. -/
def move_median_to_first {α : Type} (comp : α → α → Bool) (v : List α)
    (result a b c : Nat) : List α :=
  if compAt comp v a b then
    if compAt comp v b c then iter_swap v result b
    else if compAt comp v a c then iter_swap v result c
    else iter_swap v result a
  else if compAt comp v a c then iter_swap v result a
  else if compAt comp v b c then iter_swap v result c
  else iter_swap v result b

/-- The loop of `std::__unguarded_linear_insert`: while `val` compares less than
the element before `last`, that element moves one place up; then `val` is
stored at `last`. The loop runs at most once per element before `last`, which
`fuel` counts. -/
def unguarded_linear_insert_loop {α : Type} (comp : α → α → Bool) (val : α) :
    Nat → List α → Nat → List α
  | 0, v, last => v.set last val
  | fuel + 1, v, last =>
    match last with
    | 0 => v.set last val
    | next + 1 =>
      match v[next]? with
      | none => v.set last val
      | some x =>
        if comp val x then unguarded_linear_insert_loop comp val fuel (v.set last x) next
        else v.set last val

/-- Embedding of `std::__unguarded_linear_insert`. -/
def unguarded_linear_insert {α : Type} (comp : α → α → Bool) (v : List α) (last : Nat) :
    List α :=
  match v[last]? with
  | none => v
  | some val => unguarded_linear_insert_loop comp val last v last

/-- The call `std::move_backward(first, last, d_last)`: the elements of
`[first, last)` are copied to the range that ends at `d_last`. -/
def move_backward {α : Type} (v : List α) (first last d_last : Nat) : List α :=
  v.take (d_last - (last - first)) ++ (v.drop first).take (last - first) ++ v.drop d_last

/-- The body of the loop of `std::__insertion_sort` at the position `i`. -/
def insertion_sort_body {α : Type} (comp : α → α → Bool) (first : Nat) (v : List α)
    (i : Nat) : List α :=
  if compAt comp v i first then
    match v[i]? with
    | none => v
    | some val => (move_backward v first i (i + 1)).set first val
  else unguarded_linear_insert comp v i

/-- The loop of `std::__insertion_sort` from the position `i` on, for `n` more
elements. -/
def insertion_sort_loop {α : Type} (comp : α → α → Bool) (first : Nat) :
    Nat → List α → Nat → List α
  | 0, v, _ => v
  | n + 1, v, i => insertion_sort_loop comp first n (insertion_sort_body comp first v i) (i + 1)

/-- Embedding of `std::__insertion_sort`. -/
def insertion_sort {α : Type} (comp : α → α → Bool) (v : List α) (first last : Nat) :
    List α :=
  if first = last then v
  else insertion_sort_loop comp first (last - (first + 1)) v (first + 1)

/-- The loop of `std::__unguarded_insertion_sort` from the position `i` on, for
`n` more elements. -/
def unguarded_insertion_sort_loop {α : Type} (comp : α → α → Bool) :
    Nat → List α → Nat → List α
  | 0, v, _ => v
  | n + 1, v, i => unguarded_insertion_sort_loop comp n (unguarded_linear_insert comp v i) (i + 1)

/-- Embedding of `std::__unguarded_insertion_sort`. -/
def unguarded_insertion_sort {α : Type} (comp : α → α → Bool) (v : List α)
    (first last : Nat) : List α :=
  unguarded_insertion_sort_loop comp (last - first) v first

/-- The constant `_S_threshold`. -/
def S_threshold : Nat := 16

/-- Embedding of `std::__final_insertion_sort`. -/
def final_insertion_sort {α : Type} (comp : α → α → Bool) (v : List α) (first last : Nat) :
    List α :=
  if last - first > S_threshold then
    unguarded_insertion_sort comp (insertion_sort comp v first (first + S_threshold))
      (first + S_threshold) last
  else insertion_sort comp v first last

/-- The loop `while (__comp(__first, __pivot)) ++__first` of
`std::__unguarded_partition`; it runs at most once per element, which `fuel`
counts. -/
def skip_less {α : Type} (comp : α → α → Bool) (v : List α) (pivot : Nat) :
    Nat → Nat → Nat
  | 0, first => first
  | fuel + 1, first =>
    if compAt comp v first pivot then skip_less comp v pivot fuel (first + 1) else first

/-- The loop `while (__comp(__pivot, __last)) --__last` of
`std::__unguarded_partition`. -/
def skip_greater {α : Type} (comp : α → α → Bool) (v : List α) (pivot : Nat) :
    Nat → Nat → Nat
  | 0, last => last
  | fuel + 1, last =>
    if compAt comp v pivot last then skip_greater comp v pivot fuel (last - 1) else last

/-- The loop `while (true)` of `std::__unguarded_partition`: the vector and the
returned position. Every round but the last advances `first`, so there are at
most as many rounds as elements, which `fuel` counts. -/
def unguarded_partition_loop {α : Type} (comp : α → α → Bool) (pivot : Nat) :
    Nat → List α → Nat → Nat → List α × Nat
  | 0, v, first, _ => (v, first)
  | fuel + 1, v, first, last =>
    let first := skip_less comp v pivot v.length first
    let last := last - 1
    let last := skip_greater comp v pivot v.length last
    if ¬ (first < last) then (v, first)
    else unguarded_partition_loop comp pivot fuel (iter_swap v first last) (first + 1) last

/-- Embedding of `std::__unguarded_partition`. -/
def unguarded_partition {α : Type} (comp : α → α → Bool) (v : List α)
    (first last pivot : Nat) : List α × Nat :=
  unguarded_partition_loop comp pivot (v.length + 1) v first last

/-- Embedding of `std::__unguarded_partition_pivot`. -/
def unguarded_partition_pivot {α : Type} (comp : α → α → Bool) (v : List α)
    (first last : Nat) : List α × Nat :=
  let mid := first + (last - first) / 2
  let v := move_median_to_first comp v first (first + 1) mid (last - 1)
  unguarded_partition comp v (first + 1) last first

/-- The loop of `std::__push_heap`: the position at which `value` is stored;
`fuel` counts the levels of the heap. -/
def push_heap_loop {α : Type} (comp : α → α → Bool) (first topIndex : Nat) (value : α) :
    Nat → List α → Nat → List α
  | 0, v, holeIndex => v.set (first + holeIndex) value
  | fuel + 1, v, holeIndex =>
    let parent := (holeIndex - 1) / 2
    match v[first + parent]? with
    | none => v.set (first + holeIndex) value
    | some p =>
      if holeIndex > topIndex ∧ comp p value = true then
        push_heap_loop comp first topIndex value fuel (v.set (first + holeIndex) p) parent
      else v.set (first + holeIndex) value

/-- Embedding of `std::__push_heap`. -/
def push_heap {α : Type} (comp : α → α → Bool) (v : List α) (first holeIndex topIndex : Nat)
    (value : α) : List α :=
  push_heap_loop comp first topIndex value (v.length + 1) v holeIndex

/-- The loop `while (__secondChild < (__len - 1) / 2)` of `std::__adjust_heap`:
the vector, `holeIndex` and `secondChild` after it. -/
def adjust_heap_loop {α : Type} (comp : α → α → Bool) (first len : Nat) :
    Nat → List α → Nat → Nat → List α × Nat × Nat
  | 0, v, holeIndex, secondChild => (v, holeIndex, secondChild)
  | fuel + 1, v, holeIndex, secondChild =>
    if secondChild < (len - 1) / 2 then
      let secondChild := 2 * (secondChild + 1)
      let secondChild :=
        if compAt comp v (first + secondChild) (first + (secondChild - 1)) then secondChild - 1
        else secondChild
      let v :=
        match v[first + secondChild]? with
        | none => v
        | some x => v.set (first + holeIndex) x
      adjust_heap_loop comp first len fuel v secondChild secondChild
    else (v, holeIndex, secondChild)

/-- Embedding of `std::__adjust_heap`. -/
def adjust_heap {α : Type} (comp : α → α → Bool) (v : List α) (first holeIndex len : Nat)
    (value : α) : List α :=
  let topIndex := holeIndex
  match adjust_heap_loop comp first len (v.length + 1) v holeIndex holeIndex with
  | (v, holeIndex, secondChild) =>
    if len % 2 = 0 ∧ secondChild = (len - 2) / 2 then
      let secondChild := 2 * (secondChild + 1)
      let v :=
        match v[first + (secondChild - 1)]? with
        | none => v
        | some x => v.set (first + holeIndex) x
      push_heap comp v first (secondChild - 1) topIndex value
    else push_heap comp v first holeIndex topIndex value

/-- Embedding of `std::__pop_heap`. -/
def pop_heap {α : Type} (comp : α → α → Bool) (v : List α) (first last result : Nat) :
    List α :=
  match v[result]?, v[first]? with
  | some value, some top => adjust_heap comp (v.set result top) first 0 (last - first) value
  | _, _ => v

/-- The loop `while (true)` of `std::__make_heap`, from `parent` down to `0`. -/
def make_heap_loop {α : Type} (comp : α → α → Bool) (first len : Nat) :
    Nat → List α → List α
  | 0, v =>
    match v[first]? with
    | none => v
    | some value => adjust_heap comp v first 0 len value
  | parent + 1, v =>
    match v[first + (parent + 1)]? with
    | none => v
    | some value => make_heap_loop comp first len parent (adjust_heap comp v first (parent + 1) len value)

/-- Embedding of `std::__make_heap`. -/
def make_heap {α : Type} (comp : α → α → Bool) (v : List α) (first last : Nat) : List α :=
  if last - first < 2 then v
  else make_heap_loop comp first (last - first) ((last - first - 2) / 2) v

/-- The loop of `std::__sort_heap`, for `n` more elements. -/
def sort_heap_loop {α : Type} (comp : α → α → Bool) (first : Nat) :
    Nat → List α → Nat → List α
  | 0, v, _ => v
  | n + 1, v, last =>
    if last - first > 1 then
      sort_heap_loop comp first n (pop_heap comp v first (last - 1) (last - 1)) (last - 1)
    else v

/-- Embedding of `std::__sort_heap`. -/
def sort_heap {α : Type} (comp : α → α → Bool) (v : List α) (first last : Nat) : List α :=
  sort_heap_loop comp first (last - first) v last

/-- The loop of `std::__heap_select` from the position `i` on, for `n` more
elements. -/
def heap_select_loop {α : Type} (comp : α → α → Bool) (first middle : Nat) :
    Nat → List α → Nat → List α
  | 0, v, _ => v
  | n + 1, v, i =>
    let v := if compAt comp v i first then pop_heap comp v first middle i else v
    heap_select_loop comp first middle n v (i + 1)

/-- Embedding of `std::__heap_select`. -/
def heap_select {α : Type} (comp : α → α → Bool) (v : List α) (first middle last : Nat) :
    List α :=
  heap_select_loop comp first middle (last - middle) (make_heap comp v first middle) middle

/-- Embedding of `std::__partial_sort`. -/
def partial_sort {α : Type} (comp : α → α → Bool) (v : List α) (first middle last : Nat) :
    List α :=
  sort_heap comp (heap_select comp v first middle last) first middle

/-- Embedding of `std::__introsort_loop`. Every round of the loop and every nested
call lowers `depth_limit` by one until it is `0`, so `fuel` above `depth_limit`
is never used up. -/
def introsort_loop {α : Type} (comp : α → α → Bool) :
    Nat → List α → Nat → Nat → Nat → List α
  | 0, v, _, _, _ => v
  | fuel + 1, v, first, last, depth_limit =>
    if last - first > S_threshold then
      if depth_limit = 0 then partial_sort comp v first last last
      else
        let depth_limit := depth_limit - 1
        match unguarded_partition_pivot comp v first last with
        | (v, cut) =>
          let v := introsort_loop comp fuel v cut last depth_limit
          introsort_loop comp fuel v first cut depth_limit
    else v

/-- The function `std::__lg`: the position of the highest set bit. -/
def lg : Nat → Nat → Nat
  | 0, _ => 0
  | fuel + 1, n => if n ≥ 2 then lg fuel (n / 2) + 1 else 0

/-- Embedding of `std::sort(v.begin(), v.end(), comp)` (`std::__sort`). -/
def sort {α : Type} (comp : α → α → Bool) (v : List α) : List α :=
  if v.length ≠ 0 then
    final_insertion_sort comp
      (introsort_loop comp (lg v.length v.length * 2 + 1) v 0 v.length (lg v.length v.length * 2))
      0 v.length
  else v

end libstdcxx

/-! ## Typed IR (`odb::ir`) -/

namespace ir

/-- Modelled from the spec: the builtin scalar kinds carried by a `Type`
(`BuiltinType` is declared in a header that is not part of the sources at
hand). -/
inductive BuiltinType
  | Boolean
  | Byte
  | Word
  | Dword
  | Integer
  | DoubleInteger
  | Float
  | DoubleFloat
  | String
  deriving DecidableEq, Repr

/-- Modelled from the spec: the predicate `is_integral` on builtin kinds
(`isIntegralType` is not part of the sources at hand): the boolean and the
integer kinds of every width. -/
def isIntegralType : BuiltinType → Bool
  | .Boolean => true
  | .Byte => true
  | .Word => true
  | .Dword => true
  | .Integer => true
  | .DoubleInteger => true
  | _ => false

/-- Modelled from the spec: the predicate `is_floating_point` on builtin kinds
(`isFloatingPointType` is not part of the sources at hand). -/
def isFloatingPointType : BuiltinType → Bool
  | .Float => true
  | .DoubleFloat => true
  | _ => false

/-- Modelled from the spec: the class `Type` of the IR (its header is not part
of the sources at hand): a tagged value Builtin, Udt or Array with structural
equality; the default-constructed `Type{}` used by the converter for commands
returning nothing is `void`. -/
inductive IRType
  | void
  | builtin (b : BuiltinType)
  | udt (name : String)
  | array (inner : IRType)
  deriving DecidableEq, Repr

namespace IRType

/-- Modelled from the spec: `Type::isBuiltinType`. -/
def isBuiltinType : IRType → Bool
  | .builtin _ => true
  | _ => false

/-- Modelled from the spec: `Type::getBuiltinType`. -/
def getBuiltinType : IRType → Option BuiltinType
  | .builtin b => some b
  | _ => none

end IRType

/-- The sigil annotation of a variable. -/
inductive Annotation
  | None
  | String
  | Float
  deriving DecidableEq, Repr

/-- A variable record of a scope. Source locations are not represented. -/
structure Variable where
  name : String
  annotation : Annotation
  type : IRType
  deriving DecidableEq, Repr

/-- One declared parameter of a user function. -/
structure Argument where
  name : String
  type : IRType
  deriving DecidableEq, Repr

/-- What a `FunctionDefinition*` held by a call node designates: the position of
the definition in the program's function list together with the name and the
parameters fixed by `convertFunctionWithoutBody`. -/
structure FunctionHandle where
  index : Nat
  name : String
  arguments : List Argument
  deriving DecidableEq, Repr

/-- The callee of a call node: a command overload or a user function. -/
inductive Callee
  | command (c : cmd.Command)
  | function (f : FunctionHandle)
  deriving DecidableEq, Repr

/-- Modelled from the spec: the operator kinds of `ODB_UNARY_OP_LIST` (the
list is not part of the sources at hand); the kind is carried through
unchanged by the converter. -/
structure UnaryOp where
  name : String
  deriving DecidableEq, Repr

/-- Modelled from the spec: the operator kinds of `ODB_BINARY_OP_LIST` (the
list is not part of the sources at hand). -/
structure BinaryOp where
  name : String
  deriving DecidableEq, Repr

/-- Modelled from the spec: a literal of one of the kinds of
`ODB_DATATYPE_LIST` (the list is not part of the sources at hand); floating
point values are kept as their source text. -/
inductive Literal
  | Boolean (value : Bool)
  | Byte (value : Nat)
  | Word (value : Nat)
  | Dword (value : Nat)
  | Integer (value : Int)
  | DoubleInteger (value : Int)
  | Float (value : String)
  | DoubleFloat (value : String)
  | String (value : String)
  deriving DecidableEq, Repr

/-- The builtin kind of a literal. -/
def Literal.kind : Literal → BuiltinType
  | .Boolean _ => .Boolean
  | .Byte _ => .Byte
  | .Word _ => .Word
  | .Dword _ => .Dword
  | .Integer _ => .Integer
  | .DoubleInteger _ => .DoubleInteger
  | .Float _ => .Float
  | .DoubleFloat _ => .DoubleFloat
  | .String _ => .String

/-- IR expressions. Source locations are not represented. Every expression
carries a resolved Type; an operator node stores the one it was built with. -/
inductive Expression
  | literal (value : Literal)
  | varRef (var : Variable)
  | unary (op : UnaryOp) (expr : Expression) (type : IRType)
  | binary (op : BinaryOp) (left : Expression) (right : Expression) (type : IRType)
  | cast (expr : Expression) (targetType : IRType)
  | functionCall (callee : Callee) (args : List Expression) (returnType : IRType)
  deriving Repr

namespace Expression

/-- Modelled from the spec: `Expression::getType` (the node classes are not
part of the sources at hand). Every expression carries a resolved Type: a
literal its builtin kind, a variable reference the variable's Type, a cast its
target, a call its return Type, an operator node the Type stored in it. -/
def getType : Expression → IRType
  | .literal v => .builtin v.kind
  | .varRef v => v.type
  | .unary _ _ t => t
  | .binary _ _ _ t => t
  | .cast _ t => t
  | .functionCall _ _ t => t

/-- Whether the node is a `CastExpression`. -/
def isCast : Expression → Bool
  | .cast _ _ => true
  | _ => false

end Expression

/-- A call node: `FunctionCallExpression{location, callee, args, returnType}`. -/
structure FunctionCallExpression where
  callee : Callee
  args : List Expression
  returnType : IRType
  deriving Repr

/-- The ways in which the converter aborts (`fatalError`, `std::terminate`, or
an access that has no defined result). -/
inductive Fatal
  | emptyCandidates
  | noMatchingOverload (commandName : String)
  | unknownCommandType
  | functionNotDefined (functionName : String)
  | argumentCountMismatch (functionName : String)
  | nullArgumentList
  | argumentIndexOutOfRange
  | unknownExpression
  | unknownStatement
  | unimplementedConstDecl
  | nullDereference
  | assertionFailed
  | nonFunctionAfterFunction
  deriving DecidableEq, Repr

/-- The mutable part of the converter that expression conversion touches:
the scope of `currentFunction_` and the `errorOccurred_` flag. -/
structure ConvState where
  scope : List Variable
  errorOccurred : Bool
  deriving DecidableEq, Repr

/-- Modelled from the spec: `semanticError` (defined outside the sources at
hand) reports a diagnostic and sets the compile-error flag of the converter. -/
def semanticError (st : ConvState) : ConvState :=
  { st with errorOccurred := true }

/-- Embedding of `ASTConverter::getTypeFromAnnotation`. -/
def getTypeFromAnnotation : Annotation → IRType
  | .None => .builtin .Integer
  | .String => .builtin .String
  | .Float => .builtin .Float

/-- Embedding of `ASTConverter::getTypeFromCommandType`; `none` is the `fatalError` of the
`default` branch. -/
def getTypeFromCommandType : cmd.CommandType → Option IRType
  | .Integer => some (.builtin .Integer)
  | .Float => some (.builtin .Float)
  | .String => some (.builtin .String)
  | .Double => some (.builtin .DoubleFloat)
  | .Long => some (.builtin .DoubleInteger)
  | .Dword => some (.builtin .Dword)
  | .Void => some .void
  | _ => none

/-- Embedding of `ASTConverter::isTypeConvertible`. -/
def isTypeConvertible (sourceType targetType : IRType) : Bool :=
  if sourceType = targetType then true
  else
    match sourceType.getBuiltinType, targetType.getBuiltinType with
    | some s, some t =>
      if isIntegralType s && isIntegralType t then true
      else if isFloatingPointType s && isFloatingPointType t then true
      else if isIntegralType s && isFloatingPointType t then true
      else if isFloatingPointType s && isIntegralType t then true
      else false
    | _, _ => false

/-- Embedding of `ASTConverter::ensureType`. -/
def ensureType (expression : Expression) (targetType : IRType) (st : ConvState) :
    Expression × ConvState :=
  if expression.getType = targetType then (expression, st)
  else if isTypeConvertible expression.getType targetType then
    (.cast expression targetType, st)
  else (expression, semanticError st)

/-! ### Command overload resolution -/

/-- The comparator type of `std::sort` on the candidate vector. -/
abbrev Comparator := cmd.Command → cmd.Command → Bool

/-- A routine standing for `std::sort` on the candidate vector. -/
abbrev Sorter := Comparator → List cmd.Command → List cmd.Command

/-- The requirement `std::sort` puts on its comparator: a strict weak
ordering. -/
def StrictWeakOrdering (comp : Comparator) : Prop :=
  (∀ a, comp a a = false) ∧
  (∀ a b c, comp a b = true → comp b c = true → comp a c = true) ∧
  (∀ a b c, comp a b = false → comp b c = false → comp a c = false)

/-- What `std::sort` guarantees: for a comparator that is a strict weak
ordering the result is a rearrangement of the input in which no element
compares less than an earlier one. The relative order of equivalent elements is
not part of the guarantee. -/
def StdSort (sort : Sorter) : Prop :=
  ∀ comp, StrictWeakOrdering comp → ∀ l,
    (sort comp l).Perm l ∧ (sort comp l).Pairwise (fun a b => comp b a = false)

/-- A sorting routine that keeps equivalent elements in their input order
(straight insertion, as library implementations use on short ranges). -/
def insertionSort : Sorter :=
  fun comp l => l.insertionSort (fun a b => comp b a = false)

/-- The routine behind `std::sort(candidates.begin(), candidates.end(),
candidateRankFunction)` in a build with the GNU C++ library. -/
def libstdcxxSort : Sorter :=
  fun comp l => libstdcxx.sort comp l

/-- The second removal predicate of `convertCommandCallExpression`, on the
parameters of a candidate and the converted actual arguments: true when some
parameter is tagged `X` or `A` or is not convertible from its actual. The
candidate has passed the arity filter, so both lists have the same length. The
`fatalError` of `getTypeFromCommandType` cannot be reached behind the `X`/`A`
test; that branch removes the candidate. -/
def convertArgumentsNotPossible : List cmd.Arg → List Expression → Bool
  | p :: ps, a :: as =>
    if p.type = cmd.CommandType.X ∨ p.type = cmd.CommandType.A then true
    else
      match getTypeFromCommandType p.type with
      | none => true
      | some t =>
        if isTypeConvertible a.getType t = false then true
        else convertArgumentsNotPossible ps as
  | _, _ => false

/-- The lambda `convertArgumentsNotPossiblePrecondition`. -/
def convertArgumentsNotPossiblePrecondition (args : List Expression)
    (candidate : cmd.Command) : Bool :=
  convertArgumentsNotPossible candidate.args args

/-- The two `erase(remove_if(...))` passes: candidates of the wrong arity go
first, then those whose arguments cannot be converted. -/
def filterCandidates (args : List Expression) (candidates : List cmd.Command) :
    List cmd.Command :=
  (candidates.filter (fun candidate => !(candidate.args.length != args.length))).filter
    (fun candidate => !(convertArgumentsNotPossiblePrecondition args candidate))

/-- The contribution of one argument to the score in `scoreCandidate`. -/
def scoreArgument (overloadType argType : IRType) : Nat :=
  if overloadType = argType then 10
  else
    match overloadType.getBuiltinType, argType.getBuiltinType with
    | some o, some a =>
      (if isIntegralType o && isIntegralType a then 1 else 0) +
      (if isFloatingPointType o && isFloatingPointType a then 1 else 0)
    | _, _ => 0

/-- The loop of `scoreCandidate` over the parameters of an overload and the
actual arguments. A parameter tag without a Type cannot occur among the
filtered candidates; it contributes nothing. -/
def scoreArguments : List cmd.Arg → List Expression → Nat
  | p :: ps, a :: as =>
    (match getTypeFromCommandType p.type with
      | none => 0
      | some overloadType => scoreArgument overloadType a.getType) + scoreArguments ps as
  | _, _ => 0

/-- The lambda `scoreCandidate`. The sum is bounded by ten times the number of
arguments, far below the range of `int`. -/
def scoreCandidate (args : List Expression) (overload : cmd.Command) : Nat :=
  scoreArguments overload.args args

/-- The lambda `candidateRankFunction`. -/
def candidateRankFunction (args : List Expression) : Comparator :=
  fun candidateA candidateB => decide (scoreCandidate args candidateA < scoreCandidate args candidateB)

/-- A parameter admits an actual argument: it is not tagged `X` or `A` and its
Type is convertible from the Type of the actual. -/
def ParameterAccepts (p : cmd.Arg) (a : Expression) : Prop :=
  p.type ≠ cmd.CommandType.X ∧ p.type ≠ cmd.CommandType.A ∧
    ∃ t, getTypeFromCommandType p.type = some t ∧ isTypeConvertible a.getType t = true

/-- An overload passes the filters for the actual arguments `args`: it has as
many parameters as there are actuals and each parameter admits its actual. -/
def PassesFilters (args : List Expression) (c : cmd.Command) : Prop :=
  c.args.length = args.length ∧ List.Forall₂ ParameterAccepts c.args args

/-- The parameter Types of an overload equal the Types of the actual arguments
position by position. -/
def ExactMatch (args : List Expression) (c : cmd.Command) : Prop :=
  List.Forall₂ (fun p a => getTypeFromCommandType p.type = some (Expression.getType a)) c.args args

/-- A Type is builtin and integral. -/
def isBuiltinIntegral (t : IRType) : Bool :=
  match t.getBuiltinType with
  | some b => isIntegralType b
  | none => false

/-- A Type is builtin and floating-point. -/
def isBuiltinFloatingPoint (t : IRType) : Bool :=
  match t.getBuiltinType with
  | some b => isFloatingPointType b
  | none => false

/-- Two Types share an archetype: both are builtin integral or both are builtin
floating-point. -/
def sameArchetype (s t : IRType) : Bool :=
  (isBuiltinIntegral s && isBuiltinIntegral t) ||
    (isBuiltinFloatingPoint s && isBuiltinFloatingPoint t)

/-- The score of one argument in the words of the specification: 10 when the
parameter Type equals the actual Type, otherwise 1 when both are builtin
integral or both are builtin floating-point, otherwise 0. -/
def specArgumentScore (parameterType actualType : IRType) : Nat :=
  if parameterType = actualType then 10
  else if sameArchetype parameterType actualType then 1
  else 0

/-- The score of an overload in the words of the specification: the sum of the
argument scores over the positions. -/
def specScore (args : List Expression) (overload : cmd.Command) : Nat :=
  ((overload.args.zip args).map (fun pa =>
    match getTypeFromCommandType pa.1.type with
    | some parameterType => specArgumentScore parameterType pa.2.getType
    | none => 0)).sum

/-- An overload has exactly one parameter and the Type of that parameter shares
the archetype of the actual argument `a`. -/
def ParameterSharesArchetype (a : Expression) (c : cmd.Command) : Prop :=
  ∃ p t, c.args = [p] ∧ getTypeFromCommandType p.type = some t ∧
    sameArchetype t a.getType = true

/-- Among the candidates, listed in the order of their insertion, `command` is
the one inserted last of those that share the highest score: no candidate
before it scores higher and every candidate after it scores strictly lower. -/
def LastOfHighestScore (args : List Expression) (candidates : List cmd.Command)
    (command : cmd.Command) : Prop :=
  ∃ pre post, candidates = pre ++ command :: post ∧
    (∀ d ∈ pre, specScore args d ≤ specScore args command) ∧
    (∀ d ∈ post, specScore args d < specScore args command)

/-- On the vector `candidates` the routine `sort` returns a rearrangement in
which no candidate compares less than an earlier one, as `std::sort`
guarantees, and in which the candidates of equal score stand in the order they
have in `candidates`. -/
def KeepsTiesInOrder (sort : Sorter) (args : List Expression)
    (candidates : List cmd.Command) : Prop :=
  (sort (candidateRankFunction args) candidates).Perm candidates ∧
  (sort (candidateRankFunction args) candidates).Pairwise
    (fun a b => candidateRankFunction args b a = false) ∧
  ∀ c ∈ candidates,
    (sort (candidateRankFunction args) candidates).filter
        (fun d => decide (scoreCandidate args d = scoreCandidate args c)) =
      candidates.filter (fun d => decide (scoreCandidate args d = scoreCandidate args c))

/-- Lines 198 to 283 of `convertCommandCallExpression`: the choice of the
overload for the converted actual arguments `args`. `candidates.front()` of an
empty lookup result has no defined value, and neither has `candidates.back()`
should the sorting routine return an empty vector. -/
def selectOverload (sort : Sorter) (cmdIndex : cmd.CommandIndex) (commandName : String)
    (args : List Expression) : Except Fatal cmd.Command :=
  match cmdIndex.lookup commandName with
  | [] => .error .emptyCandidates
  | front :: rest =>
    if args.isEmpty then .ok front
    else
      match filterCandidates args (front :: rest) with
      | [] => .error (.noMatchingOverload commandName)
      | c :: cs =>
        match (sort (candidateRankFunction args) (c :: cs)).getLast? with
        | none => .error .emptyCandidates
        | some command => .ok command

/-- The loop that passes every actual argument through `ensureType` with the
Type of the corresponding parameter of the selected command. -/
def ensureArgumentTypes : List Expression → List cmd.Arg → ConvState →
    Except Fatal (List Expression × ConvState)
  | [], _, st => .ok ([], st)
  | _ :: _, [], _ => .error .argumentIndexOutOfRange
  | a :: as, p :: ps, st =>
    match getTypeFromCommandType p.type with
    | none => .error .unknownCommandType
    | some t =>
      match ensureArgumentTypes as ps (ensureType a t st).2 with
      | .error e => .error e
      | .ok (rest, st2) => .ok ((ensureType a t st).1 :: rest, st2)

/-- Lines 198 to 292 of `convertCommandCallExpression`: everything after the
actual arguments have been converted to `args`. -/
def resolveCommandCall (sort : Sorter) (cmdIndex : cmd.CommandIndex) (commandName : String)
    (args : List Expression) (st : ConvState) :
    Except Fatal (FunctionCallExpression × ConvState) :=
  match selectOverload sort cmdIndex commandName args with
  | .error e => .error e
  | .ok command =>
    match ensureArgumentTypes args command.args st with
    | .error e => .error e
    | .ok (args2, st2) =>
      match getTypeFromCommandType command.returnType with
      | none => .error .unknownCommandType
      | some returnType =>
        .ok ({ callee := .command command, args := args2, returnType := returnType }, st2)

end ir

/-! ## Syntax-tree input (`odb::ast`) -/

namespace ast

/-- The annotation of a symbol, `ast::Symbol::Annotation`. -/
inductive Annotation
  | NONE
  | STRING
  | FLOAT
  deriving DecidableEq, Repr

/-- The expression classes `convertExpression` discriminates. An argument list
is a `MaybeNull<ExpressionList>`: `none` is the null list. `Other` stands for
every expression class the converter has no branch for. The operator of a
unary or binary node is the IR operator kind its class maps to. -/
inductive Expression
  | UnaryOp (op : ir.UnaryOp) (expr : Expression)
  | BinaryOp (op : ir.BinaryOp) (lhs : Expression) (rhs : Expression)
  | VarRef (name : String) ( annotation : Annotation)
  | Literal (value : ir.Literal)
  | CommandExprSymbol (command : String) (args : Option (List Expression))
  | FuncCallExpr (symbol : String) (args : Option (List Expression))
  | Other
  deriving Repr

end ast

/-! ## Semantic converter (`odb::ir::ASTConverter`) -/

namespace ir

/-- Embedding of `getAnnotation`. -/
def getAnnotation : ast.Annotation → Annotation
  | .NONE => .None
  | .STRING => .String
  | .FLOAT => .Float

/-- Modelled from the spec: lookup in a scope is by (name, sigil) (the scope
class is not part of the sources at hand). -/
def scopeLookup (scope : List Variable) (name : String) ( annotation : Annotation) :
    Option Variable :=
  scope.find? (fun v => v.name == name && v.annotation == annotation)

/-- Embedding of `ASTConverter::resolveVariableRef`: the variable of the scope with the
name and annotation, declared on the spot when there is none. -/
def resolveVariableRef (name : String) ( astAnnotation : ast.Annotation) (st : ConvState) :
    Variable × ConvState :=
  match scopeLookup st.scope name ( getAnnotation astAnnotation) with
  | some v => (v, st)
  | none =>
    let v : Variable :=
      { name := name, annotation := getAnnotation astAnnotation,
        type := getTypeFromAnnotation ( getAnnotation astAnnotation) }
    (v, { st with scope := st.scope ++ [v] })

/-- An entry of `functionMap_` as far as a call site reads it: the definition a
call refers to and the Type of its return expression when one has been set. -/
structure FunctionEntry where
  functionDefinition : FunctionHandle
  returnExpressionType : Option IRType
  deriving DecidableEq, Repr

/-- What expression conversion reads without changing it: the sorting routine
standing for `std::sort`, the command index and `functionMap_`.
Modelled from the spec: the Type an operator node resolves to is computed by
the node classes, which are not part of the sources at hand, and the spec only
says that every expression carries a resolved Type; `unaryType` and
`binaryType` stand for that computation, from the operator and the Types of
the operands. -/
structure Env where
  sort : Sorter
  cmdIndex : cmd.CommandIndex
  functionMap : List (String × FunctionEntry)
  unaryType : UnaryOp → IRType → IRType
  binaryType : BinaryOp → IRType → IRType → IRType

/-- The entry `functionMap_.find(name)` yields. -/
def findFunction (env : Env) (functionName : String) : Option FunctionEntry :=
  (env.functionMap.find? (fun e => e.1 == functionName)).map (fun e => e.2)

mutual

/-- Embedding of `ASTConverter::convertExpression`. -/
def convertExpression (env : Env) :
    ast.Expression → ConvState → Except Fatal (Expression × ConvState)
  | .UnaryOp op expr, st =>
    match convertExpression env expr st with
    | .error e => .error e
    | .ok (inner, st1) => .ok (.unary op inner (env.unaryType op inner.getType), st1)
  | .BinaryOp op l r, st =>
    match convertExpression env l st with
    | .error e => .error e
    | .ok (lhs, st1) =>
      match convertExpression env r st1 with
      | .error e => .error e
      | .ok (rhs, st2) =>
        let commonType := lhs.getType
        let left := ensureType lhs commonType st2
        let right := ensureType rhs commonType left.2
        .ok (.binary op left.1 right.1 (env.binaryType op left.1.getType right.1.getType),
          right.2)
  | .VarRef name annotation, st =>
    let r := resolveVariableRef name annotation st
    .ok (.varRef r.1, r.2)
  | .Literal value, st => .ok (.literal value, st)
  | .CommandExprSymbol command args, st =>
    match convertCommandCallExpression env command args st with
    | .error e => .error e
    | .ok (call, st1) => .ok (.functionCall call.callee call.args call.returnType, st1)
  | .FuncCallExpr symbol args, st =>
    match convertFunctionCallExpression env symbol args st with
    | .error e => .error e
    | .ok (call, st1) => .ok (.functionCall call.callee call.args call.returnType, st1)
  | .Other, _ => .error .unknownExpression

/-- The argument extraction loop of `convertCommandCallExpression`. -/
def convertExpressionList (env : Env) :
    List ast.Expression → ConvState → Except Fatal (List Expression × ConvState)
  | [], st => .ok ([], st)
  | e :: es, st =>
    match convertExpression env e st with
    | .error x => .error x
    | .ok (e1, st1) =>
      match convertExpressionList env es st1 with
      | .error x => .error x
      | .ok (rest, st2) => .ok (e1 :: rest, st2)

/-- Embedding of `ASTConverter::convertCommandCallExpression`. -/
def convertCommandCallExpression (env : Env) (commandName : String) :
    Option (List ast.Expression) → ConvState →
    Except Fatal (FunctionCallExpression × ConvState)
  | none, st => resolveCommandCall env.sort env.cmdIndex commandName [] st
  | some es, st =>
    match convertExpressionList env es st with
    | .error x => .error x
    | .ok (args, st1) => resolveCommandCall env.sort env.cmdIndex commandName args st1

/-- The argument loop of `convertFunctionCallExpression`: each provided argument
is converted and passed through `ensureType` with the Type of its parameter. -/
def convertFunctionArguments (env : Env) :
    List ast.Expression → List Argument → ConvState →
    Except Fatal (List Expression × ConvState)
  | [], _, st => .ok ([], st)
  | _ :: _, [], _ => .error .argumentIndexOutOfRange
  | e :: es, p :: ps, st =>
    match convertExpression env e st with
    | .error x => .error x
    | .ok (e1, st1) =>
      match convertFunctionArguments env es ps (ensureType e1 p.type st1).2 with
      | .error x => .error x
      | .ok (rest, st2) => .ok ((ensureType e1 p.type st1).1 :: rest, st2)

/-- Embedding of `ASTConverter::convertFunctionCallExpression`. A call to an undefined
function and a wrong argument count report a semantic error and terminate;
`astArgs->expressions()` on a null argument list has no defined result. -/
def convertFunctionCallExpression (env : Env) (functionName : String) :
    Option (List ast.Expression) → ConvState →
    Except Fatal (FunctionCallExpression × ConvState)
  | astArgs, st =>
    match findFunction env functionName with
    | none => .error (.functionNotDefined functionName)
    | some functionEntry =>
      if !functionEntry.functionDefinition.arguments.isEmpty && astArgs.isNone then
        .error (.argumentCountMismatch functionName)
      else
        match astArgs with
        | none => .error .nullArgumentList
        | some providedArgs =>
          if functionEntry.functionDefinition.arguments.length ≠ providedArgs.length then
            .error (.argumentCountMismatch functionName)
          else
            match convertFunctionArguments env providedArgs
                functionEntry.functionDefinition.arguments st with
            | .error x => .error x
            | .ok (args, st1) =>
              .ok ({ callee := .function functionEntry.functionDefinition, args := args,
                     returnType := functionEntry.returnExpressionType.getD .void }, st1)

end

/-- The arguments of a call node agree with the callee: there are as many
arguments as the callee declares parameters and each argument has the Type of
its parameter. -/
def CallMatchesCallee (call : FunctionCallExpression) : Prop :=
  match call.callee with
  | .command c =>
    List.Forall₂ (fun a p => getTypeFromCommandType p.type = some (Expression.getType a))
      call.args c.args
  | .function f =>
    List.Forall₂ (fun a (p : Argument) => Expression.getType a = p.type) call.args f.arguments

end ir

/-! ## Conflicts between overloads -/

namespace cmd

/-- Two overloads conflict: their lowercased names are equal, their argument
type vectors are identical and their return types are equal. -/
def Conflicting (a b : Command) : Prop :=
  toLower a.dbSymbol = toLower b.dbSymbol ∧
    a.args.map (fun x => x.type) = b.args.map (fun x => x.type) ∧
    a.returnType = b.returnType

/-- The sequence of additions `l` with the commands at the positions `i` and `j`
exchanged. -/
def swapPositions (l : List Command) (i j : Nat) : List Command :=
  match l[i]?, l[j]? with
  | some a, some b => (l.set i b).set j a
  | _, _ => l

end cmd

/-! ## Statements and programs -/

namespace ast

/-- The statement classes `convertStatement` and `generateProgram` discriminate.
A block is the list of its statements and a `MaybeNull<Block>` is an optional
list. A variable declaration has the builtin kind of its class, or none when it
is of none of the classes of `ODB_DATATYPE_LIST`, and its initial value, a
pointer that may be null; so may the return value of `FuncExit`. `Other` stands
for every statement class the converter has no branch for. -/
inductive Statement
  | ConstDecl
  | VarDecl (name : String) ( annotation : Annotation) (varType : Option ir.BuiltinType)
      (initialValue : Option Expression)
  | VarAssignment (name : String) ( annotation : Annotation) (expression : Expression)
  | Conditional (condition : Expression) (trueBranch : Option (List Statement))
      (falseBranch : Option (List Statement))
  | SubReturn
  | FuncExit (returnValue : Option Expression)
  | WhileLoop (continueCondition : Expression) (body : Option (List Statement))
  | UntilLoop (exitCondition : Expression) (body : Option (List Statement))
  | InfiniteLoop (body : Option (List Statement))
  | Break
  | Label (name : String)
  | IncrementVar (name : String) ( annotation : Annotation) (expression : Expression)
  | DecrementVar (name : String) ( annotation : Annotation) (expression : Expression)
  | FuncCallStmnt (symbol : String) (args : Option (List Expression))
  | GotoSymbol (label : String)
  | SubCallSymbol (label : String)
  | CommandStmntSymbol (command : String) (args : Option (List Expression))
  | FuncDecl (name : String) (args : Option (List Expression))
      (body : Option (List Statement)) (returnValue : Option Expression)
  | Other
  deriving Repr

end ast

namespace ir

/-- IR statements. A block is a vector of owning pointers, of which
`convertStatement` can produce a null one: `none`. Source locations and the
pointer to the containing function are not represented. -/
inductive Statement
  | VarAssignment (var : Variable) (expression : Expression)
  | Conditional (expression : Expression) (trueBranch : List (Option Statement))
      (falseBranch : List (Option Statement))
  | SubReturn
  | ExitFunction (expression : Expression)
  | WhileLoop (expression : Expression) (block : List (Option Statement))
  | UntilLoop (expression : Expression) (block : List (Option Statement))
  | InfiniteLoop (block : List (Option Statement))
  | Break
  | Label (name : String)
  | IncrementVar (var : Variable) (expression : Expression)
  | DecrementVar (var : Variable) (expression : Expression)
  | FunctionCall (call : FunctionCallExpression)
  | Goto (label : String)
  | Gosub (label : String)
  deriving Repr

/-- A `StatementBlock`. -/
abbrev StatementBlock := List (Option Statement)

/-- A function of the IR: name, parameters, body, return expression and scope. -/
structure FunctionDefinition where
  name : String
  arguments : List Argument
  statements : StatementBlock
  returnExpression : Option Expression
  scope : List Variable
  deriving Repr

/-- The output of the converter. -/
structure Program where
  mainFunction : FunctionDefinition
  functions : List FunctionDefinition
  deriving Repr

/-- The Type a variable declaration sets in `varType`: the builtin kind of its
class, or the default-constructed `Type{}` when it is of none of the builtin
classes. -/
def declaredType : Option BuiltinType → IRType
  | some kind => .builtin kind
  | none => .void

/-- The new Variable of a declaration and the state after it was added to the
scope. -/
def declareVariable (name : String) ( astAnnotation : ast.Annotation) (type : IRType)
    (st : ConvState) : Variable × ConvState :=
  ({ name := name, annotation := getAnnotation astAnnotation, type := type },
   { st with scope := st.scope ++
      [{ name := name, annotation := getAnnotation astAnnotation, type := type }] })

/-- The call `convertExpression(p)` on a pointer that may be null: the first
thing `convertExpression` does is `expression->location()`, which has no
defined result on a null pointer. -/
def convertExpressionPointer (env : Env) (p : Option ast.Expression) (st : ConvState) :
    Except Fatal (Expression × ConvState) :=
  match p with
  | none => .error .nullDereference
  | some e => convertExpression env e st

/-- The local pointer `initialValue` of the `VarDecl` branch of `convertStatement`:
it is set from the declaration inside the `X` macro, so only when the
declaration is of one of the classes of `ODB_DATATYPE_LIST`, and stays null
otherwise. -/
def localInitialValue (varType : Option BuiltinType) (initialValue : Option ast.Expression) :
    Option ast.Expression :=
  match varType with
  | some _ => initialValue
  | none => none

mutual

/-- Embedding of `ASTConverter::convertStatement`. Where the code converts several
children inside one argument list, C++ leaves their order open; `leftToRight`
selects the order of the source text or its reverse. -/
def convertStatement (env : Env) (leftToRight : Bool) :
    ast.Statement → ConvState → Except Fatal (Option Statement × ConvState)
  | .ConstDecl, _ => .error .unimplementedConstDecl
  | .VarDecl name annotation varType initialValue, st =>
    match scopeLookup st.scope name ( getAnnotation annotation) with
    | some _ => .ok (none, semanticError (semanticError st))
    | none =>
      match convertExpressionPointer env (localInitialValue varType initialValue)
          (declareVariable name annotation (declaredType varType) st).2 with
      | .error x => .error x
      | .ok (e1, st1) =>
        .ok (some (.VarAssignment (declareVariable name annotation (declaredType varType) st).1
              (ensureType e1 (declaredType varType) st1).1),
            (ensureType e1 (declaredType varType) st1).2)
  | .VarAssignment name annotation expression, st =>
    match convertExpression env expression (resolveVariableRef name annotation st).2 with
    | .error x => .error x
    | .ok (e1, st1) =>
      .ok (some (.VarAssignment (resolveVariableRef name annotation st).1
            (ensureType e1 (resolveVariableRef name annotation st).1.type st1).1),
          (ensureType e1 (resolveVariableRef name annotation st).1.type st1).2)
  | .Conditional condition trueBranch falseBranch, st =>
    if leftToRight then
      match convertExpression env condition st with
      | .error x => .error x
      | .ok (c, st1) =>
        match convertMaybeNullBlock env leftToRight trueBranch
            (ensureType c (.builtin .Boolean) st1).2 with
        | .error x => .error x
        | .ok (t, st2) =>
          match convertMaybeNullBlock env leftToRight falseBranch st2 with
          | .error x => .error x
          | .ok (f, st3) =>
            .ok (some (.Conditional (ensureType c (.builtin .Boolean) st1).1 t f), st3)
    else
      match convertMaybeNullBlock env leftToRight falseBranch st with
      | .error x => .error x
      | .ok (f, st1) =>
        match convertMaybeNullBlock env leftToRight trueBranch st1 with
        | .error x => .error x
        | .ok (t, st2) =>
          match convertExpression env condition st2 with
          | .error x => .error x
          | .ok (c, st3) =>
            .ok (some (.Conditional (ensureType c (.builtin .Boolean) st3).1 t f),
              (ensureType c (.builtin .Boolean) st3).2)
  | .SubReturn, st => .ok (some .SubReturn, st)
  | .FuncExit returnValue, st =>
    match convertExpressionPointer env returnValue st with
    | .error x => .error x
    | .ok (e1, st1) => .ok (some (.ExitFunction e1), st1)
  | .WhileLoop continueCondition body, st =>
    if leftToRight then
      match convertExpression env continueCondition st with
      | .error x => .error x
      | .ok (c, st1) =>
        match convertMaybeNullBlock env leftToRight body st1 with
        | .error x => .error x
        | .ok (b, st2) => .ok (some (.WhileLoop c b), st2)
    else
      match convertMaybeNullBlock env leftToRight body st with
      | .error x => .error x
      | .ok (b, st1) =>
        match convertExpression env continueCondition st1 with
        | .error x => .error x
        | .ok (c, st2) => .ok (some (.WhileLoop c b), st2)
  | .UntilLoop exitCondition body, st =>
    if leftToRight then
      match convertExpression env exitCondition st with
      | .error x => .error x
      | .ok (c, st1) =>
        match convertMaybeNullBlock env leftToRight body st1 with
        | .error x => .error x
        | .ok (b, st2) => .ok (some (.UntilLoop c b), st2)
    else
      match convertMaybeNullBlock env leftToRight body st with
      | .error x => .error x
      | .ok (b, st1) =>
        match convertExpression env exitCondition st1 with
        | .error x => .error x
        | .ok (c, st2) => .ok (some (.UntilLoop c b), st2)
  | .InfiniteLoop body, st =>
    match convertMaybeNullBlock env leftToRight body st with
    | .error x => .error x
    | .ok (b, st1) => .ok (some (.InfiniteLoop b), st1)
  | .Break, st => .ok (some .Break, st)
  | .Label name, st => .ok (some (.Label name), st)
  | .IncrementVar name annotation expression, st =>
    if leftToRight then
      match convertExpression env expression (resolveVariableRef name annotation st).2 with
      | .error x => .error x
      | .ok (e1, st1) =>
        .ok (some (.IncrementVar (resolveVariableRef name annotation st).1 e1), st1)
    else
      match convertExpression env expression st with
      | .error x => .error x
      | .ok (e1, st1) =>
        .ok (some (.IncrementVar (resolveVariableRef name annotation st1).1 e1),
          (resolveVariableRef name annotation st1).2)
  | .DecrementVar name annotation expression, st =>
    if leftToRight then
      match convertExpression env expression (resolveVariableRef name annotation st).2 with
      | .error x => .error x
      | .ok (e1, st1) =>
        .ok (some (.DecrementVar (resolveVariableRef name annotation st).1 e1), st1)
    else
      match convertExpression env expression st with
      | .error x => .error x
      | .ok (e1, st1) =>
        .ok (some (.DecrementVar (resolveVariableRef name annotation st1).1 e1),
          (resolveVariableRef name annotation st1).2)
  | .FuncCallStmnt symbol args, st =>
    match convertFunctionCallExpression env symbol args st with
    | .error x => .error x
    | .ok (call, st1) => .ok (some (.FunctionCall call), st1)
  | .GotoSymbol label, st => .ok (some (.Goto label), st)
  | .SubCallSymbol label, st => .ok (some (.Gosub label), st)
  | .CommandStmntSymbol command args, st =>
    match convertCommandCallExpression env command args st with
    | .error x => .error x
    | .ok (call, st1) => .ok (some (.FunctionCall call), st1)
  | .FuncDecl _ _ _ _, _ => .error .unknownStatement
  | .Other, _ => .error .unknownStatement

/-- Embedding of `ASTConverter::convertBlock` on a vector of statements. -/
def convertBlock (env : Env) (leftToRight : Bool) :
    List ast.Statement → ConvState → Except Fatal (StatementBlock × ConvState)
  | [], st => .ok ([], st)
  | s :: rest, st =>
    match convertStatement env leftToRight s st with
    | .error x => .error x
    | .ok (s1, st1) =>
      match convertBlock env leftToRight rest st1 with
      | .error x => .error x
      | .ok (block, st2) => .ok (s1 :: block, st2)

/-- Embedding of `ASTConverter::convertBlock` on a `MaybeNull<ast::Block>`. -/
def convertMaybeNullBlock (env : Env) (leftToRight : Bool) :
    Option (List ast.Statement) → ConvState → Except Fatal (StatementBlock × ConvState)
  | none, st => .ok ([], st)
  | some statements, st => convertBlock env leftToRight statements st

end

end ir

/-! ## Program generation -/

namespace ir

/-- The struct `ASTConverter::Function`: the declaration, of which the body and
the return value are read, and the definition made for it. -/
structure Function where
  body : Option (List ast.Statement)
  returnValue : Option ast.Expression
  functionDefinition : FunctionHandle
  deriving Repr

/-- What a run of the converter is given besides the syntax tree: the sorting
routine standing for `std::sort`, the command index, the Types of operator
nodes, the order in which children converted inside one argument list are
evaluated, and the order in which a loop over `functionMap_` visits its
entries. -/
structure Settings where
  sort : Sorter
  cmdIndex : cmd.CommandIndex
  unaryType : UnaryOp → IRType → IRType
  binaryType : BinaryOp → IRType → IRType → IRType
  leftToRight : Bool
  iterationOrder : List (String × Function) → List (String × Function)

/-- The requirement on the order of a loop over `functionMap_`: every entry is
visited once. -/
def IsIterationOrder (order : List (String × Function) → List (String × Function)) : Prop :=
  ∀ m, (order m).Perm m

/-- The cast `dynamic_cast<ast::FuncDecl*>`: the parts of a function
declaration, or none for any other statement. -/
def asFuncDecl : ast.Statement →
    Option (String × Option (List ast.Expression) × Option (List ast.Statement) ×
      Option ast.Expression)
  | .FuncDecl name args body returnValue => some (name, args, body, returnValue)
  | _ => none

/-- The loop of `convertFunctionWithoutBody` over the declared parameters; a
parameter that is not a variable reference fails the assertion. -/
def convertParameters : List ast.Expression → Except Fatal (List Argument)
  | [] => .ok []
  | .VarRef name annotation :: rest =>
    match convertParameters rest with
    | .error x => .error x
    | .ok args =>
      .ok ({ name := name, type := getTypeFromAnnotation ( getAnnotation annotation) } :: args)
  | _ :: _ => .error .assertionFailed

/-- Embedding of `ASTConverter::convertFunctionWithoutBody`. -/
def convertFunctionWithoutBody (name : String) (args : Option (List ast.Expression)) :
    Except Fatal FunctionDefinition :=
  match args with
  | none =>
    .ok { name := name, arguments := [], statements := [], returnExpression := none,
          scope := [] }
  | some es =>
    match convertParameters es with
    | .error x => .error x
    | .ok arguments =>
      .ok { name := name, arguments := arguments, statements := [], returnExpression := none,
            scope := [] }

/-- Modelled from the spec: `functionMap_.emplace` (the member is declared in
`ASTConverter.hpp`, which is not part of the sources at hand). The spec calls it
the table against which a function name is resolved; it is a map with one entry
per name, so an `emplace` under a name that is present changes nothing. -/
def mapEmplace (functionMap : List (String × Function)) (name : String) (f : Function) :
    List (String × Function) :=
  if functionMap.any (fun e => e.1 == name) then functionMap
  else functionMap ++ [(name, f)]

/-- What the first loop of `generateProgram` builds. -/
structure Skeleton where
  astMainStatements : List ast.Statement
  functionDefinitions : List FunctionDefinition
  functionMap : List (String × Function)
  deriving Repr

/-- The first loop of `generateProgram`: statements before the first function
declaration go to main, a function declaration yields a definition without
body and an entry of `functionMap_`, and any other statement after a function
declaration terminates the run. -/
def collectFunctions : List ast.Statement → Bool → Skeleton → Except Fatal Skeleton
  | [], _, acc => .ok acc
  | s :: rest, reachedEndOfMain, acc =>
    match asFuncDecl s with
    | none =>
      if reachedEndOfMain then .error .nonFunctionAfterFunction
      else
        collectFunctions rest false
          { acc with astMainStatements := acc.astMainStatements ++ [s] }
    | some (name, args, body, returnValue) =>
      match convertFunctionWithoutBody name args with
      | .error x => .error x
      | .ok definition =>
        collectFunctions rest true
          { acc with
            functionDefinitions := acc.functionDefinitions ++ [definition],
            functionMap := mapEmplace acc.functionMap name
              { body := body, returnValue := returnValue,
                functionDefinition :=
                  { index := acc.functionDefinitions.length, name := name,
                    arguments := definition.arguments } } }

/-- The entries of `functionMap_` as call sites read them, given the
definitions as they stand: the Type of a return expression is there once
`setReturnExpression` has been called on the definition. -/
def functionEntries (functionMap : List (String × Function))
    (definitions : List FunctionDefinition) : List (String × FunctionEntry) :=
  functionMap.map (fun e =>
    (e.1,
      { functionDefinition := e.2.functionDefinition,
        returnExpressionType :=
          ((definitions[e.2.functionDefinition.index]?).bind
            (fun d => d.returnExpression)).map Expression.getType }))

/-- The environment of expression conversion at a point of the run. -/
def Settings.env (s : Settings) (functionMap : List (String × Function))
    (definitions : List FunctionDefinition) : Env :=
  { sort := s.sort, cmdIndex := s.cmdIndex,
    functionMap := functionEntries functionMap definitions,
    unaryType := s.unaryType, binaryType := s.binaryType }

/-- One round of the second loop of `generateProgram`: the body of a function
and then its return value, if it has one, are converted in the scope of its
definition. `body()->statements()` on an absent body has no defined result. -/
def convertFunctionBody (s : Settings) (functionMap : List (String × Function))
    (f : Function) (definitions : List FunctionDefinition) (errorOccurred : Bool) :
    Except Fatal (List FunctionDefinition × Bool) :=
  match definitions[f.functionDefinition.index]? with
  | none => .error .nullDereference
  | some d =>
    match f.body with
    | none => .error .nullDereference
    | some statements =>
      match convertBlock (s.env functionMap definitions) s.leftToRight statements
          { scope := d.scope, errorOccurred := errorOccurred } with
      | .error x => .error x
      | .ok (block, st1) =>
        match f.returnValue with
        | none =>
          .ok (definitions.set f.functionDefinition.index
                { d with statements := d.statements ++ block, scope := st1.scope },
              st1.errorOccurred)
        | some returnValue =>
          match convertExpression (s.env functionMap definitions) returnValue st1 with
          | .error x => .error x
          | .ok (e, st2) =>
            .ok (definitions.set f.functionDefinition.index
                  { d with statements := d.statements ++ block, returnExpression := some e,
                           scope := st2.scope },
                st2.errorOccurred)

/-- The second loop of `generateProgram` over the entries of `functionMap_` in
the order of the iteration. -/
def convertFunctionBodies (s : Settings) (functionMap : List (String × Function)) :
    List (String × Function) → List FunctionDefinition → Bool →
    Except Fatal (List FunctionDefinition × Bool)
  | [], definitions, errorOccurred => .ok (definitions, errorOccurred)
  | e :: rest, definitions, errorOccurred =>
    match convertFunctionBody s functionMap e.2 definitions errorOccurred with
    | .error x => .error x
    | .ok (definitions1, errorOccurred1) =>
      convertFunctionBodies s functionMap rest definitions1 errorOccurred1

/-- Embedding of `ASTConverter::generateProgram` on the statements of the top-level
block, for a converter that has flagged no error yet and whose `functionMap_`
is empty. The result is `none` for the null pointer returned when an error was
flagged. -/
def generateProgram (s : Settings) (ast : List ast.Statement) :
    Except Fatal (Option Program) :=
  match collectFunctions ast false
      { astMainStatements := [], functionDefinitions := [], functionMap := [] } with
  | .error x => .error x
  | .ok skeleton =>
    match convertBlock (s.env skeleton.functionMap skeleton.functionDefinitions) s.leftToRight
        skeleton.astMainStatements { scope := [], errorOccurred := false } with
    | .error x => .error x
    | .ok (block, st) =>
      match convertFunctionBodies s skeleton.functionMap
          (s.iterationOrder skeleton.functionMap) skeleton.functionDefinitions
          st.errorOccurred with
      | .error x => .error x
      | .ok (definitions, errorOccurred) =>
        if errorOccurred then .ok none
        else
          .ok (some
            { mainFunction :=
                { name := "__DBMain", arguments := [], statements := block,
                  returnExpression := none, scope := st.scope },
              functions := definitions })

end ir

namespace ir

/-- The number of actual arguments of a call differs from the number of
parameters the function declares; a call without argument list has no actual
argument. -/
def ArgumentCountDiffers (astArgs : Option (List ast.Expression)) (f : FunctionHandle) : Prop :=
  match astArgs with
  | none => f.arguments ≠ []
  | some es => es.length ≠ f.arguments.length

/-- The call `name(astArgs)` does not fit the functions of the environment:
the name resolves to no function, or it resolves to one whose number of
parameters differs from the number of actual arguments. -/
def UnfitCall (env : Env) (name : String) (astArgs : Option (List ast.Expression)) : Prop :=
  match findFunction env name with
  | none => True
  | some entry => ArgumentCountDiffers astArgs entry.functionDefinition

/-- The expression is the call `name(astArgs)` or holds it at some depth, as
operand of an operator or as argument of a command or function call. -/
inductive ExpressionHasCall (name : String) (astArgs : Option (List ast.Expression)) :
    ast.Expression → Prop
  | here : ExpressionHasCall name astArgs (.FuncCallExpr name astArgs)
  | unary (op : UnaryOp) (e : ast.Expression) :
      ExpressionHasCall name astArgs e → ExpressionHasCall name astArgs (.UnaryOp op e)
  | binaryLeft (op : BinaryOp) (l r : ast.Expression) :
      ExpressionHasCall name astArgs l → ExpressionHasCall name astArgs (.BinaryOp op l r)
  | binaryRight (op : BinaryOp) (l r : ast.Expression) :
      ExpressionHasCall name astArgs r → ExpressionHasCall name astArgs (.BinaryOp op l r)
  | commandArgument (command : String) (es : List ast.Expression) (e : ast.Expression) :
      e ∈ es → ExpressionHasCall name astArgs e →
      ExpressionHasCall name astArgs (.CommandExprSymbol command (some es))
  | callArgument (symbol : String) (es : List ast.Expression) (e : ast.Expression) :
      e ∈ es → ExpressionHasCall name astArgs e →
      ExpressionHasCall name astArgs (.FuncCallExpr symbol (some es))

/-- The statement is the call `name(astArgs)` or holds it at some depth: in one
of its expressions or in a statement of one of its blocks. -/
inductive StatementHasCall (name : String) (astArgs : Option (List ast.Expression)) :
    ast.Statement → Prop
  | here : StatementHasCall name astArgs (.FuncCallStmnt name astArgs)
  | callArgument (symbol : String) (es : List ast.Expression) (e : ast.Expression) :
      e ∈ es → ExpressionHasCall name astArgs e →
      StatementHasCall name astArgs (.FuncCallStmnt symbol (some es))
  | commandArgument (command : String) (es : List ast.Expression) (e : ast.Expression) :
      e ∈ es → ExpressionHasCall name astArgs e →
      StatementHasCall name astArgs (.CommandStmntSymbol command (some es))
  | initialValue (v : String) (a : ast.Annotation) (t : Option BuiltinType)
      (e : ast.Expression) :
      ExpressionHasCall name astArgs e → StatementHasCall name astArgs (.VarDecl v a t (some e))
  | assigned (v : String) (a : ast.Annotation) (e : ast.Expression) :
      ExpressionHasCall name astArgs e → StatementHasCall name astArgs (.VarAssignment v a e)
  | condition (c : ast.Expression) (t f : Option (List ast.Statement)) :
      ExpressionHasCall name astArgs c → StatementHasCall name astArgs (.Conditional c t f)
  | trueBranch (c : ast.Expression) (t : List ast.Statement)
      (f : Option (List ast.Statement)) (s : ast.Statement) :
      s ∈ t → StatementHasCall name astArgs s →
      StatementHasCall name astArgs (.Conditional c (some t) f)
  | falseBranch (c : ast.Expression) (t : Option (List ast.Statement))
      (f : List ast.Statement) (s : ast.Statement) :
      s ∈ f → StatementHasCall name astArgs s →
      StatementHasCall name astArgs (.Conditional c t (some f))
  | returnValue (e : ast.Expression) :
      ExpressionHasCall name astArgs e → StatementHasCall name astArgs (.FuncExit (some e))
  | whileCondition (c : ast.Expression) (b : Option (List ast.Statement)) :
      ExpressionHasCall name astArgs c → StatementHasCall name astArgs (.WhileLoop c b)
  | whileBody (c : ast.Expression) (b : List ast.Statement) (s : ast.Statement) :
      s ∈ b → StatementHasCall name astArgs s →
      StatementHasCall name astArgs (.WhileLoop c (some b))
  | untilCondition (c : ast.Expression) (b : Option (List ast.Statement)) :
      ExpressionHasCall name astArgs c → StatementHasCall name astArgs (.UntilLoop c b)
  | untilBody (c : ast.Expression) (b : List ast.Statement) (s : ast.Statement) :
      s ∈ b → StatementHasCall name astArgs s →
      StatementHasCall name astArgs (.UntilLoop c (some b))
  | infiniteBody (b : List ast.Statement) (s : ast.Statement) :
      s ∈ b → StatementHasCall name astArgs s →
      StatementHasCall name astArgs (.InfiniteLoop (some b))
  | increment (v : String) (a : ast.Annotation) (e : ast.Expression) :
      ExpressionHasCall name astArgs e → StatementHasCall name astArgs (.IncrementVar v a e)
  | decrement (v : String) (a : ast.Annotation) (e : ast.Expression) :
      ExpressionHasCall name astArgs e → StatementHasCall name astArgs (.DecrementVar v a e)

end ir

/-! ## Code generation (`odb::ir`, `Codegen.hpp` and `DBPEngineInterface.cpp`) -/

namespace ir

/-- The enumeration `TargetTriple::Arch`. -/
inductive TargetTriple.Arch
  | i386
  | x86_64
  | AArch64
  deriving DecidableEq, Repr

/-- The enumeration `TargetTriple::Platform`. -/
inductive TargetTriple.Platform
  | Windows
  | macOS
  | Linux
  deriving DecidableEq, Repr

/-- The struct `TargetTriple`. -/
structure TargetTriple where
  arch : TargetTriple.Arch
  platform : TargetTriple.Platform
  deriving DecidableEq, Repr

/-- Embedding of `TargetTriple::getLLVMTargetTriple`: the string is built by three
appends to an empty string. -/
def TargetTriple.getLLVMTargetTriple (t : TargetTriple) : String :=
  let target_triple := ""
  let target_triple := target_triple ++
    (match t.arch with
      | .i386 => "i386"
      | .x86_64 => "x86_64"
      | .AArch64 => "aarch64")
  let target_triple := target_triple ++ "-"
  target_triple ++
    (match t.platform with
      | .Windows => "pc-windows-msvc"
      | .macOS => "apple-darwin"
      | .Linux => "pc-linux-gnu")

/-- The arch name in the words of the specification. -/
def specArchName : TargetTriple.Arch → String
  | .i386 => "i386"
  | .x86_64 => "x86_64"
  | .AArch64 => "aarch64"

/-- The part after the hyphen in the words of the specification. -/
def specPlatformName : TargetTriple.Platform → String
  | .Windows => "pc-windows-msvc"
  | .macOS => "apple-darwin"
  | .Linux => "pc-linux-gnu"

/-- The nine (arch, platform) pairs. -/
def allTargetTriples : List TargetTriple :=
  [⟨.i386, .Windows⟩, ⟨.i386, .macOS⟩, ⟨.i386, .Linux⟩,
   ⟨.x86_64, .Windows⟩, ⟨.x86_64, .macOS⟩, ⟨.x86_64, .Linux⟩,
   ⟨.AArch64, .Windows⟩, ⟨.AArch64, .macOS⟩, ⟨.AArch64, .Linux⟩]

/-- What `generateEntryPoint` reads of a `PluginInfo`: its name and its path. -/
structure PluginInfo where
  name : String
  path : String
  deriving DecidableEq, Repr

/-- The two ways in which `generateEntryPoint` terminates the process. -/
inductive EntryPointFatal
  | noPluginsSpecified
  | coreMissing
  deriving DecidableEq, Repr

/-- The lambda `isCorePlugin`: `strcmp(plugin->getName(), "DBProCore") == 0`. -/
def isCorePlugin (plugin : PluginInfo) : Bool :=
  plugin.name == "DBProCore"

/-- The call `std::swap(pluginsToLoad[0], pluginsToLoad[i])` for an index inside
the vector. -/
def swapWithFront (pluginsToLoad : List PluginInfo) (i : Nat) : List PluginInfo :=
  match pluginsToLoad[0]?, pluginsToLoad[i]? with
  | some front, some other => (pluginsToLoad.set 0 other).set i front
  | _, _ => pluginsToLoad

/-- The loop of `generateEntryPoint` that looks for the core plugin from index
`i` on: at the first index holding it the element is swapped with the front
and the loop ends. -/
def moveCoreToFront (pluginsToLoad : List PluginInfo) : Nat → List PluginInfo → List PluginInfo
  | _, [] => pluginsToLoad
  | i, plugin :: rest =>
    if isCorePlugin plugin then swapWithFront pluginsToLoad i
    else moveCoreToFront pluginsToLoad (i + 1) rest

/-- Embedding of the part of `DBPEngineInterface::generateEntryPoint` that fixes the
order of loading: the result is the vector `pluginsToLoad` as the rest of the
function reads it, which emits one block per element, in this order, each
loading its plugin and branching to the next. A fatal error ends the process
before the function `main` is created. -/
def generateEntryPoint (pluginsToLoad : List PluginInfo) :
    Except EntryPointFatal (List PluginInfo) :=
  if pluginsToLoad.isEmpty then .error .noPluginsSpecified
  else
    let pluginsToLoad := moveCoreToFront pluginsToLoad 0 pluginsToLoad
    match pluginsToLoad[0]? with
    | none => .error .coreMissing
    | some front =>
      if !isCorePlugin front then .error .coreMissing
      else .ok pluginsToLoad

end ir

namespace ir

/-- The fatal errors the conversion of an expression or of a statement can end
in, in an environment: the error of an undefined function only for a name
that resolves to no function, and never the two errors of the first loop of
`generateProgram`. -/
def ConversionFatal (env : Env) : Fatal → Prop
  | .functionNotDefined functionName => findFunction env functionName = none
  | .assertionFailed => False
  | .nonFunctionAfterFunction => False
  | _ => True

/-- The assertion of `convertFunctionWithoutBody` holds of a statement: if it is
a function declaration, each of its parameters is a variable reference. -/
def ParametersAreVariables (t : ast.Statement) : Prop :=
  ∀ name es body returnValue, asFuncDecl t = some (name, some es, body, returnValue) →
    ∀ e ∈ es, ∃ v a, e = ast.Expression.VarRef v a

end ir

namespace ir

/-- The parts of a function declaration that `asFuncDecl` yields: name,
parameters, body and return value. -/
abbrev FuncDeclParts :=
  String × Option (List ast.Expression) × Option (List ast.Statement) × Option ast.Expression

/-- The function declarations of a top-level block, in the order of the block. -/
def functionDeclarations (tree : List ast.Statement) : List FuncDeclParts :=
  tree.filterMap asFuncDecl

/-- What the first loop of `generateProgram` maintains, stated for the function
declarations `decls` met so far: there is one definition per declaration, at
the position of the declaration, made by `convertFunctionWithoutBody`; every
entry of `functionMap_` is the record of the first declaration of its name;
and every declared name has an entry. -/
def SkeletonFor (decls : List FuncDeclParts) (sk : Skeleton) : Prop :=
  sk.functionDefinitions.length = decls.length ∧
  (∀ (i : Nat) (q : FuncDeclParts), decls[i]? = some q →
    ∃ d, sk.functionDefinitions[i]? = some d ∧ convertFunctionWithoutBody q.1 q.2.1 = .ok d) ∧
  (∀ e ∈ sk.functionMap, ∃ (i : Nat) (args : Option (List ast.Expression))
      (body : Option (List ast.Statement)) (rv : Option ast.Expression)
      (d : FunctionDefinition),
    decls[i]? = some (e.1, args, body, rv) ∧
    (∀ (j : Nat) (q : FuncDeclParts), j < i → decls[j]? = some q → q.1 ≠ e.1) ∧
    sk.functionDefinitions[i]? = some d ∧
    e.2 = { body := body, returnValue := rv,
            functionDefinition := { index := i, name := e.1, arguments := d.arguments } }) ∧
  (∀ q ∈ decls, ∃ e ∈ sk.functionMap, e.1 = q.1)

end ir

/-! ## Traversals of the IR -/

namespace ir

/-- The statements that carry a condition. -/
inductive ConditionKind
  | conditional
  | whileLoop
  | untilLoop
  deriving DecidableEq, Repr

mutual

/-- The conditions of the Conditional, WhileLoop and UntilLoop statements that
a statement is or holds at any depth, each with the kind of its statement. -/
def Statement.conditions : Statement → List (ConditionKind × Expression)
  | .Conditional c t f => (.conditional, c) :: (blockConditions t ++ blockConditions f)
  | .WhileLoop c b => (.whileLoop, c) :: blockConditions b
  | .UntilLoop c b => (.untilLoop, c) :: blockConditions b
  | .InfiniteLoop b => blockConditions b
  | _ => []

/-- The conditions held by the statements of a block; a null statement holds
none. -/
def blockConditions : List (Option Statement) → List (ConditionKind × Expression)
  | [] => []
  | none :: rest => blockConditions rest
  | some s :: rest => s.conditions ++ blockConditions rest

end

end ir

namespace ir

/-- Every condition of a Conditional statement of the block, at any depth, has
Type Boolean. -/
def ConditionalsBoolean (b : StatementBlock) : Prop :=
  ∀ x, (ConditionKind.conditional, x) ∈ blockConditions b → x.getType = .builtin .Boolean

end ir

namespace ir

mutual

/-- The Variables that the variable references of an expression refer to. -/
def Expression.variables : Expression → List Variable
  | .literal _ => []
  | .varRef v => [v]
  | .unary _ e _ => e.variables
  | .binary _ l r _ => l.variables ++ r.variables
  | .cast e _ => e.variables
  | .functionCall _ args _ => variablesOfExpressions args

/-- The Variables referred to in a list of expressions. -/
def variablesOfExpressions : List Expression → List Variable
  | [] => []
  | e :: es => e.variables ++ variablesOfExpressions es

end

mutual

/-- The Variables a statement refers to: the targets of assignments,
increments and decrements and the Variables of the variable references in its
expressions, at any depth. -/
def Statement.variables : Statement → List Variable
  | .VarAssignment v e => v :: e.variables
  | .Conditional c t f => c.variables ++ (blockVariables t ++ blockVariables f)
  | .SubReturn => []
  | .ExitFunction e => e.variables
  | .WhileLoop c b => c.variables ++ blockVariables b
  | .UntilLoop c b => c.variables ++ blockVariables b
  | .InfiniteLoop b => blockVariables b
  | .Break => []
  | .Label _ => []
  | .IncrementVar v e => v :: e.variables
  | .DecrementVar v e => v :: e.variables
  | .FunctionCall call => variablesOfExpressions call.args
  | .Goto _ => []
  | .Gosub _ => []

/-- The Variables the statements of a block refer to. -/
def blockVariables : List (Option Statement) → List Variable
  | [] => []
  | none :: rest => blockVariables rest
  | some s :: rest => s.variables ++ blockVariables rest

end

/-- The Variables a statement pointer refers to; the null pointer refers to
none. -/
def optionVariables : Option Statement → List Variable
  | none => []
  | some s => s.variables

/-- Between two states of the converter the scope has only grown, and the
Variables `vars` are in the scope of the later state. -/
def ScopeHolds (vars : List Variable) (st st2 : ConvState) : Prop :=
  (∀ v ∈ st.scope, v ∈ st2.scope) ∧ (∀ v ∈ vars, v ∈ st2.scope)

/-- Every Variable the body or the return expression of a function refers to is
in the scope of that function. -/
def VariablesInScope (d : FunctionDefinition) : Prop :=
  (∀ v ∈ blockVariables d.statements, v ∈ d.scope) ∧
  (∀ e, d.returnExpression = some e → ∀ v ∈ e.variables, v ∈ d.scope)

end ir

namespace ir

/-- The result of a conversion with the error flag set in the state it
returns. -/
def withErrorFlag {α : Type} : Except Fatal (α × ConvState) → Except Fatal (α × ConvState)
  | .error x => .error x
  | .ok (a, st) => .ok (a, semanticError st)

end ir

namespace ir

/-- The result of the second loop of `generateProgram` with the error flag set. -/
def withFlagSet :
    Except Fatal (List FunctionDefinition × Bool) → Except Fatal (List FunctionDefinition × Bool)
  | .error x => .error x
  | .ok (definitions, _) => .ok (definitions, true)

end ir

/-! ## A converter that runs more than once -/

namespace ir

/-- Modelled from the spec: the members of an `ASTConverter` that `generateProgram`
reads and writes and that outlive the call, `errorOccurred_` and `functionMap_`
(the class is declared in `ASTConverter.hpp`, which is not part of the sources at
hand). A converter that has not run has its flag unset and an empty
`functionMap_`. -/
structure Converter where
  errorOccurred : Bool
  functionMap : List (String × Function)

/-- A converter that has not run. -/
def Converter.fresh : Converter :=
  { errorOccurred := false, functionMap := [] }

/-- Embedding of `ASTConverter::generateProgram` as the member function it is: it
starts from the members as an earlier call left them and leaves them to the
next call; nothing in it clears `functionMap_` or `errorOccurred_`.
The entries of `functionMap_` hold pointers to `FunctionDefinition` objects;
`store` is the list of the objects made by earlier calls, which their Programs
own, and a pointer is the position of its object in the store extended by the
definitions of this call. The result is the Program (or the null pointer), the
members afterwards, and the store afterwards; the Program holds the
definitions made by this call only, as the local vector `functionDefinitions`
does. The objects of a Program that was destroyed stay in the store, where the
code would follow a dangling pointer. -/
def generateProgramOn (s : Settings) (converter : Converter) (store : List FunctionDefinition)
    (ast : List ast.Statement) :
    Except Fatal (Option Program × Converter × List FunctionDefinition) :=
  match collectFunctions ast false
      { astMainStatements := [], functionDefinitions := store,
        functionMap := converter.functionMap } with
  | .error x => .error x
  | .ok skeleton =>
    match convertBlock (s.env skeleton.functionMap skeleton.functionDefinitions) s.leftToRight
        skeleton.astMainStatements
        { scope := [], errorOccurred := converter.errorOccurred } with
    | .error x => .error x
    | .ok (block, st) =>
      match convertFunctionBodies s skeleton.functionMap
          (s.iterationOrder skeleton.functionMap) skeleton.functionDefinitions
          st.errorOccurred with
      | .error x => .error x
      | .ok (definitions, errorOccurred) =>
        .ok (
          (if errorOccurred then none
            else
              some
                { mainFunction :=
                    { name := "__DBMain", arguments := [], statements := block,
                      returnExpression := none, scope := st.scope },
                  functions := definitions.drop store.length }),
          { errorOccurred := errorOccurred, functionMap := skeleton.functionMap },
          definitions)

end ir

/-! ## The driver (`odb-cli`, `Codegen.cpp`) -/

namespace cli

/-- The values of `odb::ir::OutputType` that `setOutputType` assigns. -/
inductive OutputType
  | LLVMIR
  | LLVMBitcode
  | ObjectFile
  | Executable
  deriving DecidableEq, Repr

/-- Embedding of `setOutputType`: the value of the global `outputType_` after the
call and the returned flag. An argument that is none of the four words leaves
`outputType_` as it was. -/
def setOutputType (outputType_ : OutputType) (args : List String) : OutputType × Bool :=
  match args with
  | [] => (outputType_, false)
  | arg :: _ =>
    if arg = "llvm-ir" then (.LLVMIR, true)
    else if arg = "llvm-bc" then (.LLVMBitcode, true)
    else if arg = "obj" then (.ObjectFile, true)
    else if arg = "exe" then (.Executable, true)
    else (outputType_, true)

/-- The call `s.substr(pos, count)` for a position inside the string. A
`std::string` is a Lean string of which every character stands for one `char`. -/
def substr (s : String) (pos count : Nat) : String :=
  ⟨(s.data.drop pos).take count⟩

/-- Embedding of the part of `output` that fixes the name under which the output file
is opened. The result is `none` when no argument is given: `output` then returns
before it opens a file. The flag `win32` tells whether `_WIN32` is defined. -/
def outputName (win32 : Bool) (outputType_ : OutputType) (args : List String) :
    Option String :=
  match args with
  | [] => none
  | arg :: _ =>
    let outputName := arg
    if win32 then
      if outputType_ = .Executable then
        if outputName.length < 5 ∨ substr outputName (outputName.length - 4) 4 ≠ ".exe" then
          some (outputName ++ ".exe")
        else some outputName
      else some outputName
    else some outputName

/-- The name `name` ends in `suffix`. -/
def EndsIn (name suffix : String) : Prop :=
  ∃ stem : String, name = stem ++ suffix

end cli

/-! ## Command thunks (`DBPEngineInterface::generateCommandCall`) -/

namespace ir

/-- The LLVM types that `generateCommandCall` builds or tells apart. -/
inductive LLVMType
  | void
  | float
  | double
  | integer (bits : Nat)
  | pointer (pointee : LLVMType)
  deriving DecidableEq, Repr

/-- The query `llvm::Type::isFloatTy`. -/
def LLVMType.isFloatTy : LLVMType → Bool
  | .float => true
  | _ => false

/-- The query `llvm::Type::isVoidTy`. -/
def LLVMType.isVoidTy : LLVMType → Bool
  | .void => true
  | _ => false

/-- The member `dwordTy`, set to `llvm::Type::getInt8PtrTy(ctx)` by the
constructor. -/
def dwordTy : LLVMType :=
  .pointer (.integer 8)

/-- An `llvm::FunctionType`: return type, parameter types and the variadic flag. -/
structure FunctionType where
  returnType : LLVMType
  params : List LLVMType
  isVarArg : Bool
  deriving DecidableEq, Repr

/-- The member `getFunctionAddressFunc`'s type:
`FunctionType::get(voidPtrTy, {voidPtrTy, charPtrTy}, false)`. -/
def getFunctionAddressType : FunctionType :=
  { returnType := .pointer (.integer 8),
    params := [.pointer (.integer 8), .pointer (.integer 8)], isVarArg := false }

/-- The values that the instructions of a thunk take as operands: a parameter
of the thunk, the result of the instruction emitted at a position of the basic
block, the handle variable that `getOrAddPluginHandleVar` yields for a library,
the constant of `CreateGlobalStringPtr`, and the runtime function
`getFunctionAddress`. -/
inductive Value
  | argument (index : Nat)
  | result (index : Nat)
  | pluginHandleVar (library : String)
  | globalStringPtr (str : String) (name : String)
  | getFunctionAddressFunc
  deriving DecidableEq, Repr

/-- The destination of a bit cast: a type, or the pointer to a function type. -/
inductive DestTy
  | type (t : LLVMType)
  | pointerTo (functionTy : FunctionType)
  deriving DecidableEq, Repr

/-- The instructions that `generateCommandCall` and `getPluginFunction` create. -/
inductive Instruction
  | load (pointer : Value)
  | call (functionTy : FunctionType) (callee : Value) (args : List Value)
  | bitCast (value : Value) (destTy : DestTy)
  | alloca (type : LLVMType)
  | store (value : Value) (pointer : Value)
  | ret (value : Value)
  | retVoid
  deriving DecidableEq, Repr

/-- A call of the builder that creates an instruction at the insert point, the
end of the basic block: the instruction is appended and its value is the
result of the instruction at this position. -/
def create (basicBlock : List Instruction) (i : Instruction) : Value × List Instruction :=
  (.result basicBlock.length, basicBlock ++ [i])

/-- Embedding of `DBPEngineInterface::getPluginFunction`: the handle of the library is
loaded, `getFunctionAddress` is called with it and with the symbol, and the
address is cast to a pointer to `functionTy`. The result is the
`llvm::FunctionCallee`, as the pair of its type and its callee, and the basic
block. -/
def getPluginFunction (basicBlock : List Instruction) (functionTy : FunctionType)
    (library : String) (symbol : String) (symbolStringName : String) :
    (FunctionType × Value) × List Instruction :=
  let (pluginHandle, basicBlock) := create basicBlock (.load (.pluginHandleVar library))
  let (procAddress, basicBlock) := create basicBlock
    (.call getFunctionAddressType .getFunctionAddressFunc
      [pluginHandle, .globalStringPtr symbol symbolStringName])
  let (callee, basicBlock) := create basicBlock (.bitCast procAddress (.pointerTo functionTy))
  ((functionTy, callee), basicBlock)

/-- The function that `generateCommandCall` creates: its name, its type and the
instructions of its one basic block. -/
structure Thunk where
  name : String
  functionType : FunctionType
  basicBlock : List Instruction
  deriving DecidableEq, Repr

/-- Embedding of `DBPEngineInterface::generateCommandCall`. The library of the command
is represented by its name. -/
def generateCommandCall (command : cmd.Command) (functionName : String)
    (functionType : FunctionType) : Thunk :=
  let basicBlock : List Instruction := []
  let pluginReturnType :=
    if functionType.returnType.isFloatTy then dwordTy else functionType.returnType
  let pluginFunctionType : FunctionType :=
    { returnType := pluginReturnType, params := functionType.params,
      isVarArg := functionType.isVarArg }
  let (commandFunction, basicBlock) :=
    getPluginFunction basicBlock pluginFunctionType command.library command.cppSymbol
      (functionName ++ "Symbol")
  let forwardedArgs := (List.range functionType.params.length).map Value.argument
  let (commandResult, basicBlock) :=
    create basicBlock (.call commandFunction.1 commandFunction.2 forwardedArgs)
  let basicBlock :=
    if functionType.returnType.isVoidTy then
      (create basicBlock .retVoid).2
    else if functionType.returnType.isFloatTy then
      let (dwordStoragePtr, basicBlock) := create basicBlock (.alloca dwordTy)
      let (_, basicBlock) := create basicBlock (.store commandResult dwordStoragePtr)
      let (dwordAsFloatStorage, basicBlock) :=
        create basicBlock (.bitCast dwordStoragePtr (.type (.pointer .float)))
      let (loaded, basicBlock) := create basicBlock (.load dwordAsFloatStorage)
      (create basicBlock (.ret loaded)).2
    else
      (create basicBlock (.ret commandResult)).2
  { name := functionName, functionType := functionType, basicBlock := basicBlock }

/-- The type under which a thunk of type `functionType` calls the plugin
function, in the words of the specification: the thunk's own parameter types,
variadic flag and return type, with the dword for a float return. -/
def pluginTypeOf (functionType : FunctionType) : FunctionType :=
  match functionType.returnType with
  | .float => { functionType with returnType := .pointer (.integer 8) }
  | _ => functionType

/-- The calls of a basic block whose callee is not the runtime function
`getFunctionAddress`, with their types. -/
def pluginCalls (basicBlock : List Instruction) : List FunctionType :=
  basicBlock.filterMap (fun i =>
    match i with
    | .call functionTy callee _ =>
      if callee = .getFunctionAddressFunc then none else some functionTy
    | _ => none)

/-- The number of stack slots a basic block allocates. -/
def stackSlots (basicBlock : List Instruction) : Nat :=
  basicBlock.countP (fun i =>
    match i with
    | .alloca _ => true
    | _ => false)

end ir

/-! ## Visitors (`ast/Assignment.cpp` and `ast/Loop.cpp`) -/

namespace ast

/-- The callbacks of a visitor that the `accept` functions of `VarAssignment`
and of the loops call, each with the node it is called on. The state of the
visitor has type `σ`; a `ConstVisitor` has the same callbacks. -/
structure Visitor (σ : Type) where
  visitVarAssignment : Statement → σ → σ
  visitInfiniteLoop : Statement → σ → σ
  visitWhileLoop : Statement → σ → σ
  visitUntilLoop : Statement → σ → σ

/-- What the calls `child->accept(visitor)` do to the state of the visitor, for
the three classes of children: an lvalue, an expression and a block. These
`accept` functions are defined in other files than the two at hand. -/
structure ChildAccept (σ : Type) where
  lvalue : String → Annotation → σ → σ
  expression : Expression → σ → σ
  block : List Statement → σ → σ

/-- Embedding of `VarAssignment::accept(Visitor*)`. -/
def VarAssignment.accept {σ : Type} (visitor : Visitor σ) (children : ChildAccept σ)
    (name : String) ( annotation : Annotation) (expr_ : Expression) (state : σ) : σ :=
  let state := visitor.visitVarAssignment (.VarAssignment name annotation expr_) state
  let state := children.lvalue name annotation state
  children.expression expr_ state

/-- Embedding of `VarAssignment::accept(ConstVisitor*) const`. -/
def VarAssignment.acceptConst {σ : Type} (visitor : Visitor σ) (children : ChildAccept σ)
    (name : String) ( annotation : Annotation) (expr_ : Expression) (state : σ) : σ :=
  let state := visitor.visitVarAssignment (.VarAssignment name annotation expr_) state
  let state := children.lvalue name annotation state
  children.expression expr_ state

/-- Embedding of `InfiniteLoop::accept(Visitor*)`. -/
def InfiniteLoop.accept {σ : Type} (visitor : Visitor σ) (children : ChildAccept σ)
    (body_ : Option (List Statement)) (state : σ) : σ :=
  let state := visitor.visitInfiniteLoop (.InfiniteLoop body_) state
  match body_ with
  | some body => children.block body state
  | none => state

/-- Embedding of `InfiniteLoop::accept(ConstVisitor*) const`. -/
def InfiniteLoop.acceptConst {σ : Type} (visitor : Visitor σ) (children : ChildAccept σ)
    (body_ : Option (List Statement)) (state : σ) : σ :=
  let state := visitor.visitInfiniteLoop (.InfiniteLoop body_) state
  match body_ with
  | some body => children.block body state
  | none => state

/-- Embedding of `WhileLoop::accept(Visitor*)`. -/
def WhileLoop.accept {σ : Type} (visitor : Visitor σ) (children : ChildAccept σ)
    (continueCondition_ : Expression) (body_ : Option (List Statement)) (state : σ) : σ :=
  let state := visitor.visitWhileLoop (.WhileLoop continueCondition_ body_) state
  let state := children.expression continueCondition_ state
  match body_ with
  | some body => children.block body state
  | none => state

/-- Embedding of `WhileLoop::accept(ConstVisitor*) const`. -/
def WhileLoop.acceptConst {σ : Type} (visitor : Visitor σ) (children : ChildAccept σ)
    (continueCondition_ : Expression) (body_ : Option (List Statement)) (state : σ) : σ :=
  let state := visitor.visitWhileLoop (.WhileLoop continueCondition_ body_) state
  let state := children.expression continueCondition_ state
  match body_ with
  | some body => children.block body state
  | none => state

/-- Embedding of `UntilLoop::accept(Visitor*)`. -/
def UntilLoop.accept {σ : Type} (visitor : Visitor σ) (children : ChildAccept σ)
    (exitCondition_ : Expression) (body_ : Option (List Statement)) (state : σ) : σ :=
  let state := visitor.visitUntilLoop (.UntilLoop exitCondition_ body_) state
  let state := children.expression exitCondition_ state
  match body_ with
  | some body => children.block body state
  | none => state

/-- Embedding of `UntilLoop::accept(ConstVisitor*) const`. -/
def UntilLoop.acceptConst {σ : Type} (visitor : Visitor σ) (children : ChildAccept σ)
    (exitCondition_ : Expression) (body_ : Option (List Statement)) (state : σ) : σ :=
  let state := visitor.visitUntilLoop (.UntilLoop exitCondition_ body_) state
  let state := children.expression exitCondition_ state
  match body_ with
  | some body => children.block body state
  | none => state

/-- A call that a recording visitor has received: one of the four callbacks
with its node, or a callback that the `accept` of a child made, under the name
of the callback. -/
inductive Visit
  | visitVarAssignment (node : Statement)
  | visitInfiniteLoop (node : Statement)
  | visitWhileLoop (node : Statement)
  | visitUntilLoop (node : Statement)
  | below (callback : String)

/-- The visitor that records every call it receives, in the order of the
calls. -/
def recorder : Visitor (List Visit) :=
  { visitVarAssignment := fun node log => log ++ [.visitVarAssignment node],
    visitInfiniteLoop := fun node log => log ++ [.visitInfiniteLoop node],
    visitWhileLoop := fun node log => log ++ [.visitWhileLoop node],
    visitUntilLoop := fun node log => log ++ [.visitUntilLoop node] }

/-- Children whose `accept` makes the recording visitor receive the calls of
their subtrees: `lvalue`, `expression` and `block` give, for a child, the
calls of the traversal of its subtree. -/
def recordedChildren (lvalue : String → Annotation → List Visit)
    (expression : Expression → List Visit) (block : List Statement → List Visit) :
    ChildAccept (List Visit) :=
  { lvalue := fun name annotation log => log ++ lvalue name annotation,
    expression := fun e log => log ++ expression e,
    block := fun b log => log ++ block b }

/-- The calls of the traversal of an optional child: none for an absent one. -/
def whenPresent {α : Type} (calls : α → List Visit) : Option α → List Visit
  | some child => calls child
  | none => []

end ast

/-! ## The action table of the argument definitions (`argdefgen`, `action.c`) -/

namespace adg

/-- Modelled from the spec: the node types of `enum adg_node_type` (declared in
`argdefgen/node.h`, which is not part of the sources at hand). These are the
types that `action.c` names: a section, the four kinds of actions, the list of
the attributes of an action, and the attributes help text, handler, argument,
optional argument and the three dependency lists the spec lists; `ADG_ARGNAME`
is the type of the nodes read through the member `argname`, and `ADG_OTHER`
stands for every other type. -/
inductive NodeType
  | ADG_SECTION
  | ADG_EXPLICIT_ACTION
  | ADG_EXPLICIT_META_ACTION
  | ADG_IMPLICIT_ACTION
  | ADG_IMPLICIT_META_ACTION
  | ADG_ACTIONATTRS
  | ADG_HELP
  | ADG_FUNC
  | ADG_ARG
  | ADG_OPTIONAL_ARG
  | ADG_ARGNAME
  | ADG_RUNAFTER
  | ADG_REQUIRES
  | ADG_METADEP
  | ADG_OTHER
  deriving DecidableEq, Repr

/-- Modelled from the spec: `union adg_node` (declared in `argdefgen/node.h`, which
is not part of the sources at hand). A value is a pointer to a node, `null` the
null pointer. Every member of the union begins with the type and the two child
pointers `base.left` and `base.right`. Of the child members that `action.c`
reads, `action_base.attrs`, `actionattrs.attr`, `arg.argnames` and
`optional_arg.argnames` are taken to share the storage of `base.left`, and
every `next` that of `base.right`. `str` is the one string that `action.c` reads
of a node of its type (`section.name`, `explicit_action.longopt`,
`implicit_action.name`, `help.text`, `func.name`, `argname.str`, `runafter.str`,
`requires.str`, `metadep.str`), `shortopt` the short option of an explicit
action and `continued` the flag of an optional argument. -/
inductive Node
  | null
  | node (type : NodeType) (left : Node) (right : Node) (str : String) (shortopt : Char)
      (continued : Bool)
  deriving DecidableEq, Repr

/-- The struct `arg_range` of an action. -/
structure ArgRange where
  l : Int
  h : Int
  deriving DecidableEq, Repr

/-- Modelled from the spec: `struct adg_action` (declared in `argdefgen/action.h`,
which is not part of the sources at hand), with the members that `action.c`
sets. A string member that is still null is the empty string and a dependency
array that is still null is the empty list; an allocated array is the list of
its elements, the terminator `-1` included. -/
structure Action where
  action_name : String
  section_name : String
  long_option : String
  arg_doc : String
  help : String
  func_name : String
  runafter : List Int
  requires : List Int
  metadeps : List Int
  arg_range : ArgRange
  short_option : Char
  is_meta : Bool
  is_implicit : Bool
  deriving DecidableEq, Repr

/-- The ways in which a function of `action.c` does not come to its result: it
reports an error and returns `-1` or `NULL`, it reads through a null pointer,
or an assertion fails. Allocations are taken to succeed. -/
inductive Failure
  | failed
  | nullDereference
  | assertionFailed
  deriving DecidableEq, Repr

/-- Embedding of `adg_action_create`: the action with every member zero. -/
def adg_action_create : Action :=
  { action_name := "", section_name := "", long_option := "", arg_doc := "", help := "",
    func_name := "", runafter := [], requires := [], metadeps := [],
    arg_range := { l := 0, h := 0 }, short_option := Char.ofNat 0, is_meta := false,
    is_implicit := false }

/-- Modelled from the spec: `adg_node_is_action` (defined in `node.c`, which is not
part of the sources at hand): the node is of one of the four kinds of actions. -/
def adg_node_is_action : Node → Bool
  | .node .ADG_EXPLICIT_ACTION _ _ _ _ _ => true
  | .node .ADG_EXPLICIT_META_ACTION _ _ _ _ _ => true
  | .node .ADG_IMPLICIT_ACTION _ _ _ _ _ => true
  | .node .ADG_IMPLICIT_META_ACTION _ _ _ _ _ => true
  | _ => false

/-- Embedding of `count_actions_in_tree`; the guards on the children are the case of
the null pointer. -/
def count_actions_in_tree : Node → Nat
  | .null => 0
  | .node type left right str shortopt continued =>
    (if adg_node_is_action (.node type left right str shortopt continued) then 1 else 0) +
      count_actions_in_tree left + count_actions_in_tree right

/-- Embedding of `get_short_option`. -/
def get_short_option (node : Node) : Except Failure Char :=
  if !adg_node_is_action node then .error .assertionFailed
  else
    match node with
    | .node .ADG_EXPLICIT_ACTION _ _ _ shortopt _ => .ok shortopt
    | .node .ADG_EXPLICIT_META_ACTION _ _ _ shortopt _ => .ok shortopt
    | _ => .ok (Char.ofNat 0)

/-- Embedding of `get_long_option`. -/
def get_long_option (node : Node) : Except Failure String :=
  if !adg_node_is_action node then .error .assertionFailed
  else
    match node with
    | .node .ADG_EXPLICIT_ACTION _ _ longopt _ _ => .ok longopt
    | .node .ADG_EXPLICIT_META_ACTION _ _ longopt _ _ => .ok longopt
    | .node .ADG_IMPLICIT_ACTION _ _ name _ _ => .ok name
    | .node .ADG_IMPLICIT_META_ACTION _ _ name _ _ => .ok name
    | _ => .error .assertionFailed

/-- The loop of `find_func_name` and of `find_help` over the list of attributes,
from the attribute `attr` on: the string of the first attribute of type `type`,
or none for the null pointer returned when there is none. -/
def find_attr_str (type : NodeType) : Node → Except Failure (Option String)
  | .null => .ok none
  | .node attrType attr next _ _ _ =>
    if attrType ≠ .ADG_ACTIONATTRS then .error .assertionFailed
    else
      match attr with
      | .null => .error .nullDereference
      | .node t _ _ str _ _ =>
        if t = type then .ok (some str) else find_attr_str type next

/-- Embedding of `find_func_name`. -/
def find_func_name (node : Node) : Except Failure (Option String) :=
  if !adg_node_is_action node then .error .assertionFailed
  else
    match node with
    | .null => .error .nullDereference
    | .node _ attrs _ _ _ _ => find_attr_str .ADG_FUNC attrs

/-- Embedding of `find_help`. -/
def find_help (node : Node) : Except Failure (Option String) :=
  if !adg_node_is_action node then .error .assertionFailed
  else
    match node with
    | .null => .error .nullDereference
    | .node _ attrs _ _ _ _ => find_attr_str .ADG_HELP attrs

/-- The loop of `find_args_node` over the list of attributes: the first
attribute that is an argument or an optional argument, or the null pointer. -/
def find_args_attr : Node → Except Failure Node
  | .null => .ok .null
  | .node attrType attr next _ _ _ =>
    if attrType ≠ .ADG_ACTIONATTRS then .error .assertionFailed
    else
      match attr with
      | .null => .error .nullDereference
      | .node t left right str shortopt continued =>
        if t = .ADG_ARG ∨ t = .ADG_OPTIONAL_ARG then
          .ok (.node t left right str shortopt continued)
        else find_args_attr next

/-- Embedding of `find_args_node`. -/
def find_args_node (node : Node) : Except Failure Node :=
  if !adg_node_is_action node then .error .assertionFailed
  else
    match node with
    | .null => .error .nullDereference
    | .node _ attrs _ _ _ _ => find_args_attr attrs

/-- The loop of `init_action_argdoc_and_range` over the names of one argument:
`adg_str_append` appends to `arg_doc`, a bar before every name but the first. -/
def append_argnames : Node → Nat → String → String
  | .null, _, arg_doc => arg_doc
  | .node _ _ next str _ _, i, arg_doc =>
    let arg_doc := if i ≠ 0 then arg_doc ++ "|" else arg_doc
    let arg_doc := arg_doc ++ str
    append_argnames next (i + 1) arg_doc

/-- The loop `while (arg)` of `init_action_argdoc_and_range`. -/
def append_args : Node → Action → Except Failure Action
  | .null, action => .ok action
  | .node type argnames next _ _ continued, action =>
    if type = .ADG_ARG then
      let arg_doc := action.arg_doc ++ "<"
      let arg_doc := append_argnames argnames 0 arg_doc
      let arg_doc := arg_doc ++ ">"
      let arg_range : ArgRange := { l := action.arg_range.l + 1, h := action.arg_range.h + 1 }
      let arg_doc := if next ≠ .null then arg_doc ++ " " else arg_doc
      append_args next { action with arg_doc := arg_doc, arg_range := arg_range }
    else if type = .ADG_OPTIONAL_ARG then
      let arg_doc := action.arg_doc ++ "["
      let arg_doc := append_argnames argnames 0 arg_doc
      let arg_doc := if continued then arg_doc ++ "..." else arg_doc
      let arg_range : ArgRange :=
        if continued then { l := action.arg_range.l, h := -1 }
        else { l := action.arg_range.l, h := action.arg_range.h + 1 }
      let arg_doc := arg_doc ++ "]"
      let arg_doc := if next ≠ .null then arg_doc ++ " " else arg_doc
      append_args next { action with arg_doc := arg_doc, arg_range := arg_range }
    else .error .failed

/-- Embedding of `init_action_argdoc_and_range`. -/
def init_action_argdoc_and_range (action : Action) (node : Node) : Except Failure Action :=
  let action := { action with arg_doc := "", arg_range := { l := 0, h := 0 } }
  match find_args_node node with
  | .error x => .error x
  | .ok arg => append_args arg action

/-- The part of `populate_action_table_from_tree` that makes the action of an
action node in the section `section_name`. -/
def action_from_node (node : Node) (section_name : String) : Except Failure Action :=
  match find_help node with
  | .error x => .error x
  | .ok help =>
    match get_long_option node with
    | .error x => .error x
    | .ok long_option =>
      match find_func_name node with
      | .error x => .error x
      | .ok func_name =>
        match get_short_option node with
        | .error x => .error x
        | .ok short_option =>
          let action := adg_action_create
          let action := { action with section_name := section_name }
          let action := { action with action_name := long_option }
          match node with
          | .null => .error .nullDereference
          | .node type _ _ _ _ _ =>
            if type = .ADG_EXPLICIT_META_ACTION ∨ type = .ADG_EXPLICIT_ACTION then
              let action :=
                if type = .ADG_EXPLICIT_META_ACTION then { action with is_meta := true }
                else action
              match help with
              | none => .error .failed
              | some help =>
                let action := { action with help := help }
                match func_name with
                | none => .error .failed
                | some func_name =>
                  let action := { action with func_name := func_name }
                  let action := { action with short_option := short_option }
                  let action := { action with long_option := long_option }
                  init_action_argdoc_and_range action node
            else if type = .ADG_IMPLICIT_META_ACTION ∨ type = .ADG_IMPLICIT_ACTION then
              let action :=
                if type = .ADG_IMPLICIT_META_ACTION then { action with is_meta := true }
                else action
              match find_args_node node with
              | .error x => .error x
              | .ok _ =>
                match func_name with
                | none => .error .failed
                | some func_name =>
                  let action := { action with func_name := func_name }
                  let action := { action with long_option := "" }
                  let action := { action with arg_doc := "" }
                  let action := { action with help := "" }
                  .ok { action with is_implicit := true }
            else .error .assertionFailed

/-- Embedding of `populate_action_table_from_tree`: the actions are appended to the
table in the order in which the nodes are reached, a node before its left and
its left before its right subtree; the guards on the children are the case of
the null pointer. -/
def populate_action_table_from_tree : Node → String → List Action →
    Except Failure (List Action)
  | .null, _, table => .ok table
  | .node type left right str shortopt continued, section_name, table =>
    match
      (if adg_node_is_action (.node type left right str shortopt continued) then
        match action_from_node (.node type left right str shortopt continued) section_name with
        | .error x => .error x
        | .ok action => .ok (table ++ [action])
      else .ok table : Except Failure (List Action)) with
    | .error x => .error x
    | .ok table =>
      let section_name := if type = .ADG_SECTION then str else section_name
      match populate_action_table_from_tree left section_name table with
      | .error x => .error x
      | .ok table => populate_action_table_from_tree right section_name table

/-- The first pair of loops of `verify_actions_and_sections_are_unique`: whether an
action has the name of an action after it in the table. -/
def duplicate_action_name : List Action → Bool
  | [] => false
  | a1 :: rest =>
    if rest.any (fun a2 => a1.action_name = a2.action_name) then true
    else duplicate_action_name rest

/-- The second pair of loops of `verify_actions_and_sections_are_unique`: whether
the section of an action is the name of this action or of an action after it
in the table. -/
def section_is_action_name : List Action → Bool
  | [] => false
  | a1 :: rest =>
    if (a1 :: rest).any (fun a2 => a1.section_name = a2.action_name) then true
    else section_is_action_name rest

/-- Embedding of `verify_actions_and_sections_are_unique`: `0` or `-1`. -/
def verify_actions_and_sections_are_unique (action_table : List Action) : Int :=
  if duplicate_action_name action_table then -1
  else if section_is_action_name action_table then -1
  else 0

/-- Embedding of `find_action_node`; the guards on the children are the case of the
null pointer. -/
def find_action_node : Node → String → Except Failure Node
  | .null, _ => .ok .null
  | .node type left right str shortopt continued, name =>
    match
      (if adg_node_is_action (.node type left right str shortopt continued) then
        match get_long_option (.node type left right str shortopt continued) with
        | .error x => .error x
        | .ok long_option => .ok (decide (long_option = name))
      else .ok false : Except Failure Bool) with
    | .error x => .error x
    | .ok true => .ok (.node type left right str shortopt continued)
    | .ok false =>
      match find_action_node left name with
      | .error x => .error x
      | .ok found =>
        if found ≠ .null then .ok found else find_action_node right name

/-- Embedding of `find_node` for a `node` that is not null; the guards on the
children are the case of the null pointer. -/
def find_node : Node → NodeType → Node
  | .null, _ => .null
  | .node t left right str shortopt continued, type =>
    if t = type then .node t left right str shortopt continued
    else if find_node left type ≠ .null then find_node left type
    else find_node right type

/-- The call `realloc(array, n * sizeof(*array))`: the first `n` elements are
kept, and the elements added are not set (they are modelled as `0`). -/
def realloc (array : List Int) (n : Nat) : List Int :=
  array.take n ++ List.replicate (n - array.length) 0

/-- The loop over the table that looks for the actions whose section or
name is `str`, from the action at index `i` on: the index of each is stored at
`idx`, followed by the terminator. The result is the array, `idx` and `found`. -/
def append_matches (str : String) : List Action → Nat → List Int → Nat → Bool →
    List Int × Nat × Bool
  | [], _, array, idx, found => (array, idx, found)
  | a :: rest, i, array, idx, found =>
    if a.section_name = str ∨ a.action_name = str then
      let array := realloc array (idx + 2)
      let array := array.set idx (Int.ofNat i)
      let idx := idx + 1
      let array := array.set idx (-1)
      append_matches str rest (i + 1) array idx true
    else append_matches str rest (i + 1) array idx found

/-- The loop over the names of one dependency list, from the node `node` on. A
name that matches no action and no section ends it with an error. -/
def resolve_names (action_table : List Action) : Node → List Int → Nat →
    Except Failure (List Int)
  | .null, array, _ => .ok array
  | .node _ _ next str _ _, array, idx =>
    match append_matches str action_table 0 array idx false with
    | (array, idx, found) =>
      if found = false then .error .failed
      else resolve_names action_table next array idx

/-- One of the three blocks of `init_action_table_dependencies` that fill in a
dependency list (they differ in the type looked for and in the member
written): the array starts as the terminator alone; when the attributes hold
a node of the type, the names from this node on are resolved. -/
def fill_dependency_list (action_table : List Action) (attrs : Node) (type : NodeType) :
    Except Failure (List Int) :=
  let array : List Int := [-1]
  match attrs with
  | .null => .error .nullDereference
  | .node t left right str shortopt continued =>
    let node := find_node (.node t left right str shortopt continued) type
    if node ≠ .null then resolve_names action_table node array 0
    else .ok array

/-- The body of the loop of `init_action_table_dependencies` for one action of
the table. -/
def init_action_dependencies (action_table : List Action) (root : Node) (action : Action) :
    Except Failure Action :=
  match find_action_node root action.action_name with
  | .error x => .error x
  | .ok .null => .error .failed
  | .ok (.node _ attrs _ _ _ _) =>
    match fill_dependency_list action_table attrs .ADG_RUNAFTER with
    | .error x => .error x
    | .ok runafter =>
      match fill_dependency_list action_table attrs .ADG_REQUIRES with
      | .error x => .error x
      | .ok requires =>
        match fill_dependency_list action_table attrs .ADG_METADEP with
        | .error x => .error x
        | .ok metadeps =>
          .ok { action with runafter := runafter, requires := requires, metadeps := metadeps }

/-- The loop of `init_action_table_dependencies`: `done` holds the actions before
`ptr` and the second list those from `ptr` on; together they are the table. -/
def init_action_table_dependencies_from (root : Node) :
    List Action → List Action → Except Failure (List Action)
  | done, [] => .ok done
  | done, action :: rest =>
    match init_action_dependencies (done ++ action :: rest) root action with
    | .error x => .error x
    | .ok action1 => init_action_table_dependencies_from root (done ++ [action1]) rest

/-- Embedding of `init_action_table_dependencies`. -/
def init_action_table_dependencies (action_table : List Action) (root : Node) :
    Except Failure (List Action) :=
  init_action_table_dependencies_from root [] action_table

/-- Embedding of `adg_action_table_from_nodes`: the table, the list of its actions
up to the terminating null pointer, or the failure. The table is allocated
with room for `count_actions_in_tree(root)` actions and the terminator. -/
def adg_action_table_from_nodes (root : Node) : Except Failure (List Action) :=
  match root with
  | .null => .error .nullDereference
  | .node type _ _ name _ _ =>
    if type ≠ .ADG_SECTION then .error .failed
    else
      match populate_action_table_from_tree root name [] with
      | .error x => .error x
      | .ok action_table =>
        if verify_actions_and_sections_are_unique action_table ≠ 0 then .error .failed
        else init_action_table_dependencies action_table root

/-- A declared argument in the words of the specification: whether it is
optional, its names, and whether it is marked as continued. -/
structure ArgDecl where
  optional : Bool
  names : List String
  continued : Bool
  deriving DecidableEq, Repr

/-- The names of an argument: the strings of the nodes from `argname` on. -/
def argnamesOf : Node → List String
  | .null => []
  | .node _ _ next str _ _ => str :: argnamesOf next

/-- The arguments declared by the list of nodes that begins at `arg`, in the
order of the list; none when a node of the list is neither an argument nor an
optional argument. -/
def declaredArgs : Node → Option (List ArgDecl)
  | .null => some []
  | .node type argnames next _ _ continued =>
    if type = .ADG_ARG then
      (declaredArgs next).map (fun rest =>
        { optional := false, names := argnamesOf argnames, continued := false } :: rest)
    else if type = .ADG_OPTIONAL_ARG then
      (declaredArgs next).map (fun rest =>
        { optional := true, names := argnamesOf argnames, continued := continued } :: rest)
    else none

/-- The rendering of one argument in the words of the specification: a required
argument is its names joined by a bar between angle brackets, an optional one
its names joined by a bar between square brackets, with three dots before the
closing bracket when it is continued. -/
def renderArg (d : ArgDecl) : String :=
  if d.optional then
    "[" ++ "|".intercalate d.names ++ (if d.continued then "..." else "") ++ "]"
  else "<" ++ "|".intercalate d.names ++ ">"

/-- The argument documentation in the words of the specification: the
renderings of the arguments, in order, with one space between two of them. -/
def renderArgs (args : List ArgDecl) : String :=
  " ".intercalate (args.map renderArg)

/-- The range of the argument count in the words of the specification: from
the number of required arguments to the number of all arguments, the upper
bound being `-1` when an optional argument is continued. -/
def specArgRange (args : List ArgDecl) : ArgRange :=
  { l := ((args.filter (fun d => !d.optional)).length : Int),
    h := if args.any (fun d => d.optional && d.continued) then -1 else (args.length : Int) }

/-- The names of a dependency list: the strings of the nodes from `node` on. -/
def dependencyNames : Node → List String
  | .null => []
  | .node _ _ next str _ _ => str :: dependencyNames next

/-- The dependency names that an action node declares in its list of type
`type`, in the order of the declaration: the names from the node of this type
that `find_node` finds under the attributes of the action, none when there is
no such node. -/
def declaredDependencies (action_node : Node) (type : NodeType) : List String :=
  match action_node with
  | .null => []
  | .node _ attrs _ _ _ _ => dependencyNames (find_node attrs type)

/-- The table indices, ascending, of the actions whose section name or action
name is `name`. -/
def matchingIndices (action_table : List Action) (name : String) : List Nat :=
  (List.range action_table.length).filter (fun i =>
    match action_table[i]? with
    | some a => decide (a.section_name = name ∨ a.action_name = name)
    | none => false)

/-- The indices of the actions of a list whose section name or action name is
`str`, when the first action of the list has the index `i`. -/
def indicesFrom (str : String) : Nat → List Action → List Nat
  | _, [] => []
  | i, a :: rest =>
    if a.section_name = str ∨ a.action_name = str then i :: indicesFrom str (i + 1) rest
    else indicesFrom str (i + 1) rest

/-- A dependency list in the words of the specification: for each name, in
order, the indices of the actions it matches, followed by one terminator. -/
def resolvedList (action_table : List Action) (names : List String) : List Int :=
  (names.flatMap (matchingIndices action_table)).map Int.ofNat ++ [-1]

/-- The string of a node: the long option of an explicit action and the name
of an implicit one. -/
def Node.str : Node → String
  | .null => ""
  | .node _ _ _ str _ _ => str

/-- The action nodes of a tree in the order in which
`populate_action_table_from_tree` reaches them. -/
def actionNodes : Node → List Node
  | .null => []
  | .node type left right str shortopt continued =>
    (if adg_node_is_action (.node type left right str shortopt continued) then
      [.node type left right str shortopt continued] else []) ++
      actionNodes left ++ actionNodes right

end adg

/-! ## Statements met at any depth of a block -/

namespace ir

/-- The state in which `convertStatement`, on a conditional, begins the conversion
of the true branch: after the condition and its cast to Boolean in the order
of the source text, after the false branch in the reverse order. -/
def trueBranchEntry (env : Env) (leftToRight : Bool) (condition : ast.Expression)
    (falseBranch : Option (List ast.Statement)) (st : ConvState) : Except Fatal ConvState :=
  if leftToRight then
    match convertExpression env condition st with
    | .error x => .error x
    | .ok (c, st1) => .ok (ensureType c (.builtin .Boolean) st1).2
  else
    match convertMaybeNullBlock env leftToRight falseBranch st with
    | .error x => .error x
    | .ok (_, st1) => .ok st1

/-- The state in which `convertStatement`, on a conditional, begins the conversion
of the false branch: after the condition and the true branch in the order of
the source text, at once in the reverse order. -/
def falseBranchEntry (env : Env) (leftToRight : Bool) (condition : ast.Expression)
    (trueBranch : Option (List ast.Statement)) (st : ConvState) : Except Fatal ConvState :=
  if leftToRight then
    match convertExpression env condition st with
    | .error x => .error x
    | .ok (c, st1) =>
      match convertMaybeNullBlock env leftToRight trueBranch
          (ensureType c (.builtin .Boolean) st1).2 with
      | .error x => .error x
      | .ok (_, st2) => .ok st2
  else .ok st

/-- The state in which `convertStatement`, on a loop with a condition, begins the
conversion of the body: after the condition in the order of the source text,
at once in the reverse order. -/
def loopBodyEntry (env : Env) (leftToRight : Bool) (condition : ast.Expression)
    (st : ConvState) : Except Fatal ConvState :=
  if leftToRight then
    match convertExpression env condition st with
    | .error x => .error x
    | .ok (_, st1) => .ok st1
  else .ok st

/-- The conversion of the statements of a block, begun in a state, reaches the
statement `target` in the state `st`: `target` is a statement of the block, or
of a branch of a conditional or of the body of a loop of the block, at any
depth; everything the converter converts before it has been converted; and
`st` is the state in which `convertStatement` is called on `target`. -/
inductive Reaches (env : Env) (leftToRight : Bool) (target : ast.Statement) (st : ConvState) :
    List ast.Statement → ConvState → Prop
  | here (rest : List ast.Statement) : Reaches env leftToRight target st (target :: rest) st
  | later (s : ast.Statement) (rest : List ast.Statement) (st0 : ConvState)
      (s1 : Option Statement) (st1 : ConvState) :
      convertStatement env leftToRight s st0 = .ok (s1, st1) →
      Reaches env leftToRight target st rest st1 →
      Reaches env leftToRight target st (s :: rest) st0
  | inTrueBranch (condition : ast.Expression) (trueBranch : List ast.Statement)
      (falseBranch : Option (List ast.Statement)) (rest : List ast.Statement)
      (st0 : ConvState) (entry : ConvState) :
      trueBranchEntry env leftToRight condition falseBranch st0 = .ok entry →
      Reaches env leftToRight target st trueBranch entry →
      Reaches env leftToRight target st
        (.Conditional condition (some trueBranch) falseBranch :: rest) st0
  | inFalseBranch (condition : ast.Expression) (trueBranch : Option (List ast.Statement))
      (falseBranch : List ast.Statement) (rest : List ast.Statement)
      (st0 : ConvState) (entry : ConvState) :
      falseBranchEntry env leftToRight condition trueBranch st0 = .ok entry →
      Reaches env leftToRight target st falseBranch entry →
      Reaches env leftToRight target st
        (.Conditional condition trueBranch (some falseBranch) :: rest) st0
  | inWhileLoop (continueCondition : ast.Expression) (body : List ast.Statement)
      (rest : List ast.Statement) (st0 : ConvState) (entry : ConvState) :
      loopBodyEntry env leftToRight continueCondition st0 = .ok entry →
      Reaches env leftToRight target st body entry →
      Reaches env leftToRight target st (.WhileLoop continueCondition (some body) :: rest) st0
  | inUntilLoop (exitCondition : ast.Expression) (body : List ast.Statement)
      (rest : List ast.Statement) (st0 : ConvState) (entry : ConvState) :
      loopBodyEntry env leftToRight exitCondition st0 = .ok entry →
      Reaches env leftToRight target st body entry →
      Reaches env leftToRight target st (.UntilLoop exitCondition (some body) :: rest) st0
  | inInfiniteLoop (body : List ast.Statement) (rest : List ast.Statement) (st0 : ConvState) :
      Reaches env leftToRight target st body st0 →
      Reaches env leftToRight target st (.InfiniteLoop (some body) :: rest) st0

end ir

/-! ## Example data -/

namespace examples

open cmd ir

/-- An overload `foo(Integer)` of library `a.dll`. -/
def fooInteger : Command :=
  { library := "a.dll", dbSymbol := "foo", cppSymbol := "fooInteger", returnType := .Void,
    args := [{ type := .Integer }] }

/-- An overload `foo(Float)` of library `b.dll`. -/
def fooFloat : Command :=
  { library := "b.dll", dbSymbol := "foo", cppSymbol := "fooFloat", returnType := .Void,
    args := [{ type := .Float }] }

/-- A second declaration of `foo(Float)`, in library `c.dll`. -/
def fooFloatAgain : Command :=
  { library := "c.dll", dbSymbol := "foo", cppSymbol := "fooFloatAgain", returnType := .Void,
    args := [{ type := .Float }] }

/-- An overload `foo(Double)`. -/
def fooDouble : Command :=
  { library := "a.dll", dbSymbol := "foo", cppSymbol := "fooDouble", returnType := .Void,
    args := [{ type := .Double }] }

/-- An overload `foo(Long)`. -/
def fooLong : Command :=
  { library := "a.dll", dbSymbol := "foo", cppSymbol := "fooLong", returnType := .Void,
    args := [{ type := .Long }] }

/-- A command whose display name differs from `foo` in letter case only. -/
def upperFoo : Command :=
  { library := "a.dll", dbSymbol := "FOO", cppSymbol := "upperFoo", returnType := .Void,
    args := [{ type := .String }] }

/-- A converter state with an empty scope and no error flagged. -/
def emptyState : ConvState :=
  { scope := [], errorOccurred := false }

/-- An index holding `foo(Integer)` and then `foo(Long)`. -/
def integerThenLong : CommandIndex :=
  CommandIndex.ofList [fooInteger, fooLong]

/-- An environment over `integerThenLong` with a sort that keeps equal
candidates in order and no user functions. -/
def integerThenLongEnv : Env :=
  { sort := insertionSort, cmdIndex := integerThenLong, functionMap := [],
    unaryType := fun _ t => t, binaryType := fun _ l _ => l }

/-- The source-level argument list made of one literal of Type Word. -/
def wordArgument : List ast.Expression :=
  [.Literal (.Word 5)]

/-- The source-level argument list made of one string literal. -/
def stringArgument : List ast.Expression :=
  [.Literal (.String "hi")]

/-- The conversion of `wordArgument`. -/
def wordActual : List Expression :=
  [.literal (.Word 5)]

/-- The call emitted for `foo` applied to `wordArgument` over
`integerThenLongEnv`. -/
def fooLongCall : FunctionCallExpression :=
  { callee := .command fooLong,
    args := [.cast (.literal (.Word 5)) (.builtin .DoubleInteger)],
    returnType := .void }

/-- The conversion of `stringArgument`. -/
def stringActual : List Expression :=
  [.literal (.String "hi")]

/-- An index holding `foo(Integer)` and then `foo(Double)`. -/
def integerThenDouble : CommandIndex :=
  CommandIndex.ofList [fooInteger, fooDouble]

/-- The same two overloads added in the opposite order. -/
def doubleThenInteger : CommandIndex :=
  CommandIndex.ofList [fooDouble, fooInteger]

/-- The source-level argument list made of one literal of Type DoubleInteger. -/
def doubleIntegerArgument : List ast.Expression :=
  [.Literal (.DoubleInteger 1000000000000)]

/-- The conversion of `doubleIntegerArgument`. -/
def doubleIntegerActual : List Expression :=
  [.literal (.DoubleInteger 1000000000000)]

/-- The user function `f(a)` whose parameter is typed Integer by its sigil. -/
def functionF : FunctionHandle :=
  { index := 0, name := "f", arguments := [{ name := "a", type := .builtin .Integer }] }

/-- An environment that knows the commands of `integerThenLong` and the user
function `f`. -/
def userFunctionEnv : Env :=
  { sort := insertionSort, cmdIndex := integerThenLong,
    functionMap := [("f", { functionDefinition := functionF, returnExpressionType := none })],
    unaryType := fun _ t => t, binaryType := fun _ l _ => l }

/-- The node emitted for the command `foo` called without arguments. -/
def fooWithoutArguments : FunctionCallExpression :=
  { callee := .command fooInteger, args := [], returnType := .void }

/-- The node emitted for `f("hi")`. -/
def callFWithString : FunctionCallExpression :=
  { callee := .function functionF, args := [.literal (.String "hi")], returnType := .void }

/-- The node emitted for `f` applied to a Word literal. -/
def callFWithWord : FunctionCallExpression :=
  { callee := .function functionF,
    args := [.cast (.literal (.Word 5)) (.builtin .Integer)], returnType := .void }

/-- The state after a semantic error in an empty scope. -/
def errorState : ConvState :=
  { scope := [], errorOccurred := true }

/-- Settings with the commands of `integerThenLong`, children converted in the
order of the source text and `functionMap_` visited in the order of insertion. -/
def settings : Settings :=
  { sort := insertionSort, cmdIndex := integerThenLong,
    unaryType := fun _ t => t, binaryType := fun _ l _ => l,
    leftToRight := true, iterationOrder := fun m => m }

/-- The program `f(1)` followed by `function f(a)` with the body `b = 2` and the
return value `3`. -/
def callThenFunction : List ast.Statement :=
  [.FuncCallStmnt "f" (some [.Literal (.Integer 1)]),
   .FuncDecl "f" (some [.VarRef "a" .NONE])
     (some [.VarAssignment "b" .NONE (.Literal (.Integer 2))])
     (some (.Literal (.Integer 3)))]

/-- The declaration `x as integer`, with the initial value `0`. -/
def declareX : ast.Statement :=
  .VarDecl "x" .NONE (some .Integer) (some (.Literal (.Integer 0)))

/-- The Variable `x` of Type Integer. -/
def variableX : Variable :=
  { name := "x", annotation := .None, type := .builtin .Integer }

/-- A state whose scope holds `x` and in which no error is flagged. -/
def stateWithX : ConvState :=
  { scope := [variableX], errorOccurred := false }

/-- The program `x as integer` twice. -/
def declareTwice : List ast.Statement :=
  [declareX, declareX]

/-- The program `x = 1` followed by `x as integer`. -/
def useThenDeclare : List ast.Statement :=
  [.VarAssignment "x" .NONE (.Literal (.Integer 1)), declareX]

/-- The program made of `function f(a)` whose body is `x as integer` twice. -/
def declareTwiceInFunction : List ast.Statement :=
  [.FuncDecl "f" (some [.VarRef "a" .NONE]) (some [declareX, declareX]) none]

/-- The initial value of the first loop of `generateProgram`. -/
def emptySkeleton : Skeleton :=
  { astMainStatements := [], functionDefinitions := [], functionMap := [] }

/-- Settings like `settings` with an empty command index. -/
def settingsWithoutCommands : Settings :=
  { sort := insertionSort, cmdIndex := CommandIndex.empty,
    unaryType := fun _ t => t, binaryType := fun _ l _ => l,
    leftToRight := true, iterationOrder := fun m => m }

/-- The program `a$ = "hi"`. -/
def assignString : List ast.Statement :=
  [.VarAssignment "a" .STRING (.Literal (.String "hi"))]

/-- The Variable `a$`. -/
def variableA : Variable :=
  { name := "a", annotation := .String, type := .builtin .String }

/-- The assignment `a$ = f(1)`. -/
def assignCallOfF : ast.Statement :=
  .VarAssignment "a" .STRING (.FuncCallExpr "f" (some [.Literal (.Integer 1)]))

/-- The program made of `function f(x$)` with the body `l:` and the return value
`"s"`, and of `function g(y)` with the body `a$ = f(1)`. -/
def stringFunctionProgram : List ast.Statement :=
  [.FuncDecl "f" (some [.VarRef "x" .STRING]) (some [.Label "l"])
     (some (.Literal (.String "s"))),
   .FuncDecl "g" (some [.VarRef "y" .NONE]) (some [assignCallOfF]) none]

/-- The definition made for `f(x$)`. -/
def stringFunctionF : FunctionHandle :=
  { index := 0, name := "f", arguments := [{ name := "x", type := .builtin .String }] }

/-- The definition made for `g(y)`. -/
def stringFunctionG : FunctionHandle :=
  { index := 1, name := "g", arguments := [{ name := "y", type := .builtin .Integer }] }

/-- What the first loop of `generateProgram` builds for `stringFunctionProgram`. -/
def stringFunctionSkeleton : Skeleton :=
  { astMainStatements := [],
    functionDefinitions :=
      [{ name := "f", arguments := stringFunctionF.arguments, statements := [],
         returnExpression := none, scope := [] },
       { name := "g", arguments := stringFunctionG.arguments, statements := [],
         returnExpression := none, scope := [] }],
    functionMap :=
      [("f", { body := some [.Label "l"], returnValue := some (.Literal (.String "s")),
               functionDefinition := stringFunctionF }),
       ("g", { body := some [assignCallOfF], returnValue := none,
               functionDefinition := stringFunctionG })] }

/-- The definitions after the round of the second loop for `f`. -/
def definitionsAfterF : List FunctionDefinition :=
  [{ name := "f", arguments := stringFunctionF.arguments, statements := [some (.Label "l")],
     returnExpression := some (.literal (.String "s")), scope := [] },
   { name := "g", arguments := stringFunctionG.arguments, statements := [],
     returnExpression := none, scope := [] }]

/-- The environment in which the body of `g` is converted after `f`. -/
def envAfterF : Env :=
  settings.env stringFunctionSkeleton.functionMap definitionsAfterF

/-- The call node of `f(1)` converted after `f`. -/
def callOfFAfterF : Expression :=
  .functionCall (.function stringFunctionF) [.literal (.Integer 1)] (.builtin .String)

/-- The state after `a$ = f(1)` was converted in an empty scope. -/
def stateAfterAssignCall : ConvState :=
  { scope := [variableA], errorOccurred := true }

/-- The program `x = f(1)` followed by `function f(a)` with the body `b = 2` and
the return value `3`. -/
def assignCallThenFunction : List ast.Statement :=
  [.VarAssignment "x" .NONE (.FuncCallExpr "f" (some [.Literal (.Integer 1)])),
   .FuncDecl "f" (some [.VarRef "a" .NONE])
     (some [.VarAssignment "b" .NONE (.Literal (.Integer 2))])
     (some (.Literal (.Integer 3)))]

/-- The definition made for `function f(a)`. -/
def integerFunctionF : FunctionHandle :=
  { index := 0, name := "f", arguments := [{ name := "a", type := .builtin .Integer }] }

/-- The Program returned for `callThenFunction`. -/
def callThenFunctionProgram : Program :=
  { mainFunction :=
      { name := "__DBMain", arguments := [],
        statements :=
          [some (.FunctionCall
            { callee := .function integerFunctionF, args := [.literal (.Integer 1)],
              returnType := .void })],
        returnExpression := none, scope := [] },
    functions :=
      [{ name := "f", arguments := integerFunctionF.arguments,
         statements :=
           [some (.VarAssignment { name := "b", annotation := .None, type := .builtin .Integer }
             (.literal (.Integer 2)))],
         returnExpression := some (.literal (.Integer 3)),
         scope := [{ name := "b", annotation := .None, type := .builtin .Integer }] }] }

/-- The program `f(1, 2)` followed by `function f(a)`. -/
def callWithTwoArguments : List ast.Statement :=
  [.FuncCallStmnt "f" (some [.Literal (.Integer 1), .Literal (.Integer 2)]),
   .FuncDecl "f" (some [.VarRef "a" .NONE])
     (some [.VarAssignment "b" .NONE (.Literal (.Integer 2))]) none]

/-- The program `h(1)` followed by `function f(a)`. -/
def callOfUndeclared : List ast.Statement :=
  [.FuncCallStmnt "h" (some [.Literal (.Integer 1)]),
   .FuncDecl "f" (some [.VarRef "a" .NONE])
     (some [.VarAssignment "b" .NONE (.Literal (.Integer 2))]) none]

/-- The program `if 1 then x = h(2)`, in which no function `h` is declared. -/
def nestedCallOfUndeclared : List ast.Statement :=
  [.Conditional (.Literal (.Integer 1))
    (some [.VarAssignment "x" .NONE (.FuncCallExpr "h" (some [.Literal (.Integer 2)]))]) none]

/-- The program `function f(a)` whose body is the call `f` without argument list. -/
def callInBody : List ast.Statement :=
  [.FuncDecl "f" (some [.VarRef "a" .NONE]) (some [.FuncCallStmnt "f" none]) none]

/-- The plugin list `[Basic2D, DBProCore, Text]`. -/
def threePlugins : List PluginInfo :=
  [{ name := "Basic2D", path := "plugins/Basic2D.dll" },
   { name := "DBProCore", path := "plugins/DBProCore.dll" },
   { name := "Text", path := "plugins/Text.dll" }]

/-- The plugin list `[Basic2D, Text]`. -/
def pluginsWithoutCore : List PluginInfo :=
  [{ name := "Basic2D", path := "plugins/Basic2D.dll" },
   { name := "Text", path := "plugins/Text.dll" }]

/-- The program `function f(a)` with the body `b = 2`, followed by the
assignment `x = 1`. -/
def statementAfterFunction : List ast.Statement :=
  [.FuncDecl "f" (some [.VarRef "a" .NONE])
     (some [.VarAssignment "b" .NONE (.Literal (.Integer 2))]) none,
   .VarAssignment "x" .NONE (.Literal (.Integer 1))]

/-- The program `while 1 : endwhile : repeat : until 1`. -/
def loopsOnInteger : List ast.Statement :=
  [.WhileLoop (.Literal (.Integer 1)) (some []),
   .UntilLoop (.Literal (.Integer 1)) (some [])]

/-- The program `if 1 then endif`. -/
def conditionalOnInteger : List ast.Statement :=
  [.Conditional (.Literal (.Integer 1)) (some []) none]

/-- The program `a$ = 1` followed by `b = 2`. -/
def typeErrorThenAssignment : List ast.Statement :=
  [.VarAssignment "a" .STRING (.Literal (.Integer 1)),
   .VarAssignment "b" .NONE (.Literal (.Integer 2))]

/-- The members of the converter after the run on `callThenFunction`. -/
def converterAfterRun : Converter :=
  { errorOccurred := false,
    functionMap :=
      [("f", { body := some [.VarAssignment "b" .NONE (.Literal (.Integer 2))],
               returnValue := some (.Literal (.Integer 3)),
               functionDefinition := integerFunctionF })] }

/-- The Program returned by the second run on `callThenFunction` of the same
converter: the call in main has the Type of the return expression set by the
first run, and the definition of `f` has neither body nor return expression. -/
def secondRunProgram : Program :=
  { mainFunction :=
      { name := "__DBMain", arguments := [],
        statements :=
          [some (.FunctionCall
            { callee := .function integerFunctionF, args := [.literal (.Integer 1)],
              returnType := .builtin .Integer })],
        returnExpression := none, scope := [] },
    functions :=
      [{ name := "f", arguments := integerFunctionF.arguments, statements := [],
         returnExpression := none, scope := [] }] }

/-- The definition of `f` that the first Program owns, after the second run:
the body was converted into it a second time. -/
def firstDefinitionAfterSecondRun : FunctionDefinition :=
  { name := "f", arguments := integerFunctionF.arguments,
    statements :=
      [some (.VarAssignment { name := "b", annotation := .None, type := .builtin .Integer }
         (.literal (.Integer 2))),
       some (.VarAssignment { name := "b", annotation := .None, type := .builtin .Integer }
         (.literal (.Integer 2)))],
    returnExpression := some (.literal (.Integer 3)),
    scope := [{ name := "b", annotation := .None, type := .builtin .Integer }] }

/-- The definition of `f` in `callThenFunctionProgram`. -/
def convertedF : FunctionDefinition :=
  { name := "f", arguments := integerFunctionF.arguments,
    statements :=
      [some (.VarAssignment { name := "b", annotation := .None, type := .builtin .Integer }
        (.literal (.Integer 2)))],
    returnExpression := some (.literal (.Integer 3)),
    scope := [{ name := "b", annotation := .None, type := .builtin .Integer }] }

/-- The program `function f(1)` with an empty body, followed by the assignment
`x = 1`: the parameter of the declaration is a literal. -/
def statementAfterMalformedFunction : List ast.Statement :=
  [.FuncDecl "f" (some [.Literal (.Integer 1)]) (some []) none,
   .VarAssignment "x" .NONE (.Literal (.Integer 1))]

/-- The plugin list `[Basic2D, Text, DBProCore]`. -/
def coreLast : List PluginInfo :=
  [{ name := "Basic2D", path := "plugins/Basic2D.dll" },
   { name := "Text", path := "plugins/Text.dll" },
   { name := "DBProCore", path := "plugins/DBProCore.dll" }]

/-- The program `foo()` followed by `function foo()` with the body `a = 1`: the
call carries no argument list. -/
def callWithoutArgumentList : List ast.Statement :=
  [.FuncCallStmnt "foo" none,
   .FuncDecl "foo" none (some [.VarAssignment "a" .NONE (.Literal (.Integer 1))]) none]

/-- The program `x = foo()` followed by the same function. -/
def assignCallWithoutArgumentList : List ast.Statement :=
  [.VarAssignment "x" .NONE (.FuncCallExpr "foo" none),
   .FuncDecl "foo" none (some [.VarAssignment "a" .NONE (.Literal (.Integer 1))]) none]

/-- The same function called with an argument list that holds no expression. -/
def callWithEmptyArgumentList : List ast.Statement :=
  [.FuncCallStmnt "foo" (some []),
   .FuncDecl "foo" none (some [.VarAssignment "a" .NONE (.Literal (.Integer 1))]) none]

/-- Two declarations of `f`: the first with the body `a = 1` and the return
value `1`, the second with the body `b = 2` and the return value `2`. -/
def twoDeclarationsOfF : List ast.Statement :=
  [.FuncDecl "f" none (some [.VarAssignment "a" .NONE (.Literal (.Integer 1))])
     (some (.Literal (.Integer 1))),
   .FuncDecl "f" none (some [.VarAssignment "b" .NONE (.Literal (.Integer 2))])
     (some (.Literal (.Integer 2)))]

/-- The variable `b` of Type Integer. -/
def variableB : Variable :=
  { name := "b", annotation := .None, type := .builtin .Integer }

/-- The node of one name of an argument, followed by the node `next`. -/
def argname (str : String) (next : adg.Node) : adg.Node :=
  .node .ADG_ARGNAME .null next str (Char.ofNat 0) false

/-- The node of a required argument with the names `argnames`, followed by the
argument `next`. -/
def arg (argnames : adg.Node) (next : adg.Node) : adg.Node :=
  .node .ADG_ARG argnames next "" (Char.ofNat 0) false

/-- The node of an optional argument. -/
def optional_arg (argnames : adg.Node) (next : adg.Node) (continued : Bool) : adg.Node :=
  .node .ADG_OPTIONAL_ARG argnames next "" (Char.ofNat 0) continued

/-- The node of a help text. -/
def help (text : String) : adg.Node :=
  .node .ADG_HELP .null .null text (Char.ofNat 0) false

/-- The node of a handler. -/
def func (name : String) : adg.Node :=
  .node .ADG_FUNC .null .null name (Char.ofNat 0) false

/-- The node of one name of a `runafter` list, followed by the node `next`. -/
def runafter (str : String) (next : adg.Node) : adg.Node :=
  .node .ADG_RUNAFTER .null next str (Char.ofNat 0) false

/-- The node of one name of a `requires` list, followed by the node `next`. -/
def requires (str : String) (next : adg.Node) : adg.Node :=
  .node .ADG_REQUIRES .null next str (Char.ofNat 0) false

/-- The node of one name of a `metadeps` list, followed by the node `next`. -/
def metadep (str : String) (next : adg.Node) : adg.Node :=
  .node .ADG_METADEP .null next str (Char.ofNat 0) false

/-- The list of the attributes of an action: the attribute `attr`, followed by
the list `next`. -/
def actionattrs (attr : adg.Node) (next : adg.Node) : adg.Node :=
  .node .ADG_ACTIONATTRS attr next "" (Char.ofNat 0) false

/-- The node of an explicit action with its attributes, followed by the node
`next`. -/
def explicit_action (longopt : String) (shortopt : Char) (attrs : adg.Node)
    (next : adg.Node) : adg.Node :=
  .node .ADG_EXPLICIT_ACTION attrs next longopt shortopt false

/-- The node of a section with its two children. -/
def adgSection (name : String) (left : adg.Node) (right : adg.Node) : adg.Node :=
  .node .ADG_SECTION left right name (Char.ofNat 0) false

/-- The explicit action `copy(c) <src|source> [dst...]` with a help text and a
handler. -/
def copyAction : adg.Node :=
  explicit_action "copy" (Char.ofNat 99)
    (actionattrs (help "Copies files")
      (actionattrs (func "copyFiles")
        (actionattrs
          (arg (argname "src" (argname "source" .null))
            (optional_arg (argname "dst" .null) .null true))
          .null)))
    .null

/-- The explicit action `pack(p) [files...] <target>`: the continued optional
argument is followed by a required one. -/
def packAction : adg.Node :=
  explicit_action "pack" (Char.ofNat 112)
    (actionattrs (help "Packs files")
      (actionattrs (func "packFiles")
        (actionattrs
          (optional_arg (argname "files" .null) (arg (argname "target" .null) .null) true)
          .null)))
    .null

/-- The attributes help text and handler, followed by the attributes `next`. -/
def helpAndFunc (text : String) (name : String) (next : adg.Node) : adg.Node :=
  actionattrs (help text) (actionattrs (func name) next)

/-- The section `general` with the actions `build` and `test`, and in it the
section `tools` with the actions `lint` and `fmt`. The action `test` runs after
`build` and requires `build` and `tools`; `lint` has the meta dependency
`general`. -/
def dependencyTree : adg.Node :=
  adgSection "general"
    (explicit_action "build" (Char.ofNat 98) (helpAndFunc "Builds" "build" .null)
      (explicit_action "test" (Char.ofNat 116)
        (helpAndFunc "Tests" "test"
          (actionattrs (runafter "build" .null)
            (actionattrs (requires "build" (requires "tools" .null)) .null)))
        .null))
    (adgSection "tools"
      (explicit_action "lint" (Char.ofNat 108)
        (helpAndFunc "Lints" "lint" (actionattrs (metadep "general" .null) .null))
        (explicit_action "fmt" (Char.ofNat 102) (helpAndFunc "Formats" "fmt" .null) .null))
      .null)

/-- The table built from `dependencyTree`. -/
def dependencyTable : List adg.Action :=
  [{ adg.adg_action_create with
      action_name := "build", section_name := "general", long_option := "build",
      help := "Builds", func_name := "build", short_option := Char.ofNat 98,
      runafter := [-1], requires := [-1], metadeps := [-1] },
   { adg.adg_action_create with
      action_name := "test", section_name := "general", long_option := "test",
      help := "Tests", func_name := "test", short_option := Char.ofNat 116,
      runafter := [0, -1], requires := [0, 2, 3, -1], metadeps := [-1] },
   { adg.adg_action_create with
      action_name := "lint", section_name := "tools", long_option := "lint",
      help := "Lints", func_name := "lint", short_option := Char.ofNat 108,
      runafter := [-1], requires := [-1], metadeps := [0, 1, -1] },
   { adg.adg_action_create with
      action_name := "fmt", section_name := "tools", long_option := "fmt",
      help := "Formats", func_name := "fmt", short_option := Char.ofNat 102,
      runafter := [-1], requires := [-1], metadeps := [-1] }]

/-- The section `general` with the one action `build`, which requires `nothing`,
the name of no action and of no section. -/
def undefinedDependency : adg.Node :=
  adgSection "general"
    (explicit_action "build" (Char.ofNat 98)
      (helpAndFunc "Builds" "build" (actionattrs (requires "nothing" .null) .null)) .null)
    .null

/-- The section `general` with the action `build`, followed by the section
`build` with the action `run`: the name of the first action is the section of
the second. -/
def actionNamedAsLaterSection : adg.Node :=
  adgSection "general"
    (explicit_action "build" (Char.ofNat 98) (helpAndFunc "Builds" "build" .null) .null)
    (adgSection "build"
      (explicit_action "run" (Char.ofNat 114) (helpAndFunc "Runs" "run" .null) .null)
      .null)

/-- The same two sections and actions in the other order: the section `build`
with the action `run`, followed by the section `general` with the action
`build`. -/
def actionNamedAsEarlierSection : adg.Node :=
  adgSection "build"
    (explicit_action "run" (Char.ofNat 114) (helpAndFunc "Runs" "run" .null) .null)
    (adgSection "general"
      (explicit_action "build" (Char.ofNat 98) (helpAndFunc "Builds" "build" .null) .null)
      .null)

/-- The section `general` with two actions named `build`. -/
def twoActionsNamedBuild : adg.Node :=
  adgSection "general"
    (explicit_action "build" (Char.ofNat 98) (helpAndFunc "Builds" "build" .null)
      (explicit_action "build" (Char.ofNat 66) (helpAndFunc "Builds again" "rebuild" .null)
        .null))
    .null

/-- The program `x as integer` followed by `if 1 then x as integer`: the second
declaration stands in the true branch of a conditional. -/
def declareInBranch : List ast.Statement :=
  [declareX, .Conditional (.Literal (.Integer 1)) (some [declareX]) none]

/-- The program `x = 1` followed by a `do` loop around a `while 1` loop around
`x as integer`. -/
def declareInLoops : List ast.Statement :=
  [.VarAssignment "x" .NONE (.Literal (.Integer 1)),
   .InfiniteLoop (some [.WhileLoop (.Literal (.Integer 1)) (some [declareX])])]

/-- The program made of `function f(a)` whose body is `x as integer` followed by
`if 1 then else x as integer`. -/
def declareInBranchOfFunction : List ast.Statement :=
  [.FuncDecl "f" (some [.VarRef "a" .NONE])
    (some [declareX, .Conditional (.Literal (.Integer 1)) none (some [declareX])]) none]

/-- An overload `foo` with three parameters of the given tags. -/
def fooOf (a b c : CommandType) : Command :=
  { library := "a.dll", dbSymbol := "foo", cppSymbol := "foo", returnType := .Void,
    args := [{ type := a }, { type := b }, { type := c }] }

/-- Seventeen overloads of `foo` with three integral parameters each, no two
with the same parameter list. -/
def seventeenOverloads : List Command :=
  [fooOf .Integer .Integer .Integer, fooOf .Integer .Integer .Long,
   fooOf .Integer .Integer .Dword, fooOf .Integer .Long .Integer,
   fooOf .Integer .Long .Long, fooOf .Integer .Long .Dword,
   fooOf .Integer .Dword .Integer, fooOf .Integer .Dword .Long,
   fooOf .Integer .Dword .Dword, fooOf .Long .Integer .Integer,
   fooOf .Long .Integer .Long, fooOf .Long .Integer .Dword,
   fooOf .Long .Long .Integer, fooOf .Long .Long .Long,
   fooOf .Long .Long .Dword, fooOf .Long .Dword .Integer,
   fooOf .Long .Dword .Long]

/-- An index into which the `seventeenOverloads` were inserted in their order. -/
def seventeenIndex : CommandIndex :=
  CommandIndex.ofList seventeenOverloads

/-- An index into which the first sixteen of the `seventeenOverloads` were
inserted in their order. -/
def sixteenIndex : CommandIndex :=
  CommandIndex.ofList (seventeenOverloads.take 16)

/-- Three converted actual arguments of Type Word. -/
def threeWords : List Expression :=
  [.literal (.Word 5), .literal (.Word 6), .literal (.Word 7)]

end examples

end odb

/-! # Properties -/

namespace odb

open cmd ir

/-! ## Command index -/

theorem ofList_append_single (cs : List Command) (c : Command) :
    CommandIndex.ofList (cs ++ [c]) = (CommandIndex.ofList cs).addCommand c := by
  simp [CommandIndex.ofList, List.foldl_append]

theorem ofList_commands (cs : List Command) : (CommandIndex.ofList cs).commands_ = cs := by
  induction cs using List.reverseRecOn with
  | nil => rfl
  | append_singleton cs c ih => rw [ofList_append_single]; simp [CommandIndex.addCommand, ih]

theorem ofList_commandLookupTable (cs : List Command) :
    (CommandIndex.ofList cs).commandLookupTable_ = cs.map (fun c => (c.dbSymbol, c)) := by
  induction cs using List.reverseRecOn with
  | nil => rfl
  | append_singleton cs c ih => rw [ofList_append_single]; simp [CommandIndex.addCommand, ih]

/-- C1 (evaluation of the code at the failing input): after `foo(Integer)` the
two identical declarations of `foo(Float)` have equal lowercased names, equal
argument types and equal return types, and `compare` holds of them, yet
`findConflicts` reports no conflict. -/
theorem findConflicts_misses_second_pair :
    toLower examples.fooFloat.dbSymbol = toLower examples.fooFloatAgain.dbSymbol ∧
    examples.fooFloat.args = examples.fooFloatAgain.args ∧
    examples.fooFloat.returnType = examples.fooFloatAgain.returnType ∧
    CommandIndex.compare examples.fooFloatAgain examples.fooFloat = true ∧
    CommandIndex.findConflicts (CommandIndex.ofList
      [examples.fooInteger, examples.fooFloat, examples.fooFloatAgain]) = false := by
  decide

/-- C10: on the index built by any sequence of `addCommand` calls, `lookup name`
is the sequence of the added overloads whose display name is exactly `name`, in
the order of their addition and once per addition; a command whose name
differs from `name` in letter case only is not among them. -/
theorem lookup_eq_filter (cs : List Command) (name : String) :
    (CommandIndex.ofList cs).lookup name = cs.filter (fun c => decide (c.dbSymbol = name)) ∧
    (CommandIndex.ofList [examples.fooInteger, examples.upperFoo, examples.fooLong,
      examples.fooInteger]).lookup "foo" =
      [examples.fooInteger, examples.fooLong, examples.fooInteger] := by
  refine ⟨?_, by decide⟩
  unfold CommandIndex.lookup
  rw [ofList_commandLookupTable]
  induction cs with
  | nil => rfl
  | cons c cs ih =>
    by_cases h : c.dbSymbol = name <;> simp [List.filter_cons, h, ih]

/-! ## Sorting routines -/

theorem candidateRankFunction_strictWeakOrdering (args : List Expression) :
    StrictWeakOrdering (candidateRankFunction args) := by
  refine ⟨?_, ?_, ?_⟩
  · intro a
    simp [candidateRankFunction]
  · intro a b c hab hbc
    simp only [candidateRankFunction, decide_eq_true_eq] at *
    omega
  · intro a b c hab hbc
    simp only [candidateRankFunction, decide_eq_false_iff_not] at *
    omega

theorem stdSort_of_insertionSort_on (f : List Command → List Command)
    (hf : ∀ l, (f l).Perm l) :
    StdSort (fun comp l => (f l).insertionSort (fun a b => comp b a = false)) := by
  intro comp hcomp l
  obtain ⟨hirr, htrans, hneg⟩ := hcomp
  haveI : IsTotal Command (fun a b => comp b a = false) := by
    constructor
    intro a b
    by_cases hba : comp b a = false
    · exact Or.inl hba
    · right
      by_contra hab
      have h1 : comp b a = true := by simpa using hba
      have h2 : comp a b = true := by simpa using hab
      have h3 := htrans b a b h1 h2
      rw [hirr b] at h3
      exact Bool.false_ne_true h3
  haveI : IsTrans Command (fun a b => comp b a = false) := by
    constructor
    intro a b c hab hbc
    exact hneg c b a hbc hab
  constructor
  · exact (List.perm_insertionSort _ _).trans (hf l)
  · exact List.sorted_insertionSort _ _

theorem insertionSort_stdSort : StdSort insertionSort :=
  stdSort_of_insertionSort_on (fun l => l) (fun l => List.Perm.refl l)

namespace libstdcxx

theorem getElem?_append_cons_length {α : Type} (A : List α) (x : α) (T : List α) :
    (A ++ x :: T)[A.length]? = some x := by
  rw [List.getElem?_append_right (le_refl _)]
  simp

theorem unguarded_linear_insert_loop_eq {α : Type} (comp : α → α → Bool) (val : α)
    (A : List α) : ∀ (h : α) (T : List α),
    unguarded_linear_insert_loop comp val A.length (A ++ h :: T) A.length =
      A.rdropWhile (comp val) ++ val :: (A.rtakeWhile (comp val) ++ T) := by
  induction A using List.reverseRecOn with
  | nil =>
    intro h T
    simp [unguarded_linear_insert_loop]
  | append_singleton A y ih =>
    intro h T
    have hlen : (A ++ [y]).length = A.length + 1 := by simp
    have hget : (A ++ [y] ++ h :: T)[A.length]? = some y := by
      rw [List.append_assoc]
      exact getElem?_append_cons_length A y _
    rw [hlen, unguarded_linear_insert_loop, hget]
    by_cases hc : comp val y = true
    · have hset : (A ++ [y] ++ h :: T).set (A.length + 1) y = A ++ y :: y :: T := by
        rw [← hlen, List.set_append_right _ _ (le_refl _)]
        simp
      simp only [hc, if_true, hset]
      rw [ih y (y :: T), List.rdropWhile_concat_pos _ _ _ hc, List.rtakeWhile_concat_pos _ _ _ hc]
      simp
    · have hset : (A ++ [y] ++ h :: T).set (A.length + 1) val = A ++ [y] ++ val :: T := by
        rw [← hlen, List.set_append_right _ _ (le_refl _)]
        simp
      simp only [hc, if_false, hset]
      rw [List.rdropWhile_concat_neg _ _ _ hc, List.rtakeWhile_concat_neg _ _ _ hc]
      simp

theorem unguarded_linear_insert_eq {α : Type} (comp : α → α → Bool) (A : List α) (x : α)
    (T : List α) :
    unguarded_linear_insert comp (A ++ x :: T) A.length =
      A.rdropWhile (comp x) ++ x :: (A.rtakeWhile (comp x) ++ T) := by
  have hget : (A ++ x :: T)[A.length]? = some x := getElem?_append_cons_length A x T
  rw [unguarded_linear_insert, hget]
  exact unguarded_linear_insert_loop_eq comp x A x T

theorem rdropWhile_append_rtakeWhile {α : Type} (p : α → Bool) (l : List α) :
    l.rdropWhile p ++ l.rtakeWhile p = l := by
  rw [List.rdropWhile, List.rtakeWhile, ← List.reverse_append, List.takeWhile_append_dropWhile,
    List.reverse_reverse]

end libstdcxx

namespace libstdcxx

theorem rdropWhile_le {α : Type} (s : α → Nat) (x : α) (A : List α)
    (hs : A.Pairwise (fun a b => s a ≤ s b)) :
    ∀ d ∈ A.rdropWhile (fun b => decide (s x < s b)), s d ≤ s x := by
  induction A using List.reverseRecOn with
  | nil => simp
  | append_singleton A y ih =>
    have hA := (List.pairwise_append.mp hs).1
    have hcross := (List.pairwise_append.mp hs).2.2
    by_cases hc : s x < s y
    · rw [List.rdropWhile_concat_pos _ _ _ (by simpa using hc)]
      exact ih hA
    · rw [List.rdropWhile_concat_neg _ _ _ (by simpa using hc)]
      intro d hd
      rcases List.mem_append.mp hd with hd1 | hd1
      · have := hcross d hd1 y (List.mem_singleton_self _)
        omega
      · rw [List.mem_singleton.mp hd1]
        omega

theorem rtakeWhile_lt {α : Type} (s : α → Nat) (x : α) (A : List α) :
    ∀ d ∈ A.rtakeWhile (fun b => decide (s x < s b)), s x < s d := by
  intro d hd
  simpa using List.mem_rtakeWhile_imp hd

theorem filter_eq_nil_of_ne {α : Type} (s : α → Nat) (n : Nat) (l : List α)
    (h : ∀ d ∈ l, s d ≠ n) : l.filter (fun d => decide (s d = n)) = [] := by
  rw [List.filter_eq_nil_iff]
  intro d hd
  simpa using h d hd

/-- One round of the loop of `std::__insertion_sort`: with the sorted range `A`
before the position `i`, the element at `i` is put behind the elements of `A`
that are not greater. -/
theorem insertion_sort_body_stable {α : Type} (s : α → Nat) (comp : α → α → Bool)
    (hcomp : ∀ a b, comp a b = decide (s a < s b)) (p0 : α) (P : List α) (x : α) (R : List α)
    (hs : (p0 :: P).Pairwise (fun a b => s a ≤ s b)) :
    ∃ q0 Q, insertion_sort_body comp 0 ((p0 :: P) ++ x :: R) (p0 :: P).length = (q0 :: Q) ++ R ∧
      (q0 :: Q).length = (p0 :: P).length + 1 ∧
      (q0 :: Q).Pairwise (fun a b => s a ≤ s b) ∧
      (q0 :: Q).Perm ((p0 :: P) ++ [x]) ∧
      ∀ n, (q0 :: Q).filter (fun d => decide (s d = n)) =
        ((p0 :: P) ++ [x]).filter (fun d => decide (s d = n)) := by
  have hfun : comp x = fun b => decide (s x < s b) := funext (hcomp x)
  have hget : ((p0 :: P) ++ x :: R)[(p0 :: P).length]? = some x :=
    getElem?_append_cons_length (p0 :: P) x R
  have hget0 : ((p0 :: P) ++ x :: R)[0]? = some p0 := by simp
  have hcompAt : compAt comp ((p0 :: P) ++ x :: R) (p0 :: P).length 0 = decide (s x < s p0) := by
    rw [compAt, hget, hget0]
    exact hcomp x p0
  by_cases hc : s x < s p0
  · refine ⟨x, p0 :: P, ?_, by simp, ?_, ?_, ?_⟩
    · rw [insertion_sort_body, hcompAt, hget]
      simp only [hc, decide_True, if_true, move_backward]
      have h1 : (p0 :: P).length + 1 - ((p0 :: P).length - 0) = 1 := by simp
      have h2 : List.take ((p0 :: P).length - 0) (List.drop 0 ((p0 :: P) ++ x :: R)) = p0 :: P := by
        simp
      have h3 : List.drop ((p0 :: P).length + 1) ((p0 :: P) ++ x :: R) = R := by
        rw [List.drop_append_eq_append_drop]
        simp
      rw [h1, h2, h3]
      rfl
    · refine List.pairwise_cons.mpr ⟨?_, hs⟩
      intro d hd
      rcases List.mem_cons.mp hd with rfl | hd1
      · omega
      · have := (List.pairwise_cons.mp hs).1 d hd1
        omega
    · exact (List.perm_append_singleton x (p0 :: P)).symm
    · intro n
      rw [List.filter_append]
      by_cases hn : s x = n
      · have hnil : (p0 :: P).filter (fun d => decide (s d = n)) = [] := by
          apply filter_eq_nil_of_ne
          intro d hd
          rcases List.mem_cons.mp hd with rfl | hd1
          · omega
          · have := (List.pairwise_cons.mp hs).1 d hd1
            omega
        rw [List.filter_cons, hnil]
        simp [hn]
      · rw [List.filter_cons]
        simp [hn]
  · have hD := rdropWhile_le s x (p0 :: P) hs
    have hK := rtakeWhile_lt s x (p0 :: P)
    have hDK := rdropWhile_append_rtakeWhile (fun b => decide (s x < s b)) (p0 :: P)
    have hbody : insertion_sort_body comp 0 ((p0 :: P) ++ x :: R) (p0 :: P).length =
        (p0 :: P).rdropWhile (fun b => decide (s x < s b)) ++
          x :: ((p0 :: P).rtakeWhile (fun b => decide (s x < s b)) ++ R) := by
      rw [insertion_sort_body, hcompAt]
      simp only [hc, decide_False, Bool.false_eq_true, if_false]
      rw [unguarded_linear_insert_eq, hfun]
    generalize (p0 :: P).rdropWhile (fun b => decide (s x < s b)) = D at hD hDK hbody
    generalize (p0 :: P).rtakeWhile (fun b => decide (s x < s b)) = K at hK hDK hbody
    have hsDK : (D ++ K).Pairwise (fun a b => s a ≤ s b) := by rw [hDK]; exact hs
    obtain ⟨hsD, hsK, hcross⟩ := List.pairwise_append.mp hsDK
    have hQ : ∃ q0 Q, D ++ x :: K = q0 :: Q := by
      cases D with
      | nil => exact ⟨x, K, rfl⟩
      | cons d D2 => exact ⟨d, D2 ++ x :: K, rfl⟩
    obtain ⟨q0, Q, hq⟩ := hQ
    refine ⟨q0, Q, ?_, ?_, ?_, ?_, ?_⟩
    · rw [hbody, ← hq]
      simp
    · rw [← hq, ← hDK]
      simp
      omega
    · rw [← hq]
      refine List.pairwise_append.mpr ⟨hsD, List.pairwise_cons.mpr ⟨?_, hsK⟩, ?_⟩
      · intro d hd
        have := hK d hd
        omega
      · intro d hd e he
        rcases List.mem_cons.mp he with rfl | he1
        · exact hD d hd
        · exact hcross d hd e he1
    · rw [← hq, ← hDK]
      exact (List.perm_middle.trans (List.perm_append_singleton x (D ++ K)).symm)
    · intro n
      rw [← hq, ← hDK]
      simp only [List.filter_append, List.filter_cons, List.filter_nil]
      by_cases hn : s x = n
      · have hnil : K.filter (fun d => decide (s d = n)) = [] := by
          apply filter_eq_nil_of_ne
          intro d hd
          have := hK d hd
          omega
        simp [hn, hnil]
      · simp [hn]

/-- The loop of `std::__insertion_sort` over the elements `R` behind a sorted
range `P`: the result holds the same elements in non-descending order of the
key, those of equal key in the order they have in `P ++ R`. -/
theorem insertion_sort_loop_stable {α : Type} (s : α → Nat) (comp : α → α → Bool)
    (hcomp : ∀ a b, comp a b = decide (s a < s b)) :
    ∀ (R : List α) (p0 : α) (P : List α), (p0 :: P).Pairwise (fun a b => s a ≤ s b) →
      (insertion_sort_loop comp 0 R.length ((p0 :: P) ++ R) (p0 :: P).length).Perm
          ((p0 :: P) ++ R) ∧
        (insertion_sort_loop comp 0 R.length ((p0 :: P) ++ R) (p0 :: P).length).Pairwise
          (fun a b => s a ≤ s b) ∧
        ∀ n, (insertion_sort_loop comp 0 R.length ((p0 :: P) ++ R) (p0 :: P).length).filter
            (fun d => decide (s d = n)) =
          ((p0 :: P) ++ R).filter (fun d => decide (s d = n)) := by
  intro R
  induction R with
  | nil =>
    intro p0 P hs
    simp only [List.length_nil, insertion_sort_loop, List.append_nil]
    exact ⟨List.Perm.refl _, hs, fun _ => trivial⟩
  | cons x R ih =>
    intro p0 P hs
    obtain ⟨q0, Q, hbody, hlen, hsQ, hperm, hfilt⟩ :=
      insertion_sort_body_stable s comp hcomp p0 P x R hs
    rw [List.length_cons, insertion_sort_loop, hbody, ← hlen]
    obtain ⟨h1, h2, h3⟩ := ih q0 Q hsQ
    refine ⟨?_, h2, ?_⟩
    · refine h1.trans ?_
      have := hperm.append_right R
      simpa using this
    · intro n
      have e : (p0 :: P) ++ x :: R = ((p0 :: P) ++ [x]) ++ R := by simp
      rw [h3 n, e, List.filter_append, List.filter_append _ R, hfilt n]

theorem introsort_loop_short {α : Type} (comp : α → α → Bool) (fuel : Nat) (v : List α)
    (first last depth_limit : Nat) (h : ¬ (last - first > S_threshold)) :
    introsort_loop comp fuel v first last depth_limit = v := by
  cases fuel with
  | zero => rfl
  | succ fuel => rw [introsort_loop, if_neg h]

/-- On at most sixteen elements `std::sort` is a straight insertion: the
result holds the same elements in non-descending order of the key, those of
equal key in the order they have in `v`. -/
theorem sort_short_stable {α : Type} (s : α → Nat) (comp : α → α → Bool)
    (hcomp : ∀ a b, comp a b = decide (s a < s b)) (v : List α) (hv : v.length ≤ S_threshold) :
    (sort comp v).Perm v ∧ (sort comp v).Pairwise (fun a b => s a ≤ s b) ∧
      ∀ n, (sort comp v).filter (fun d => decide (s d = n)) =
        v.filter (fun d => decide (s d = n)) := by
  cases v with
  | nil => simp [sort]
  | cons x R =>
    have hsort : sort comp (x :: R) = insertion_sort_loop comp 0 R.length ([x] ++ R) [x].length := by
      have h1 : ¬ ((x :: R).length - 0 > S_threshold) := by
        simp only [Nat.sub_zero, gt_iff_lt, not_lt]
        exact hv
      rw [sort, if_pos (by simp), introsort_loop_short comp _ _ _ _ _ h1, final_insertion_sort,
        if_neg h1, insertion_sort, if_neg (by simp)]
      simp
    rw [hsort]
    exact insertion_sort_loop_stable s comp hcomp R x [] (List.pairwise_singleton _ _)

end libstdcxx

/-- The last element of a sorted candidate vector is one of the candidates and
no candidate has a higher score. -/
theorem stdSort_getLast (sort : Sorter) (hS : StdSort sort) (args : List Expression)
    (l : List Command) (hl : l ≠ []) :
    ∃ c, (sort (candidateRankFunction args) l).getLast? = some c ∧ c ∈ l ∧
      ∀ d ∈ l, scoreCandidate args d ≤ scoreCandidate args c := by
  obtain ⟨hperm, hsorted⟩ := hS _ (candidateRankFunction_strictWeakOrdering args) l
  cases hlast : (sort (candidateRankFunction args) l).getLast? with
  | none =>
    rw [List.getLast?_eq_none_iff] at hlast
    rw [hlast] at hperm
    exact absurd hperm.symm.eq_nil hl
  | some c =>
    refine ⟨c, rfl, ?_, ?_⟩
    · exact hperm.subset (List.mem_of_getLast?_eq_some hlast)
    · obtain ⟨ys, hys⟩ := List.getLast?_eq_some_iff.mp hlast
      rw [hys, List.pairwise_append] at hsorted
      intro d hd
      have hd2 : d ∈ ys ++ [c] := hys ▸ hperm.symm.subset hd
      rcases List.mem_append.mp hd2 with hd3 | hd3
      · have := hsorted.2.2 d hd3 c (List.mem_singleton_self c)
        simp only [candidateRankFunction, decide_eq_false_iff_not] at this
        omega
      · rw [List.mem_singleton.mp hd3]

/-! ## Type conversion -/

theorem isTypeConvertible_self (t : IRType) : isTypeConvertible t t = true := by
  simp [isTypeConvertible]

theorem ensureType_of_convertible (e : Expression) (t : IRType) (st : ConvState)
    (h : isTypeConvertible e.getType t = true) :
    (ensureType e t st).2 = st ∧ (ensureType e t st).1.getType = t := by
  unfold ensureType
  by_cases h1 : e.getType = t
  · simp [h1]
  · rw [if_neg h1, if_pos h]
    exact ⟨rfl, rfl⟩

theorem ensureType_of_eq (e : Expression) (t : IRType) (st : ConvState)
    (h : e.getType = t) : ensureType e t st = (e, st) := by
  simp [ensureType, h]

/-! ## The candidate filters -/

theorem convertArgumentsNotPossible_eq_false (ps : List Arg) (as : List Expression)
    (hlen : ps.length = as.length) :
    convertArgumentsNotPossible ps as = false ↔ List.Forall₂ ParameterAccepts ps as := by
  induction ps generalizing as with
  | nil =>
    cases as with
    | nil => simp [convertArgumentsNotPossible]
    | cons a as => simp at hlen
  | cons p ps ih =>
    cases as with
    | nil => simp at hlen
    | cons a as =>
      have hlen2 : ps.length = as.length := by simpa using hlen
      rw [List.forall₂_cons, ← ih as hlen2]
      rw [convertArgumentsNotPossible]
      unfold ParameterAccepts
      by_cases hX : p.type = CommandType.X
      · simp [hX]
      by_cases hA : p.type = CommandType.A
      · simp [hA]
      cases hty : getTypeFromCommandType p.type with
      | none => simp [hX, hA]
      | some t =>
        by_cases hc : isTypeConvertible a.getType t = true
        · simp [hX, hA, hc]
        · simp [hX, hA, hc]

theorem mem_filterCandidates (args : List Expression) (l : List Command) (c : Command) :
    c ∈ filterCandidates args l ↔ c ∈ l ∧ PassesFilters args c := by
  unfold filterCandidates PassesFilters convertArgumentsNotPossiblePrecondition
  simp only [List.mem_filter, Bool.not_eq_true', bne_eq_false_iff_eq,
    and_assoc]
  constructor
  · rintro ⟨h1, h2, h3⟩
    exact ⟨h1, h2, (convertArgumentsNotPossible_eq_false _ _ h2).mp h3⟩
  · rintro ⟨h1, h2, h3⟩
    exact ⟨h1, h2, (convertArgumentsNotPossible_eq_false _ _ h2).mpr h3⟩

/-! ## Selection of the overload -/

theorem isEmpty_eq_false_of_ne_nil (args : List Expression) (hne : args ≠ []) :
    args.isEmpty = false := by
  cases args with
  | nil => exact absurd rfl hne
  | cons a as => rfl

theorem selectOverload_ok (sort : Sorter) (hS : StdSort sort) (idx : CommandIndex)
    (name : String) (args : List Expression) (hne : args ≠ []) (command : Command)
    (h : selectOverload sort idx name args = .ok command) :
    command ∈ filterCandidates args (idx.lookup name) ∧
      ∀ d ∈ filterCandidates args (idx.lookup name),
        scoreCandidate args d ≤ scoreCandidate args command := by
  unfold selectOverload at h
  cases hlook : idx.lookup name with
  | nil => simp [hlook] at h
  | cons front rest =>
    simp only [hlook, isEmpty_eq_false_of_ne_nil args hne] at h
    cases hfilt : filterCandidates args (front :: rest) with
    | nil => simp [hfilt] at h
    | cons c cs =>
      obtain ⟨m, hm, hmem, hmax⟩ :=
        stdSort_getLast sort hS args (c :: cs) (List.cons_ne_nil c cs)
      simp only [hfilt, hm] at h
      have hcm : m = command := by simpa using h
      subst hcm
      exact ⟨hmem, hmax⟩

theorem selectOverload_exists (sort : Sorter) (hS : StdSort sort) (idx : CommandIndex)
    (name : String) (args : List Expression) (hne : args ≠ [])
    (hsurv : filterCandidates args (idx.lookup name) ≠ []) :
    ∃ command, selectOverload sort idx name args = .ok command := by
  unfold selectOverload
  cases hlook : idx.lookup name with
  | nil => simp [hlook, filterCandidates] at hsurv
  | cons front rest =>
    simp only [isEmpty_eq_false_of_ne_nil args hne]
    cases hfilt : filterCandidates args (front :: rest) with
    | nil => rw [hlook] at hsurv; exact absurd hfilt hsurv
    | cons c cs =>
      obtain ⟨m, hm, _, _⟩ :=
        stdSort_getLast sort hS args (c :: cs) (List.cons_ne_nil c cs)
      exact ⟨m, by simp [hm]⟩

theorem selectOverload_noMatch (sort : Sorter) (idx : CommandIndex)
    (name : String) (args : List Expression) (hne : args ≠ [])
    (hlook : idx.lookup name ≠ [])
    (hfilt : filterCandidates args (idx.lookup name) = []) :
    selectOverload sort idx name args = .error (.noMatchingOverload name) := by
  unfold selectOverload
  cases hl : idx.lookup name with
  | nil => exact absurd hl hlook
  | cons front rest =>
    rw [hl] at hfilt
    simp [isEmpty_eq_false_of_ne_nil args hne, hfilt]

/-! ## Casting the arguments to the selected overload -/

theorem ensureArgumentTypes_of_accepts (ps : List Arg) (as : List Expression) (st : ConvState)
    (h : List.Forall₂ ParameterAccepts ps as) :
    ∃ as2, ensureArgumentTypes as ps st = .ok (as2, st) ∧ as2.length = as.length ∧
      List.Forall₂ (fun a p => getTypeFromCommandType p.type = some (Expression.getType a))
        as2 ps := by
  induction h with
  | nil => exact ⟨[], rfl, rfl, List.Forall₂.nil⟩
  | @cons p a ps as hpa _ ih =>
    obtain ⟨_, _, t, ht, hconv⟩ := hpa
    obtain ⟨rest, hrest, hlen, hall⟩ := ih
    obtain ⟨hst, hty⟩ := ensureType_of_convertible a t st hconv
    refine ⟨(ensureType a t st).1 :: rest, ?_, by simp [hlen], ?_⟩
    · rw [ensureArgumentTypes]
      simp only [ht, hst, hrest]
    · exact List.Forall₂.cons (by rw [hty, ht]) hall

theorem ensureArgumentTypes_of_exact (ps : List Arg) (as : List Expression) (st : ConvState)
    (h : List.Forall₂ (fun p a => getTypeFromCommandType p.type = some (Expression.getType a))
      ps as) :
    ensureArgumentTypes as ps st = .ok (as, st) := by
  induction h with
  | nil => rfl
  | @cons p a ps as hpa _ ih =>
    rw [ensureArgumentTypes]
    simp only [hpa, ensureType_of_eq a a.getType st rfl, ih]

theorem convertCommandCallExpression_some (env : Env) (name : String)
    (es : List ast.Expression) (st : ConvState) :
    convertCommandCallExpression env name (some es) st =
      match convertExpressionList env es st with
      | .error x => .error x
      | .ok (args, st1) => resolveCommandCall env.sort env.cmdIndex name args st1 := by
  rw [convertCommandCallExpression]

theorem convertCommandCallExpression_none (env : Env) (name : String) (st : ConvState) :
    convertCommandCallExpression env name none st =
      resolveCommandCall env.sort env.cmdIndex name [] st := by
  rw [convertCommandCallExpression]

/-! ## Command calls with at least one argument -/

/-- What a successful command call with at least one argument consists of: the
selected overload is the callee, casting leaves the state as it was after the
arguments were converted, and every emitted argument has the Type of its
parameter. -/
theorem commandCall_resolved (env : Env) (name : String)
    (es : List ast.Expression) (st st1 st2 : ConvState) (args : List Expression)
    (call : FunctionCallExpression) (hS : StdSort env.sort)
    (hargs : convertExpressionList env es st = .ok (args, st1)) (hne : args ≠ [])
    (hcall : convertCommandCallExpression env name (some es) st = .ok (call, st2)) :
    ∃ command, selectOverload env.sort env.cmdIndex name args = .ok command ∧
      call.callee = .command command ∧ st2 = st1 ∧ call.args.length = args.length ∧
      List.Forall₂ (fun a p => getTypeFromCommandType p.type = some (Expression.getType a))
        call.args command.args ∧
      getTypeFromCommandType command.returnType = some call.returnType := by
  rw [convertCommandCallExpression_some, hargs] at hcall
  simp only [resolveCommandCall] at hcall
  cases hsel : selectOverload env.sort env.cmdIndex name args with
  | error e => simp [hsel] at hcall
  | ok command =>
    have hmem := (selectOverload_ok env.sort hS env.cmdIndex name args hne command hsel).1
    obtain ⟨_, _, hacc⟩ := (mem_filterCandidates _ _ _).mp hmem
    obtain ⟨as2, has2, hlen, hall⟩ := ensureArgumentTypes_of_accepts command.args args st1 hacc
    simp only [hsel, has2] at hcall
    cases hret : getTypeFromCommandType command.returnType with
    | none => simp [hret] at hcall
    | some rt =>
      simp only [hret, Except.ok.injEq, Prod.mk.injEq] at hcall
      obtain ⟨hc, hst⟩ := hcall
      subst hc
      exact ⟨command, rfl, rfl, hst.symm, hlen, hall, hret⟩

theorem scoreArgument_eq_spec (o a : IRType) : scoreArgument o a = specArgumentScore o a := by
  unfold scoreArgument specArgumentScore sameArchetype isBuiltinIntegral
    isBuiltinFloatingPoint
  by_cases h : o = a
  · simp [h]
  · simp only [h, if_false]
    cases o <;> cases a <;> simp [IRType.getBuiltinType]
    rename_i b1 b2
    cases b1 <;> cases b2 <;> simp [isIntegralType, isFloatingPointType]

theorem scoreCandidate_eq_specScore (args : List Expression) (c : Command) :
    scoreCandidate args c = specScore args c := by
  unfold scoreCandidate specScore
  generalize c.args = ps
  induction ps generalizing args with
  | nil => simp [scoreArguments]
  | cons p ps ih =>
    cases args with
    | nil => simp [scoreArguments]
    | cons a as =>
      rw [scoreArguments, ih as]
      cases hty : getTypeFromCommandType p.type <;>
        simp [hty, scoreArgument_eq_spec]

theorem forall₂_parameterAccepts_split (ps : List Arg) (as : List Expression)
    (h : List.Forall₂ ParameterAccepts ps as) :
    (∀ p ∈ ps, p.type ≠ CommandType.X ∧ p.type ≠ CommandType.A) ∧
      List.Forall₂ (fun p a => ∃ t, getTypeFromCommandType p.type = some t ∧
        isTypeConvertible (Expression.getType a) t = true) ps as := by
  induction h with
  | nil => exact ⟨by simp, List.Forall₂.nil⟩
  | @cons p a ps as hpa _ ih =>
    obtain ⟨hX, hA, hconv⟩ := hpa
    refine ⟨?_, List.Forall₂.cons hconv ih.2⟩
    intro q hq
    rcases List.mem_cons.mp hq with rfl | hq2
    · exact ⟨hX, hA⟩
    · exact ih.1 q hq2

/-- C2: in a command call with at least one argument that resolves, the score
of the selected overload, computed as the specification words it, is at least
the score of every overload of the command that passes the filters. -/
theorem selected_score_is_highest (env : Env) (name : String)
    (es : List ast.Expression) (st st1 st2 : ConvState) (args : List Expression)
    (call : FunctionCallExpression) (hS : StdSort env.sort)
    (hargs : convertExpressionList env es st = .ok (args, st1)) (hne : args ≠ [])
    (hcall : convertCommandCallExpression env name (some es) st = .ok (call, st2)) :
    ∃ command, call.callee = .command command ∧
      ∀ other ∈ env.cmdIndex.lookup name, PassesFilters args other →
        specScore args other ≤ specScore args command := by
  obtain ⟨command, hsel, hcallee, _⟩ :=
    commandCall_resolved env name es st st1 st2 args call hS hargs hne hcall
  refine ⟨command, hcallee, ?_⟩
  intro other hmem hpass
  rw [← scoreCandidate_eq_specScore, ← scoreCandidate_eq_specScore]
  exact (selectOverload_ok env.sort hS env.cmdIndex name args hne command hsel).2 other
    ((mem_filterCandidates _ _ _).mpr ⟨hmem, hpass⟩)

/-- C3: in a command call with at least one argument that resolves, the
selected overload is one of `lookup c`, has as many parameters as there are
actuals, has no parameter tagged `X` or `A`, and each parameter Type is
convertible from the Type of the corresponding actual. -/
theorem selected_overload_passes_filters (env : Env) (name : String)
    (es : List ast.Expression) (st st1 st2 : ConvState) (args : List Expression)
    (call : FunctionCallExpression) (hS : StdSort env.sort)
    (hargs : convertExpressionList env es st = .ok (args, st1)) (hne : args ≠ [])
    (hcall : convertCommandCallExpression env name (some es) st = .ok (call, st2)) :
    ∃ command, call.callee = .command command ∧
      command ∈ env.cmdIndex.lookup name ∧
      command.args.length = args.length ∧
      (∀ p ∈ command.args, p.type ≠ CommandType.X ∧ p.type ≠ CommandType.A) ∧
      List.Forall₂ (fun p a => ∃ t, getTypeFromCommandType p.type = some t ∧
        isTypeConvertible (Expression.getType a) t = true) command.args args := by
  obtain ⟨command, hsel, hcallee, _⟩ :=
    commandCall_resolved env name es st st1 st2 args call hS hargs hne hcall
  have hmem := (selectOverload_ok env.sort hS env.cmdIndex name args hne command hsel).1
  obtain ⟨hlook, hlen, hacc⟩ := (mem_filterCandidates _ _ _).mp hmem
  obtain ⟨hmark, hconv⟩ := forall₂_parameterAccepts_split _ _ hacc
  exact ⟨command, hcallee, hlook, hlen, hmark, hconv⟩

/-- C5: in a command call with at least one argument that resolves, the emitted
call has as many arguments as there are actuals, each emitted argument has
exactly the Type of the corresponding parameter of the selected overload, and
the casts leave the converter state, the error flag included, as it was after
the conversion of the arguments. -/
theorem emitted_arguments_match_parameters (env : Env) (name : String)
    (es : List ast.Expression) (st st1 st2 : ConvState) (args : List Expression)
    (call : FunctionCallExpression) (hS : StdSort env.sort)
    (hargs : convertExpressionList env es st = .ok (args, st1)) (hne : args ≠ [])
    (hcall : convertCommandCallExpression env name (some es) st = .ok (call, st2)) :
    call.args.length = args.length ∧
      (∃ command, call.callee = .command command ∧
        List.Forall₂ (fun a p => getTypeFromCommandType p.type = some (Expression.getType a))
          call.args command.args) ∧
      st2 = st1 ∧ st2.errorOccurred = st1.errorOccurred := by
  obtain ⟨command, _, hcallee, hst, hlen, hall, _⟩ :=
    commandCall_resolved env name es st st1 st2 args call hS hargs hne hcall
  exact ⟨hlen, ⟨command, hcallee, hall⟩, hst, by rw [hst]⟩

/-- Witness of C2: `foo` applied to a Word literal over `foo(Integer)`,
`foo(Long)`. -/
theorem selected_score_is_highest_witness :
    StdSort examples.integerThenLongEnv.sort ∧
    convertExpressionList examples.integerThenLongEnv examples.wordArgument
      examples.emptyState = .ok (examples.wordActual, examples.emptyState) ∧
    examples.wordActual ≠ [] ∧
    convertCommandCallExpression examples.integerThenLongEnv "foo"
      (some examples.wordArgument) examples.emptyState =
      .ok (examples.fooLongCall, examples.emptyState) ∧
    ∃ command, examples.fooLongCall.callee = .command command ∧
      ∀ other ∈ examples.integerThenLongEnv.cmdIndex.lookup "foo",
        PassesFilters examples.wordActual other →
        specScore examples.wordActual other ≤ specScore examples.wordActual command :=
  ⟨insertionSort_stdSort, rfl, List.cons_ne_nil _ _, rfl,
    selected_score_is_highest examples.integerThenLongEnv "foo" examples.wordArgument
      examples.emptyState examples.emptyState examples.emptyState examples.wordActual
      examples.fooLongCall insertionSort_stdSort rfl (List.cons_ne_nil _ _) rfl⟩

/-- Witness of C3: `foo` applied to a Word literal over `foo(Integer)`,
`foo(Long)`. -/
theorem selected_overload_passes_filters_witness :
    StdSort examples.integerThenLongEnv.sort ∧
    convertExpressionList examples.integerThenLongEnv examples.wordArgument
      examples.emptyState = .ok (examples.wordActual, examples.emptyState) ∧
    examples.wordActual ≠ [] ∧
    convertCommandCallExpression examples.integerThenLongEnv "foo"
      (some examples.wordArgument) examples.emptyState =
      .ok (examples.fooLongCall, examples.emptyState) ∧
    ∃ command, examples.fooLongCall.callee = .command command ∧
      command ∈ examples.integerThenLongEnv.cmdIndex.lookup "foo" ∧
      command.args.length = examples.wordActual.length ∧
      (∀ p ∈ command.args, p.type ≠ CommandType.X ∧ p.type ≠ CommandType.A) ∧
      List.Forall₂ (fun p a => ∃ t, getTypeFromCommandType p.type = some t ∧
        isTypeConvertible (Expression.getType a) t = true) command.args examples.wordActual :=
  ⟨insertionSort_stdSort, rfl, List.cons_ne_nil _ _, rfl,
    selected_overload_passes_filters examples.integerThenLongEnv "foo" examples.wordArgument
      examples.emptyState examples.emptyState examples.emptyState examples.wordActual
      examples.fooLongCall insertionSort_stdSort rfl (List.cons_ne_nil _ _) rfl⟩

/-- Witness of C5: `foo` applied to a Word literal over `foo(Integer)`,
`foo(Long)`. -/
theorem emitted_arguments_match_parameters_witness :
    StdSort examples.integerThenLongEnv.sort ∧
    convertExpressionList examples.integerThenLongEnv examples.wordArgument
      examples.emptyState = .ok (examples.wordActual, examples.emptyState) ∧
    examples.wordActual ≠ [] ∧
    convertCommandCallExpression examples.integerThenLongEnv "foo"
      (some examples.wordArgument) examples.emptyState =
      .ok (examples.fooLongCall, examples.emptyState) ∧
    examples.fooLongCall.args.length = examples.wordActual.length ∧
      (∃ command, examples.fooLongCall.callee = .command command ∧
        List.Forall₂ (fun a p => getTypeFromCommandType p.type = some (Expression.getType a))
          examples.fooLongCall.args command.args) ∧
      examples.emptyState = examples.emptyState ∧
      examples.emptyState.errorOccurred = examples.emptyState.errorOccurred :=
  ⟨insertionSort_stdSort, rfl, List.cons_ne_nil _ _, rfl,
    emitted_arguments_match_parameters examples.integerThenLongEnv "foo"
      examples.wordArgument examples.emptyState examples.emptyState examples.emptyState
      examples.wordActual examples.fooLongCall insertionSort_stdSort rfl
      (List.cons_ne_nil _ _) rfl⟩

/-! ## Exact matches -/

theorem scoreArgument_le (o a : IRType) :
    scoreArgument o a ≤ 10 ∧ (scoreArgument o a = 10 ↔ o = a) := by
  rw [scoreArgument_eq_spec]
  unfold specArgumentScore
  by_cases h : o = a
  · simp [h]
  · by_cases h2 : sameArchetype o a = true <;> simp [h, h2]

theorem scoreArguments_le (ps : List Arg) (as : List Expression)
    (hlen : ps.length = as.length) :
    scoreArguments ps as ≤ 10 * as.length ∧
      (scoreArguments ps as = 10 * as.length ↔
        List.Forall₂ (fun p a => getTypeFromCommandType p.type = some (Expression.getType a))
          ps as) := by
  induction ps generalizing as with
  | nil =>
    cases as with
    | nil => simp [scoreArguments]
    | cons a as => simp at hlen
  | cons p ps ih =>
    cases as with
    | nil => simp at hlen
    | cons a as =>
      have hlen2 : ps.length = as.length := by simpa using hlen
      obtain ⟨hle, hiff⟩ := ih as hlen2
      have hl : (a :: as).length = as.length + 1 := rfl
      rw [scoreArguments, List.forall₂_cons, ← hiff, hl]
      cases hty : getTypeFromCommandType p.type with
      | none =>
        have hfalse : ¬ (none : Option IRType) = some a.getType := by simp
        refine ⟨?_, ?_, ?_⟩
        · show 0 + scoreArguments ps as ≤ _
          omega
        · intro h
          exfalso
          change 0 + scoreArguments ps as = _ at h
          omega
        · intro h
          exact absurd h.1 hfalse
      | some t =>
        obtain ⟨hle1, hiff1⟩ := scoreArgument_le t a.getType
        simp only [Option.some.injEq, ← hiff1]
        constructor
        · omega
        · omega

theorem exactMatch_passesFilters (args : List Expression) (c : Command)
    (h : ExactMatch args c) : PassesFilters args c := by
  refine ⟨h.length_eq, ?_⟩
  unfold ExactMatch at h
  generalize c.args = ps at h ⊢
  induction h with
  | nil => exact List.Forall₂.nil
  | @cons p a ps as hpa _ ih =>
    refine List.Forall₂.cons ⟨?_, ?_, a.getType, hpa, isTypeConvertible_self _⟩ ih
    · intro hX
      rw [hX] at hpa
      simp [getTypeFromCommandType] at hpa
    · intro hA
      rw [hA] at hpa
      simp [getTypeFromCommandType] at hpa

theorem selectOverload_exact (sort : Sorter) (hS : StdSort sort) (idx : CommandIndex)
    (name : String) (args : List Expression) (hne : args ≠ [])
    (o : Command) (ho : o ∈ idx.lookup name) (hexact : ExactMatch args o) :
    ∃ command, selectOverload sort idx name args = .ok command ∧
      command ∈ idx.lookup name ∧ ExactMatch args command := by
  have hpass := exactMatch_passesFilters args o hexact
  have hmem : o ∈ filterCandidates args (idx.lookup name) :=
    (mem_filterCandidates _ _ _).mpr ⟨ho, hpass⟩
  obtain ⟨command, hsel⟩ :=
    selectOverload_exists sort hS idx name args hne (List.ne_nil_of_mem hmem)
  obtain ⟨hcmem, hmax⟩ := selectOverload_ok sort hS idx name args hne command hsel
  obtain ⟨hclook, hclen, _⟩ := (mem_filterCandidates _ _ _).mp hcmem
  refine ⟨command, hsel, hclook, ?_⟩
  have h1 := hmax o hmem
  have h2 := (scoreArguments_le o.args args hpass.1).2.mpr hexact
  obtain ⟨h3, h4⟩ := scoreArguments_le command.args args hclen
  unfold scoreCandidate at h1
  exact h4.mp (by omega)

/-- C6: in a command call with at least one argument, when some overload of
the command has parameter Types equal to the Types of the actuals position by
position, the selected overload has such parameter Types too, and the call is
emitted with the converted actuals themselves as arguments, none wrapped in a
Cast (the call is emitted unless the return tag of the selected overload has
no Type). -/
theorem exact_overload_selected_without_casts (env : Env) (name : String)
    (es : List ast.Expression) (st st1 : ConvState) (args : List Expression)
    (hS : StdSort env.sort)
    (hargs : convertExpressionList env es st = .ok (args, st1)) (hne : args ≠ [])
    (o : Command) (ho : o ∈ env.cmdIndex.lookup name) (hexact : ExactMatch args o) :
    ∃ command, command ∈ env.cmdIndex.lookup name ∧ ExactMatch args command ∧
      convertCommandCallExpression env name (some es) st =
        match getTypeFromCommandType command.returnType with
        | none => .error .unknownCommandType
        | some returnType =>
          .ok ({ callee := .command command, args := args, returnType := returnType }, st1) := by
  obtain ⟨command, hsel, hlook, hex⟩ :=
    selectOverload_exact env.sort hS env.cmdIndex name args hne o ho hexact
  refine ⟨command, hlook, hex, ?_⟩
  rw [convertCommandCallExpression_some, hargs]
  simp only [resolveCommandCall, hsel, ensureArgumentTypes_of_exact command.args args st1 hex]

/-- Witness of C6: `foo` applied to a DoubleInteger literal over `foo(Integer)`,
`foo(Long)`. -/
theorem exact_overload_selected_without_casts_witness :
    StdSort examples.integerThenLongEnv.sort ∧
    convertExpressionList examples.integerThenLongEnv examples.doubleIntegerArgument
      examples.emptyState = .ok (examples.doubleIntegerActual, examples.emptyState) ∧
    examples.doubleIntegerActual ≠ [] ∧
    examples.fooLong ∈ examples.integerThenLongEnv.cmdIndex.lookup "foo" ∧
    ExactMatch examples.doubleIntegerActual examples.fooLong ∧
    ∃ command, command ∈ examples.integerThenLongEnv.cmdIndex.lookup "foo" ∧
      ExactMatch examples.doubleIntegerActual command ∧
      convertCommandCallExpression examples.integerThenLongEnv "foo"
        (some examples.doubleIntegerArgument) examples.emptyState =
        match getTypeFromCommandType command.returnType with
        | none => .error .unknownCommandType
        | some returnType =>
          .ok ({ callee := .command command, args := examples.doubleIntegerActual,
                 returnType := returnType }, examples.emptyState) :=
  ⟨insertionSort_stdSort, rfl, List.cons_ne_nil _ _, by decide,
    List.Forall₂.cons rfl List.Forall₂.nil,
    exact_overload_selected_without_casts examples.integerThenLongEnv "foo"
      examples.doubleIntegerArgument examples.emptyState examples.emptyState
      examples.doubleIntegerActual insertionSort_stdSort rfl (List.cons_ne_nil _ _)
      examples.fooLong (by decide) (List.Forall₂.cons rfl List.Forall₂.nil)⟩

/-! ## Failure of the resolution -/

/-- C9: in a command call with at least one argument, when none of the
overloads of the command passes the arity, marker and convertibility filters,
the conversion ends in a fatal error and produces no call node, so the first
overload of the lookup is not used as a fallback; the error is that of no
matching overload whenever the command has an overload at all. -/
theorem no_candidate_is_fatal (env : Env) (name : String)
    (es : List ast.Expression) (st st1 : ConvState) (args : List Expression)
    (hargs : convertExpressionList env es st = .ok (args, st1)) (hne : args ≠ [])
    (hall : ∀ c ∈ env.cmdIndex.lookup name, ¬ PassesFilters args c) :
    (∃ e, convertCommandCallExpression env name (some es) st = .error e) ∧
    (env.cmdIndex.lookup name ≠ [] →
      convertCommandCallExpression env name (some es) st =
        .error (.noMatchingOverload name)) := by
  have hfilt : filterCandidates args (env.cmdIndex.lookup name) = [] := by
    rw [List.eq_nil_iff_forall_not_mem]
    intro c hc
    obtain ⟨h1, h2⟩ := (mem_filterCandidates _ _ _).mp hc
    exact hall c h1 h2
  have hsome : env.cmdIndex.lookup name ≠ [] →
      convertCommandCallExpression env name (some es) st =
        .error (.noMatchingOverload name) := by
    intro hlook
    rw [convertCommandCallExpression_some, hargs]
    simp only [resolveCommandCall,
      selectOverload_noMatch env.sort env.cmdIndex name args hne hlook hfilt]
  refine ⟨?_, hsome⟩
  by_cases hlook : env.cmdIndex.lookup name = []
  · refine ⟨.emptyCandidates, ?_⟩
    rw [convertCommandCallExpression_some, hargs]
    simp only [resolveCommandCall, selectOverload, hlook]
  · exact ⟨_, hsome hlook⟩

/-- Witness of C9: `foo` applied to a string literal over `foo(Integer)`,
`foo(Long)`. -/
theorem no_candidate_is_fatal_witness :
    convertExpressionList examples.integerThenLongEnv examples.stringArgument
      examples.emptyState = .ok (examples.stringActual, examples.emptyState) ∧
    examples.stringActual ≠ [] ∧
    (∀ c ∈ examples.integerThenLongEnv.cmdIndex.lookup "foo",
      ¬ PassesFilters examples.stringActual c) ∧
    examples.integerThenLongEnv.cmdIndex.lookup "foo" ≠ [] ∧
    convertCommandCallExpression examples.integerThenLongEnv "foo"
      (some examples.stringArgument) examples.emptyState =
      .error (.noMatchingOverload "foo") :=
  have hnone : ∀ c ∈ examples.integerThenLongEnv.cmdIndex.lookup "foo",
      ¬ PassesFilters examples.stringActual c := fun c hc hp =>
    have hmem := (mem_filterCandidates examples.stringActual _ c).mpr ⟨hc, hp⟩
    have hnil : filterCandidates examples.stringActual
        (examples.integerThenLongEnv.cmdIndex.lookup "foo") = [] := by decide
    absurd (hnil ▸ hmem) (List.not_mem_nil c)
  ⟨rfl, List.cons_ne_nil _ _, hnone, by decide,
    (no_candidate_is_fatal examples.integerThenLongEnv "foo" examples.stringArgument
      examples.emptyState examples.emptyState examples.stringActual rfl
      (List.cons_ne_nil _ _) hnone).2 (by decide)⟩

/-! ## Preference by archetype -/

theorem isTypeConvertible_of_sameArchetype (s t : IRType) (h : sameArchetype s t = true) :
    isTypeConvertible t s = true := by
  unfold sameArchetype isBuiltinIntegral isBuiltinFloatingPoint at h
  unfold isTypeConvertible
  cases s <;> cases t <;> simp [IRType.getBuiltinType] at h ⊢
  rename_i b1 b2
  revert h
  cases b1 <;> cases b2 <;> simp [isIntegralType, isFloatingPointType]

theorem selectOverload_archetype (sort : Sorter) (hS : StdSort sort) (idx : CommandIndex)
    (name : String) (a : Expression)
    (hno : ∀ o ∈ idx.lookup name, ¬ ExactMatch [a] o)
    (o : Command) (ho : o ∈ idx.lookup name) (hshare : ParameterSharesArchetype a o) :
    ∃ command, selectOverload sort idx name [a] = .ok command ∧
      command ∈ idx.lookup name ∧ ParameterSharesArchetype a command := by
  obtain ⟨p, t, hp, ht, hsame⟩ := hshare
  have hpX : p.type ≠ CommandType.X := by
    intro hX; rw [hX] at ht; simp [getTypeFromCommandType] at ht
  have hpA : p.type ≠ CommandType.A := by
    intro hA; rw [hA] at ht; simp [getTypeFromCommandType] at ht
  have hpass : PassesFilters [a] o := by
    refine ⟨by rw [hp]; rfl, ?_⟩
    rw [hp]
    exact List.Forall₂.cons
      ⟨hpX, hpA, t, ht, isTypeConvertible_of_sameArchetype t a.getType hsame⟩ List.Forall₂.nil
  have hmem : o ∈ filterCandidates [a] (idx.lookup name) :=
    (mem_filterCandidates _ _ _).mpr ⟨ho, hpass⟩
  have hne : [a] ≠ [] := List.cons_ne_nil _ _
  obtain ⟨command, hsel⟩ :=
    selectOverload_exists sort hS idx name [a] hne (List.ne_nil_of_mem hmem)
  obtain ⟨hcmem, hmax⟩ := selectOverload_ok sort hS idx name [a] hne command hsel
  obtain ⟨hclook, hclen, hcacc⟩ := (mem_filterCandidates _ _ _).mp hcmem
  refine ⟨command, hsel, hclook, ?_⟩
  -- the score of `o` is one
  have hnot : t ≠ a.getType := by
    intro heq
    apply hno o ho
    unfold ExactMatch
    rw [hp]
    exact List.Forall₂.cons (by rw [ht, heq]) List.Forall₂.nil
  have hscore : scoreCandidate [a] o = 1 := by
    unfold scoreCandidate
    rw [hp]
    simp [scoreArguments, ht, scoreArgument_eq_spec, specArgumentScore, hnot, hsame]
  -- the selected overload has one parameter, with a Type
  cases hq : command.args with
  | nil => rw [hq] at hclen; simp at hclen
  | cons q qs =>
    cases qs with
    | cons q2 qs2 => rw [hq] at hclen; simp at hclen
    | nil =>
      rw [hq] at hcacc
      obtain ⟨_, _, tq, htq, _⟩ := List.forall₂_cons.mp hcacc |>.1
      refine ⟨q, tq, hq, htq, ?_⟩
      have hqnot : tq ≠ a.getType := by
        intro heq
        apply hno command hclook
        unfold ExactMatch
        rw [hq]
        exact List.Forall₂.cons (by rw [htq, heq]) List.Forall₂.nil
      have h1 := hmax o hmem
      rw [hscore] at h1
      unfold scoreCandidate at h1
      rw [hq] at h1
      by_contra hns
      simp [scoreArguments, htq, scoreArgument_eq_spec, specArgumentScore, hqnot, hns] at h1

theorem selectOverload_pair (sort : Sorter) (hS : StdSort sort) (idx : CommandIndex)
    (name : String) (a : Expression) (good bad : Command)
    (hlook : ∀ c, c ∈ idx.lookup name → c = good ∨ c = bad)
    (hmem : good ∈ idx.lookup name)
    (hnoGood : ¬ ExactMatch [a] good) (hnoBad : ¬ ExactMatch [a] bad)
    (hgood : ParameterSharesArchetype a good) (hbad : ¬ ParameterSharesArchetype a bad) :
    selectOverload sort idx name [a] = .ok good := by
  have hno : ∀ o ∈ idx.lookup name, ¬ ExactMatch [a] o := by
    intro o ho
    rcases hlook o ho with rfl | rfl
    · exact hnoGood
    · exact hnoBad
  obtain ⟨command, hsel, hcmem, hshare⟩ :=
    selectOverload_archetype sort hS idx name a hno good hmem hgood
  rcases hlook command hcmem with rfl | rfl
  · exact hsel
  · exact absurd hshare hbad

theorem exactMatch_single (a : Expression) (c : Command) (p : Arg) (hc : c.args = [p]) :
    ExactMatch [a] c ↔ getTypeFromCommandType p.type = some a.getType := by
  unfold ExactMatch
  rw [hc]
  simp

theorem parameterSharesArchetype_single (a : Expression) (c : Command) (p : Arg) (t : IRType)
    (hc : c.args = [p]) (ht : getTypeFromCommandType p.type = some t) :
    ParameterSharesArchetype a c ↔ sameArchetype t a.getType = true := by
  unfold ParameterSharesArchetype
  constructor
  · rintro ⟨q, u, hq, hu, hs⟩
    rw [hc] at hq
    have hpq : p = q := by simpa using hq
    subst hpq
    rw [ht] at hu
    have htu : t = u := by simpa using hu
    subst htu
    exact hs
  · intro hs
    exact ⟨p, t, hc, ht, hs⟩

/-- C7: in a one-argument command call where no overload has exactly the Type of
the actual as its parameter Type, whenever some overload has a parameter
sharing the archetype of the actual, the selected overload is one of those; in
particular, over the two overloads `foo(Integer)` and `foo(Double)`, added in
either order, an actual of Type DoubleInteger selects the Integer overload and
an actual of Type Float selects the Double overload. -/
theorem archetype_overload_preferred (sort : Sorter) (hS : StdSort sort) :
    (∀ (idx : CommandIndex) (name : String) (a : Expression),
      (∀ o ∈ idx.lookup name, ¬ ExactMatch [a] o) →
      (∃ o ∈ idx.lookup name, ParameterSharesArchetype a o) →
      ∃ command, selectOverload sort idx name [a] = .ok command ∧
        command ∈ idx.lookup name ∧ ParameterSharesArchetype a command) ∧
    (∀ a : Expression, a.getType = .builtin .DoubleInteger →
      selectOverload sort examples.integerThenDouble "foo" [a] = .ok examples.fooInteger ∧
      selectOverload sort examples.doubleThenInteger "foo" [a] = .ok examples.fooInteger) ∧
    (∀ a : Expression, a.getType = .builtin .Float →
      selectOverload sort examples.integerThenDouble "foo" [a] = .ok examples.fooDouble ∧
      selectOverload sort examples.doubleThenInteger "foo" [a] = .ok examples.fooDouble) := by
  refine ⟨?_, ?_, ?_⟩
  · rintro idx name a hno ⟨o, ho, hshare⟩
    exact selectOverload_archetype sort hS idx name a hno o ho hshare
  · intro a ha
    have hI : ¬ ExactMatch [a] examples.fooInteger := by
      rw [exactMatch_single a _ ⟨.Integer⟩ rfl, ha]; decide
    have hD : ¬ ExactMatch [a] examples.fooDouble := by
      rw [exactMatch_single a _ ⟨.Double⟩ rfl, ha]; decide
    have hgood : ParameterSharesArchetype a examples.fooInteger := by
      rw [parameterSharesArchetype_single a _ ⟨.Integer⟩ _ rfl rfl, ha]; decide
    have hbad : ¬ ParameterSharesArchetype a examples.fooDouble := by
      rw [parameterSharesArchetype_single a _ ⟨.Double⟩ _ rfl rfl, ha]; decide
    constructor
    · refine selectOverload_pair sort hS _ "foo" a _ _ ?_ (by decide) hI hD hgood hbad
      intro c hc
      have hl : examples.integerThenDouble.lookup "foo" =
          [examples.fooInteger, examples.fooDouble] := by decide
      rw [hl] at hc
      simpa using hc
    · refine selectOverload_pair sort hS _ "foo" a _ _ ?_ (by decide) hI hD hgood hbad
      intro c hc
      have hl : examples.doubleThenInteger.lookup "foo" =
          [examples.fooDouble, examples.fooInteger] := by decide
      rw [hl] at hc
      have := List.mem_pair.mp hc
      exact this.symm
  · intro a ha
    have hI : ¬ ExactMatch [a] examples.fooInteger := by
      rw [exactMatch_single a _ ⟨.Integer⟩ rfl, ha]; decide
    have hD : ¬ ExactMatch [a] examples.fooDouble := by
      rw [exactMatch_single a _ ⟨.Double⟩ rfl, ha]; decide
    have hgood : ParameterSharesArchetype a examples.fooDouble := by
      rw [parameterSharesArchetype_single a _ ⟨.Double⟩ _ rfl rfl, ha]; decide
    have hbad : ¬ ParameterSharesArchetype a examples.fooInteger := by
      rw [parameterSharesArchetype_single a _ ⟨.Integer⟩ _ rfl rfl, ha]; decide
    constructor
    · refine selectOverload_pair sort hS _ "foo" a _ _ ?_ (by decide) hD hI hgood hbad
      intro c hc
      have hl : examples.integerThenDouble.lookup "foo" =
          [examples.fooInteger, examples.fooDouble] := by decide
      rw [hl] at hc
      have := List.mem_pair.mp hc
      exact this.symm
    · refine selectOverload_pair sort hS _ "foo" a _ _ ?_ (by decide) hD hI hgood hbad
      intro c hc
      have hl : examples.doubleThenInteger.lookup "foo" =
          [examples.fooDouble, examples.fooInteger] := by decide
      rw [hl] at hc
      simpa using hc

/-! ## The error flag is never reset -/

theorem ensureType_errorOccurred (e : Expression) (t : IRType) (st : ConvState)
    (h : st.errorOccurred = true) : (ensureType e t st).2.errorOccurred = true := by
  unfold ensureType
  split
  · exact h
  · split
    · exact h
    · rfl

theorem ensureArgumentTypes_errorOccurred (as : List Expression) (ps : List Arg)
    (st st2 : ConvState) (r : List Expression)
    (h : ensureArgumentTypes as ps st = .ok (r, st2))
    (herr : st.errorOccurred = true) : st2.errorOccurred = true := by
  induction as generalizing ps st st2 r with
  | nil =>
    rw [ensureArgumentTypes] at h
    simp only [Except.ok.injEq, Prod.mk.injEq] at h
    rw [← h.2]; exact herr
  | cons a as ih =>
    cases ps with
    | nil => rw [ensureArgumentTypes] at h; simp at h
    | cons p ps =>
      rw [ensureArgumentTypes] at h
      cases hty : getTypeFromCommandType p.type with
      | none => simp [hty] at h
      | some t =>
        simp only [hty] at h
        cases hrec : ensureArgumentTypes as ps (ensureType a t st).2 with
        | error e => simp [hrec] at h
        | ok v =>
          obtain ⟨rest, st3⟩ := v
          simp only [hrec, Except.ok.injEq, Prod.mk.injEq] at h
          rw [← h.2]
          exact ih ps _ st3 rest hrec (ensureType_errorOccurred a t st herr)

theorem resolveCommandCall_errorOccurred (sort : Sorter) (idx : CommandIndex) (name : String)
    (args : List Expression) (st st2 : ConvState) (call : FunctionCallExpression)
    (h : resolveCommandCall sort idx name args st = .ok (call, st2))
    (herr : st.errorOccurred = true) : st2.errorOccurred = true := by
  unfold resolveCommandCall at h
  cases hsel : selectOverload sort idx name args with
  | error e => simp [hsel] at h
  | ok command =>
    simp only [hsel] at h
    cases hens : ensureArgumentTypes args command.args st with
    | error e => simp [hens] at h
    | ok v =>
      obtain ⟨as2, st3⟩ := v
      simp only [hens] at h
      cases hret : getTypeFromCommandType command.returnType with
      | none => simp [hret] at h
      | some rt =>
        simp only [hret, Except.ok.injEq, Prod.mk.injEq] at h
        rw [← h.2]
        exact ensureArgumentTypes_errorOccurred args command.args st st3 as2 hens herr

mutual

theorem convertExpression_errorOccurred (env : Env) :
    ∀ (e : ast.Expression) (st st2 : ConvState) (r : Expression),
      convertExpression env e st = .ok (r, st2) →
      st.errorOccurred = true → st2.errorOccurred = true
  | .UnaryOp op expr, st, st2, r, h, herr => by
    rw [convertExpression] at h
    cases hc : convertExpression env expr st with
    | error e => simp [hc] at h
    | ok v =>
      obtain ⟨inner, st1⟩ := v
      simp only [hc, Except.ok.injEq, Prod.mk.injEq] at h
      rw [← h.2]
      exact convertExpression_errorOccurred env expr st st1 inner hc herr
  | .BinaryOp op l r0, st, st2, r, h, herr => by
    rw [convertExpression] at h
    cases hl : convertExpression env l st with
    | error e => simp [hl] at h
    | ok v =>
      obtain ⟨lhs, st1⟩ := v
      simp only [hl] at h
      cases hr : convertExpression env r0 st1 with
      | error e => simp [hr] at h
      | ok w =>
        obtain ⟨rhs, st3⟩ := w
        simp only [hr, Except.ok.injEq, Prod.mk.injEq] at h
        rw [← h.2]
        apply ensureType_errorOccurred
        apply ensureType_errorOccurred
        exact convertExpression_errorOccurred env r0 st1 st3 rhs hr
          (convertExpression_errorOccurred env l st st1 lhs hl herr)
  | .VarRef name ann, st, st2, r, h, herr => by
    rw [convertExpression] at h
    simp only [Except.ok.injEq, Prod.mk.injEq] at h
    rw [← h.2]
    unfold resolveVariableRef
    split
    · exact herr
    · exact herr
  | .Literal value, st, st2, r, h, herr => by
    rw [convertExpression] at h
    simp only [Except.ok.injEq, Prod.mk.injEq] at h
    rw [← h.2]; exact herr
  | .CommandExprSymbol command args, st, st2, r, h, herr => by
    rw [convertExpression] at h
    cases hc : convertCommandCallExpression env command args st with
    | error e => simp [hc] at h
    | ok v =>
      obtain ⟨call, st1⟩ := v
      simp only [hc, Except.ok.injEq, Prod.mk.injEq] at h
      rw [← h.2]
      exact convertCommandCallExpression_errorOccurred env command args st st1 call hc herr
  | .FuncCallExpr symbol args, st, st2, r, h, herr => by
    rw [convertExpression] at h
    cases hc : convertFunctionCallExpression env symbol args st with
    | error e => simp [hc] at h
    | ok v =>
      obtain ⟨call, st1⟩ := v
      simp only [hc, Except.ok.injEq, Prod.mk.injEq] at h
      rw [← h.2]
      exact convertFunctionCallExpression_errorOccurred env symbol args st st1 call hc herr
  | .Other, st, st2, r, h, herr => by
    rw [convertExpression] at h
    simp at h

theorem convertExpressionList_errorOccurred (env : Env) :
    ∀ (es : List ast.Expression) (st st2 : ConvState) (r : List Expression),
      convertExpressionList env es st = .ok (r, st2) →
      st.errorOccurred = true → st2.errorOccurred = true
  | [], st, st2, r, h, herr => by
    rw [convertExpressionList] at h
    simp only [Except.ok.injEq, Prod.mk.injEq] at h
    rw [← h.2]; exact herr
  | e :: es, st, st2, r, h, herr => by
    rw [convertExpressionList] at h
    cases hc : convertExpression env e st with
    | error x => simp [hc] at h
    | ok v =>
      obtain ⟨e1, st1⟩ := v
      simp only [hc] at h
      cases hr : convertExpressionList env es st1 with
      | error x => simp [hr] at h
      | ok w =>
        obtain ⟨rest, st3⟩ := w
        simp only [hr, Except.ok.injEq, Prod.mk.injEq] at h
        rw [← h.2]
        exact convertExpressionList_errorOccurred env es st1 st3 rest hr
          (convertExpression_errorOccurred env e st st1 e1 hc herr)

theorem convertCommandCallExpression_errorOccurred (env : Env) (name : String) :
    ∀ (astArgs : Option (List ast.Expression)) (st st2 : ConvState)
      (call : FunctionCallExpression),
      convertCommandCallExpression env name astArgs st = .ok (call, st2) →
      st.errorOccurred = true → st2.errorOccurred = true
  | none, st, st2, call, h, herr => by
    rw [convertCommandCallExpression] at h
    exact resolveCommandCall_errorOccurred _ _ _ _ _ _ _ h herr
  | some es, st, st2, call, h, herr => by
    rw [convertCommandCallExpression] at h
    cases hc : convertExpressionList env es st with
    | error x => simp [hc] at h
    | ok v =>
      obtain ⟨args, st1⟩ := v
      simp only [hc] at h
      exact resolveCommandCall_errorOccurred _ _ _ _ _ _ _ h
        (convertExpressionList_errorOccurred env es st st1 args hc herr)

theorem convertFunctionArguments_errorOccurred (env : Env) :
    ∀ (es : List ast.Expression) (ps : List Argument) (st st2 : ConvState)
      (r : List Expression),
      convertFunctionArguments env es ps st = .ok (r, st2) →
      st.errorOccurred = true → st2.errorOccurred = true
  | [], ps, st, st2, r, h, herr => by
    rw [convertFunctionArguments] at h
    simp only [Except.ok.injEq, Prod.mk.injEq] at h
    rw [← h.2]; exact herr
  | e :: es, [], st, st2, r, h, herr => by
    rw [convertFunctionArguments] at h
    simp at h
  | e :: es, p :: ps, st, st2, r, h, herr => by
    rw [convertFunctionArguments] at h
    cases hc : convertExpression env e st with
    | error x => simp [hc] at h
    | ok v =>
      obtain ⟨e1, st1⟩ := v
      simp only [hc] at h
      cases hr : convertFunctionArguments env es ps (ensureType e1 p.type st1).2 with
      | error x => simp [hr] at h
      | ok w =>
        obtain ⟨rest, st3⟩ := w
        simp only [hr, Except.ok.injEq, Prod.mk.injEq] at h
        rw [← h.2]
        exact convertFunctionArguments_errorOccurred env es ps _ st3 rest hr
          (ensureType_errorOccurred e1 p.type st1
            (convertExpression_errorOccurred env e st st1 e1 hc herr))

theorem convertFunctionCallExpression_errorOccurred (env : Env) (name : String) :
    ∀ (astArgs : Option (List ast.Expression)) (st st2 : ConvState)
      (call : FunctionCallExpression),
      convertFunctionCallExpression env name astArgs st = .ok (call, st2) →
      st.errorOccurred = true → st2.errorOccurred = true
  | none, st, st2, call, h, herr => by
    rw [convertFunctionCallExpression] at h
    cases hf : findFunction env name with
    | none => simp [hf] at h
    | some entry =>
      simp only [hf] at h
      split at h <;> simp at h
  | some es, st, st2, call, h, herr => by
    rw [convertFunctionCallExpression] at h
    cases hf : findFunction env name with
    | none => simp [hf] at h
    | some entry =>
      simp only [hf] at h
      split at h
      · simp at h
      · split at h
        · simp at h
        · cases hc : convertFunctionArguments env es entry.functionDefinition.arguments st with
          | error x => simp [hc] at h
          | ok v =>
            obtain ⟨args, st1⟩ := v
            simp only [hc, Except.ok.injEq, Prod.mk.injEq] at h
            rw [← h.2]
            exact convertFunctionArguments_errorOccurred env es _ st st1 args hc herr

end

/-! ## Call nodes and their callee -/

theorem ensureType_getType_of_no_error (e : Expression) (t : IRType) (st : ConvState)
    (h : (ensureType e t st).2.errorOccurred = false) : (ensureType e t st).1.getType = t := by
  unfold ensureType at h ⊢
  split
  · assumption
  · split
    · rfl
    · rename_i h1 h2
      simp [h1, h2, semanticError] at h

theorem convertFunctionArguments_types (env : Env) (es : List ast.Expression)
    (ps : List Argument) (st st2 : ConvState) (r : List Expression)
    (h : convertFunctionArguments env es ps st = .ok (r, st2))
    (hlen : ps.length = es.length) :
    r.length = es.length ∧
      (st2.errorOccurred = false →
        List.Forall₂ (fun a (p : Argument) => Expression.getType a = p.type) r ps) := by
  induction es generalizing ps st st2 r with
  | nil =>
    rw [convertFunctionArguments] at h
    simp only [Except.ok.injEq, Prod.mk.injEq] at h
    have hps : ps = [] := List.length_eq_zero.mp hlen
    rw [← h.1, hps]
    exact ⟨rfl, fun _ => List.Forall₂.nil⟩
  | cons e es ih =>
    cases ps with
    | nil => simp at hlen
    | cons p ps =>
      have hlen2 : ps.length = es.length := by simpa using hlen
      rw [convertFunctionArguments] at h
      cases hc : convertExpression env e st with
      | error x => simp [hc] at h
      | ok v =>
        obtain ⟨e1, st1⟩ := v
        simp only [hc] at h
        cases hr : convertFunctionArguments env es ps (ensureType e1 p.type st1).2 with
        | error x => simp [hr] at h
        | ok w =>
          obtain ⟨rest, st3⟩ := w
          simp only [hr, Except.ok.injEq, Prod.mk.injEq] at h
          obtain ⟨hlenr, hall⟩ := ih ps _ st3 rest hr hlen2
          rw [← h.1, ← h.2]
          refine ⟨by simp [hlenr], ?_⟩
          intro hok
          refine List.Forall₂.cons ?_ (hall hok)
          apply ensureType_getType_of_no_error
          cases hflag : (ensureType e1 p.type st1).2.errorOccurred with
          | false => rfl
          | true =>
            have := convertFunctionArguments_errorOccurred env es ps _ st3 rest hr hflag
            rw [hok] at this
            exact absurd this Bool.false_ne_true

theorem convertFunctionCallExpression_ok (env : Env) (name : String)
    (astArgs : Option (List ast.Expression)) (st st2 : ConvState)
    (call : FunctionCallExpression)
    (h : convertFunctionCallExpression env name astArgs st = .ok (call, st2)) :
    ∃ entry providedArgs, findFunction env name = some entry ∧ astArgs = some providedArgs ∧
      entry.functionDefinition.arguments.length = providedArgs.length ∧
      call.callee = .function entry.functionDefinition ∧
      convertFunctionArguments env providedArgs entry.functionDefinition.arguments st =
        .ok (call.args, st2) := by
  rw [convertFunctionCallExpression] at h
  cases hf : findFunction env name with
  | none => simp [hf] at h
  | some entry =>
    simp only [hf] at h
    split at h
    · simp at h
    · cases astArgs with
      | none => simp at h
      | some es =>
        simp only at h
        split at h
        · simp at h
        · rename_i hlen
          cases hc : convertFunctionArguments env es entry.functionDefinition.arguments st with
          | error x => simp [hc] at h
          | ok v =>
            obtain ⟨args, st1⟩ := v
            simp only [hc, Except.ok.injEq, Prod.mk.injEq] at h
            refine ⟨entry, es, rfl, rfl, ?_, ?_, ?_⟩
            · exact not_not.mp hlen
            · rw [← h.1]
            · rw [← h.1, ← h.2]
              exact hc

/-- C4 (counterexamples): the command `foo`, whose first overload takes one
Integer, called without arguments yields a node with that overload as callee
and no argument; the user function `f(a)` with an Integer parameter called
with a string literal yields a node whose argument still has Type String (and
the error flag is set). Neither node agrees with its callee. -/
theorem call_nodes_not_matching_callee :
    (convertCommandCallExpression examples.integerThenLongEnv "foo" none
        examples.emptyState = .ok (examples.fooWithoutArguments, examples.emptyState) ∧
      ¬ CallMatchesCallee examples.fooWithoutArguments) ∧
    (convertFunctionCallExpression examples.userFunctionEnv "f"
        (some examples.stringArgument) examples.emptyState =
        .ok (examples.callFWithString, examples.errorState) ∧
      ¬ CallMatchesCallee examples.callFWithString) := by
  refine ⟨⟨rfl, ?_⟩, ⟨rfl, ?_⟩⟩
  · intro h
    have := List.Forall₂.length_eq h
    simp [examples.fooWithoutArguments, examples.fooInteger] at this
  · intro h
    simp [CallMatchesCallee, examples.callFWithString, examples.functionF,
      Expression.getType, Literal.kind] at h

/-- C4 (amended): a node produced for a command call with at least one actual
argument agrees with its callee in the number and in the Types of the
arguments; a node produced for a user-function call has as many arguments as
the function declares parameters, and each argument has the Type of its
parameter whenever no semantic error has been flagged by the end of the
call's conversion. -/
theorem call_nodes_match_callee (env : Env) (hS : StdSort env.sort) (name : String)
    (st st2 : ConvState) (call : FunctionCallExpression) :
    (∀ es args st1, convertExpressionList env es st = .ok (args, st1) → args ≠ [] →
      convertCommandCallExpression env name (some es) st = .ok (call, st2) →
      CallMatchesCallee call ∧ call.args.length = args.length) ∧
    (∀ astArgs, convertFunctionCallExpression env name astArgs st = .ok (call, st2) →
      (∃ f, call.callee = .function f ∧ call.args.length = f.arguments.length) ∧
      (st2.errorOccurred = false → CallMatchesCallee call)) := by
  constructor
  · intro es args st1 hargs hne hcall
    obtain ⟨command, _, hcallee, _, hlen, hall, _⟩ :=
      commandCall_resolved env name es st st1 st2 args call hS hargs hne hcall
    refine ⟨?_, hlen⟩
    unfold CallMatchesCallee
    rw [hcallee]
    exact hall
  · intro astArgs hcall
    obtain ⟨entry, providedArgs, _, _, hlen, hcallee, hconv⟩ :=
      convertFunctionCallExpression_ok env name astArgs st st2 call hcall
    obtain ⟨hlenr, hall⟩ :=
      convertFunctionArguments_types env providedArgs _ st st2 call.args hconv hlen
    refine ⟨⟨entry.functionDefinition, hcallee, by rw [hlenr, hlen]⟩, ?_⟩
    intro hok
    unfold CallMatchesCallee
    rw [hcallee]
    exact hall hok

/-- Witness of C4 (amended): `foo` applied to a Word literal, and `f` applied to
a Word literal. -/
theorem call_nodes_match_callee_witness :
    StdSort examples.userFunctionEnv.sort ∧
    CallMatchesCallee examples.fooLongCall ∧
    examples.fooLongCall.args.length = examples.wordActual.length ∧
    CallMatchesCallee examples.callFWithWord :=
  have h := call_nodes_match_callee examples.userFunctionEnv insertionSort_stdSort "foo"
    examples.emptyState examples.emptyState examples.fooLongCall
  have h2 := call_nodes_match_callee examples.userFunctionEnv insertionSort_stdSort "f"
    examples.emptyState examples.emptyState examples.callFWithWord
  have h3 := h.1 examples.wordArgument examples.wordActual examples.emptyState rfl
    (List.cons_ne_nil _ _) rfl
  ⟨insertionSort_stdSort, h3.1, h3.2, (h2.2 (some examples.wordArgument) rfl).2 rfl⟩

/-- Witness of C7: a DoubleInteger actual over `foo(Integer)`, `foo(Double)`
selects the Integer overload. -/
theorem archetype_overload_preferred_witness :
    StdSort insertionSort ∧
    selectOverload insertionSort examples.integerThenDouble "foo"
      examples.doubleIntegerActual = .ok examples.fooInteger :=
  ⟨insertionSort_stdSort,
    ((archetype_overload_preferred insertionSort insertionSort_stdSort).2.1
      (.literal (.DoubleInteger 1000000000000)) rfl).1⟩

/-! ## Candidates with equal scores -/

theorem getLast?_filter_of_getLast? {α : Type} (p : α → Bool) (l : List α) (m : α)
    (hl : l.getLast? = some m) (hp : p m = true) : (l.filter p).getLast? = some m := by
  obtain ⟨ys, rfl⟩ := List.getLast?_eq_some_iff.mp hl
  rw [List.filter_append, List.filter_cons, if_pos hp, List.filter_nil]
  simp

theorem filter_getLast?_split {α : Type} (p : α → Bool) (l : List α) (m : α)
    (h : (l.filter p).getLast? = some m) :
    ∃ pre post, l = pre ++ m :: post ∧ ∀ d ∈ post, p d = false := by
  induction l using List.reverseRecOn with
  | nil => simp at h
  | append_singleton l y ih =>
    rw [List.filter_append, List.filter_cons, List.filter_nil] at h
    by_cases hy : p y = true
    · rw [if_pos hy] at h
      have hym : y = m := by simpa using h
      subst hym
      exact ⟨l, [], rfl, by simp⟩
    · rw [if_neg hy, List.append_nil] at h
      obtain ⟨pre, post, heq, hpost⟩ := ih h
      refine ⟨pre, post ++ [y], by simp [heq], ?_⟩
      intro d hd
      rcases List.mem_append.mp hd with hd1 | hd1
      · exact hpost d hd1
      · rw [List.mem_singleton.mp hd1]
        simpa using hy

theorem getLast?_append_cons_cases {α : Type} (pre : List α) (c : α) (post : List α) (m : α)
    (h : (pre ++ c :: post).getLast? = some m) : m = c ∨ m ∈ post := by
  rw [List.getLast?_append_of_ne_nil _ (List.cons_ne_nil _ _)] at h
  cases post with
  | nil =>
    left
    simpa using h.symm
  | cons p ps =>
    right
    rw [List.getLast?_cons_cons] at h
    exact List.mem_of_getLast?_eq_some h

/-- When the sorting routine keeps the candidates of equal score in their
order, the last element of the sorted vector is the last of the candidates
that share the highest score. -/
theorem lastOfHighestScore_of_keepsTies (sort : Sorter) (args : List Expression)
    (candidates : List Command) (m : Command)
    (hk : KeepsTiesInOrder sort args candidates)
    (hlast : (sort (candidateRankFunction args) candidates).getLast? = some m) :
    LastOfHighestScore args candidates m := by
  obtain ⟨hperm, hsorted, hties⟩ := hk
  have hmS := List.mem_of_getLast?_eq_some hlast
  have hm : m ∈ candidates := hperm.mem_iff.mp hmS
  have htie := hties m hm
  have hfl := getLast?_filter_of_getLast?
    (fun d => decide (scoreCandidate args d = scoreCandidate args m)) _ m hlast (by simp)
  rw [htie] at hfl
  obtain ⟨pre, post, heq, hpost⟩ := filter_getLast?_split _ _ _ hfl
  have hmax : ∀ d ∈ candidates, scoreCandidate args d ≤ scoreCandidate args m := by
    intro d hd
    have hdS : d ∈ sort (candidateRankFunction args) candidates := hperm.mem_iff.mpr hd
    obtain ⟨ys, hys⟩ := List.getLast?_eq_some_iff.mp hlast
    rw [hys] at hsorted hdS
    rcases List.mem_append.mp hdS with hd1 | hd1
    · have := (List.pairwise_append.mp hsorted).2.2 d hd1 m (List.mem_singleton_self _)
      simp only [candidateRankFunction, decide_eq_false_iff_not] at this
      omega
    · rw [List.mem_singleton.mp hd1]
  refine ⟨pre, post, heq, ?_, ?_⟩
  · intro d hd
    rw [← scoreCandidate_eq_specScore, ← scoreCandidate_eq_specScore]
    exact hmax d (by rw [heq]; exact List.mem_append_left _ hd)
  · intro d hd
    rw [← scoreCandidate_eq_specScore, ← scoreCandidate_eq_specScore]
    have h1 := hmax d (by rw [heq]; exact List.mem_append_right _ (List.mem_cons_of_mem _ hd))
    have h2 := hpost d hd
    simp only [decide_eq_false_iff_not] at h2
    omega

/-- On at most sixteen candidates `std::sort` of the GNU C++ library keeps the
candidates of equal score in their order. -/
theorem libstdcxxSort_keepsTies (args : List Expression) (candidates : List Command)
    (h : candidates.length ≤ 16) : KeepsTiesInOrder libstdcxxSort args candidates := by
  obtain ⟨h1, h2, h3⟩ := libstdcxx.sort_short_stable (scoreCandidate args)
    (candidateRankFunction args) (fun _ _ => rfl) candidates h
  refine ⟨h1, ?_, fun c _ => h3 (scoreCandidate args c)⟩
  refine h2.imp ?_
  intro a b hab
  simp only [candidateRankFunction, decide_eq_false_iff_not]
  omega

theorem selectOverload_getLast? (sort : Sorter) (idx : CommandIndex) (name : String)
    (args : List Expression) (hne : args ≠ []) (command : Command)
    (hsel : selectOverload sort idx name args = .ok command) :
    (sort (candidateRankFunction args) (filterCandidates args (idx.lookup name))).getLast? =
      some command := by
  unfold selectOverload at hsel
  cases hlook : idx.lookup name with
  | nil => simp [hlook] at hsel
  | cons front rest =>
    simp only [hlook, isEmpty_eq_false_of_ne_nil args hne] at hsel
    cases hfilt : filterCandidates args (front :: rest) with
    | nil => simp [hfilt] at hsel
    | cons c cs =>
      simp only [hfilt] at hsel
      cases hlast : (sort (candidateRankFunction args) (c :: cs)).getLast? with
      | none => simp [hlast] at hsel
      | some m =>
        simp only [hlast, Bool.false_eq_true, if_false, Except.ok.injEq] at hsel
        rw [hsel]

set_option maxRecDepth 100000 in
/-- C8 (counterexample): over an index into which seventeen overloads of `foo`
with three integral parameters were inserted, a call with three actuals of Type
Word finds all seventeen overloads, all pass the filters and all have the score
3, so the seventeenth is the one inserted last among those with the highest
score; `std::sort` of the GNU C++ library, which sorts more than sixteen
elements by partitioning, leaves the second overload at the end of the vector,
and the second overload is selected. -/
theorem seventeen_ties_select_the_second_inserted :
    examples.seventeenIndex.lookup "foo" = examples.seventeenOverloads ∧
    filterCandidates examples.threeWords (examples.seventeenIndex.lookup "foo") =
      examples.seventeenOverloads ∧
    (∀ c ∈ examples.seventeenOverloads, specScore examples.threeWords c = 3) ∧
    LastOfHighestScore examples.threeWords
      (filterCandidates examples.threeWords (examples.seventeenIndex.lookup "foo"))
      (examples.fooOf .Long .Dword .Long) ∧
    libstdcxxSort (candidateRankFunction examples.threeWords) examples.seventeenOverloads =
      [8, 16, 15, 14, 13, 12, 11, 10, 9, 0, 7, 6, 5, 4, 3, 2, 1].filterMap
        (fun i => examples.seventeenOverloads[i]?) ∧
    selectOverload libstdcxxSort examples.seventeenIndex "foo" examples.threeWords =
      .ok (examples.fooOf .Integer .Integer .Long) ∧
    ¬ LastOfHighestScore examples.threeWords
      (filterCandidates examples.threeWords (examples.seventeenIndex.lookup "foo"))
      (examples.fooOf .Integer .Integer .Long) := by
  have hfilt : filterCandidates examples.threeWords (examples.seventeenIndex.lookup "foo") =
      examples.seventeenOverloads := rfl
  refine ⟨rfl, hfilt, by decide, ?_, rfl, rfl, ?_⟩
  · rw [hfilt]
    refine ⟨examples.seventeenOverloads.take 16, [], rfl, ?_, by simp⟩
    decide
  · rw [hfilt]
    rintro ⟨pre, post, heq, _, hpost⟩
    have hlast : (pre ++ examples.fooOf .Integer .Integer .Long :: post).getLast? =
        some (examples.fooOf .Long .Dword .Long) := by
      rw [← heq]
      rfl
    rcases getLast?_append_cons_cases _ _ _ _ hlast with h | h
    · revert h
      decide
    · have := hpost _ h
      revert this
      decide

/-- C8 (amended): in a command call with at least one argument, the selected
overload is one of the overloads that pass the filters and no such overload
scores higher, whatever the sorting routine does with candidates of equal
score; whenever the sorting routine keeps the candidates of equal score in
their order, the selected overload is the one inserted last among those
sharing the highest score; and `std::sort` of the GNU C++ library does so
when at most sixteen overloads pass the filters. -/
theorem tie_resolution (idx : CommandIndex) (name : String) (args : List Expression)
    (hne : args ≠ []) (command : Command) :
    (∀ sort, StdSort sort → selectOverload sort idx name args = .ok command →
      command ∈ idx.lookup name ∧ PassesFilters args command ∧
      ∀ other ∈ idx.lookup name, PassesFilters args other →
        specScore args other ≤ specScore args command) ∧
    (∀ sort, KeepsTiesInOrder sort args (filterCandidates args (idx.lookup name)) →
      selectOverload sort idx name args = .ok command →
      LastOfHighestScore args (filterCandidates args (idx.lookup name)) command) ∧
    ((filterCandidates args (idx.lookup name)).length ≤ 16 →
      selectOverload libstdcxxSort idx name args = .ok command →
      LastOfHighestScore args (filterCandidates args (idx.lookup name)) command) := by
  refine ⟨?_, ?_, ?_⟩
  · intro sort hS hsel
    obtain ⟨hmem, hmax⟩ := selectOverload_ok sort hS idx name args hne command hsel
    obtain ⟨hlook, hpass⟩ := (mem_filterCandidates _ _ _).mp hmem
    refine ⟨hlook, hpass, ?_⟩
    intro other ho hp
    rw [← scoreCandidate_eq_specScore, ← scoreCandidate_eq_specScore]
    exact hmax other ((mem_filterCandidates _ _ _).mpr ⟨ho, hp⟩)
  · intro sort hk hsel
    exact lastOfHighestScore_of_keepsTies sort args _ command hk
      (selectOverload_getLast? sort idx name args hne command hsel)
  · intro hlen hsel
    exact lastOfHighestScore_of_keepsTies libstdcxxSort args _ command
      (libstdcxxSort_keepsTies args _ hlen)
      (selectOverload_getLast? libstdcxxSort idx name args hne command hsel)

/-- Witness of C8 (amended): with `std::sort` of the GNU C++ library, a Word
actual over `foo(Integer)`, `foo(Long)` selects `foo(Long)`, and three Word
actuals over the first sixteen of the seventeen overloads select the
sixteenth. -/
theorem tie_resolution_witness :
    examples.wordActual ≠ [] ∧
    KeepsTiesInOrder libstdcxxSort examples.wordActual
      (filterCandidates examples.wordActual (examples.integerThenLong.lookup "foo")) ∧
    selectOverload libstdcxxSort examples.integerThenLong "foo" examples.wordActual =
      .ok examples.fooLong ∧
    LastOfHighestScore examples.wordActual
      (filterCandidates examples.wordActual (examples.integerThenLong.lookup "foo"))
      examples.fooLong ∧
    examples.threeWords ≠ [] ∧
    (filterCandidates examples.threeWords (examples.sixteenIndex.lookup "foo")).length ≤ 16 ∧
    selectOverload libstdcxxSort examples.sixteenIndex "foo" examples.threeWords =
      .ok (examples.fooOf .Long .Dword .Integer) ∧
    LastOfHighestScore examples.threeWords
      (filterCandidates examples.threeWords (examples.sixteenIndex.lookup "foo"))
      (examples.fooOf .Long .Dword .Integer) :=
  ⟨List.cons_ne_nil _ _, libstdcxxSort_keepsTies _ _ (by decide), rfl,
    (tie_resolution examples.integerThenLong "foo" examples.wordActual
      (List.cons_ne_nil _ _) examples.fooLong).2.1 libstdcxxSort
      (libstdcxxSort_keepsTies _ _ (by decide)) rfl,
    List.cons_ne_nil _ _, by decide, rfl,
    (tie_resolution examples.sixteenIndex "foo" examples.threeWords
      (List.cons_ne_nil _ _) (examples.fooOf .Long .Dword .Integer)).2.2 (by decide) rfl⟩

/-! ## Conflict detection -/

theorem compareArgs_eq_true (xs ys : List Arg) :
    (CommandIndex.compareArgs xs ys = true ∧ xs.length = ys.length) ↔
      xs.map (fun x => x.type) = ys.map (fun x => x.type) := by
  induction xs generalizing ys with
  | nil =>
    cases ys with
    | nil => simp [CommandIndex.compareArgs]
    | cons y ys => simp [CommandIndex.compareArgs]
  | cons x xs ih =>
    cases ys with
    | nil => simp [CommandIndex.compareArgs]
    | cons y ys =>
      rw [CommandIndex.compareArgs]
      by_cases h : x.type = y.type
      · simp only [h, ne_eq, not_true_eq_false, if_false, List.length_cons, List.map_cons,
          List.cons.injEq, true_and, Nat.add_right_cancel_iff]
        exact ih ys
      · simp [h]

theorem compare_eq_true (a b : Command) :
    CommandIndex.compare a b = true ↔
      a.args.map (fun x => x.type) = b.args.map (fun x => x.type) ∧
        a.returnType = b.returnType := by
  rw [← compareArgs_eq_true]
  unfold CommandIndex.compare
  by_cases h1 : CommandIndex.compareArgs a.args b.args = true
  · by_cases h2 : a.args.length = b.args.length
    · by_cases h3 : a.returnType = b.returnType <;> simp [h1, h2, h3]
    · simp [h1, h2]
  · simp [h1]

theorem mapFind_some (m : List (String × List Command)) (key : String)
    (overloads : List Command) (h : CommandIndex.mapFind m key = some overloads) :
    (key, overloads) ∈ m := by
  unfold CommandIndex.mapFind at h
  cases hf : m.find? (fun e => e.1 == key) with
  | none => simp [hf] at h
  | some e =>
    simp only [hf, Option.map_some', Option.some.injEq] at h
    have hmem := List.mem_of_find?_eq_some hf
    have hkey := List.find?_some hf
    have hk : e.1 = key := by simpa using hkey
    have : e = (key, overloads) := by
      cases e
      simp only [Prod.mk.injEq]
      exact ⟨hk, h⟩
    rw [← this]
    exact hmem

/-- Every report of the loop of `findConflicts` names a command of the
processed prefix and a later command that conflict with each other. -/
theorem findConflictsLoop_sound (m : List (String × List Command)) (pre rest : List Command)
    (hinv : ∀ e ∈ m, ∀ o ∈ e.2, e.1 = toLower o.dbSymbol ∧ o ∈ pre)
    (h : CommandIndex.findConflictsLoop m rest = true) :
    ∃ l1 a l2 b l3, pre ++ rest = l1 ++ a :: (l2 ++ b :: l3) ∧ Conflicting a b := by
  induction rest generalizing m pre with
  | nil => simp [CommandIndex.findConflictsLoop] at h
  | cons c rest ih =>
    rw [CommandIndex.findConflictsLoop] at h
    have happ : pre ++ c :: rest = (pre ++ [c]) ++ rest := by simp
    cases hfind : CommandIndex.mapFind m (toLower c.dbSymbol) with
    | none =>
      simp only [hfind] at h
      rw [happ]
      apply ih _ _ _ h
      intro e he o ho
      rcases List.mem_append.mp he with he1 | he1
      · obtain ⟨hk, hp⟩ := hinv e he1 o ho
        exact ⟨hk, List.mem_append_left _ hp⟩
      · have he2 : e = (toLower c.dbSymbol, [c]) := by simpa using he1
        subst he2
        have ho2 : o = c := by simpa using ho
        subst ho2
        exact ⟨rfl, by simp⟩
    | some overloads =>
      simp only [hfind] at h
      by_cases hany : overloads.any (fun overload => CommandIndex.compare c overload) = true
      · obtain ⟨o, ho, hcmp⟩ := List.any_eq_true.mp hany
        have hmem := mapFind_some m _ _ hfind
        obtain ⟨hk, hp⟩ := hinv _ hmem o ho
        obtain ⟨s, t, hst⟩ := List.append_of_mem hp
        obtain ⟨hargs, hret⟩ := (compare_eq_true c o).mp hcmp
        refine ⟨s, o, t, c, rest, ?_, ?_⟩
        · rw [hst]; simp
        · exact ⟨hk.symm, hargs.symm, hret.symm⟩
      · simp only [hany, if_false] at h
        rw [happ]
        apply ih _ _ _ h
        intro e he o ho
        obtain ⟨hk, hp⟩ := hinv e he o ho
        exact ⟨hk, List.mem_append_left _ hp⟩

/-- C11: whenever `findConflicts` reports a conflict on the index built from the
additions `cs`, two entries at distinct positions of `cs` have equal
lowercased names, argument type vectors of the same length that agree at
every position, and equal return types; so when any two entries with equal
lowercased names differ in arity, in some argument type or in the return
type, nothing is reported. -/
theorem findConflicts_reports_only_conflicts (cs : List Command) :
    (CommandIndex.findConflicts (CommandIndex.ofList cs) = true →
      ∃ l1 a l2 b l3, cs = l1 ++ a :: (l2 ++ b :: l3) ∧
        toLower a.dbSymbol = toLower b.dbSymbol ∧
        a.args.length = b.args.length ∧
        (∀ k (h1 : k < a.args.length) (h2 : k < b.args.length),
          (a.args.get ⟨k, h1⟩).type = (b.args.get ⟨k, h2⟩).type) ∧
        a.returnType = b.returnType) ∧
    ((∀ l1 a l2 b l3, cs = l1 ++ a :: (l2 ++ b :: l3) →
        toLower a.dbSymbol = toLower b.dbSymbol →
        a.args.length ≠ b.args.length ∨
        (∃ k, ∃ (h1 : k < a.args.length) (h2 : k < b.args.length),
          (a.args.get ⟨k, h1⟩).type ≠ (b.args.get ⟨k, h2⟩).type) ∨
        a.returnType ≠ b.returnType) →
      CommandIndex.findConflicts (CommandIndex.ofList cs) = false) := by
  have key : CommandIndex.findConflicts (CommandIndex.ofList cs) = true →
      ∃ l1 a l2 b l3, cs = l1 ++ a :: (l2 ++ b :: l3) ∧
        toLower a.dbSymbol = toLower b.dbSymbol ∧
        a.args.length = b.args.length ∧
        (∀ k (h1 : k < a.args.length) (h2 : k < b.args.length),
          (a.args.get ⟨k, h1⟩).type = (b.args.get ⟨k, h2⟩).type) ∧
        a.returnType = b.returnType := by
    intro h
    unfold CommandIndex.findConflicts at h
    rw [ofList_commands] at h
    obtain ⟨l1, a, l2, b, l3, hcs, hname, hargs, hret⟩ :=
      findConflictsLoop_sound [] [] cs (by simp) h
    refine ⟨l1, a, l2, b, l3, by simpa using hcs, hname, ?_, ?_, hret⟩
    · simpa using congrArg List.length hargs
    · intro k h1 h2
      have h3 : (a.args.map (fun x => x.type))[k]? = (b.args.map (fun x => x.type))[k]? := by
        rw [hargs]
      simpa [List.getElem?_map, List.getElem?_eq_getElem h1, List.getElem?_eq_getElem h2]
        using h3
  refine ⟨key, ?_⟩
  intro hdiff
  by_contra hne
  have htrue : CommandIndex.findConflicts (CommandIndex.ofList cs) = true := by
    simpa using hne
  obtain ⟨l1, a, l2, b, l3, hcs, hname, hlen, hall, hret⟩ := key htrue
  rcases hdiff l1 a l2 b l3 hcs hname with h | ⟨k, h1, h2, h⟩ | h
  · exact h hlen
  · exact h (hall k h1 h2)
  · exact h hret

/-- C13: after any sequence of `addCommand` calls `commands()` is the sequence
of the added overloads in the order of their addition and
`commandNamesAsList()` is the list of their display names in that order; one
more `addCommand` appends its overload at the end, whether or not an equal
overload is already there. -/
theorem commands_keep_insertion_order (cs : List Command) (c : Command) :
    (CommandIndex.ofList cs).commands = cs ∧
    (CommandIndex.ofList cs).commandNamesAsList = cs.map (fun x => x.dbSymbol) ∧
    ((CommandIndex.ofList cs).addCommand c).commands = cs ++ [c] ∧
    (CommandIndex.ofList (cs ++ [c])).commands = cs ++ [c] := by
  refine ⟨ofList_commands cs, ?_, ?_, ofList_commands _⟩
  · unfold CommandIndex.commandNamesAsList
    rw [ofList_commands]
  · unfold CommandIndex.commands CommandIndex.addCommand
    simp [ofList_commands]

/-- Witness of C11: the two declarations of `foo(Float)` are reported, the
overloads `foo(Integer)` and `foo(Float)` are not. -/
theorem findConflicts_reports_only_conflicts_witness :
    (CommandIndex.findConflicts
      (CommandIndex.ofList [examples.fooFloat, examples.fooFloatAgain]) = true ∧
    ∃ l1 a l2 b l3, [examples.fooFloat, examples.fooFloatAgain] = l1 ++ a :: (l2 ++ b :: l3) ∧
      toLower a.dbSymbol = toLower b.dbSymbol ∧
      a.args.length = b.args.length ∧
      (∀ k (h1 : k < a.args.length) (h2 : k < b.args.length),
        (a.args.get ⟨k, h1⟩).type = (b.args.get ⟨k, h2⟩).type) ∧
      a.returnType = b.returnType) ∧
    CommandIndex.findConflicts
      (CommandIndex.ofList [examples.fooInteger, examples.fooFloat]) = false :=
  ⟨⟨by decide,
    (findConflicts_reports_only_conflicts
      [examples.fooFloat, examples.fooFloatAgain]).1 (by decide)⟩,
    (findConflicts_reports_only_conflicts [examples.fooInteger, examples.fooFloat]).2 (by
      intro l1 a l2 b l3 hcs _
      have hab : a = examples.fooInteger ∧ b = examples.fooFloat := by
        match l1, l2, hcs with
        | [], [], h =>
          simp only [List.nil_append, List.cons.injEq] at h
          exact ⟨h.1.symm, h.2.1.symm⟩
        | [], _ :: l2, h =>
          simp only [List.nil_append, List.cons_append, List.cons.injEq] at h
          have := congrArg List.length h.2.2
          simp at this
          omega
        | [_], l2, h =>
          simp only [List.cons_append, List.nil_append, List.cons.injEq] at h
          have := congrArg List.length h.2.2
          simp at this
          omega
        | _ :: _ :: l1, l2, h =>
          simp only [List.cons_append, List.cons.injEq] at h
          have := congrArg List.length h.2.2
          simp at this
          omega
      obtain ⟨ha, hb⟩ := hab
      subst ha
      subst hb
      exact Or.inr (Or.inl ⟨0, by decide, by decide, by decide⟩))⟩

/-! ## Symmetry of the conflict detection -/

theorem conflicting_refl (a : Command) : Conflicting a a :=
  ⟨rfl, rfl, rfl⟩

theorem conflicting_symm {a b : Command} (h : Conflicting a b) : Conflicting b a :=
  ⟨h.1.symm, h.2.1.symm, h.2.2.symm⟩

theorem conflicting_trans {a b c : Command} (h1 : Conflicting a b) (h2 : Conflicting b c) :
    Conflicting a c :=
  ⟨h1.1.trans h2.1, h1.2.1.trans h2.2.1, h1.2.2.trans h2.2.2⟩

theorem compare_congr {a b c d : Command} (hab : Conflicting a b) (hcd : Conflicting c d) :
    CommandIndex.compare a c = CommandIndex.compare b d := by
  rw [Bool.eq_iff_iff, compare_eq_true, compare_eq_true, hab.2.1, hab.2.2, hcd.2.1, hcd.2.2]

/-- Two states of the local map of `findConflicts` that hold conflicting
commands under the same keys. -/
theorem mapFind_congr (m m2 : List (String × List Command)) (key : String)
    (hm : List.Forall₂ (fun e e2 => e.1 = e2.1 ∧ List.Forall₂ Conflicting e.2 e2.2) m m2) :
    (CommandIndex.mapFind m key = none ∧ CommandIndex.mapFind m2 key = none) ∨
    ∃ o o2, CommandIndex.mapFind m key = some o ∧ CommandIndex.mapFind m2 key = some o2 ∧
      List.Forall₂ Conflicting o o2 := by
  induction hm with
  | nil => left; exact ⟨rfl, rfl⟩
  | @cons e e2 m m2 he _ ih =>
    unfold CommandIndex.mapFind at ih ⊢
    by_cases hk : e.1 = key
    · right
      have hk2 : e2.1 = key := by rw [← he.1]; exact hk
      refine ⟨e.2, e2.2, ?_, ?_, he.2⟩
      · simp [List.find?_cons, hk]
      · simp [List.find?_cons, hk2]
    · have hk2 : ¬ e2.1 = key := by rw [← he.1]; exact hk
      simpa [List.find?_cons, hk, hk2] using ih

theorem any_compare_congr (c c2 : Command) (hc : Conflicting c c2) (o o2 : List Command)
    (ho : List.Forall₂ Conflicting o o2) :
    o.any (fun overload => CommandIndex.compare c overload) =
      o2.any (fun overload => CommandIndex.compare c2 overload) := by
  induction ho with
  | nil => rfl
  | @cons x x2 o o2 hx _ ih =>
    simp only [List.any_cons, ih, compare_congr hc hx]

theorem findConflictsLoop_congr (m m2 : List (String × List Command)) (l l2 : List Command)
    (hm : List.Forall₂ (fun e e2 => e.1 = e2.1 ∧ List.Forall₂ Conflicting e.2 e2.2) m m2)
    (hl : List.Forall₂ Conflicting l l2) :
    CommandIndex.findConflictsLoop m l = CommandIndex.findConflictsLoop m2 l2 := by
  induction hl generalizing m m2 with
  | nil => rfl
  | @cons c c2 l l2 hc _ ih =>
    rw [CommandIndex.findConflictsLoop, CommandIndex.findConflictsLoop, ← hc.1]
    rcases mapFind_congr m m2 (toLower c.dbSymbol) hm with ⟨h1, h2⟩ | ⟨o, o2, h1, h2, ho⟩
    · simp only [h1, h2]
      apply ih
      refine List.rel_append hm ?_
      exact List.Forall₂.cons ⟨rfl, List.Forall₂.cons hc List.Forall₂.nil⟩ List.Forall₂.nil
    · simp only [h1, h2, any_compare_congr c c2 hc o o2 ho]
      rw [ih m m2 hm]

theorem forall₂_conflicting_refl (l : List Command) : List.Forall₂ Conflicting l l := by
  induction l with
  | nil => exact List.Forall₂.nil
  | cons a l ih => exact List.Forall₂.cons (conflicting_refl a) ih

theorem forall₂_conflicting_set (l l2 : List Command) (i : Nat) (a b : Command)
    (hl : List.Forall₂ Conflicting l l2) (hi : l2[i]? = some a) (hab : Conflicting a b) :
    List.Forall₂ Conflicting l (l2.set i b) := by
  induction hl generalizing i with
  | nil => simp
  | @cons x y l l2 hxy _ ih =>
    cases i with
    | zero =>
      have hy : y = a := by simpa using hi
      subst hy
      simp only [List.set_cons_zero]
      exact List.Forall₂.cons (conflicting_trans hxy hab) (by assumption)
    | succ i =>
      simp only [List.set_cons_succ]
      exact List.Forall₂.cons hxy (ih i (by simpa using hi))

theorem forall₂_conflicting_swapPositions (l : List Command) (i j : Nat) (a b : Command)
    (hi : l[i]? = some a) (hj : l[j]? = some b) (hab : Conflicting a b) :
    List.Forall₂ Conflicting l (swapPositions l i j) := by
  unfold swapPositions
  simp only [hi, hj]
  have h1 := forall₂_conflicting_set l l i a b (forall₂_conflicting_refl l) hi hab
  by_cases hij : i = j
  · subst hij
    have hlt : i < l.length := (List.getElem?_eq_some_iff.mp hi).1
    have h2 : (l.set i b)[i]? = some b := by simp [List.getElem?_set_self, hlt]
    exact forall₂_conflicting_set l _ i b a h1 h2 (conflicting_symm hab)
  · have h2 : (l.set i b)[j]? = some b := by
      rw [List.getElem?_set_ne hij]; exact hj
    exact forall₂_conflicting_set l _ j b a h1 h2 (conflicting_symm hab)

/-- C12: when an index holds two overloads `a` and `b` that conflict with each
other, `findConflicts` gives the same result on the index and on the index
built with the positions of `a` and `b` exchanged; and it reports a conflict
both for `[a, b]` and for `[b, a]`. -/
theorem findConflicts_symmetric (l : List Command) (i j : Nat) (a b : Command)
    (hi : l[i]? = some a) (hj : l[j]? = some b) (hab : Conflicting a b) :
    CommandIndex.findConflicts (CommandIndex.ofList (swapPositions l i j)) =
      CommandIndex.findConflicts (CommandIndex.ofList l) ∧
    CommandIndex.findConflicts (CommandIndex.ofList [a, b]) = true ∧
    CommandIndex.findConflicts (CommandIndex.ofList [b, a]) = true := by
  have hpair : ∀ x y : Command, Conflicting x y →
      CommandIndex.findConflicts (CommandIndex.ofList [x, y]) = true := by
    intro x y hxy
    unfold CommandIndex.findConflicts
    rw [ofList_commands]
    have hcmp : CommandIndex.compare y x = true := (compare_eq_true y x).mpr
      ⟨hxy.2.1.symm, hxy.2.2.symm⟩
    simp [CommandIndex.findConflictsLoop, CommandIndex.mapFind, hxy.1, hcmp]
  refine ⟨?_, hpair a b hab, hpair b a (conflicting_symm hab)⟩
  unfold CommandIndex.findConflicts
  rw [ofList_commands, ofList_commands]
  exact (findConflictsLoop_congr [] [] l _ List.Forall₂.nil
    (forall₂_conflicting_swapPositions l i j a b hi hj hab)).symm

/-- Witness of C12: `foo(Integer)` followed by the two declarations of
`foo(Float)`, which are exchanged. -/
theorem findConflicts_symmetric_witness :
    [examples.fooInteger, examples.fooFloat, examples.fooFloatAgain][1]? =
      some examples.fooFloat ∧
    [examples.fooInteger, examples.fooFloat, examples.fooFloatAgain][2]? =
      some examples.fooFloatAgain ∧
    Conflicting examples.fooFloat examples.fooFloatAgain ∧
    CommandIndex.findConflicts (CommandIndex.ofList
      (swapPositions [examples.fooInteger, examples.fooFloat, examples.fooFloatAgain] 1 2)) =
      CommandIndex.findConflicts (CommandIndex.ofList
        [examples.fooInteger, examples.fooFloat, examples.fooFloatAgain]) ∧
    CommandIndex.findConflicts
      (CommandIndex.ofList [examples.fooFloat, examples.fooFloatAgain]) = true ∧
    CommandIndex.findConflicts
      (CommandIndex.ofList [examples.fooFloatAgain, examples.fooFloat]) = true :=
  ⟨rfl, rfl, ⟨rfl, rfl, rfl⟩,
    findConflicts_symmetric [examples.fooInteger, examples.fooFloat, examples.fooFloatAgain]
      1 2 examples.fooFloat examples.fooFloatAgain rfl rfl ⟨rfl, rfl, rfl⟩⟩

/-! ## Variable references -/

theorem scopeLookup_some (scope : List Variable) (name : String) ( annotation : Annotation)
    (v : Variable) (h : scopeLookup scope name annotation = some v) :
    v ∈ scope ∧ v.name = name ∧ v.annotation = annotation := by
  unfold scopeLookup at h
  have hmem := List.mem_of_find?_eq_some h
  have hp := List.find?_some h
  simp only [Bool.and_eq_true, beq_iff_eq] at hp
  exact ⟨hmem, hp.1, hp.2⟩

theorem getAnnotation_injective (a b : ast.Annotation) (h : getAnnotation a = getAnnotation b) :
    a = b := by
  cases a <;> cases b <;> simp [ getAnnotation] at h ⊢

theorem resolveVariableRef_fst (name : String) ( astAnnotation : ast.Annotation)
    (st : ConvState) :
    (resolveVariableRef name astAnnotation st).1.name = name ∧
      Variable.annotation (resolveVariableRef name astAnnotation st).1 = getAnnotation astAnnotation := by
  unfold resolveVariableRef
  cases h : scopeLookup st.scope name ( getAnnotation astAnnotation) with
  | none => exact ⟨rfl, rfl⟩
  | some v =>
    obtain ⟨_, h1, h2⟩ := scopeLookup_some _ _ _ _ h
    exact ⟨h1, h2⟩

/-- C14: `resolveVariableRef` on a reference whose (name, sigil) is not in the
scope returns a new Variable with that name and sigil, typed Integer for no
sigil, String for `$` and Float for `#`, and appends exactly this Variable to
the scope, where later lookups find it; on a reference whose (name, sigil) is
in the scope it returns the Variable found and leaves the state as it was;
references to one name with two different sigils never yield the same
Variable. -/
theorem resolveVariableRef_declares_once (name : String) ( astAnnotation : ast.Annotation)
    (st : ConvState) :
    (scopeLookup st.scope name ( getAnnotation astAnnotation) = none →
      (resolveVariableRef name astAnnotation st).1 =
        { name := name, annotation := getAnnotation astAnnotation,
          type := getTypeFromAnnotation ( getAnnotation astAnnotation) } ∧
      (resolveVariableRef name astAnnotation st).2.scope =
        st.scope ++ [(resolveVariableRef name astAnnotation st).1] ∧
      (resolveVariableRef name astAnnotation st).2.errorOccurred = st.errorOccurred ∧
      scopeLookup (resolveVariableRef name astAnnotation st).2.scope name
        ( getAnnotation astAnnotation) = some (resolveVariableRef name astAnnotation st).1) ∧
    (∀ v, scopeLookup st.scope name ( getAnnotation astAnnotation) = some v →
      resolveVariableRef name astAnnotation st = (v, st)) ∧
    ( getTypeFromAnnotation ( getAnnotation ast.Annotation.NONE) = .builtin .Integer ∧
      getTypeFromAnnotation ( getAnnotation ast.Annotation.STRING) = .builtin .String ∧
      getTypeFromAnnotation ( getAnnotation ast.Annotation.FLOAT) = .builtin .Float) ∧
    (∀ (other : ast.Annotation) (st2 : ConvState), other ≠ astAnnotation →
      (resolveVariableRef name other st2).1 ≠ (resolveVariableRef name astAnnotation st).1) := by
  refine ⟨?_, ?_, ⟨rfl, rfl, rfl⟩, ?_⟩
  · intro h
    have hr : resolveVariableRef name astAnnotation st =
        ({ name := name, annotation := getAnnotation astAnnotation,
           type := getTypeFromAnnotation ( getAnnotation astAnnotation) },
         { st with scope := st.scope ++
            [{ name := name, annotation := getAnnotation astAnnotation,
               type := getTypeFromAnnotation ( getAnnotation astAnnotation) }] }) := by
      unfold resolveVariableRef
      simp only [h]
    rw [hr]
    refine ⟨rfl, rfl, rfl, ?_⟩
    unfold scopeLookup at h ⊢
    rw [List.find?_append, h]
    simp
  · intro v h
    unfold resolveVariableRef
    simp only [h]
  · intro other st2 hne heq
    have h1 := (resolveVariableRef_fst name other st2).2
    have h2 := (resolveVariableRef_fst name astAnnotation st).2
    rw [heq, h2] at h1
    exact hne (getAnnotation_injective _ _ h1.symm)

/-- Witness of C14: the reference `a$` in an empty scope. -/
theorem resolveVariableRef_declares_once_witness :
    resolveVariableRef "a" ast.Annotation.STRING examples.emptyState =
      ({ name := "a", annotation := .String, type := .builtin .String },
       { scope := [{ name := "a", annotation := .String, type := .builtin .String }],
         errorOccurred := false }) ∧
    (resolveVariableRef "a" ast.Annotation.STRING
      (resolveVariableRef "a" ast.Annotation.STRING examples.emptyState).2) =
      ({ name := "a", annotation := .String, type := .builtin .String },
       (resolveVariableRef "a" ast.Annotation.STRING examples.emptyState).2) :=
  ⟨Prod.ext
      ((resolveVariableRef_declares_once "a" ast.Annotation.STRING examples.emptyState).1 rfl).1
      rfl,
    (resolveVariableRef_declares_once "a" ast.Annotation.STRING
      (resolveVariableRef "a" ast.Annotation.STRING examples.emptyState).2).2.1 _ rfl⟩

/-! ## Convertibility and `ensureType` -/

/-- C16: `isTypeConvertible s t` holds exactly when `s` equals `t`, or both are
builtin and each of the two kinds is integral or floating-point; the relation
is reflexive and symmetric, and String is convertible neither to nor from any
other Type. -/
theorem isTypeConvertible_iff (s t : IRType) :
    (isTypeConvertible s t = true ↔
      s = t ∨ ∃ bs bt, s = .builtin bs ∧ t = .builtin bt ∧
        (isIntegralType bs = true ∨ isFloatingPointType bs = true) ∧
        (isIntegralType bt = true ∨ isFloatingPointType bt = true)) ∧
    isTypeConvertible s s = true ∧
    isTypeConvertible s t = isTypeConvertible t s ∧
    (t ≠ .builtin .String →
      isTypeConvertible (.builtin .String) t = false ∧
      isTypeConvertible t (.builtin .String) = false) := by
  have hiff : ∀ s t : IRType, isTypeConvertible s t = true ↔
      s = t ∨ ∃ bs bt, s = .builtin bs ∧ t = .builtin bt ∧
        (isIntegralType bs = true ∨ isFloatingPointType bs = true) ∧
        (isIntegralType bt = true ∨ isFloatingPointType bt = true) := by
    intro s t
    unfold isTypeConvertible
    by_cases h : s = t
    · simp [h]
    · simp only [h, if_false, false_or]
      cases s <;> cases t <;> simp [IRType.getBuiltinType]
      rename_i b1 b2
      cases h1 : isIntegralType b1 <;> cases h2 : isIntegralType b2 <;>
        cases h3 : isFloatingPointType b1 <;> cases h4 : isFloatingPointType b2 <;> simp
  have hsymm : ∀ s t : IRType, isTypeConvertible s t = isTypeConvertible t s := by
    intro s t
    rw [Bool.eq_iff_iff, hiff, hiff]
    constructor
    · rintro (h | ⟨bs, bt, h1, h2, h3, h4⟩)
      · exact Or.inl h.symm
      · exact Or.inr ⟨bt, bs, h2, h1, h4, h3⟩
    · rintro (h | ⟨bs, bt, h1, h2, h3, h4⟩)
      · exact Or.inl h.symm
      · exact Or.inr ⟨bt, bs, h2, h1, h4, h3⟩
  have hstring : ∀ t : IRType, t ≠ .builtin .String →
      isTypeConvertible (.builtin .String) t = false := by
    intro t ht
    rw [Bool.eq_false_iff]
    intro hc
    rcases (hiff _ _).mp hc with h | ⟨bs, bt, h1, _, h3, _⟩
    · exact ht h.symm
    · have hbs : bs = .String := by
        simp only [IRType.builtin.injEq] at h1
        exact h1.symm
      subst hbs
      simp [isIntegralType, isFloatingPointType] at h3
  refine ⟨hiff s t, isTypeConvertible_self s, hsymm s t, ?_⟩
  intro ht
  exact ⟨hstring t ht, by rw [hsymm]; exact hstring t ht⟩

/-- Witness of C16: Integer and String. -/
theorem isTypeConvertible_iff_witness :
    IRType.builtin .Integer ≠ IRType.builtin .String ∧
    isTypeConvertible (.builtin .String) (.builtin .Integer) = false ∧
    isTypeConvertible (.builtin .Integer) (.builtin .String) = false :=
  ⟨by decide,
    (isTypeConvertible_iff (.builtin .Integer) (.builtin .Integer)).2.2.2 (by decide)⟩

/-- C17: `ensureType e T`, when the Type of `e` is convertible to `T`, returns an
expression of Type `T`, which is `e` itself when the Types are equal and the
Cast of `e` to `T` otherwise, and leaves the state, the error flag included,
as it was; when the Type of `e` is not convertible to `T` it returns `e`
unchanged and sets the error flag. -/
theorem ensureType_casts_or_flags (e : Expression) (T : IRType) (st : ConvState) :
    (isTypeConvertible e.getType T = true →
      (ensureType e T st).1.getType = T ∧
      (ensureType e T st).2 = st ∧
      (e.getType = T → (ensureType e T st).1 = e) ∧
      (e.getType ≠ T → (ensureType e T st).1 = .cast e T)) ∧
    (isTypeConvertible e.getType T = false →
      (ensureType e T st).1 = e ∧
      (ensureType e T st).2 = semanticError st ∧
      (ensureType e T st).2.errorOccurred = true ∧
      (ensureType e T st).2.scope = st.scope) := by
  constructor
  · intro h
    obtain ⟨h1, h2⟩ := ensureType_of_convertible e T st h
    refine ⟨h2, h1, ?_, ?_⟩
    · intro heq
      rw [ensureType_of_eq e T st heq]
    · intro hne
      unfold ensureType
      rw [if_neg hne, if_pos h]
  · intro h
    have hne : e.getType ≠ T := by
      intro heq
      rw [heq, isTypeConvertible_self] at h
      exact Bool.noConfusion h
    unfold ensureType
    rw [if_neg hne, if_neg (by rw [h]; exact Bool.false_ne_true)]
    exact ⟨rfl, rfl, rfl, rfl⟩

/-- Witness of C17: a Word literal to Integer, and a String literal to
Integer. -/
theorem ensureType_casts_or_flags_witness :
    ensureType (.literal (.Word 5)) (.builtin .Integer) examples.emptyState =
      (.cast (.literal (.Word 5)) (.builtin .Integer), examples.emptyState) ∧
    (ensureType (.literal (.String "hi")) (.builtin .Integer) examples.emptyState).1 =
      .literal (.String "hi") ∧
    (ensureType (.literal (.String "hi")) (.builtin .Integer) examples.emptyState).2.errorOccurred
      = true :=
  have h := ensureType_casts_or_flags (.literal (.String "hi")) (.builtin .Integer)
    examples.emptyState
  have hw := ensureType_casts_or_flags (.literal (.Word 5)) (.builtin .Integer)
    examples.emptyState
  ⟨Prod.ext ((hw.1 rfl).2.2.2 (by decide)) (hw.1 rfl).2.1, (h.2 rfl).1, (h.2 rfl).2.2.1⟩

/-! ## The error flag through statements -/

theorem resolveVariableRef_errorOccurred (name : String) ( astAnnotation : ast.Annotation)
    (st : ConvState) :
    (resolveVariableRef name astAnnotation st).2.errorOccurred = st.errorOccurred := by
  unfold resolveVariableRef
  split <;> rfl

theorem convertExpressionPointer_errorOccurred (env : Env) (p : Option ast.Expression)
    (st st2 : ConvState) (r : Expression)
    (h : convertExpressionPointer env p st = .ok (r, st2))
    (herr : st.errorOccurred = true) : st2.errorOccurred = true := by
  cases p with
  | none => simp [convertExpressionPointer] at h
  | some e => exact convertExpression_errorOccurred env e st st2 r h herr

mutual

theorem convertStatement_errorOccurred (env : Env) (ltr : Bool) :
    ∀ (s : ast.Statement) (st st2 : ConvState) (r : Option Statement),
      convertStatement env ltr s st = .ok (r, st2) →
      st.errorOccurred = true → st2.errorOccurred = true
  | .ConstDecl, st, st2, r, h, herr => by
    rw [convertStatement] at h
    simp at h
  | .VarDecl name ann varType initialValue, st, st2, r, h, herr => by
    rw [convertStatement] at h
    split at h
    · simp only [Except.ok.injEq, Prod.mk.injEq] at h
      rw [← h.2]
      rfl
    · split at h
      · simp at h
      · rename_i e1 st1 hc
        simp only [Except.ok.injEq, Prod.mk.injEq] at h
        rw [← h.2]
        apply ensureType_errorOccurred
        exact convertExpressionPointer_errorOccurred env _ _ st1 e1 hc herr
  | .VarAssignment name ann e, st, st2, r, h, herr => by
    rw [convertStatement] at h
    split at h
    · simp at h
    · rename_i e1 st1 hc
      simp only [Except.ok.injEq, Prod.mk.injEq] at h
      rw [← h.2]
      apply ensureType_errorOccurred
      apply convertExpression_errorOccurred env e _ st1 e1 hc
      rw [resolveVariableRef_errorOccurred]
      exact herr
  | .Conditional c tb fb, st, st2, r, h, herr => by
    rw [convertStatement] at h
    cases ltr with
    | true =>
      simp only [if_true] at h
      split at h
      · simp at h
      · rename_i c1 st1 hc
        split at h
        · simp at h
        · rename_i t st3 ht
          split at h
          · simp at h
          · rename_i f st4 hf
            simp only [Except.ok.injEq, Prod.mk.injEq] at h
            rw [← h.2]
            apply convertMaybeNullBlock_errorOccurred env true fb st3 st4 f hf
            apply convertMaybeNullBlock_errorOccurred env true tb _ st3 t ht
            apply ensureType_errorOccurred
            exact convertExpression_errorOccurred env c st st1 c1 hc herr
    | false =>
      simp only [Bool.false_eq_true, if_false] at h
      split at h
      · simp at h
      · rename_i f st1 hf
        split at h
        · simp at h
        · rename_i t st3 ht
          split at h
          · simp at h
          · rename_i c1 st4 hc
            simp only [Except.ok.injEq, Prod.mk.injEq] at h
            rw [← h.2]
            apply ensureType_errorOccurred
            apply convertExpression_errorOccurred env c st3 st4 c1 hc
            apply convertMaybeNullBlock_errorOccurred env false tb st1 st3 t ht
            exact convertMaybeNullBlock_errorOccurred env false fb st st1 f hf herr
  | .SubReturn, st, st2, r, h, herr => by
    rw [convertStatement] at h
    simp only [Except.ok.injEq, Prod.mk.injEq] at h
    rw [← h.2]; exact herr
  | .FuncExit rv, st, st2, r, h, herr => by
    rw [convertStatement] at h
    split at h
    · simp at h
    · rename_i e1 st1 hc
      simp only [Except.ok.injEq, Prod.mk.injEq] at h
      rw [← h.2]
      exact convertExpressionPointer_errorOccurred env rv st st1 e1 hc herr
  | .WhileLoop c body, st, st2, r, h, herr => by
    rw [convertStatement] at h
    cases ltr with
    | true =>
      simp only [if_true] at h
      split at h
      · simp at h
      · rename_i c1 st1 hc
        split at h
        · simp at h
        · rename_i b st3 hb
          simp only [Except.ok.injEq, Prod.mk.injEq] at h
          rw [← h.2]
          apply convertMaybeNullBlock_errorOccurred env true body st1 st3 b hb
          exact convertExpression_errorOccurred env c st st1 c1 hc herr
    | false =>
      simp only [Bool.false_eq_true, if_false] at h
      split at h
      · simp at h
      · rename_i b st1 hb
        split at h
        · simp at h
        · rename_i c1 st3 hc
          simp only [Except.ok.injEq, Prod.mk.injEq] at h
          rw [← h.2]
          apply convertExpression_errorOccurred env c st1 st3 c1 hc
          exact convertMaybeNullBlock_errorOccurred env false body st st1 b hb herr
  | .UntilLoop c body, st, st2, r, h, herr => by
    rw [convertStatement] at h
    cases ltr with
    | true =>
      simp only [if_true] at h
      split at h
      · simp at h
      · rename_i c1 st1 hc
        split at h
        · simp at h
        · rename_i b st3 hb
          simp only [Except.ok.injEq, Prod.mk.injEq] at h
          rw [← h.2]
          apply convertMaybeNullBlock_errorOccurred env true body st1 st3 b hb
          exact convertExpression_errorOccurred env c st st1 c1 hc herr
    | false =>
      simp only [Bool.false_eq_true, if_false] at h
      split at h
      · simp at h
      · rename_i b st1 hb
        split at h
        · simp at h
        · rename_i c1 st3 hc
          simp only [Except.ok.injEq, Prod.mk.injEq] at h
          rw [← h.2]
          apply convertExpression_errorOccurred env c st1 st3 c1 hc
          exact convertMaybeNullBlock_errorOccurred env false body st st1 b hb herr
  | .InfiniteLoop body, st, st2, r, h, herr => by
    rw [convertStatement] at h
    split at h
    · simp at h
    · rename_i b st1 hb
      simp only [Except.ok.injEq, Prod.mk.injEq] at h
      rw [← h.2]
      exact convertMaybeNullBlock_errorOccurred env ltr body st st1 b hb herr
  | .Break, st, st2, r, h, herr => by
    rw [convertStatement] at h
    simp only [Except.ok.injEq, Prod.mk.injEq] at h
    rw [← h.2]; exact herr
  | .Label name, st, st2, r, h, herr => by
    rw [convertStatement] at h
    simp only [Except.ok.injEq, Prod.mk.injEq] at h
    rw [← h.2]; exact herr
  | .IncrementVar name ann e, st, st2, r, h, herr => by
    rw [convertStatement] at h
    cases ltr with
    | true =>
      simp only [if_true] at h
      split at h
      · simp at h
      · rename_i e1 st1 hc
        simp only [Except.ok.injEq, Prod.mk.injEq] at h
        rw [← h.2]
        apply convertExpression_errorOccurred env e _ st1 e1 hc
        rw [resolveVariableRef_errorOccurred]
        exact herr
    | false =>
      simp only [Bool.false_eq_true, if_false] at h
      split at h
      · simp at h
      · rename_i e1 st1 hc
        simp only [Except.ok.injEq, Prod.mk.injEq] at h
        rw [← h.2, resolveVariableRef_errorOccurred]
        exact convertExpression_errorOccurred env e st st1 e1 hc herr
  | .DecrementVar name ann e, st, st2, r, h, herr => by
    rw [convertStatement] at h
    cases ltr with
    | true =>
      simp only [if_true] at h
      split at h
      · simp at h
      · rename_i e1 st1 hc
        simp only [Except.ok.injEq, Prod.mk.injEq] at h
        rw [← h.2]
        apply convertExpression_errorOccurred env e _ st1 e1 hc
        rw [resolveVariableRef_errorOccurred]
        exact herr
    | false =>
      simp only [Bool.false_eq_true, if_false] at h
      split at h
      · simp at h
      · rename_i e1 st1 hc
        simp only [Except.ok.injEq, Prod.mk.injEq] at h
        rw [← h.2, resolveVariableRef_errorOccurred]
        exact convertExpression_errorOccurred env e st st1 e1 hc herr
  | .FuncCallStmnt symbol args, st, st2, r, h, herr => by
    rw [convertStatement] at h
    split at h
    · simp at h
    · rename_i call st1 hc
      simp only [Except.ok.injEq, Prod.mk.injEq] at h
      rw [← h.2]
      exact convertFunctionCallExpression_errorOccurred env symbol args st st1 call hc herr
  | .GotoSymbol label, st, st2, r, h, herr => by
    rw [convertStatement] at h
    simp only [Except.ok.injEq, Prod.mk.injEq] at h
    rw [← h.2]; exact herr
  | .SubCallSymbol label, st, st2, r, h, herr => by
    rw [convertStatement] at h
    simp only [Except.ok.injEq, Prod.mk.injEq] at h
    rw [← h.2]; exact herr
  | .CommandStmntSymbol command args, st, st2, r, h, herr => by
    rw [convertStatement] at h
    split at h
    · simp at h
    · rename_i call st1 hc
      simp only [Except.ok.injEq, Prod.mk.injEq] at h
      rw [← h.2]
      exact convertCommandCallExpression_errorOccurred env command args st st1 call hc herr
  | .FuncDecl _ _ _ _, st, st2, r, h, herr => by
    rw [convertStatement] at h
    simp at h
  | .Other, st, st2, r, h, herr => by
    rw [convertStatement] at h
    simp at h

theorem convertBlock_errorOccurred (env : Env) (ltr : Bool) :
    ∀ (l : List ast.Statement) (st st2 : ConvState) (r : StatementBlock),
      convertBlock env ltr l st = .ok (r, st2) →
      st.errorOccurred = true → st2.errorOccurred = true
  | [], st, st2, r, h, herr => by
    rw [convertBlock] at h
    simp only [Except.ok.injEq, Prod.mk.injEq] at h
    rw [← h.2]; exact herr
  | s :: rest, st, st2, r, h, herr => by
    rw [convertBlock] at h
    split at h
    · simp at h
    · rename_i s1 st1 hs
      split at h
      · simp at h
      · rename_i block st3 hb
        simp only [Except.ok.injEq, Prod.mk.injEq] at h
        rw [← h.2]
        apply convertBlock_errorOccurred env ltr rest st1 st3 block hb
        exact convertStatement_errorOccurred env ltr s st st1 s1 hs herr

theorem convertMaybeNullBlock_errorOccurred (env : Env) (ltr : Bool) :
    ∀ (b : Option (List ast.Statement)) (st st2 : ConvState) (r : StatementBlock),
      convertMaybeNullBlock env ltr b st = .ok (r, st2) →
      st.errorOccurred = true → st2.errorOccurred = true
  | none, st, st2, r, h, herr => by
    rw [convertMaybeNullBlock] at h
    simp only [Except.ok.injEq, Prod.mk.injEq] at h
    rw [← h.2]; exact herr
  | some l, st, st2, r, h, herr => by
    rw [convertMaybeNullBlock] at h
    exact convertBlock_errorOccurred env ltr l st st2 r h herr

end

/-! ## Blocks and the second loop of `generateProgram` -/

theorem convertBlock_append (env : Env) (ltr : Bool) (pre : List ast.Statement)
    (s : ast.Statement) (post : List ast.Statement) (st st2 : ConvState) (r : StatementBlock)
    (h : convertBlock env ltr (pre ++ s :: post) st = .ok (r, st2)) :
    ∃ b1 st1 s1 st3 b2, convertBlock env ltr pre st = .ok (b1, st1) ∧
      convertStatement env ltr s st1 = .ok (s1, st3) ∧
      convertBlock env ltr post st3 = .ok (b2, st2) ∧ r = b1 ++ s1 :: b2 := by
  induction pre generalizing st r with
  | nil =>
    simp only [List.nil_append] at h
    rw [convertBlock] at h
    split at h
    · simp at h
    · rename_i s1 st1 hs
      split at h
      · simp at h
      · rename_i block st3 hb
        simp only [Except.ok.injEq, Prod.mk.injEq] at h
        refine ⟨[], st, s1, st1, block, ?_, hs, ?_, ?_⟩
        · rw [convertBlock]
        · rw [← h.2]; exact hb
        · rw [← h.1]; rfl
  | cons x pre ih =>
    simp only [List.cons_append] at h
    rw [convertBlock] at h
    split at h
    · simp at h
    · rename_i x1 stx hx
      split at h
      · simp at h
      · rename_i block st3 hb
        simp only [Except.ok.injEq, Prod.mk.injEq] at h
        obtain ⟨hr, hst⟩ := h
        subst hst
        obtain ⟨b1, st1, s1, st4, b2, h1, h2, h3, h4⟩ := ih stx block hb
        refine ⟨x1 :: b1, st1, s1, st4, b2, ?_, h2, h3, ?_⟩
        · rw [convertBlock, hx]
          simp only [h1]
        · rw [← hr, h4]; rfl

theorem convertFunctionBody_errorOccurred (s : Settings) (m : List (String × Function))
    (f : Function) (defs defs2 : List FunctionDefinition) (err err2 : Bool)
    (h : convertFunctionBody s m f defs err = .ok (defs2, err2)) (herr : err = true) :
    err2 = true := by
  unfold convertFunctionBody at h
  split at h
  · simp at h
  · rename_i d _
    split at h
    · simp at h
    · rename_i statements _
      split at h
      · simp at h
      · rename_i block st1 hb
        have h1 : st1.errorOccurred = true :=
          convertBlock_errorOccurred _ _ statements _ st1 block hb herr
        split at h
        · simp only [Except.ok.injEq, Prod.mk.injEq] at h
          rw [← h.2]; exact h1
        · rename_i rv _
          split at h
          · simp at h
          · rename_i e st2 he
            simp only [Except.ok.injEq, Prod.mk.injEq] at h
            rw [← h.2]
            exact convertExpression_errorOccurred _ rv st1 st2 e he h1

theorem convertFunctionBodies_errorOccurred (s : Settings) (m : List (String × Function))
    (entries : List (String × Function)) (defs defs2 : List FunctionDefinition)
    (err err2 : Bool)
    (h : convertFunctionBodies s m entries defs err = .ok (defs2, err2)) (herr : err = true) :
    err2 = true := by
  induction entries generalizing defs err with
  | nil =>
    rw [convertFunctionBodies] at h
    simp only [Except.ok.injEq, Prod.mk.injEq] at h
    rw [← h.2]; exact herr
  | cons e rest ih =>
    rw [convertFunctionBodies] at h
    split at h
    · simp at h
    · rename_i defs1 err1 he
      exact ih defs1 err1 h (convertFunctionBody_errorOccurred s m e.2 defs defs1 err err1 he herr)

theorem convertFunctionBodies_append (s : Settings) (m : List (String × Function))
    (before : List (String × Function)) (e : String × Function)
    (after : List (String × Function)) (defs defs2 : List FunctionDefinition)
    (err err2 : Bool)
    (h : convertFunctionBodies s m (before ++ e :: after) defs err = .ok (defs2, err2)) :
    ∃ defs1 err1 defs3 err3, convertFunctionBodies s m before defs err = .ok (defs1, err1) ∧
      convertFunctionBody s m e.2 defs1 err1 = .ok (defs3, err3) ∧
      convertFunctionBodies s m after defs3 err3 = .ok (defs2, err2) := by
  induction before generalizing defs err with
  | nil =>
    simp only [List.nil_append] at h
    rw [convertFunctionBodies] at h
    split at h
    · simp at h
    · rename_i defs1 err1 he
      exact ⟨defs, err, defs1, err1, by rw [convertFunctionBodies], he, h⟩
  | cons x before ih =>
    simp only [List.cons_append] at h
    rw [convertFunctionBodies] at h
    split at h
    · simp at h
    · rename_i defsx errx hx
      obtain ⟨defs1, err1, defs3, err3, h1, h2, h3⟩ := ih defsx errx h
      refine ⟨defs1, err1, defs3, err3, ?_, h2, h3⟩
      rw [convertFunctionBodies, hx]
      exact h1

/-- What a run of `generateProgram` that returns a Program consists of. -/
theorem generateProgram_some (s : Settings) (tree : List ast.Statement) (p : Program)
    (h : generateProgram s tree = .ok (some p)) :
    ∃ sk block st defs,
      collectFunctions tree false
        { astMainStatements := [], functionDefinitions := [], functionMap := [] } = .ok sk ∧
      convertBlock (s.env sk.functionMap sk.functionDefinitions) s.leftToRight
        sk.astMainStatements { scope := [], errorOccurred := false } = .ok (block, st) ∧
      st.errorOccurred = false ∧
      convertFunctionBodies s sk.functionMap (s.iterationOrder sk.functionMap)
        sk.functionDefinitions false = .ok (defs, false) ∧
      p = { mainFunction :=
              { name := "__DBMain", arguments := [], statements := block,
                returnExpression := none, scope := st.scope },
            functions := defs } := by
  unfold generateProgram at h
  split at h
  · simp at h
  · rename_i sk hsk
    split at h
    · simp at h
    · rename_i block st hb
      split at h
      · simp at h
      · rename_i defs err hd
        cases herr : err with
        | true => simp [herr] at h
        | false =>
          simp only [herr, Bool.false_eq_true, if_false, Except.ok.injEq,
            Option.some.injEq] at h
          have hst : st.errorOccurred = false := by
            cases hflag : st.errorOccurred with
            | false => rfl
            | true =>
              have := convertFunctionBodies_errorOccurred s _ _ _ defs _ err hd hflag
              rw [herr] at this
              exact absurd this Bool.false_ne_true
          refine ⟨sk, block, st, defs, hsk, hb, hst, ?_, h.symm⟩
          rw [hst, herr] at hd
          exact hd

theorem convertFunctionBody_eq (s : Settings) (m : List (String × Function))
    (f : Function) (defs : List FunctionDefinition) (err : Bool) (d : FunctionDefinition)
    (statements : List ast.Statement)
    (hd : defs[f.functionDefinition.index]? = some d) (hbody : f.body = some statements) :
    convertFunctionBody s m f defs err =
      match convertBlock (s.env m defs) s.leftToRight statements
          { scope := d.scope, errorOccurred := err } with
      | .error x => .error x
      | .ok (block, st1) =>
        match f.returnValue with
        | none =>
          .ok (defs.set f.functionDefinition.index
                { d with statements := d.statements ++ block, scope := st1.scope },
              st1.errorOccurred)
        | some returnValue =>
          match convertExpression (s.env m defs) returnValue st1 with
          | .error x => .error x
          | .ok (e, st2) =>
            .ok (defs.set f.functionDefinition.index
                  { d with statements := d.statements ++ block, returnExpression := some e,
                           scope := st2.scope },
                st2.errorOccurred) := by
  unfold convertFunctionBody
  simp only [hd, hbody]

/-! ## Re-declared variables -/

theorem convertStatement_redeclared (env : Env) (ltr : Bool) (name : String)
    ( annotation : ast.Annotation) (varType : Option BuiltinType)
    (initialValue : Option ast.Expression) (st : ConvState) (v : Variable)
    (h : scopeLookup st.scope name ( getAnnotation annotation) = some v) :
    convertStatement env ltr (.VarDecl name annotation varType initialValue) st =
      .ok (none, semanticError st) := by
  rw [convertStatement]
  simp only [h]
  rfl

theorem convertBlock_cons_flagged (env : Env) (ltr : Bool) (s : ast.Statement)
    (rest : List ast.Statement) (st0 : ConvState)
    (hs : ∀ r st1, convertStatement env ltr s st0 = .ok (r, st1) → st1.errorOccurred = true)
    (b : StatementBlock) (st2 : ConvState)
    (hb : convertBlock env ltr (s :: rest) st0 = .ok (b, st2)) : st2.errorOccurred = true := by
  rw [convertBlock] at hb
  split at hb
  · simp at hb
  · rename_i s1 st1 h1
    split at hb
    · simp at hb
    · rename_i b2 st3 hrest
      simp only [Except.ok.injEq, Prod.mk.injEq] at hb
      rw [← hb.2]
      exact convertBlock_errorOccurred env ltr rest st1 st3 b2 hrest (hs s1 st1 h1)

/-- When the conversion of a block reaches a statement whose conversion sets
the error flag, the conversion of the block ends with the flag set or in a
fatal error. -/
theorem reaches_flagged (env : Env) (ltr : Bool) (target : ast.Statement) (st : ConvState)
    (hflag : ∀ r st2, convertStatement env ltr target st = .ok (r, st2) →
      st2.errorOccurred = true)
    (block : List ast.Statement) (st0 : ConvState) (h : Reaches env ltr target st block st0) :
    ∀ (b : StatementBlock) (st2 : ConvState),
      convertBlock env ltr block st0 = .ok (b, st2) → st2.errorOccurred = true := by
  induction h with
  | here rest =>
    intro b st2 hb
    exact convertBlock_cons_flagged env ltr target rest st hflag b st2 hb
  | later s rest st0 s1 st1 hs _ ih =>
    intro b st2 hb
    rw [convertBlock, hs] at hb
    simp only at hb
    split at hb
    · simp at hb
    · rename_i b2 st3 hrest
      simp only [Except.ok.injEq, Prod.mk.injEq] at hb
      rw [← hb.2]
      exact ih b2 st3 hrest
  | inTrueBranch condition tb fb rest st0 entry hentry _ ih =>
    intro b st2 hb
    refine convertBlock_cons_flagged env ltr _ rest st0 ?_ b st2 hb
    intro r st1 hs
    rw [convertStatement] at hs
    unfold trueBranchEntry at hentry
    cases ltr with
    | true =>
      simp only [if_true] at hs hentry
      cases hc : convertExpression env condition st0 with
      | error x => simp [hc] at hs
      | ok v =>
        obtain ⟨c, stc⟩ := v
        simp only [hc, Except.ok.injEq] at hs hentry
        subst hentry
        cases ht : convertMaybeNullBlock env true (some tb)
            (ensureType c (.builtin .Boolean) stc).2 with
        | error x => simp [ht] at hs
        | ok v =>
          obtain ⟨t, stt⟩ := v
          simp only [ht] at hs
          have hflagged : stt.errorOccurred = true := by
            rw [convertMaybeNullBlock] at ht
            exact ih t stt ht
          cases hf : convertMaybeNullBlock env true fb stt with
          | error x => simp [hf] at hs
          | ok v =>
            obtain ⟨f, stf⟩ := v
            simp only [hf, Except.ok.injEq, Prod.mk.injEq] at hs
            rw [← hs.2]
            exact convertMaybeNullBlock_errorOccurred env true fb stt stf f hf hflagged
    | false =>
      simp only [Bool.false_eq_true, if_false] at hs hentry
      cases hf : convertMaybeNullBlock env false fb st0 with
      | error x => simp [hf] at hs
      | ok v =>
        obtain ⟨f, stf⟩ := v
        simp only [hf, Except.ok.injEq] at hs hentry
        subst hentry
        cases ht : convertMaybeNullBlock env false (some tb) stf with
        | error x => simp [ht] at hs
        | ok v =>
          obtain ⟨t, stt⟩ := v
          simp only [ht] at hs
          have hflagged : stt.errorOccurred = true := by
            rw [convertMaybeNullBlock] at ht
            exact ih t stt ht
          cases hc : convertExpression env condition stt with
          | error x => simp [hc] at hs
          | ok v =>
            obtain ⟨c, stc⟩ := v
            simp only [hc, Except.ok.injEq, Prod.mk.injEq] at hs
            rw [← hs.2]
            exact ensureType_errorOccurred _ _ _
              (convertExpression_errorOccurred env condition stt stc c hc hflagged)
  | inFalseBranch condition tb fb rest st0 entry hentry _ ih =>
    intro b st2 hb
    refine convertBlock_cons_flagged env ltr _ rest st0 ?_ b st2 hb
    intro r st1 hs
    rw [convertStatement] at hs
    unfold falseBranchEntry at hentry
    cases ltr with
    | true =>
      simp only [if_true] at hs hentry
      cases hc : convertExpression env condition st0 with
      | error x => simp [hc] at hs
      | ok v =>
        obtain ⟨c, stc⟩ := v
        simp only [hc] at hs hentry
        cases ht : convertMaybeNullBlock env true tb
            (ensureType c (.builtin .Boolean) stc).2 with
        | error x => simp [ht] at hs
        | ok v =>
          obtain ⟨t, stt⟩ := v
          simp only [ht, Except.ok.injEq] at hs hentry
          subst hentry
          cases hf : convertMaybeNullBlock env true (some fb) stt with
          | error x => simp [hf] at hs
          | ok v =>
            obtain ⟨f, stf⟩ := v
            simp only [hf, Except.ok.injEq, Prod.mk.injEq] at hs
            rw [← hs.2]
            rw [convertMaybeNullBlock] at hf
            exact ih f stf hf
    | false =>
      simp only [Bool.false_eq_true, if_false, Except.ok.injEq] at hs hentry
      subst hentry
      cases hf : convertMaybeNullBlock env false (some fb) st0 with
      | error x => simp [hf] at hs
      | ok v =>
        obtain ⟨f, stf⟩ := v
        simp only [hf] at hs
        have hflagged : stf.errorOccurred = true := by
          rw [convertMaybeNullBlock] at hf
          exact ih f stf hf
        cases ht : convertMaybeNullBlock env false tb stf with
        | error x => simp [ht] at hs
        | ok v =>
          obtain ⟨t, stt⟩ := v
          simp only [ht] at hs
          have hflagged2 := convertMaybeNullBlock_errorOccurred env false tb stf stt t ht hflagged
          cases hc : convertExpression env condition stt with
          | error x => simp [hc] at hs
          | ok v =>
            obtain ⟨c, stc⟩ := v
            simp only [hc, Except.ok.injEq, Prod.mk.injEq] at hs
            rw [← hs.2]
            exact ensureType_errorOccurred _ _ _
              (convertExpression_errorOccurred env condition stt stc c hc hflagged2)
  | inWhileLoop continueCondition body rest st0 entry hentry _ ih =>
    intro b st2 hb
    refine convertBlock_cons_flagged env ltr _ rest st0 ?_ b st2 hb
    intro r st1 hs
    rw [convertStatement] at hs
    unfold loopBodyEntry at hentry
    cases ltr with
    | true =>
      simp only [if_true] at hs hentry
      cases hc : convertExpression env continueCondition st0 with
      | error x => simp [hc] at hs
      | ok v =>
        obtain ⟨c, stc⟩ := v
        simp only [hc, Except.ok.injEq] at hs hentry
        subst hentry
        cases hbody : convertMaybeNullBlock env true (some body) stc with
        | error x => simp [hbody] at hs
        | ok v =>
          obtain ⟨bb, stb⟩ := v
          simp only [hbody, Except.ok.injEq, Prod.mk.injEq] at hs
          rw [← hs.2]
          rw [convertMaybeNullBlock] at hbody
          exact ih bb stb hbody
    | false =>
      simp only [Bool.false_eq_true, if_false, Except.ok.injEq] at hs hentry
      subst hentry
      cases hbody : convertMaybeNullBlock env false (some body) st0 with
      | error x => simp [hbody] at hs
      | ok v =>
        obtain ⟨bb, stb⟩ := v
        simp only [hbody] at hs
        have hflagged : stb.errorOccurred = true := by
          rw [convertMaybeNullBlock] at hbody
          exact ih bb stb hbody
        cases hc : convertExpression env continueCondition stb with
        | error x => simp [hc] at hs
        | ok v =>
          obtain ⟨c, stc⟩ := v
          simp only [hc, Except.ok.injEq, Prod.mk.injEq] at hs
          rw [← hs.2]
          exact convertExpression_errorOccurred env continueCondition stb stc c hc hflagged
  | inUntilLoop exitCondition body rest st0 entry hentry _ ih =>
    intro b st2 hb
    refine convertBlock_cons_flagged env ltr _ rest st0 ?_ b st2 hb
    intro r st1 hs
    rw [convertStatement] at hs
    unfold loopBodyEntry at hentry
    cases ltr with
    | true =>
      simp only [if_true] at hs hentry
      cases hc : convertExpression env exitCondition st0 with
      | error x => simp [hc] at hs
      | ok v =>
        obtain ⟨c, stc⟩ := v
        simp only [hc, Except.ok.injEq] at hs hentry
        subst hentry
        cases hbody : convertMaybeNullBlock env true (some body) stc with
        | error x => simp [hbody] at hs
        | ok v =>
          obtain ⟨bb, stb⟩ := v
          simp only [hbody, Except.ok.injEq, Prod.mk.injEq] at hs
          rw [← hs.2]
          rw [convertMaybeNullBlock] at hbody
          exact ih bb stb hbody
    | false =>
      simp only [Bool.false_eq_true, if_false, Except.ok.injEq] at hs hentry
      subst hentry
      cases hbody : convertMaybeNullBlock env false (some body) st0 with
      | error x => simp [hbody] at hs
      | ok v =>
        obtain ⟨bb, stb⟩ := v
        simp only [hbody] at hs
        have hflagged : stb.errorOccurred = true := by
          rw [convertMaybeNullBlock] at hbody
          exact ih bb stb hbody
        cases hc : convertExpression env exitCondition stb with
        | error x => simp [hc] at hs
        | ok v =>
          obtain ⟨c, stc⟩ := v
          simp only [hc, Except.ok.injEq, Prod.mk.injEq] at hs
          rw [← hs.2]
          exact convertExpression_errorOccurred env exitCondition stb stc c hc hflagged
  | inInfiniteLoop body rest st0 _ ih =>
    intro b st2 hb
    refine convertBlock_cons_flagged env ltr _ rest st0 ?_ b st2 hb
    intro r st1 hs
    rw [convertStatement] at hs
    cases hbody : convertMaybeNullBlock env ltr (some body) st0 with
    | error x => simp [hbody] at hs
    | ok v =>
      obtain ⟨bb, stb⟩ := v
      simp only [hbody, Except.ok.injEq, Prod.mk.injEq] at hs
      rw [← hs.2]
      rw [convertMaybeNullBlock] at hbody
      exact ih bb stb hbody

/-- A statement that follows statements of its block whose conversion succeeds
is reached in the state their conversion leaves. -/
theorem reaches_after (env : Env) (ltr : Bool) (target : ast.Statement)
    (pre post : List ast.Statement) (st0 st : ConvState) (b1 : StatementBlock)
    (h : convertBlock env ltr pre st0 = .ok (b1, st)) :
    Reaches env ltr target st (pre ++ target :: post) st0 := by
  induction pre generalizing st0 b1 with
  | nil =>
    rw [convertBlock] at h
    simp only [Except.ok.injEq, Prod.mk.injEq] at h
    rw [← h.2]
    exact Reaches.here post
  | cons s pre ih =>
    rw [convertBlock] at h
    split at h
    · simp at h
    · rename_i s1 st1 hs
      split at h
      · simp at h
      · rename_i b2 st3 hrest
        simp only [Except.ok.injEq, Prod.mk.injEq] at h
        rw [h.2] at hrest
        exact Reaches.later s _ st0 s1 st1 hs (ih st1 b2 hrest)

/-- C15: an explicit declaration of a variable whose (name, sigil) is in the
scope of the current function, however it came there, converts to no
statement, sets the error flag and leaves the scope, and with it the existing
Variable and its Type, as they were; and `generateProgram` returns no Program
when the conversion reaches such a declaration in main or in the body of a
function, as a statement of the block or at any depth in the branches of its
conditionals and the bodies of its loops. -/
theorem redeclaration_is_an_error (env : Env) (ltr : Bool) (name : String)
    ( annotation : ast.Annotation) (varType : Option BuiltinType)
    (initialValue : Option ast.Expression) (st : ConvState) (v : Variable)
    (h : scopeLookup st.scope name ( getAnnotation annotation) = some v) :
    (∃ st2, convertStatement env ltr (.VarDecl name annotation varType initialValue) st =
        .ok (none, st2) ∧
      st2.errorOccurred = true ∧ st2.scope = st.scope ∧
      scopeLookup st2.scope name ( getAnnotation annotation) = some v) ∧
    (∀ (s : Settings) (tree : List ast.Statement) (sk : Skeleton),
      collectFunctions tree false
        { astMainStatements := [], functionDefinitions := [], functionMap := [] } = .ok sk →
      Reaches (s.env sk.functionMap sk.functionDefinitions) s.leftToRight
        (.VarDecl name annotation varType initialValue) st sk.astMainStatements
        { scope := [], errorOccurred := false } →
      ∀ p, generateProgram s tree ≠ .ok (some p)) ∧
    (∀ (s : Settings) (tree : List ast.Statement) (sk : Skeleton)
        (block : StatementBlock) (stm : ConvState)
        (before after : List (String × Function)) (e : String × Function)
        (defs1 : List FunctionDefinition) (err1 : Bool) (d : FunctionDefinition)
        (body : List ast.Statement),
      collectFunctions tree false
        { astMainStatements := [], functionDefinitions := [], functionMap := [] } = .ok sk →
      convertBlock (s.env sk.functionMap sk.functionDefinitions) s.leftToRight
        sk.astMainStatements { scope := [], errorOccurred := false } = .ok (block, stm) →
      s.iterationOrder sk.functionMap = before ++ e :: after →
      convertFunctionBodies s sk.functionMap before sk.functionDefinitions
        stm.errorOccurred = .ok (defs1, err1) →
      defs1[e.2.functionDefinition.index]? = some d →
      e.2.body = some body →
      Reaches (s.env sk.functionMap defs1) s.leftToRight
        (.VarDecl name annotation varType initialValue) st body
        { scope := d.scope, errorOccurred := err1 } →
      ∀ p, generateProgram s tree ≠ .ok (some p)) := by
  have hstmt := fun (env : Env) (ltr : Bool) =>
    convertStatement_redeclared env ltr name annotation varType initialValue st v h
  have hflag : ∀ (env : Env) (ltr : Bool) (r : Option Statement) (st2 : ConvState),
      convertStatement env ltr (.VarDecl name annotation varType initialValue) st =
        .ok (r, st2) → st2.errorOccurred = true := by
    intro env ltr r st2 h2
    rw [hstmt] at h2
    simp only [Except.ok.injEq, Prod.mk.injEq] at h2
    rw [← h2.2]
    rfl
  refine ⟨⟨semanticError st, hstmt env ltr, rfl, rfl, h⟩, ?_, ?_⟩
  · intro s tree sk hsk hreach p hp
    obtain ⟨sk2, block, stm, defs, hsk2, hb, hflagm, _, _⟩ := generateProgram_some s tree p hp
    rw [hsk] at hsk2
    have hsk3 : sk = sk2 := by simpa using hsk2
    subst hsk3
    have h5 := reaches_flagged _ _ _ st (hflag _ _) _ _ hreach block stm hb
    rw [hflagm] at h5
    exact absurd h5 Bool.false_ne_true
  · intro s tree sk block stm before after e defs1 err1 d body hsk hmainb horder
      hbefore hd hbody hreach p hp
    obtain ⟨sk2, block2, stm2, defs, hsk2, hb, hflagm, hbodies, _⟩ :=
      generateProgram_some s tree p hp
    rw [hsk] at hsk2
    have hsk3 : sk = sk2 := by simpa using hsk2
    subst hsk3
    rw [hmainb] at hb
    simp only [Except.ok.injEq, Prod.mk.injEq] at hb
    rw [← hb.2] at hflagm
    rw [hflagm] at hbefore
    rw [horder] at hbodies
    obtain ⟨defs1x, err1x, defs3, err3, h1, h2, h3⟩ :=
      convertFunctionBodies_append s _ before e after _ _ _ _ hbodies
    rw [hbefore] at h1
    simp only [Except.ok.injEq, Prod.mk.injEq] at h1
    rw [← h1.1, ← h1.2] at h2
    have herr3 : err3 = true := by
      rw [convertFunctionBody_eq s _ e.2 defs1 err1 d _ hd hbody] at h2
      split at h2
      · simp at h2
      · rename_i blockf stf hbf
        have g5 := reaches_flagged _ _ _ st (hflag _ _) _ _ hreach blockf stf hbf
        split at h2
        · simp only [Except.ok.injEq, Prod.mk.injEq] at h2
          rw [← h2.2]; exact g5
        · rename_i rv _
          split at h2
          · simp at h2
          · rename_i e2 st2 he
            simp only [Except.ok.injEq, Prod.mk.injEq] at h2
            rw [← h2.2]
            exact convertExpression_errorOccurred _ rv stf st2 e2 he g5
    have := convertFunctionBodies_errorOccurred s _ after defs3 defs err3 false h3 herr3
    exact absurd this Bool.false_ne_true

/-- Witness of C15: `x as integer` met when `x` is in scope: in main after an
explicit declaration, and there in the true branch of a conditional and, after
an implicit declaration, in a `while` loop inside a `do` loop; and in the body
of a function, in the false branch of a conditional. -/
theorem redeclaration_is_an_error_witness :
    scopeLookup examples.stateWithX.scope "x" ( getAnnotation ast.Annotation.NONE) =
      some examples.variableX ∧
    convertStatement examples.integerThenLongEnv true examples.declareX examples.stateWithX =
      .ok (none, { scope := [examples.variableX], errorOccurred := true }) ∧
    (∀ p, generateProgram examples.settings examples.declareTwice ≠ .ok (some p)) ∧
    (∀ p, generateProgram examples.settings examples.declareInBranch ≠ .ok (some p)) ∧
    (∀ p, generateProgram examples.settings examples.declareInLoops ≠ .ok (some p)) ∧
    (∀ p, generateProgram examples.settings examples.declareInBranchOfFunction ≠
      .ok (some p)) ∧
    generateProgram examples.settings examples.declareTwice = .ok none ∧
    generateProgram examples.settings examples.useThenDeclare = .ok none ∧
    generateProgram examples.settings examples.declareTwiceInFunction = .ok none ∧
    generateProgram examples.settings examples.declareInBranch = .ok none ∧
    generateProgram examples.settings examples.declareInLoops = .ok none ∧
    generateProgram examples.settings examples.declareInBranchOfFunction = .ok none :=
  ⟨rfl, rfl,
    (redeclaration_is_an_error examples.integerThenLongEnv true "x" ast.Annotation.NONE
      (some .Integer) (some (.Literal (.Integer 0))) examples.stateWithX examples.variableX
      rfl).2.1 examples.settings examples.declareTwice
      { astMainStatements := examples.declareTwice, functionDefinitions := [],
        functionMap := [] }
      rfl (reaches_after _ _ _ [examples.declareX] [] _ _ _ rfl),
    (redeclaration_is_an_error examples.integerThenLongEnv true "x" ast.Annotation.NONE
      (some .Integer) (some (.Literal (.Integer 0))) examples.stateWithX examples.variableX
      rfl).2.1 examples.settings examples.declareInBranch
      { astMainStatements := examples.declareInBranch, functionDefinitions := [],
        functionMap := [] }
      rfl
      (Reaches.later _ _ _ _ _ rfl
        (Reaches.inTrueBranch _ _ _ _ _ _ rfl (Reaches.here []))),
    (redeclaration_is_an_error examples.integerThenLongEnv true "x" ast.Annotation.NONE
      (some .Integer) (some (.Literal (.Integer 0))) examples.stateWithX examples.variableX
      rfl).2.1 examples.settings examples.declareInLoops
      { astMainStatements := examples.declareInLoops, functionDefinitions := [],
        functionMap := [] }
      rfl
      (Reaches.later _ _ _ _ _ rfl
        (Reaches.inInfiniteLoop _ _ _
          (Reaches.inWhileLoop _ _ _ _ _ rfl (Reaches.here [])))),
    (redeclaration_is_an_error examples.integerThenLongEnv true "x" ast.Annotation.NONE
      (some .Integer) (some (.Literal (.Integer 0))) examples.stateWithX examples.variableX
      rfl).2.2 examples.settings examples.declareInBranchOfFunction _ []
      { scope := [], errorOccurred := false } [] [] _ _ false _ _ rfl rfl rfl rfl rfl rfl
      (Reaches.later _ _ _ _ _ rfl
        (Reaches.inFalseBranch _ _ _ _ _ _ rfl (Reaches.here []))),
    rfl, rfl, rfl, rfl, rfl, rfl⟩

/-! ## Assignments to new variables -/

theorem resolveVariableRef_fst_of_absent (name : String)
    ( astAnnotation : ast.Annotation) (st : ConvState)
    (h : scopeLookup st.scope name ( getAnnotation astAnnotation) = none) :
    (resolveVariableRef name astAnnotation st).1 =
      { name := name, annotation := getAnnotation astAnnotation,
        type := getTypeFromAnnotation ( getAnnotation astAnnotation) } := by
  unfold resolveVariableRef
  simp only [h]

/-- C18 (counterexample): after `function f(x$)` with the return value `"s"` was
converted, the assignment `a$ = f(1)` in the body of `g` meets `a$` absent from
the scope and converts `f(1)` to a call of Type String, the Type of the sigil;
it emits the VarAssignment without Cast, yet the error flag, unset before,
is set afterwards, because the argument `1` is not convertible to String. -/
theorem assignment_can_flag_an_error :
    collectFunctions examples.stringFunctionProgram false examples.emptySkeleton =
      .ok examples.stringFunctionSkeleton ∧
    convertFunctionBodies examples.settings examples.stringFunctionSkeleton.functionMap
      [("f", { body := some [.Label "l"], returnValue := some (.Literal (.String "s")),
               functionDefinition := examples.stringFunctionF })]
      examples.stringFunctionSkeleton.functionDefinitions false =
      .ok (examples.definitionsAfterF, false) ∧
    scopeLookup examples.emptyState.scope "a" ( getAnnotation ast.Annotation.STRING) = none ∧
    convertExpression examples.envAfterF
      (.FuncCallExpr "f" (some [.Literal (.Integer 1)]))
      (resolveVariableRef "a" ast.Annotation.STRING examples.emptyState).2 =
      .ok (examples.callOfFAfterF, examples.stateAfterAssignCall) ∧
    examples.callOfFAfterF.getType =
      getTypeFromAnnotation ( getAnnotation ast.Annotation.STRING) ∧
    convertStatement examples.envAfterF true examples.assignCallOfF examples.emptyState =
      .ok (some (.VarAssignment examples.variableA examples.callOfFAfterF),
        examples.stateAfterAssignCall) ∧
    examples.emptyState.errorOccurred = false ∧
    examples.stateAfterAssignCall.errorOccurred = true ∧
    generateProgram examples.settings examples.stringFunctionProgram = .ok none := by
  refine ⟨rfl, rfl, rfl, rfl, rfl, rfl, rfl, rfl, rfl⟩

/-- C18 (amended): an assignment `v = e` where the (name, sigil) of `v` is not in
the scope and `e`, converted after `v` was declared, has exactly the Type
derived from the sigil of `v`, converts to one VarAssignment whose Variable
has that name, sigil and Type and whose value is the converted `e` itself,
without Cast; the state afterwards is the one the conversion of `e` left, so
no error is flagged unless the conversion of `e` flagged one. -/
theorem assignment_to_new_variable (env : Env) (ltr : Bool) (name : String)
    ( annotation : ast.Annotation) (e : ast.Expression) (st st1 : ConvState)
    (e1 : Expression)
    (habsent : scopeLookup st.scope name ( getAnnotation annotation) = none)
    (hconv : convertExpression env e (resolveVariableRef name annotation st).2 =
      .ok (e1, st1))
    (htype : e1.getType = getTypeFromAnnotation ( getAnnotation annotation)) :
    convertStatement env ltr (.VarAssignment name annotation e) st =
      .ok (some (.VarAssignment
        { name := name, annotation := getAnnotation annotation,
          type := getTypeFromAnnotation ( getAnnotation annotation) } e1), st1) ∧
    convertBlock env ltr [.VarAssignment name annotation e] st =
      .ok ([some (.VarAssignment
        { name := name, annotation := getAnnotation annotation,
          type := getTypeFromAnnotation ( getAnnotation annotation) } e1)], st1) ∧
    (st1.errorOccurred = (resolveVariableRef name annotation st).2.errorOccurred →
      st1.errorOccurred = st.errorOccurred) := by
  have hv : (resolveVariableRef name annotation st).1 =
      { name := name, annotation := getAnnotation annotation,
        type := getTypeFromAnnotation ( getAnnotation annotation) } :=
    ((resolveVariableRef_fst_of_absent name annotation st) habsent)
  have hs : convertStatement env ltr (.VarAssignment name annotation e) st =
      .ok (some (.VarAssignment
        { name := name, annotation := getAnnotation annotation,
          type := getTypeFromAnnotation ( getAnnotation annotation) } e1), st1) := by
    rw [convertStatement, hconv]
    simp only [hv]
    rw [ensureType_of_eq e1 _ st1 htype]
  refine ⟨hs, ?_, ?_⟩
  · rw [convertBlock, hs]
    simp only [convertBlock]
  · intro h
    rw [h, resolveVariableRef_errorOccurred]

/-- Witness of C18 (amended): the program `a$ = "hi"` with an empty command
index. -/
theorem assignment_to_new_variable_witness :
    scopeLookup examples.emptyState.scope "a" ( getAnnotation ast.Annotation.STRING) = none ∧
    convertStatement (examples.settingsWithoutCommands.env [] []) true
      (.VarAssignment "a" .STRING (.Literal (.String "hi"))) examples.emptyState =
      .ok (some (.VarAssignment examples.variableA (.literal (.String "hi"))),
        { scope := [examples.variableA], errorOccurred := false }) ∧
    generateProgram examples.settingsWithoutCommands examples.assignString =
      .ok (some
        { mainFunction :=
            { name := "__DBMain", arguments := [],
              statements :=
                [some (.VarAssignment examples.variableA (.literal (.String "hi")))],
              returnExpression := none, scope := [examples.variableA] },
          functions := [] }) :=
  ⟨rfl,
    (assignment_to_new_variable (examples.settingsWithoutCommands.env [] []) true "a"
      ast.Annotation.STRING (.Literal (.String "hi")) examples.emptyState
      { scope := [examples.variableA], errorOccurred := false } (.literal (.String "hi"))
      rfl rfl rfl).1,
    rfl⟩

/-! ## Calls that do not fit a function -/

theorem findFunction_functionEntries (m : List (String × Function))
    (defs : List FunctionDefinition) (s : Settings) (name : String) :
    findFunction (s.env m defs) name = none ↔ ∀ e ∈ m, e.1 ≠ name := by
  unfold findFunction Settings.env functionEntries
  simp only [Option.map_eq_none', List.find?_eq_none, List.mem_map, beq_iff_eq,
    forall_exists_index, and_imp]
  constructor
  · intro h e he
    exact h _ e he rfl
  · intro h x e he hx
    rw [← hx]
    exact h e he

theorem mem_mapEmplace (m : List (String × Function)) (name : String) (f : Function)
    (e : String × Function) (he : e ∈ mapEmplace m name f) : e ∈ m ∨ e.1 = name := by
  unfold mapEmplace at he
  split at he
  · exact Or.inl he
  · rcases List.mem_append.mp he with h | h
    · exact Or.inl h
    · right
      have : e = (name, f) := by simpa using h
      rw [this]

/-- Every key of `functionMap_` after the first loop of `generateProgram` is
the name of a function declaration of the top-level block. -/
theorem collectFunctions_keys (tree : List ast.Statement) (reached : Bool)
    (acc sk : Skeleton) (h : collectFunctions tree reached acc = .ok sk) :
    ∀ e ∈ sk.functionMap, e ∈ acc.functionMap ∨
      ∃ s ∈ tree, ∃ a b r, asFuncDecl s = some (e.1, a, b, r) := by
  induction tree generalizing reached acc with
  | nil =>
    rw [collectFunctions] at h
    simp only [Except.ok.injEq] at h
    intro e he
    rw [← h] at he
    exact Or.inl he
  | cons s rest ih =>
    rw [collectFunctions] at h
    intro e he
    split at h
    · split at h
      · simp at h
      · rcases ih false _ h e he with h1 | ⟨s2, hs2, a, b, r, h2⟩
        · exact Or.inl h1
        · exact Or.inr ⟨s2, List.mem_cons_of_mem _ hs2, a, b, r, h2⟩
    · rename_i name args body rv hdecl
      split at h
      · simp at h
      · rcases ih true _ h e he with h1 | ⟨s2, hs2, a, b, r, h2⟩
        · rcases mem_mapEmplace _ _ _ _ h1 with h3 | h3
          · exact Or.inl h3
          · right
            refine ⟨s, List.mem_cons_self _ _, args, body, rv, ?_⟩
            rw [h3]
            exact hdecl
        · exact Or.inr ⟨s2, List.mem_cons_of_mem _ hs2, a, b, r, h2⟩

theorem convertBlock_error_of_mem (env : Env) (ltr : Bool) (s : ast.Statement)
    (hs : ∀ st, ∃ x, convertStatement env ltr s st = .error x)
    (l : List ast.Statement) (hmem : s ∈ l) (st : ConvState) :
    ∃ x, convertBlock env ltr l st = .error x := by
  induction l generalizing st with
  | nil => simp at hmem
  | cons t rest ih =>
    rw [convertBlock]
    cases ht : convertStatement env ltr t st with
    | error x => exact ⟨x, rfl⟩
    | ok v =>
      obtain ⟨t1, st1⟩ := v
      rcases List.mem_cons.mp hmem with heq | hrest
      · obtain ⟨x, hx⟩ := hs st
        rw [heq, ht] at hx
        simp at hx
      · obtain ⟨x, hx⟩ := ih hrest st1
        simp only [hx]
        exact ⟨x, rfl⟩

theorem convertFunctionCallExpression_bad (env : Env) (name : String)
    (astArgs : Option (List ast.Expression)) (st : ConvState) :
    (findFunction env name = none →
      convertFunctionCallExpression env name astArgs st = .error (.functionNotDefined name)) ∧
    (∀ entry, findFunction env name = some entry →
      ArgumentCountDiffers astArgs entry.functionDefinition →
      convertFunctionCallExpression env name astArgs st =
        .error (.argumentCountMismatch name)) := by
  constructor
  · intro h
    rw [convertFunctionCallExpression]
    simp only [h]
  · intro entry h hdiff
    rw [convertFunctionCallExpression]
    simp only [h]
    cases astArgs with
    | none =>
      have hne : entry.functionDefinition.arguments ≠ [] := hdiff
      have : entry.functionDefinition.arguments.isEmpty = false := by
        cases hargs : entry.functionDefinition.arguments with
        | nil => exact absurd hargs hne
        | cons a as => rfl
      simp [this]
    | some es =>
      have hne : es.length ≠ entry.functionDefinition.arguments.length := hdiff
      have hne2 : entry.functionDefinition.arguments.length ≠ es.length := fun h => hne h.symm
      simp [hne2]

theorem convertExpressionList_error_of_mem (env : Env) (e : ast.Expression)
    (he : ∀ st, ∃ x, convertExpression env e st = .error x)
    (es : List ast.Expression) (hmem : e ∈ es) (st : ConvState) :
    ∃ x, convertExpressionList env es st = .error x := by
  induction es generalizing st with
  | nil => simp at hmem
  | cons a rest ih =>
    rw [convertExpressionList]
    cases ha : convertExpression env a st with
    | error x => exact ⟨x, rfl⟩
    | ok v =>
      obtain ⟨a1, st1⟩ := v
      rcases List.mem_cons.mp hmem with heq | hrest
      · obtain ⟨x, hx⟩ := he st
        rw [heq, ha] at hx
        simp at hx
      · obtain ⟨x, hx⟩ := ih hrest st1
        simp only [hx]
        exact ⟨x, rfl⟩

theorem convertFunctionArguments_error_of_mem (env : Env) (e : ast.Expression)
    (he : ∀ st, ∃ x, convertExpression env e st = .error x)
    (es : List ast.Expression) (hmem : e ∈ es) (ps : List Argument) (st : ConvState) :
    ∃ x, convertFunctionArguments env es ps st = .error x := by
  induction es generalizing ps st with
  | nil => simp at hmem
  | cons a rest ih =>
    cases ps with
    | nil =>
      rw [convertFunctionArguments]
      exact ⟨_, rfl⟩
    | cons p ps =>
      rw [convertFunctionArguments]
      cases ha : convertExpression env a st with
      | error x => exact ⟨x, rfl⟩
      | ok v =>
        obtain ⟨a1, st1⟩ := v
        rcases List.mem_cons.mp hmem with heq | hrest
        · obtain ⟨x, hx⟩ := he st
          rw [heq, ha] at hx
          simp at hx
        · obtain ⟨x, hx⟩ := ih hrest ps (ensureType a1 p.type st1).2
          simp only [hx]
          exact ⟨x, rfl⟩

theorem convertFunctionCallExpression_unfit (env : Env) (name : String)
    (astArgs : Option (List ast.Expression)) (hbad : UnfitCall env name astArgs)
    (st : ConvState) : ∃ x, convertFunctionCallExpression env name astArgs st = .error x := by
  unfold UnfitCall at hbad
  cases hf : findFunction env name with
  | none => exact ⟨_, (convertFunctionCallExpression_bad env name astArgs st).1 hf⟩
  | some entry =>
    rw [hf] at hbad
    exact ⟨_, (convertFunctionCallExpression_bad env name astArgs st).2 entry hf hbad⟩

theorem convertFunctionCallExpression_error_of_mem (env : Env) (symbol : String)
    (e : ast.Expression) (he : ∀ st, ∃ x, convertExpression env e st = .error x)
    (es : List ast.Expression) (hmem : e ∈ es) (st : ConvState) :
    ∃ x, convertFunctionCallExpression env symbol (some es) st = .error x := by
  rw [convertFunctionCallExpression]
  cases hf : findFunction env symbol with
  | none => exact ⟨_, rfl⟩
  | some entry =>
    simp only [Option.isNone_some, Bool.and_false, Bool.false_eq_true, if_false]
    split
    · exact ⟨_, rfl⟩
    · obtain ⟨x, hx⟩ := convertFunctionArguments_error_of_mem env e he es hmem
        entry.functionDefinition.arguments st
      simp only [hx]
      exact ⟨x, rfl⟩

/-- An expression that holds a call not fitting the functions of the
environment is never converted: the conversion ends in a fatal error. -/
theorem convertExpression_hasCall (env : Env) (name : String)
    (astArgs : Option (List ast.Expression)) (hbad : UnfitCall env name astArgs)
    (e : ast.Expression) (h : ExpressionHasCall name astArgs e) :
    ∀ st, ∃ x, convertExpression env e st = .error x := by
  induction h with
  | here =>
    intro st
    obtain ⟨x, hx⟩ := convertFunctionCallExpression_unfit env name astArgs hbad st
    exact ⟨x, by rw [convertExpression, hx]⟩
  | unary op e _ ih =>
    intro st
    obtain ⟨x, hx⟩ := ih st
    exact ⟨x, by rw [convertExpression, hx]⟩
  | binaryLeft op l r _ ih =>
    intro st
    obtain ⟨x, hx⟩ := ih st
    exact ⟨x, by rw [convertExpression, hx]⟩
  | binaryRight op l r _ ih =>
    intro st
    rw [convertExpression]
    cases hl : convertExpression env l st with
    | error x => exact ⟨x, rfl⟩
    | ok v =>
      obtain ⟨l1, st1⟩ := v
      obtain ⟨x, hx⟩ := ih st1
      simp only [hx]
      exact ⟨x, rfl⟩
  | commandArgument command es e hmem _ ih =>
    intro st
    obtain ⟨x, hx⟩ := convertExpressionList_error_of_mem env e ih es hmem st
    exact ⟨x, by rw [convertExpression, convertCommandCallExpression, hx]⟩
  | callArgument symbol es e hmem _ ih =>
    intro st
    obtain ⟨x, hx⟩ := convertFunctionCallExpression_error_of_mem env symbol e ih es hmem st
    exact ⟨x, by rw [convertExpression, hx]⟩

theorem convertExpression_never_ok (env : Env) (name : String)
    (astArgs : Option (List ast.Expression)) (hbad : UnfitCall env name astArgs)
    (e : ast.Expression) (h : ExpressionHasCall name astArgs e) (st : ConvState)
    (v : Expression × ConvState) : convertExpression env e st ≠ .ok v := by
  intro hc
  obtain ⟨x, hx⟩ := convertExpression_hasCall env name astArgs hbad e h st
  rw [hx] at hc
  simp at hc

theorem convertBlock_flagged_of_mem (env : Env) (ltr : Bool) (s : ast.Statement)
    (hs : ∀ st r st2, convertStatement env ltr s st = .ok (r, st2) → st2.errorOccurred = true)
    (l : List ast.Statement) (hmem : s ∈ l) (st st2 : ConvState) (b : StatementBlock)
    (h : convertBlock env ltr l st = .ok (b, st2)) : st2.errorOccurred = true := by
  obtain ⟨pre, post, hl⟩ := List.append_of_mem hmem
  rw [hl] at h
  obtain ⟨b1, st1, s1, st3, b2, _, h2, h3, _⟩ := convertBlock_append env ltr pre s post st st2 b h
  exact convertBlock_errorOccurred env ltr post st3 st2 b2 h3 (hs st1 s1 st3 h2)

/-- A statement that holds a call not fitting the functions of the environment
is refused: its conversion ends in a fatal error or with the error flag set. -/
theorem convertStatement_hasCall (env : Env) (ltr : Bool) (name : String)
    (astArgs : Option (List ast.Expression)) (hbad : UnfitCall env name astArgs)
    (s : ast.Statement) (h : StatementHasCall name astArgs s) :
    ∀ st r st2, convertStatement env ltr s st = .ok (r, st2) → st2.errorOccurred = true := by
  induction h with
  | here =>
    intro st r st2 h
    obtain ⟨x, hx⟩ := convertFunctionCallExpression_unfit env name astArgs hbad st
    rw [convertStatement, hx] at h
    simp at h
  | callArgument symbol es e hmem he =>
    intro st r st2 h
    obtain ⟨x, hx⟩ := convertFunctionCallExpression_error_of_mem env symbol e
      (convertExpression_hasCall env name astArgs hbad e he) es hmem st
    rw [convertStatement, hx] at h
    simp at h
  | commandArgument command es e hmem he =>
    intro st r st2 h
    obtain ⟨x, hx⟩ := convertExpressionList_error_of_mem env e
      (convertExpression_hasCall env name astArgs hbad e he) es hmem st
    rw [convertStatement, convertCommandCallExpression, hx] at h
    simp at h
  | initialValue v a t e he =>
    intro st r st2 h
    have hno := convertExpression_never_ok env name astArgs hbad e he
    rw [convertStatement] at h
    split at h
    · simp only [Except.ok.injEq, Prod.mk.injEq] at h
      rw [← h.2]
      rfl
    · split at h
      · simp at h
      · rename_i e1 st1 hc
        cases t with
        | none => simp [localInitialValue, convertExpressionPointer] at hc
        | some kind => exact absurd hc (hno _ _)
  | assigned v a e he =>
    intro st r st2 h
    have hno := convertExpression_never_ok env name astArgs hbad e he
    rw [convertStatement] at h
    split at h
    · simp at h
    · rename_i e1 st1 hc
      exact absurd hc (hno _ _)
  | condition c t f he =>
    intro st r st2 h
    have hno := convertExpression_never_ok env name astArgs hbad c he
    rw [convertStatement] at h
    cases ltr with
    | true =>
      simp only [if_true] at h
      split at h
      · simp at h
      · rename_i c1 st1 hc
        exact absurd hc (hno _ _)
    | false =>
      simp only [Bool.false_eq_true, if_false] at h
      split at h
      · simp at h
      · rename_i f1 st1 hf
        split at h
        · simp at h
        · rename_i t1 st3 ht
          split at h
          · simp at h
          · rename_i c1 st4 hc
            exact absurd hc (hno _ _)
  | trueBranch c t f s hmem _ ih =>
    intro st r st2 h
    rw [convertStatement] at h
    cases ltr with
    | true =>
      simp only [if_true] at h
      split at h
      · simp at h
      · rename_i c1 st1 hc
        split at h
        · simp at h
        · rename_i t1 st3 ht
          split at h
          · simp at h
          · rename_i f1 st4 hf
            simp only [Except.ok.injEq, Prod.mk.injEq] at h
            rw [← h.2]
            rw [convertMaybeNullBlock] at ht
            exact convertMaybeNullBlock_errorOccurred env true f st3 st4 f1 hf
              (convertBlock_flagged_of_mem env true s ih t hmem _ _ _ ht)
    | false =>
      simp only [Bool.false_eq_true, if_false] at h
      split at h
      · simp at h
      · rename_i f1 st1 hf
        split at h
        · simp at h
        · rename_i t1 st3 ht
          split at h
          · simp at h
          · rename_i c1 st4 hc
            simp only [Except.ok.injEq, Prod.mk.injEq] at h
            rw [← h.2]
            rw [convertMaybeNullBlock] at ht
            apply ensureType_errorOccurred
            exact convertExpression_errorOccurred env c st3 st4 c1 hc
              (convertBlock_flagged_of_mem env false s ih t hmem _ _ _ ht)
  | falseBranch c t f s hmem _ ih =>
    intro st r st2 h
    rw [convertStatement] at h
    cases ltr with
    | true =>
      simp only [if_true] at h
      split at h
      · simp at h
      · rename_i c1 st1 hc
        split at h
        · simp at h
        · rename_i t1 st3 ht
          split at h
          · simp at h
          · rename_i f1 st4 hf
            simp only [Except.ok.injEq, Prod.mk.injEq] at h
            rw [← h.2]
            rw [convertMaybeNullBlock] at hf
            exact convertBlock_flagged_of_mem env true s ih f hmem _ _ _ hf
    | false =>
      simp only [Bool.false_eq_true, if_false] at h
      split at h
      · simp at h
      · rename_i f1 st1 hf
        split at h
        · simp at h
        · rename_i t1 st3 ht
          split at h
          · simp at h
          · rename_i c1 st4 hc
            simp only [Except.ok.injEq, Prod.mk.injEq] at h
            rw [← h.2]
            rw [convertMaybeNullBlock] at hf
            apply ensureType_errorOccurred
            apply convertExpression_errorOccurred env c st3 st4 c1 hc
            exact convertMaybeNullBlock_errorOccurred env false t st1 st3 t1 ht
              (convertBlock_flagged_of_mem env false s ih f hmem _ _ _ hf)
  | returnValue e he =>
    intro st r st2 h
    have hno := convertExpression_never_ok env name astArgs hbad e he
    rw [convertStatement] at h
    split at h
    · simp at h
    · rename_i e1 st1 hc
      exact absurd hc (hno _ _)
  | whileCondition c b he =>
    intro st r st2 h
    have hno := convertExpression_never_ok env name astArgs hbad c he
    rw [convertStatement] at h
    cases ltr with
    | true =>
      simp only [if_true] at h
      split at h
      · simp at h
      · rename_i c1 st1 hc
        exact absurd hc (hno _ _)
    | false =>
      simp only [Bool.false_eq_true, if_false] at h
      split at h
      · simp at h
      · rename_i b1 st1 hb
        split at h
        · simp at h
        · rename_i c1 st3 hc
          exact absurd hc (hno _ _)
  | whileBody c b s hmem _ ih =>
    intro st r st2 h
    rw [convertStatement] at h
    cases ltr with
    | true =>
      simp only [if_true] at h
      split at h
      · simp at h
      · rename_i c1 st1 hc
        split at h
        · simp at h
        · rename_i b1 st3 hb
          simp only [Except.ok.injEq, Prod.mk.injEq] at h
          rw [← h.2]
          rw [convertMaybeNullBlock] at hb
          exact convertBlock_flagged_of_mem env true s ih b hmem _ _ _ hb
    | false =>
      simp only [Bool.false_eq_true, if_false] at h
      split at h
      · simp at h
      · rename_i b1 st1 hb
        split at h
        · simp at h
        · rename_i c1 st3 hc
          simp only [Except.ok.injEq, Prod.mk.injEq] at h
          rw [← h.2]
          rw [convertMaybeNullBlock] at hb
          exact convertExpression_errorOccurred env c st1 st3 c1 hc
            (convertBlock_flagged_of_mem env false s ih b hmem _ _ _ hb)
  | untilCondition c b he =>
    intro st r st2 h
    have hno := convertExpression_never_ok env name astArgs hbad c he
    rw [convertStatement] at h
    cases ltr with
    | true =>
      simp only [if_true] at h
      split at h
      · simp at h
      · rename_i c1 st1 hc
        exact absurd hc (hno _ _)
    | false =>
      simp only [Bool.false_eq_true, if_false] at h
      split at h
      · simp at h
      · rename_i b1 st1 hb
        split at h
        · simp at h
        · rename_i c1 st3 hc
          exact absurd hc (hno _ _)
  | untilBody c b s hmem _ ih =>
    intro st r st2 h
    rw [convertStatement] at h
    cases ltr with
    | true =>
      simp only [if_true] at h
      split at h
      · simp at h
      · rename_i c1 st1 hc
        split at h
        · simp at h
        · rename_i b1 st3 hb
          simp only [Except.ok.injEq, Prod.mk.injEq] at h
          rw [← h.2]
          rw [convertMaybeNullBlock] at hb
          exact convertBlock_flagged_of_mem env true s ih b hmem _ _ _ hb
    | false =>
      simp only [Bool.false_eq_true, if_false] at h
      split at h
      · simp at h
      · rename_i b1 st1 hb
        split at h
        · simp at h
        · rename_i c1 st3 hc
          simp only [Except.ok.injEq, Prod.mk.injEq] at h
          rw [← h.2]
          rw [convertMaybeNullBlock] at hb
          exact convertExpression_errorOccurred env c st1 st3 c1 hc
            (convertBlock_flagged_of_mem env false s ih b hmem _ _ _ hb)
  | infiniteBody b s hmem _ ih =>
    intro st r st2 h
    rw [convertStatement] at h
    split at h
    · simp at h
    · rename_i b1 st1 hb
      simp only [Except.ok.injEq, Prod.mk.injEq] at h
      rw [← h.2]
      rw [convertMaybeNullBlock] at hb
      exact convertBlock_flagged_of_mem env ltr s ih b hmem _ _ _ hb
  | increment v a e he =>
    intro st r st2 h
    have hno := convertExpression_never_ok env name astArgs hbad e he
    rw [convertStatement] at h
    cases ltr with
    | true =>
      simp only [if_true] at h
      split at h
      · simp at h
      · rename_i e1 st1 hc
        exact absurd hc (hno _ _)
    | false =>
      simp only [Bool.false_eq_true, if_false] at h
      split at h
      · simp at h
      · rename_i e1 st1 hc
        exact absurd hc (hno _ _)
  | decrement v a e he =>
    intro st r st2 h
    have hno := convertExpression_never_ok env name astArgs hbad e he
    rw [convertStatement] at h
    cases ltr with
    | true =>
      simp only [if_true] at h
      split at h
      · simp at h
      · rename_i e1 st1 hc
        exact absurd hc (hno _ _)
    | false =>
      simp only [Bool.false_eq_true, if_false] at h
      split at h
      · simp at h
      · rename_i e1 st1 hc
        exact absurd hc (hno _ _)

/-- Whether a call fits a function does not depend on the bodies and return
expressions converted so far. -/
theorem unfitCall_definitions (s : Settings) (m : List (String × Function))
    (defs defs2 : List FunctionDefinition) (name : String)
    (astArgs : Option (List ast.Expression))
    (h : UnfitCall (s.env m defs) name astArgs) : UnfitCall (s.env m defs2) name astArgs := by
  unfold UnfitCall findFunction Settings.env functionEntries at *
  simp only [List.find?_map] at *
  cases hf : m.find? ((fun e => e.1 == name) ∘ fun e =>
      (e.1, ({ functionDefinition := e.2.functionDefinition,
               returnExpressionType :=
                ((defs2[e.2.functionDefinition.index]?).bind
                  (fun d => d.returnExpression)).map Expression.getType } : FunctionEntry))) with
  | none => simp
  | some e =>
    have hf2 : m.find? ((fun e => e.1 == name) ∘ fun e =>
      (e.1, ({ functionDefinition := e.2.functionDefinition,
               returnExpressionType :=
                ((defs[e.2.functionDefinition.index]?).bind
                  (fun d => d.returnExpression)).map Expression.getType } : FunctionEntry))) =
        some e := hf
    rw [hf2] at h
    simpa using h

theorem generateProgram_refuses_main (s : Settings) (tree : List ast.Statement) (sk : Skeleton)
    (name : String) (astArgs : Option (List ast.Expression)) (t : ast.Statement)
    (hsk : collectFunctions tree false
      { astMainStatements := [], functionDefinitions := [], functionMap := [] } = .ok sk)
    (hmem : t ∈ sk.astMainStatements) (hcall : StatementHasCall name astArgs t)
    (hbad : UnfitCall (s.env sk.functionMap sk.functionDefinitions) name astArgs)
    (p : Program) : generateProgram s tree ≠ .ok (some p) := by
  intro hp
  obtain ⟨sk2, block, stm, defs, hsk2, hb, hflag, _, _⟩ := generateProgram_some s tree p hp
  rw [hsk] at hsk2
  have hsk3 : sk = sk2 := by simpa using hsk2
  subst hsk3
  have := convertBlock_flagged_of_mem _ _ t
    (convertStatement_hasCall _ _ name astArgs hbad t hcall) _ hmem _ _ _ hb
  rw [hflag] at this
  exact absurd this Bool.false_ne_true

theorem generateProgram_refuses_function (s : Settings) (tree : List ast.Statement)
    (sk : Skeleton) (name : String) (astArgs : Option (List ast.Expression))
    (e : String × Function)
    (hsk : collectFunctions tree false
      { astMainStatements := [], functionDefinitions := [], functionMap := [] } = .ok sk)
    (he : e ∈ s.iterationOrder sk.functionMap)
    (hcall : (∃ body t, e.2.body = some body ∧ t ∈ body ∧ StatementHasCall name astArgs t) ∨
      (∃ rv, e.2.returnValue = some rv ∧ ExpressionHasCall name astArgs rv))
    (hbad : UnfitCall (s.env sk.functionMap sk.functionDefinitions) name astArgs)
    (p : Program) : generateProgram s tree ≠ .ok (some p) := by
  intro hp
  obtain ⟨sk2, block, stm, defs, hsk2, _, _, hbodies, _⟩ := generateProgram_some s tree p hp
  rw [hsk] at hsk2
  have hsk3 : sk = sk2 := by simpa using hsk2
  subst hsk3
  obtain ⟨before, after, horder⟩ := List.append_of_mem he
  rw [horder] at hbodies
  obtain ⟨defs1, err1, defs3, err3, _, h2, h3⟩ :=
    convertFunctionBodies_append s _ before e after _ _ _ _ hbodies
  have hbad1 := unfitCall_definitions s sk.functionMap sk.functionDefinitions defs1 name
    astArgs hbad
  have herr3 : err3 = true := by
    unfold convertFunctionBody at h2
    split at h2
    · simp at h2
    · rename_i d _
      split at h2
      · simp at h2
      · rename_i statements hstatements
        split at h2
        · simp at h2
        · rename_i blockf stf hbf
          split at h2
          · rename_i hrv
            simp only [Except.ok.injEq, Prod.mk.injEq] at h2
            rw [← h2.2]
            rcases hcall with ⟨body, t, hbody, ht, hc⟩ | ⟨rv, hrv2, _⟩
            · rw [hstatements] at hbody
              have hb2 : statements = body := by simpa using hbody
              subst hb2
              exact convertBlock_flagged_of_mem _ _ t
                (convertStatement_hasCall _ _ name astArgs hbad1 t hc) _ ht _ _ _ hbf
            · rw [hrv] at hrv2
              simp at hrv2
          · rename_i rv hrv
            split at h2
            · simp at h2
            · rename_i e2 st2 hconv
              simp only [Except.ok.injEq, Prod.mk.injEq] at h2
              rw [← h2.2]
              rcases hcall with ⟨body, t, hbody, ht, hc⟩ | ⟨rv2, hrv2, hc⟩
              · rw [hstatements] at hbody
                have hb2 : statements = body := by simpa using hbody
                subst hb2
                exact convertExpression_errorOccurred _ rv stf st2 e2 hconv
                  (convertBlock_flagged_of_mem _ _ t
                    (convertStatement_hasCall _ _ name astArgs hbad1 t hc) _ ht _ _ _ hbf)
              · rw [hrv] at hrv2
                have hr : rv = rv2 := by simpa using hrv2
                subst hr
                exact absurd hconv
                  (convertExpression_never_ok _ name astArgs hbad1 rv hc _ _)
  have := convertFunctionBodies_errorOccurred s _ after defs3 defs err3 false h3 herr3
  exact absurd this Bool.false_ne_true

/-- C19: the conversion of a call to a user function, in expression or in
statement form, ends in the fatal error of an undefined function when the
name resolves to no function, which is the case when the top-level block
declares no function of that name, and in the fatal error of a wrong argument
count when the number of actual arguments differs from the number of declared
parameters, a call without argument list to a function with parameters
included; no call node is produced, and `generateProgram` ends in a fatal
error, returning no Program, when such a call is a statement of main; it
returns no Program either when such a call stands at any depth in a statement
of main, or in the body or the return value of a function the second loop
visits. -/
theorem unfit_call_is_fatal (env : Env) (ltr : Bool) (name : String)
    (astArgs : Option (List ast.Expression)) (st : ConvState) :
    (findFunction env name = none →
      convertFunctionCallExpression env name astArgs st = .error (.functionNotDefined name) ∧
      convertExpression env (.FuncCallExpr name astArgs) st =
        .error (.functionNotDefined name) ∧
      convertStatement env ltr (.FuncCallStmnt name astArgs) st =
        .error (.functionNotDefined name)) ∧
    (∀ entry, findFunction env name = some entry →
      ArgumentCountDiffers astArgs entry.functionDefinition →
      convertFunctionCallExpression env name astArgs st =
        .error (.argumentCountMismatch name) ∧
      convertExpression env (.FuncCallExpr name astArgs) st =
        .error (.argumentCountMismatch name) ∧
      convertStatement env ltr (.FuncCallStmnt name astArgs) st =
        .error (.argumentCountMismatch name)) ∧
    (∀ (s : Settings) (tree : List ast.Statement) (sk : Skeleton),
      collectFunctions tree false
        { astMainStatements := [], functionDefinitions := [], functionMap := [] } = .ok sk →
      ast.Statement.FuncCallStmnt name astArgs ∈ sk.astMainStatements →
      ((∀ t ∈ tree, ∀ a b r, asFuncDecl t ≠ some (name, a, b, r)) ∨
        (∃ entry, findFunction (s.env sk.functionMap sk.functionDefinitions) name =
            some entry ∧ ArgumentCountDiffers astArgs entry.functionDefinition)) →
      ∃ x, generateProgram s tree = .error x) ∧
    (∀ (s : Settings) (tree : List ast.Statement) (sk : Skeleton) (t : ast.Statement),
      collectFunctions tree false
        { astMainStatements := [], functionDefinitions := [], functionMap := [] } = .ok sk →
      t ∈ sk.astMainStatements → StatementHasCall name astArgs t →
      UnfitCall (s.env sk.functionMap sk.functionDefinitions) name astArgs →
      ∀ p, generateProgram s tree ≠ .ok (some p)) ∧
    (∀ (s : Settings) (tree : List ast.Statement) (sk : Skeleton) (e : String × Function),
      collectFunctions tree false
        { astMainStatements := [], functionDefinitions := [], functionMap := [] } = .ok sk →
      e ∈ s.iterationOrder sk.functionMap →
      ((∃ body t, e.2.body = some body ∧ t ∈ body ∧ StatementHasCall name astArgs t) ∨
        (∃ rv, e.2.returnValue = some rv ∧ ExpressionHasCall name astArgs rv)) →
      UnfitCall (s.env sk.functionMap sk.functionDefinitions) name astArgs →
      ∀ p, generateProgram s tree ≠ .ok (some p)) := by
  have hexpr : ∀ (env : Env) (ltr : Bool) (st : ConvState) (x : Fatal),
      convertFunctionCallExpression env name astArgs st = .error x →
      convertExpression env (.FuncCallExpr name astArgs) st = .error x ∧
      convertStatement env ltr (.FuncCallStmnt name astArgs) st = .error x := by
    intro env ltr st x hx
    constructor
    · rw [convertExpression, hx]
    · rw [convertStatement, hx]
  refine ⟨?_, ?_, ?_, ?_, ?_⟩
  rotate_left 3
  · intro s tree sk t hsk hmem hcall hbad p
    exact generateProgram_refuses_main s tree sk name astArgs t hsk hmem hcall hbad p
  · intro s tree sk e hsk he hcall hbad p
    exact generateProgram_refuses_function s tree sk name astArgs e hsk he hcall hbad p
  · intro h
    have h1 := (convertFunctionCallExpression_bad env name astArgs st).1 h
    exact ⟨h1, hexpr env ltr st _ h1⟩
  · intro entry h hdiff
    have h1 := (convertFunctionCallExpression_bad env name astArgs st).2 entry h hdiff
    exact ⟨h1, hexpr env ltr st _ h1⟩
  · intro s tree sk hsk hmem hbad
    have hstmt : ∀ st, ∃ x, convertStatement (s.env sk.functionMap sk.functionDefinitions)
        s.leftToRight (.FuncCallStmnt name astArgs) st = .error x := by
      intro st
      rcases hbad with hno | ⟨entry, hfind, hdiff⟩
      · have hnone : findFunction (s.env sk.functionMap sk.functionDefinitions) name = none := by
          rw [findFunction_functionEntries]
          intro e he heq
          rcases collectFunctions_keys tree false _ sk hsk e he with h1 | ⟨t, ht, a, b, r, h2⟩
          · simp at h1
          · rw [heq] at h2
            exact hno t ht a b r h2
        have h1 := (convertFunctionCallExpression_bad _ name astArgs st).1 hnone
        exact ⟨_, (hexpr _ s.leftToRight st _ h1).2⟩
      · have h1 := (convertFunctionCallExpression_bad _ name astArgs st).2 entry hfind hdiff
        exact ⟨_, (hexpr _ s.leftToRight st _ h1).2⟩
    obtain ⟨x, hx⟩ := convertBlock_error_of_mem _ _ _ hstmt sk.astMainStatements hmem
      { scope := [], errorOccurred := false }
    refine ⟨x, ?_⟩
    unfold generateProgram
    simp only [hsk, hx]

/-- Witness of C19: `f(1, 2)` and `f` without argument list for `function f(a)`,
and `h(1)` where no function `h` is declared. -/
theorem unfit_call_is_fatal_witness :
    findFunction examples.userFunctionEnv "h" = none ∧
    convertExpression examples.userFunctionEnv (.FuncCallExpr "h" (some examples.wordArgument))
      examples.emptyState = .error (.functionNotDefined "h") ∧
    ArgumentCountDiffers none examples.functionF ∧
    convertStatement examples.userFunctionEnv true (.FuncCallStmnt "f" none)
      examples.emptyState = .error (.argumentCountMismatch "f") ∧
    (∃ x, generateProgram examples.settings examples.callWithTwoArguments = .error x) ∧
    generateProgram examples.settings examples.callWithTwoArguments =
      .error (.argumentCountMismatch "f") ∧
    (∃ x, generateProgram examples.settings examples.callOfUndeclared = .error x) ∧
    generateProgram examples.settings examples.callOfUndeclared =
      .error (.functionNotDefined "h") ∧
    (∀ p, generateProgram examples.settings examples.nestedCallOfUndeclared ≠ .ok (some p)) ∧
    generateProgram examples.settings examples.nestedCallOfUndeclared =
      .error (.functionNotDefined "h") ∧
    (∀ p, generateProgram examples.settings examples.callInBody ≠ .ok (some p)) ∧
    generateProgram examples.settings examples.callInBody =
      .error (.argumentCountMismatch "f") :=
  have h1 := unfit_call_is_fatal examples.userFunctionEnv true "h"
    (some examples.wordArgument) examples.emptyState
  have h2 := unfit_call_is_fatal examples.userFunctionEnv true "f" none examples.emptyState
  have h3 := unfit_call_is_fatal examples.userFunctionEnv true "f"
    (some [.Literal (.Integer 1), .Literal (.Integer 2)]) examples.emptyState
  have h4 := unfit_call_is_fatal examples.userFunctionEnv true "h"
    (some [.Literal (.Integer 2)]) examples.emptyState
  have h5 := unfit_call_is_fatal examples.userFunctionEnv true "h"
    (some [.Literal (.Integer 1)]) examples.emptyState
  ⟨rfl, (h1.1 rfl).2.1,
    (by simp [ArgumentCountDiffers, examples.functionF]),
    (h2.2.1 _ rfl (by simp [ArgumentCountDiffers, examples.userFunctionEnv,
      examples.functionF])).2.2,
    h3.2.2.1 examples.settings examples.callWithTwoArguments
      { astMainStatements :=
          [.FuncCallStmnt "f" (some [.Literal (.Integer 1), .Literal (.Integer 2)])],
        functionDefinitions :=
          [{ name := "f", arguments := examples.integerFunctionF.arguments, statements := [],
             returnExpression := none, scope := [] }],
        functionMap :=
          [("f", { body := some [.VarAssignment "b" .NONE (.Literal (.Integer 2))],
                   returnValue := none, functionDefinition := examples.integerFunctionF })] }
      rfl (List.mem_singleton_self _)
      (Or.inr ⟨{ functionDefinition := examples.integerFunctionF,
                 returnExpressionType := none }, rfl,
        by simp [ArgumentCountDiffers, examples.integerFunctionF]⟩),
    rfl,
    h5.2.2.1 examples.settings examples.callOfUndeclared
      { astMainStatements := [.FuncCallStmnt "h" (some [.Literal (.Integer 1)])],
        functionDefinitions :=
          [{ name := "f", arguments := examples.integerFunctionF.arguments, statements := [],
             returnExpression := none, scope := [] }],
        functionMap :=
          [("f", { body := some [.VarAssignment "b" .NONE (.Literal (.Integer 2))],
                   returnValue := none, functionDefinition := examples.integerFunctionF })] }
      rfl (List.mem_singleton_self _)
      (Or.inl (by
        intro t ht a b r
        simp only [examples.callOfUndeclared, List.mem_cons, List.mem_singleton,
          List.not_mem_nil, or_false] at ht
        rcases ht with ht | ht <;> subst ht <;> simp [asFuncDecl])),
    rfl,
    h4.2.2.2.1 examples.settings examples.nestedCallOfUndeclared
      { astMainStatements := examples.nestedCallOfUndeclared, functionDefinitions := [],
        functionMap := [] }
      _ rfl (List.mem_singleton_self _)
      (StatementHasCall.trueBranch _ _ _ _ (List.mem_singleton_self _)
        (StatementHasCall.assigned _ _ _ ExpressionHasCall.here))
      trivial,
    rfl,
    h2.2.2.2.2 examples.settings examples.callInBody
      { astMainStatements := [],
        functionDefinitions :=
          [{ name := "f", arguments := examples.integerFunctionF.arguments, statements := [],
             returnExpression := none, scope := [] }],
        functionMap :=
          [("f", { body := some [.FuncCallStmnt "f" none], returnValue := none,
                   functionDefinition := examples.integerFunctionF })] }
      _ rfl (List.mem_singleton_self _)
      (Or.inl ⟨_, _, rfl, List.mem_singleton_self _, StatementHasCall.here⟩)
      (by simp [UnfitCall, findFunction, Settings.env, functionEntries, ArgumentCountDiffers,
        examples.integerFunctionF]),
    rfl⟩

/-! ## The Type of a call to a user function -/

/-- C20 (evaluation of the code at the failing input): for the program `f(1)`
followed by `function f(a)` whose return value is `3`, the call node in main
has Type void although the return expression of `f` has Type Integer; and the
program `x = f(1)` with the same function is refused, the void call not being
convertible to the Integer variable. -/
theorem call_before_return_expression_is_void :
    generateProgram examples.settings examples.callThenFunction =
      .ok (some examples.callThenFunctionProgram) ∧
    examples.callThenFunctionProgram.mainFunction.statements =
      [some (.FunctionCall
        { callee := .function examples.integerFunctionF, args := [.literal (.Integer 1)],
          returnType := .void })] ∧
    (examples.callThenFunctionProgram.functions.map
      (fun d => d.returnExpression.map Expression.getType)) = [some (.builtin .Integer)] ∧
    generateProgram examples.settings examples.assignCallThenFunction = .ok none := by
  refine ⟨rfl, rfl, rfl, rfl⟩

/-! ## Target triples -/

/-- C30: `getLLVMTargetTriple` returns the arch name (`i386`, `x86_64` or
`aarch64`), a hyphen, and `pc-windows-msvc` for Windows, `apple-darwin` for
macOS or `pc-linux-gnu` for Linux; the strings of the nine (arch, platform)
pairs are the nine of the table and are pairwise distinct. -/
theorem getLLVMTargetTriple_table (t : TargetTriple) :
    t.getLLVMTargetTriple = specArchName t.arch ++ "-" ++ specPlatformName t.platform ∧
    t ∈ allTargetTriples ∧
    allTargetTriples.map TargetTriple.getLLVMTargetTriple =
      ["i386-pc-windows-msvc", "i386-apple-darwin", "i386-pc-linux-gnu",
       "x86_64-pc-windows-msvc", "x86_64-apple-darwin", "x86_64-pc-linux-gnu",
       "aarch64-pc-windows-msvc", "aarch64-apple-darwin", "aarch64-pc-linux-gnu"] ∧
    (allTargetTriples.map TargetTriple.getLLVMTargetTriple).Nodup := by
  refine ⟨?_, ?_, ?_, ?_⟩
  · obtain ⟨a, p⟩ := t
    cases a <;> cases p <;> rfl
  · obtain ⟨a, p⟩ := t
    cases a <;> cases p <;> simp [allTargetTriples]
  · rfl
  · decide

/-! ## The order in which the entry point loads the plugins -/

theorem set_perm_cons (rest : List PluginInfo) (k : Nat) (a b : PluginInfo)
    (h : rest[k]? = some b) : (b :: rest.set k a).Perm (a :: rest) := by
  induction rest generalizing k with
  | nil => simp at h
  | cons x xs ih =>
    cases k with
    | zero =>
      simp only [List.getElem?_cons_zero, Option.some.injEq] at h
      subst h
      simp only [List.set_cons_zero]
      exact List.Perm.swap _ _ _
    | succ k =>
      simp only [List.getElem?_cons_succ] at h
      simp only [List.set_cons_succ]
      exact ((List.Perm.swap x b _).trans ((ih k h).cons x)).trans (List.Perm.swap a x _)

theorem swapWithFront_perm (l : List PluginInfo) (i : Nat) : (swapWithFront l i).Perm l := by
  unfold swapWithFront
  cases l with
  | nil => simp
  | cons a rest =>
    cases i with
    | zero => simp
    | succ k =>
      simp only [List.getElem?_cons_zero, List.getElem?_cons_succ]
      cases h : rest[k]? with
      | none => simp
      | some b =>
        simp only [List.set_cons_zero, List.set_cons_succ]
        exact set_perm_cons rest k a b h

theorem swapWithFront_front (l : List PluginInfo) (i : Nat) (p : PluginInfo)
    (h : l[i]? = some p) : (swapWithFront l i)[0]? = some p := by
  unfold swapWithFront
  cases l with
  | nil => simp at h
  | cons a rest =>
    cases i with
    | zero =>
      simp only [List.getElem?_cons_zero, Option.some.injEq] at h
      subst h
      simp
    | succ k =>
      simp only [List.getElem?_cons_succ] at h
      simp [h]

theorem moveCoreToFront_found (l : List PluginInfo) (i : Nat) (rest : List PluginInfo)
    (hl : l.drop i = rest) (h : ∃ p ∈ rest, isCorePlugin p = true) :
    ∃ p, isCorePlugin p = true ∧ (moveCoreToFront l i rest)[0]? = some p ∧
      (moveCoreToFront l i rest).Perm l := by
  induction rest generalizing i with
  | nil => simp at h
  | cons plugin rest ih =>
    rw [moveCoreToFront]
    have hi : l[i]? = some plugin := by
      have := congrArg (fun x => x[0]?) hl
      simpa [List.getElem?_drop] using this
    by_cases hc : isCorePlugin plugin = true
    · rw [if_pos hc]
      exact ⟨plugin, hc, swapWithFront_front l i plugin hi, swapWithFront_perm l i⟩
    · rw [if_neg hc]
      apply ih (i + 1)
      · rw [← List.drop_drop, hl]
        rfl
      · obtain ⟨p, hp, hcore⟩ := h
        rcases List.mem_cons.mp hp with heq | hrest
        · rw [heq] at hcore
          exact absurd hcore hc
        · exact ⟨p, hrest, hcore⟩

theorem moveCoreToFront_absent (l : List PluginInfo) (i : Nat) (rest : List PluginInfo)
    (h : ∀ p ∈ rest, isCorePlugin p = false) : moveCoreToFront l i rest = l := by
  induction rest generalizing i with
  | nil => rfl
  | cons plugin rest ih =>
    rw [moveCoreToFront, h plugin (List.mem_cons_self _ _)]
    simp only [Bool.false_eq_true, if_false]
    exact ih (i + 1) (fun p hp => h p (List.mem_cons_of_mem _ hp))

theorem isCorePlugin_iff (p : PluginInfo) : isCorePlugin p = true ↔ p.name = "DBProCore" := by
  unfold isCorePlugin
  simp

/-- C29: for a plugin list that holds a plugin named `DBProCore` (such a list
is not empty), the order in which `generateEntryPoint` loads the plugins is a
permutation of the list whose first element is named `DBProCore`; for a list
without such a plugin `generateEntryPoint` ends in a fatal error, before the
entry point is created: the one for an empty list when the list is empty, the
one for the missing core otherwise. -/
theorem generateEntryPoint_loads_core_first (plugins : List PluginInfo) :
    ((∃ p ∈ plugins, p.name = "DBProCore") →
      plugins ≠ [] ∧
      ∃ first rest, generateEntryPoint plugins = .ok (first :: rest) ∧
        first.name = "DBProCore" ∧ (first :: rest).Perm plugins) ∧
    ((∀ p ∈ plugins, p.name ≠ "DBProCore") →
      generateEntryPoint plugins =
        .error (if plugins.isEmpty then .noPluginsSpecified else .coreMissing)) := by
  constructor
  · rintro ⟨p, hp, hname⟩
    have hne : plugins ≠ [] := List.ne_nil_of_mem hp
    refine ⟨hne, ?_⟩
    obtain ⟨q, hq, hfront, hperm⟩ := moveCoreToFront_found plugins 0 plugins rfl
      ⟨p, hp, (isCorePlugin_iff p).mpr hname⟩
    have hempty : plugins.isEmpty = false := by
      cases plugins with
      | nil => exact absurd rfl hne
      | cons a l => rfl
    cases hm : moveCoreToFront plugins 0 plugins with
    | nil => rw [hm] at hfront; simp at hfront
    | cons first rest =>
      rw [hm] at hfront hperm
      simp only [List.getElem?_cons_zero, Option.some.injEq] at hfront
      subst hfront
      refine ⟨first, rest, ?_, (isCorePlugin_iff first).mp hq, hperm⟩
      unfold generateEntryPoint
      simp [hempty, hm, hq]
  · intro h
    have habsent : ∀ p ∈ plugins, isCorePlugin p = false := by
      intro p hp
      cases hc : isCorePlugin p with
      | false => rfl
      | true => exact absurd ((isCorePlugin_iff p).mp hc) (h p hp)
    unfold generateEntryPoint
    cases plugins with
    | nil => rfl
    | cons a l =>
      simp only [List.isEmpty_cons, Bool.false_eq_true, if_false]
      rw [moveCoreToFront_absent (a :: l) 0 (a :: l) habsent]
      simp [habsent a (List.mem_cons_self _ _)]

/-- Witness of C29: `[Basic2D, DBProCore, Text]` is loaded as
`[DBProCore, Basic2D, Text]`; `[Basic2D, Text]` and the empty list are fatal. -/
theorem generateEntryPoint_loads_core_first_witness :
    (∃ first rest, generateEntryPoint examples.threePlugins = .ok (first :: rest) ∧
      first.name = "DBProCore" ∧ (first :: rest).Perm examples.threePlugins) ∧
    generateEntryPoint examples.threePlugins =
      .ok [{ name := "DBProCore", path := "plugins/DBProCore.dll" },
           { name := "Basic2D", path := "plugins/Basic2D.dll" },
           { name := "Text", path := "plugins/Text.dll" }] ∧
    generateEntryPoint examples.pluginsWithoutCore = .error .coreMissing ∧
    generateEntryPoint [] = .error .noPluginsSpecified :=
  ⟨((generateEntryPoint_loads_core_first examples.threePlugins).1
      ⟨{ name := "DBProCore", path := "plugins/DBProCore.dll" },
        by simp [examples.threePlugins], rfl⟩).2,
    rfl,
    (generateEntryPoint_loads_core_first examples.pluginsWithoutCore).2
      (by simp [examples.pluginsWithoutCore]),
    (generateEntryPoint_loads_core_first []).2 (by simp)⟩

/-! ## The fatal errors of the conversion -/

theorem selectOverload_fatal (env : Env) (sort : Sorter) (idx : CommandIndex) (name : String)
    (args : List Expression) (x : Fatal)
    (h : selectOverload sort idx name args = .error x) : ConversionFatal env x := by
  unfold selectOverload at h
  repeat' (split at h)
  all_goals first
    | (simp at h; done)
    | (simp only [Except.error.injEq] at h; subst h; exact True.intro)

theorem ensureArgumentTypes_fatal (env : Env) (as : List Expression) (ps : List Arg)
    (st : ConvState) (x : Fatal)
    (h : ensureArgumentTypes as ps st = .error x) : ConversionFatal env x := by
  induction as generalizing ps st with
  | nil => rw [ensureArgumentTypes] at h; simp at h
  | cons a as ih =>
    cases ps with
    | nil =>
      rw [ensureArgumentTypes] at h
      simp only [Except.error.injEq] at h
      subst h
      exact True.intro
    | cons p ps =>
      rw [ensureArgumentTypes] at h
      split at h
      · simp only [Except.error.injEq] at h
        subst h
        exact True.intro
      · split at h
        · rename_i e hrec
          simp only [Except.error.injEq] at h
          subst h
          exact ih ps _ hrec
        · simp at h

theorem resolveCommandCall_fatal (env : Env) (sort : Sorter) (idx : CommandIndex)
    (name : String) (args : List Expression) (st : ConvState) (x : Fatal)
    (h : resolveCommandCall sort idx name args st = .error x) : ConversionFatal env x := by
  unfold resolveCommandCall at h
  split at h
  · rename_i e hsel
    simp only [Except.error.injEq] at h
    subst h
    exact selectOverload_fatal env sort idx name args e hsel
  · split at h
    · rename_i e hens
      simp only [Except.error.injEq] at h
      subst h
      exact ensureArgumentTypes_fatal env _ _ _ e hens
    · split at h
      · simp only [Except.error.injEq] at h
        subst h
        exact True.intro
      · simp at h

mutual

theorem convertExpression_fatal (env : Env) :
    ∀ (e : ast.Expression) (st : ConvState) (x : Fatal),
      convertExpression env e st = .error x → ConversionFatal env x
  | .UnaryOp op expr, st, x, h => by
    rw [convertExpression] at h
    split at h
    · rename_i e hc
      simp only [Except.error.injEq] at h
      subst h
      exact convertExpression_fatal env expr st e hc
    · simp at h
  | .BinaryOp op l r, st, x, h => by
    rw [convertExpression] at h
    split at h
    · rename_i e hc
      simp only [Except.error.injEq] at h
      subst h
      exact convertExpression_fatal env l st e hc
    · split at h
      · rename_i e hc
        simp only [Except.error.injEq] at h
        subst h
        exact convertExpression_fatal env r _ e hc
      · simp at h
  | .VarRef name ann, st, x, h => by
    rw [convertExpression] at h
    simp at h
  | .Literal value, st, x, h => by
    rw [convertExpression] at h
    simp at h
  | .CommandExprSymbol command args, st, x, h => by
    rw [convertExpression] at h
    split at h
    · rename_i e hc
      simp only [Except.error.injEq] at h
      subst h
      exact convertCommandCallExpression_fatal env command args st e hc
    · simp at h
  | .FuncCallExpr symbol args, st, x, h => by
    rw [convertExpression] at h
    split at h
    · rename_i e hc
      simp only [Except.error.injEq] at h
      subst h
      exact convertFunctionCallExpression_fatal env symbol args st e hc
    · simp at h
  | .Other, st, x, h => by
    rw [convertExpression] at h
    simp only [Except.error.injEq] at h
    subst h
    exact True.intro

theorem convertExpressionList_fatal (env : Env) :
    ∀ (es : List ast.Expression) (st : ConvState) (x : Fatal),
      convertExpressionList env es st = .error x → ConversionFatal env x
  | [], st, x, h => by
    rw [convertExpressionList] at h
    simp at h
  | e :: es, st, x, h => by
    rw [convertExpressionList] at h
    split at h
    · rename_i y hc
      simp only [Except.error.injEq] at h
      subst h
      exact convertExpression_fatal env e st y hc
    · split at h
      · rename_i y hc
        simp only [Except.error.injEq] at h
        subst h
        exact convertExpressionList_fatal env es _ y hc
      · simp at h

theorem convertCommandCallExpression_fatal (env : Env) (name : String) :
    ∀ (astArgs : Option (List ast.Expression)) (st : ConvState) (x : Fatal),
      convertCommandCallExpression env name astArgs st = .error x → ConversionFatal env x
  | none, st, x, h => by
    rw [convertCommandCallExpression] at h
    exact resolveCommandCall_fatal env _ _ _ _ _ x h
  | some es, st, x, h => by
    rw [convertCommandCallExpression] at h
    split at h
    · rename_i y hc
      simp only [Except.error.injEq] at h
      subst h
      exact convertExpressionList_fatal env es st y hc
    · exact resolveCommandCall_fatal env _ _ _ _ _ x h

theorem convertFunctionArguments_fatal (env : Env) :
    ∀ (es : List ast.Expression) (ps : List Argument) (st : ConvState) (x : Fatal),
      convertFunctionArguments env es ps st = .error x → ConversionFatal env x
  | [], ps, st, x, h => by
    rw [convertFunctionArguments] at h
    simp at h
  | e :: es, [], st, x, h => by
    rw [convertFunctionArguments] at h
    simp only [Except.error.injEq] at h
    subst h
    exact True.intro
  | e :: es, p :: ps, st, x, h => by
    rw [convertFunctionArguments] at h
    split at h
    · rename_i y hc
      simp only [Except.error.injEq] at h
      subst h
      exact convertExpression_fatal env e st y hc
    · split at h
      · rename_i y hc
        simp only [Except.error.injEq] at h
        subst h
        exact convertFunctionArguments_fatal env es ps _ y hc
      · simp at h

theorem convertFunctionCallExpression_fatal (env : Env) (name : String) :
    ∀ (astArgs : Option (List ast.Expression)) (st : ConvState) (x : Fatal),
      convertFunctionCallExpression env name astArgs st = .error x → ConversionFatal env x
  | none, st, x, h => by
    rw [convertFunctionCallExpression] at h
    split at h
    · rename_i hf
      simp only [Except.error.injEq] at h
      subst h
      exact hf
    · split at h
      · simp only [Except.error.injEq] at h
        subst h
        exact True.intro
      · simp only [Except.error.injEq] at h
        subst h
        exact True.intro
  | some es, st, x, h => by
    rw [convertFunctionCallExpression] at h
    split at h
    · rename_i hf
      simp only [Except.error.injEq] at h
      subst h
      exact hf
    · simp only [Option.isNone_some, Bool.and_false, Bool.false_eq_true, if_false] at h
      split at h
      · simp only [Except.error.injEq] at h
        subst h
        exact True.intro
      · split at h
        · rename_i y hc
          simp only [Except.error.injEq] at h
          subst h
          exact convertFunctionArguments_fatal env es _ _ y hc
        · simp at h

end

theorem convertExpressionPointer_fatal (env : Env) (p : Option ast.Expression)
    (st : ConvState) (x : Fatal)
    (h : convertExpressionPointer env p st = .error x) : ConversionFatal env x := by
  cases p with
  | none =>
    simp only [convertExpressionPointer, Except.error.injEq] at h
    subst h
    exact True.intro
  | some e => exact convertExpression_fatal env e st x h

mutual

theorem convertStatement_fatal (env : Env) (ltr : Bool) :
    ∀ (s : ast.Statement) (st : ConvState) (x : Fatal),
      convertStatement env ltr s st = .error x → ConversionFatal env x
  | .ConstDecl, st, x, h => by
    rw [convertStatement] at h
    simp only [Except.error.injEq] at h
    subst h
    exact True.intro
  | .VarDecl name ann varType initialValue, st, x, h => by
    rw [convertStatement] at h
    repeat' (split at h)
    all_goals first
      | (simp at h; done)
      | (simp only [Except.error.injEq] at h
         subst h
         exact convertExpressionPointer_fatal env _ _ _ (by assumption))
  | .VarAssignment name ann e, st, x, h => by
    rw [convertStatement] at h
    repeat' (split at h)
    all_goals first
      | (simp at h; done)
      | (simp only [Except.error.injEq] at h
         subst h
         exact convertExpression_fatal env _ _ _ (by assumption))
  | .Conditional c tb fb, st, x, h => by
    rw [convertStatement] at h
    repeat' (split at h)
    all_goals first
      | (simp at h; done)
      | (simp only [Except.error.injEq] at h
         subst h
         first
           | exact convertExpression_fatal env _ _ _ (by assumption)
           | exact convertMaybeNullBlock_fatal env ltr _ _ _ (by assumption))
  | .SubReturn, st, x, h => by
    rw [convertStatement] at h
    simp at h
  | .FuncExit rv, st, x, h => by
    rw [convertStatement] at h
    repeat' (split at h)
    all_goals first
      | (simp at h; done)
      | (simp only [Except.error.injEq] at h
         subst h
         exact convertExpressionPointer_fatal env _ _ _ (by assumption))
  | .WhileLoop c body, st, x, h => by
    rw [convertStatement] at h
    repeat' (split at h)
    all_goals first
      | (simp at h; done)
      | (simp only [Except.error.injEq] at h
         subst h
         first
           | exact convertExpression_fatal env _ _ _ (by assumption)
           | exact convertMaybeNullBlock_fatal env ltr _ _ _ (by assumption))
  | .UntilLoop c body, st, x, h => by
    rw [convertStatement] at h
    repeat' (split at h)
    all_goals first
      | (simp at h; done)
      | (simp only [Except.error.injEq] at h
         subst h
         first
           | exact convertExpression_fatal env _ _ _ (by assumption)
           | exact convertMaybeNullBlock_fatal env ltr _ _ _ (by assumption))
  | .InfiniteLoop body, st, x, h => by
    rw [convertStatement] at h
    repeat' (split at h)
    all_goals first
      | (simp at h; done)
      | (simp only [Except.error.injEq] at h
         subst h
         exact convertMaybeNullBlock_fatal env ltr _ _ _ (by assumption))
  | .Break, st, x, h => by
    rw [convertStatement] at h
    simp at h
  | .Label name, st, x, h => by
    rw [convertStatement] at h
    simp at h
  | .IncrementVar name ann e, st, x, h => by
    rw [convertStatement] at h
    repeat' (split at h)
    all_goals first
      | (simp at h; done)
      | (simp only [Except.error.injEq] at h
         subst h
         exact convertExpression_fatal env _ _ _ (by assumption))
  | .DecrementVar name ann e, st, x, h => by
    rw [convertStatement] at h
    repeat' (split at h)
    all_goals first
      | (simp at h; done)
      | (simp only [Except.error.injEq] at h
         subst h
         exact convertExpression_fatal env _ _ _ (by assumption))
  | .FuncCallStmnt symbol args, st, x, h => by
    rw [convertStatement] at h
    repeat' (split at h)
    all_goals first
      | (simp at h; done)
      | (simp only [Except.error.injEq] at h
         subst h
         exact convertFunctionCallExpression_fatal env _ _ _ _ (by assumption))
  | .GotoSymbol label, st, x, h => by
    rw [convertStatement] at h
    simp at h
  | .SubCallSymbol label, st, x, h => by
    rw [convertStatement] at h
    simp at h
  | .CommandStmntSymbol command args, st, x, h => by
    rw [convertStatement] at h
    repeat' (split at h)
    all_goals first
      | (simp at h; done)
      | (simp only [Except.error.injEq] at h
         subst h
         exact convertCommandCallExpression_fatal env _ _ _ _ (by assumption))
  | .FuncDecl name args body rv, st, x, h => by
    rw [convertStatement] at h
    simp only [Except.error.injEq] at h
    subst h
    exact True.intro
  | .Other, st, x, h => by
    rw [convertStatement] at h
    simp only [Except.error.injEq] at h
    subst h
    exact True.intro

theorem convertBlock_fatal (env : Env) (ltr : Bool) :
    ∀ (l : List ast.Statement) (st : ConvState) (x : Fatal),
      convertBlock env ltr l st = .error x → ConversionFatal env x
  | [], st, x, h => by
    rw [convertBlock] at h
    simp at h
  | s :: rest, st, x, h => by
    rw [convertBlock] at h
    split at h
    · rename_i y hc
      simp only [Except.error.injEq] at h
      subst h
      exact convertStatement_fatal env ltr s st y hc
    · split at h
      · rename_i y hc
        simp only [Except.error.injEq] at h
        subst h
        exact convertBlock_fatal env ltr rest _ y hc
      · simp at h

theorem convertMaybeNullBlock_fatal (env : Env) (ltr : Bool) :
    ∀ (b : Option (List ast.Statement)) (st : ConvState) (x : Fatal),
      convertMaybeNullBlock env ltr b st = .error x → ConversionFatal env x
  | none, st, x, h => by
    rw [convertMaybeNullBlock] at h
    simp at h
  | some l, st, x, h => by
    rw [convertMaybeNullBlock] at h
    exact convertBlock_fatal env ltr l st x h

end

/-! ## The first loop of `generateProgram` -/

theorem convertParameters_error (es : List ast.Expression) (z : Fatal)
    (h : convertParameters es = .error z) : z = .assertionFailed := by
  induction es with
  | nil => simp [convertParameters] at h
  | cons e es ih =>
    cases e with
    | VarRef v a =>
      rw [convertParameters] at h
      split at h
      · rename_i w hw
        simp only [Except.error.injEq] at h
        subst h
        exact ih hw
      · simp at h
    | UnaryOp op e2 => simp [convertParameters] at h; exact h.symm
    | BinaryOp op l r => simp [convertParameters] at h; exact h.symm
    | Literal v => simp [convertParameters] at h; exact h.symm
    | CommandExprSymbol c args => simp [convertParameters] at h; exact h.symm
    | FuncCallExpr c args => simp [convertParameters] at h; exact h.symm
    | Other => simp [convertParameters] at h; exact h.symm

theorem collectFunctions_error (l : List ast.Statement) (reached : Bool) (acc : Skeleton)
    (x : Fatal) (h : collectFunctions l reached acc = .error x) :
    x = .nonFunctionAfterFunction ∨ x = .assertionFailed := by
  induction l generalizing reached acc with
  | nil => rw [collectFunctions] at h; simp at h
  | cons t rest ih =>
    rw [collectFunctions] at h
    split at h
    · split at h
      · simp only [Except.error.injEq] at h
        exact Or.inl h.symm
      · exact ih _ _ h
    · rename_i name args body rv hdecl
      split at h
      · rename_i y hy
        simp only [Except.error.injEq] at h
        subst h
        right
        unfold convertFunctionWithoutBody at hy
        split at hy
        · simp at hy
        · rename_i es
          split at hy
          · rename_i z hz
            simp only [Except.error.injEq] at hy
            subst hy
            exact convertParameters_error es z hz
          · simp at hy
      · exact ih _ _ h

theorem collectFunctions_astMainStatements (l : List ast.Statement) (reached : Bool)
    (acc sk : Skeleton) (h : collectFunctions l reached acc = .ok sk) :
    sk.astMainStatements =
      acc.astMainStatements ++ l.filter (fun t => (asFuncDecl t).isNone) := by
  induction l generalizing reached acc with
  | nil =>
    rw [collectFunctions] at h
    simp only [Except.ok.injEq] at h
    rw [← h]
    simp
  | cons t rest ih =>
    rw [collectFunctions] at h
    split at h
    · rename_i hdecl
      split at h
      · simp at h
      · rw [ih _ _ h]
        simp [hdecl]
    · rename_i name args body rv hdecl
      split at h
      · simp at h
      · rw [ih _ _ h]
        simp [hdecl]

/-- After a function declaration the first loop accepts function declarations
only. -/
theorem collectFunctions_reached (l : List ast.Statement) (acc sk : Skeleton)
    (h : collectFunctions l true acc = .ok sk) : ∀ t ∈ l, asFuncDecl t ≠ none := by
  induction l generalizing acc with
  | nil => simp
  | cons t rest ih =>
    rw [collectFunctions] at h
    split at h
    · simp at h
    · rename_i name args body rv hdecl
      split at h
      · simp at h
      · intro u hu
        rcases List.mem_cons.mp hu with heq | hrest
        · rw [heq, hdecl]
          simp
        · exact ih _ h u hrest

/-- A block the first loop accepts has no other statement after a function
declaration. -/
theorem collectFunctions_accepts (l : List ast.Statement) (reached : Bool) (acc sk : Skeleton)
    (h : collectFunctions l reached acc = .ok sk)
    (pre post : List ast.Statement) (d : ast.Statement) (hl : l = pre ++ d :: post)
    (hd : asFuncDecl d ≠ none) : ∀ t ∈ post, asFuncDecl t ≠ none := by
  induction pre generalizing l reached acc with
  | nil =>
    subst hl
    simp only [List.nil_append] at h
    rw [collectFunctions] at h
    split at h
    · rename_i hnone
      exact absurd hnone hd
    · split at h
      · simp at h
      · exact collectFunctions_reached post _ sk h
  | cons p pre ih =>
    subst hl
    simp only [List.cons_append] at h
    rw [collectFunctions] at h
    split at h
    · split at h
      · simp at h
      · exact ih _ _ _ h rfl
    · split at h
      · simp at h
      · exact ih _ _ _ h rfl

theorem mem_mapEmplace_of_mem (m : List (String × Function)) (name : String) (f : Function)
    (e : String × Function) (he : e ∈ m) : e ∈ mapEmplace m name f := by
  unfold mapEmplace
  split
  · exact he
  · exact List.mem_append_left _ he

theorem mapEmplace_has_key (m : List (String × Function)) (name : String) (f : Function) :
    ∃ e ∈ mapEmplace m name f, e.1 = name := by
  unfold mapEmplace
  split
  · rename_i hany
    obtain ⟨e, he, hk⟩ := List.any_eq_true.mp hany
    exact ⟨e, he, by simpa using hk⟩
  · exact ⟨(name, f), by simp, rfl⟩

theorem skeletonFor_step (decls : List FuncDeclParts) (acc : Skeleton) (name : String)
    (args : Option (List ast.Expression)) (body : Option (List ast.Statement))
    (rv : Option ast.Expression) (definition : FunctionDefinition)
    (hinv : SkeletonFor decls acc)
    (hdef : convertFunctionWithoutBody name args = .ok definition) :
    SkeletonFor (decls ++ [(name, args, body, rv)])
      { acc with
        functionDefinitions := acc.functionDefinitions ++ [definition],
        functionMap := mapEmplace acc.functionMap name
          { body := body, returnValue := rv,
            functionDefinition :=
              { index := acc.functionDefinitions.length, name := name,
                arguments := definition.arguments } } } := by
  obtain ⟨hlen, hdefs, hmap, hkeys⟩ := hinv
  have hold : ∀ e ∈ acc.functionMap, ∃ (i : Nat) (args2 : Option (List ast.Expression))
      (body2 : Option (List ast.Statement)) (rv2 : Option ast.Expression)
      (d : FunctionDefinition),
      (decls ++ [(name, args, body, rv)])[i]? = some (e.1, args2, body2, rv2) ∧
      (∀ (j : Nat) (q : FuncDeclParts), j < i →
        (decls ++ [(name, args, body, rv)])[j]? = some q → q.1 ≠ e.1) ∧
      (acc.functionDefinitions ++ [definition])[i]? = some d ∧
      e.2 = { body := body2, returnValue := rv2,
              functionDefinition := { index := i, name := e.1, arguments := d.arguments } } := by
    intro e he
    obtain ⟨i, args2, body2, rv2, d, h1, h2, h3, h4⟩ := hmap e he
    have hi : i < decls.length := by
      by_contra hc
      rw [List.getElem?_eq_none (by omega)] at h1
      simp at h1
    refine ⟨i, args2, body2, rv2, d, ?_, ?_, ?_, h4⟩
    · rw [List.getElem?_append_left hi]
      exact h1
    · intro j q hj hq
      rw [List.getElem?_append_left (by omega)] at hq
      exact h2 j q hj hq
    · rw [List.getElem?_append_left (by omega)]
      exact h3
  refine ⟨?_, ?_, ?_, ?_⟩
  · simp [hlen]
  · intro i q hq
    by_cases hi : i < decls.length
    · rw [List.getElem?_append_left hi] at hq
      obtain ⟨d, hd1, hd2⟩ := hdefs i q hq
      refine ⟨d, ?_, hd2⟩
      show (acc.functionDefinitions ++ [definition])[i]? = some d
      rw [List.getElem?_append_left (by omega)]
      exact hd1
    · have hi2 : i = decls.length := by
        by_contra hc
        rw [List.getElem?_eq_none (by simp; omega)] at hq
        simp at hq
      subst hi2
      simp only [List.getElem?_concat_length, Option.some.injEq] at hq
      subst hq
      refine ⟨definition, ?_, hdef⟩
      show (acc.functionDefinitions ++ [definition])[decls.length]? = some definition
      rw [← hlen]
      simp
  · intro e he
    show ∃ (i : Nat) (args2 : Option (List ast.Expression))
      (body2 : Option (List ast.Statement)) (rv2 : Option ast.Expression)
      (d : FunctionDefinition),
      (decls ++ [(name, args, body, rv)])[i]? = some (e.1, args2, body2, rv2) ∧
      (∀ (j : Nat) (q : FuncDeclParts), j < i →
        (decls ++ [(name, args, body, rv)])[j]? = some q → q.1 ≠ e.1) ∧
      (acc.functionDefinitions ++ [definition])[i]? = some d ∧
      e.2 = { body := body2, returnValue := rv2,
              functionDefinition := { index := i, name := e.1, arguments := d.arguments } }
    have he2 : e ∈ mapEmplace acc.functionMap name
        { body := body, returnValue := rv,
          functionDefinition :=
            { index := acc.functionDefinitions.length, name := name,
              arguments := definition.arguments } } := he
    unfold mapEmplace at he2
    split at he2
    · exact hold e he2
    · rename_i hany
      rcases List.mem_append.mp he2 with h | h
      · exact hold e h
      · have heq : e = (name,
            ({ body := body, returnValue := rv,
               functionDefinition :=
                { index := acc.functionDefinitions.length, name := name,
                  arguments := definition.arguments } } : Function)) := by simpa using h
        subst heq
        refine ⟨decls.length, args, body, rv, definition, ?_, ?_, ?_, ?_⟩
        · simp
        · intro j q hj hq hname
          rw [List.getElem?_append_left hj] at hq
          obtain ⟨e2, he2m, hk⟩ := hkeys q (List.getElem?_mem hq)
          apply hany
          apply List.any_eq_true.mpr
          exact ⟨e2, he2m, by simp [hk, hname]⟩
        · rw [← hlen]
          simp
        · simp [hlen]
  · intro q hq
    rcases List.mem_append.mp hq with h | h
    · obtain ⟨e, he, hk⟩ := hkeys q h
      exact ⟨e, mem_mapEmplace_of_mem _ _ _ e he, hk⟩
    · have heq : q = (name, args, body, rv) := by simpa using h
      subst heq
      exact mapEmplace_has_key _ _ _

theorem collectFunctions_skeletonFor (l : List ast.Statement) (reached : Bool)
    (acc sk : Skeleton) (decls : List FuncDeclParts)
    (h : collectFunctions l reached acc = .ok sk) (hinv : SkeletonFor decls acc) :
    SkeletonFor (decls ++ functionDeclarations l) sk := by
  induction l generalizing reached acc decls with
  | nil =>
    rw [collectFunctions] at h
    simp only [Except.ok.injEq] at h
    subst h
    simpa [functionDeclarations] using hinv
  | cons t rest ih =>
    rw [collectFunctions] at h
    split at h
    · rename_i hdecl
      split at h
      · simp at h
      · have := ih _ _ decls h hinv
        simpa [functionDeclarations, hdecl] using this
    · rename_i name args body rv hdecl
      split at h
      · simp at h
      · rename_i definition hdef
        have := ih _ _ _ h (skeletonFor_step decls acc name args body rv definition hinv hdef)
        simpa [functionDeclarations, hdecl] using this

theorem skeletonFor_empty :
    SkeletonFor [] { astMainStatements := [], functionDefinitions := [], functionMap := [] } := by
  refine ⟨rfl, ?_, ?_, ?_⟩
  · intro i q hq
    simp at hq
  · intro e he
    simp at he
  · intro q hq
    simp at hq

/-! ## Statements after a function declaration -/

theorem convertParameters_ok (es : List ast.Expression)
    (h : ∀ e ∈ es, ∃ v a, e = ast.Expression.VarRef v a) :
    ∃ arguments, convertParameters es = .ok arguments := by
  induction es with
  | nil => exact ⟨[], rfl⟩
  | cons e es ih =>
    obtain ⟨v, a, he⟩ := h e (List.mem_cons_self _ _)
    obtain ⟨arguments, hrest⟩ := ih (fun x hx => h x (List.mem_cons_of_mem _ hx))
    subst he
    rw [convertParameters, hrest]
    exact ⟨_, rfl⟩

theorem convertFunctionWithoutBody_ok (t : ast.Statement) (name : String)
    (args : Option (List ast.Expression)) (body : Option (List ast.Statement))
    (rv : Option ast.Expression) (hdecl : asFuncDecl t = some (name, args, body, rv))
    (h : ParametersAreVariables t) : ∃ d, convertFunctionWithoutBody name args = .ok d := by
  unfold convertFunctionWithoutBody
  cases args with
  | none => exact ⟨_, rfl⟩
  | some es =>
    obtain ⟨arguments, ha⟩ := convertParameters_ok es (h name es body rv hdecl)
    simp only [ha]
    exact ⟨_, rfl⟩

theorem collectFunctions_structural_error (pre : List ast.Statement) (t : ast.Statement)
    (post : List ast.Statement) (reached : Bool) (acc : Skeleton)
    (ht : asFuncDecl t = none) (hpre : ∀ u ∈ pre, ParametersAreVariables u)
    (hreached : reached = true ∨ ∃ d ∈ pre, asFuncDecl d ≠ none) :
    collectFunctions (pre ++ t :: post) reached acc = .error .nonFunctionAfterFunction := by
  induction pre generalizing reached acc with
  | nil =>
    rcases hreached with h | ⟨d, hd, _⟩
    · subst h
      simp only [List.nil_append]
      rw [collectFunctions, ht]
      rfl
    · simp at hd
  | cons p pre ih =>
    simp only [List.cons_append]
    rw [collectFunctions]
    cases hp : asFuncDecl p with
    | none =>
      cases reached with
      | true => rfl
      | false =>
        simp only [Bool.false_eq_true, if_false]
        apply ih _ _ (fun u hu => hpre u (List.mem_cons_of_mem _ hu))
        rcases hreached with h | ⟨d, hd, hdd⟩
        · simp at h
        · rcases List.mem_cons.mp hd with heq | hrest
          · rw [heq] at hdd
            exact absurd hp hdd
          · exact Or.inr ⟨d, hrest, hdd⟩
    | some q =>
      obtain ⟨name, args, body, rv⟩ := q
      obtain ⟨d, hd⟩ := convertFunctionWithoutBody_ok p name args body rv hp
        (hpre p (List.mem_cons_self _ _))
      simp only [hd]
      exact ih _ _ (fun u hu => hpre u (List.mem_cons_of_mem _ hu)) (Or.inl rfl)

theorem collectFunctions_never_structural (main funcs : List ast.Statement) (acc : Skeleton)
    (hmain : ∀ t ∈ main, asFuncDecl t = none) (hfuncs : ∀ t ∈ funcs, asFuncDecl t ≠ none) :
    collectFunctions (main ++ funcs) false acc ≠ .error .nonFunctionAfterFunction := by
  have hdecls : ∀ (reached : Bool) (acc : Skeleton),
      collectFunctions funcs reached acc ≠ .error .nonFunctionAfterFunction := by
    induction funcs with
    | nil =>
      intro reached acc
      rw [collectFunctions]
      simp
    | cons f funcs ih =>
      intro reached acc
      rw [collectFunctions]
      cases hf : asFuncDecl f with
      | none => exact absurd hf (hfuncs f (List.mem_cons_self _ _))
      | some q =>
        obtain ⟨name, args, body, rv⟩ := q
        simp only
        cases hd : convertFunctionWithoutBody name args with
        | error x =>
          simp only [ne_eq, Except.error.injEq]
          unfold convertFunctionWithoutBody at hd
          split at hd
          · simp at hd
          · split at hd
            · rename_i z hz
              simp only [Except.error.injEq] at hd
              subst hd
              rw [convertParameters_error _ z hz]
              simp
            · simp at hd
        | ok d => exact ih (fun t ht => hfuncs t (List.mem_cons_of_mem _ ht)) _ _
  induction main generalizing acc with
  | nil => exact hdecls false acc
  | cons m main ih =>
    simp only [List.cons_append]
    rw [collectFunctions, hmain m (List.mem_cons_self _ _)]
    simp only [Bool.false_eq_true, if_false]
    exact ih _ (fun t ht => hmain t (List.mem_cons_of_mem _ ht))

theorem conversionFatal_definitions (s : Settings) (m : List (String × Function))
    (defs defs2 : List FunctionDefinition) (x : Fatal)
    (h : ConversionFatal (s.env m defs) x) : ConversionFatal (s.env m defs2) x := by
  cases x with
  | functionNotDefined name =>
    have h1 : findFunction (s.env m defs) name = none := h
    have h2 : findFunction (s.env m defs2) name = none := by
      rw [findFunction_functionEntries] at h1 ⊢
      exact h1
    exact h2
  | _ => exact h

theorem convertFunctionBodies_fatal (s : Settings) (m : List (String × Function))
    (entries : List (String × Function)) (defs : List FunctionDefinition) (err : Bool)
    (x : Fatal) (h : convertFunctionBodies s m entries defs err = .error x) :
    ConversionFatal (s.env m []) x := by
  induction entries generalizing defs err with
  | nil => rw [convertFunctionBodies] at h; simp at h
  | cons e rest ih =>
    rw [convertFunctionBodies] at h
    split at h
    · rename_i y hy
      simp only [Except.error.injEq] at h
      subst h
      unfold convertFunctionBody at hy
      repeat' (split at hy)
      all_goals first
        | (simp at hy; done)
        | (simp only [Except.error.injEq] at hy
           subst hy
           first
             | exact True.intro
             | exact conversionFatal_definitions s m defs [] _
                 (convertBlock_fatal _ _ _ _ _ (by assumption))
             | exact conversionFatal_definitions s m defs [] _
                 (convertExpression_fatal _ _ _ _ (by assumption)))
    · exact ih _ _ h

/-- Where a fatal error of `generateProgram` comes from: the first loop, or the
conversion of a statement or expression. -/
theorem generateProgram_error (s : Settings) (tree : List ast.Statement) (x : Fatal)
    (h : generateProgram s tree = .error x) :
    collectFunctions tree false
      { astMainStatements := [], functionDefinitions := [], functionMap := [] } = .error x ∨
    ∃ sk, collectFunctions tree false
      { astMainStatements := [], functionDefinitions := [], functionMap := [] } = .ok sk ∧
      ConversionFatal (s.env sk.functionMap []) x := by
  unfold generateProgram at h
  split at h
  · rename_i y hy
    simp only [Except.error.injEq] at h
    subst h
    exact Or.inl hy
  · rename_i sk hsk
    right
    refine ⟨sk, hsk, ?_⟩
    split at h
    · rename_i y hy
      simp only [Except.error.injEq] at h
      subst h
      exact conversionFatal_definitions s _ _ [] _ (convertBlock_fatal _ _ _ _ _ hy)
    · split at h
      · rename_i y hy
        simp only [Except.error.injEq] at h
        subst h
        exact convertFunctionBodies_fatal s _ _ _ _ _ hy
      · split at h <;> simp at h

/-- C23 (amended): when a statement that is no function declaration stands after
a function declaration in the top-level block, `generateProgram` ends in a fatal
error and returns no Program: the structural error of the first loop or, when
a declaration before that statement has a parameter that is no variable
reference, the failed assertion of `convertFunctionWithoutBody`; it is the
structural error whenever the parameters of the declarations before the
statement are variable references. A block whose function declarations all
stand behind its other statements never ends in the structural error. -/
theorem statement_after_function_is_fatal (s : Settings)
    (pre mid post : List ast.Statement) (d t : ast.Statement)
    (hd : asFuncDecl d ≠ none) (ht : asFuncDecl t = none) :
    (generateProgram s (pre ++ d :: (mid ++ t :: post)) = .error .nonFunctionAfterFunction ∨
      generateProgram s (pre ++ d :: (mid ++ t :: post)) = .error .assertionFailed) ∧
    ((∀ u ∈ pre ++ d :: mid, ParametersAreVariables u) →
      generateProgram s (pre ++ d :: (mid ++ t :: post)) = .error .nonFunctionAfterFunction) ∧
    (∀ main funcs : List ast.Statement, (∀ u ∈ main, asFuncDecl u = none) →
      (∀ u ∈ funcs, asFuncDecl u ≠ none) →
      generateProgram s (main ++ funcs) ≠ .error .nonFunctionAfterFunction) := by
  refine ⟨?_, ?_, ?_⟩
  · cases hc : collectFunctions (pre ++ d :: (mid ++ t :: post)) false
        { astMainStatements := [], functionDefinitions := [], functionMap := [] } with
    | ok sk =>
      exact absurd ht (collectFunctions_accepts _ _ _ sk hc pre (mid ++ t :: post) d rfl hd t
        (by simp))
    | error x =>
      have hg : generateProgram s (pre ++ d :: (mid ++ t :: post)) = .error x := by
        unfold generateProgram
        simp only [hc]
      rcases collectFunctions_error _ _ _ x hc with hx | hx
      · left; rw [hg, hx]
      · right; rw [hg, hx]
  · intro hparams
    have hc := collectFunctions_structural_error (pre ++ d :: mid) t post false
      { astMainStatements := [], functionDefinitions := [], functionMap := [] } ht hparams
      (Or.inr ⟨d, by simp, hd⟩)
    have hl : pre ++ d :: mid ++ t :: post = pre ++ d :: (mid ++ t :: post) := by simp
    rw [hl] at hc
    unfold generateProgram
    simp only [hc]
  · intro main funcs hmain hfuncs hg
    rcases generateProgram_error s _ _ hg with h | ⟨sk, _, h⟩
    · exact collectFunctions_never_structural main funcs _ hmain hfuncs h
    · exact h

/-- Witness of C23 (amended): `function f(a)` followed by the assignment `x = 1`; and the
same two statements in the other order. -/
theorem statement_after_function_is_fatal_witness :
    generateProgram examples.settings examples.statementAfterFunction =
      .error .nonFunctionAfterFunction ∧
    generateProgram examples.settings
      ([.VarAssignment "x" .NONE (.Literal (.Integer 1))] ++
        [.FuncDecl "f" (some [.VarRef "a" .NONE])
          (some [.VarAssignment "b" .NONE (.Literal (.Integer 2))]) none]) ≠
      .error .nonFunctionAfterFunction :=
  have h := statement_after_function_is_fatal examples.settings [] [] []
    (.FuncDecl "f" (some [.VarRef "a" .NONE])
      (some [.VarAssignment "b" .NONE (.Literal (.Integer 2))]) none)
    (.VarAssignment "x" .NONE (.Literal (.Integer 1)))
    (by simp [asFuncDecl]) rfl
  ⟨h.2.1 (by
      intro u hu
      simp only [List.nil_append, List.mem_singleton] at hu
      subst hu
      intro name es body rv hdecl e he
      simp only [asFuncDecl, Option.some.injEq, Prod.mk.injEq] at hdecl
      obtain ⟨_, hes, _⟩ := hdecl
      subst hes
      simp only [List.mem_singleton] at he
      exact ⟨"a", .NONE, he⟩),
    h.2.2 _ _ (by simp [asFuncDecl]) (by simp [asFuncDecl])⟩

/-! ## The function a call resolves to -/

theorem findFunction_some (s : Settings) (m : List (String × Function))
    (defs : List FunctionDefinition) (name : String) (entry : FunctionEntry)
    (h : findFunction (s.env m defs) name = some entry) :
    ∃ e ∈ m, e.1 = name ∧ entry.functionDefinition = e.2.functionDefinition := by
  unfold findFunction Settings.env functionEntries at h
  simp only [Option.map_eq_some', List.find?_map] at h
  obtain ⟨x, ⟨e, hfind, hxe⟩, hentry⟩ := h
  refine ⟨e, List.mem_of_find?_eq_some hfind, ?_, ?_⟩
  · have := List.find?_some hfind
    simpa using this
  · rw [← hentry, ← hxe]

theorem convertFunctionCallExpression_callee (env : Env) (name : String)
    (astArgs : Option (List ast.Expression)) (st st1 : ConvState)
    (call : FunctionCallExpression)
    (h : convertFunctionCallExpression env name astArgs st = .ok (call, st1)) :
    ∃ entry, findFunction env name = some entry ∧
      call.callee = .function entry.functionDefinition := by
  rw [convertFunctionCallExpression] at h
  split at h
  · simp at h
  · rename_i entry hentry
    refine ⟨entry, hentry, ?_⟩
    repeat' (split at h)
    all_goals first
      | (simp at h; done)
      | (simp only [Except.ok.injEq, Prod.mk.injEq] at h
         rw [← h.1])

/-- C21: in a top-level block that the first loop of `generateProgram` accepts,
a function name resolves, at whatever point of the conversion (the
definitions `defs` may have any of their bodies set), to no function exactly
when the block has no declaration of that name, and otherwise to the
definition made by `convertFunctionWithoutBody` for the first declaration of
that name in the block, wherever that declaration stands; a call that is
converted gets this definition as callee; and `generateProgram` ends in the
error of an undefined function only for a name without declaration. -/
theorem calls_resolve_to_declaration (s : Settings) (tree : List ast.Statement)
    (sk : Skeleton) (defs : List FunctionDefinition) (name : String)
    (hsk : collectFunctions tree false
      { astMainStatements := [], functionDefinitions := [], functionMap := [] } = .ok sk) :
    (findFunction (s.env sk.functionMap defs) name = none ↔
      ∀ t ∈ tree, ∀ a b r, asFuncDecl t ≠ some (name, a, b, r)) ∧
    (∀ entry, findFunction (s.env sk.functionMap defs) name = some entry →
      ∃ (i : Nat) (args : Option (List ast.Expression)) (body : Option (List ast.Statement))
        (rv : Option ast.Expression) (d : FunctionDefinition),
        (functionDeclarations tree)[i]? = some (name, args, body, rv) ∧
        (∀ (j : Nat) (q : FuncDeclParts), j < i →
          (functionDeclarations tree)[j]? = some q → q.1 ≠ name) ∧
        sk.functionDefinitions[i]? = some d ∧
        convertFunctionWithoutBody name args = .ok d ∧
        entry.functionDefinition = { index := i, name := name, arguments := d.arguments }) ∧
    (∀ astArgs st call st1,
      convertFunctionCallExpression (s.env sk.functionMap defs) name astArgs st =
        .ok (call, st1) →
      ∃ entry, findFunction (s.env sk.functionMap defs) name = some entry ∧
        call.callee = .function entry.functionDefinition) ∧
    (generateProgram s tree = .error (.functionNotDefined name) →
      ∀ t ∈ tree, ∀ a b r, asFuncDecl t ≠ some (name, a, b, r)) := by
  have hinv := collectFunctions_skeletonFor tree false _ sk [] hsk skeletonFor_empty
  simp only [List.nil_append] at hinv
  obtain ⟨_, hdefs, hmap, hkeys⟩ := hinv
  have hnone : ∀ defs2, findFunction (s.env sk.functionMap defs2) name = none ↔
      ∀ t ∈ tree, ∀ a b r, asFuncDecl t ≠ some (name, a, b, r) := by
    intro defs2
    rw [findFunction_functionEntries]
    constructor
    · intro h t ht a b r hdecl
      have hq : (name, a, b, r) ∈ functionDeclarations tree := by
        unfold functionDeclarations
        exact List.mem_filterMap.mpr ⟨t, ht, hdecl⟩
      obtain ⟨e, he, hk⟩ := hkeys _ hq
      exact h e he hk
    · intro h e he hk
      obtain ⟨i, args, body, rv, d, h1, _, _, _⟩ := hmap e he
      have hq := List.getElem?_mem h1
      unfold functionDeclarations at hq
      obtain ⟨t, ht, hdecl⟩ := List.mem_filterMap.mp hq
      rw [hk] at hdecl
      exact h t ht args body rv hdecl
  refine ⟨hnone defs, ?_, ?_, ?_⟩
  · intro entry hentry
    obtain ⟨e, he, hk, hfd⟩ := findFunction_some s _ _ _ _ hentry
    obtain ⟨i, args, body, rv, d, h1, h2, h3, h4⟩ := hmap e he
    rw [hk] at h1 h2 h4
    obtain ⟨d2, hd2, hconv⟩ := hdefs i _ h1
    have hdd : d2 = d := by
      rw [h3] at hd2
      exact (Option.some.inj hd2).symm
    subst hdd
    refine ⟨i, args, body, rv, d2, h1, h2, h3, hconv, ?_⟩
    rw [hfd, h4]
  · intro astArgs st call st1 hcall
    exact convertFunctionCallExpression_callee _ _ _ _ _ _ hcall
  · intro hg
    rcases generateProgram_error s tree _ hg with h | ⟨sk2, hsk2, h⟩
    · rcases collectFunctions_error _ _ _ _ h with hx | hx <;> simp at hx
    · rw [hsk] at hsk2
      have hsk3 : sk = sk2 := by simpa using hsk2
      subst hsk3
      exact (hnone []).mp h

/-- Witness of C21: in `f(1)` followed by `function f(a)` the name `f` resolves
to the definition at position 0, made for the declaration after the call; in
`h(1)` followed by `function f(a)` the name `h` has no declaration. -/
theorem calls_resolve_to_declaration_witness :
    (∃ entry, findFunction (examples.settings.env
        [("f", { body := some [.VarAssignment "b" .NONE (.Literal (.Integer 2))],
                 returnValue := some (.Literal (.Integer 3)),
                 functionDefinition := examples.integerFunctionF })] []) "f" = some entry ∧
      entry.functionDefinition = examples.integerFunctionF) ∧
    generateProgram examples.settings examples.callOfUndeclared =
      .error (.functionNotDefined "h") ∧
    (∀ t ∈ examples.callOfUndeclared, ∀ a b r, asFuncDecl t ≠ some ("h", a, b, r)) :=
  ⟨⟨_, rfl, by
      obtain ⟨i, args, body, rv, d, h1, h2, h3, h4, h5⟩ :=
        (calls_resolve_to_declaration examples.settings examples.callThenFunction
          { astMainStatements := [.FuncCallStmnt "f" (some [.Literal (.Integer 1)])],
            functionDefinitions :=
              [{ name := "f", arguments := examples.integerFunctionF.arguments,
                 statements := [], returnExpression := none, scope := [] }],
            functionMap :=
              [("f", { body := some [.VarAssignment "b" .NONE (.Literal (.Integer 2))],
                       returnValue := some (.Literal (.Integer 3)),
                       functionDefinition := examples.integerFunctionF })] }
          [] "f" rfl).2.1 _ rfl
      rfl⟩,
    rfl,
    (calls_resolve_to_declaration examples.settings examples.callOfUndeclared
      { astMainStatements := [.FuncCallStmnt "h" (some [.Literal (.Integer 1)])],
        functionDefinitions :=
          [{ name := "f", arguments := examples.integerFunctionF.arguments, statements := [],
             returnExpression := none, scope := [] }],
        functionMap :=
          [("f", { body := some [.VarAssignment "b" .NONE (.Literal (.Integer 2))],
                   returnValue := none, functionDefinition := examples.integerFunctionF })] }
      [] "h" rfl).2.2.2 rfl⟩

/-! ## The main function of a Program -/

theorem convertStatement_none (env : Env) (ltr : Bool) (s : ast.Statement)
    (st st2 : ConvState) (h : convertStatement env ltr s st = .ok (none, st2)) :
    st2.errorOccurred = true := by
  cases s
  all_goals rw [convertStatement] at h
  all_goals repeat' (split at h)
  all_goals first
    | (simp at h; done)
    | (simp only [Except.ok.injEq, Prod.mk.injEq, true_and] at h
       rw [← h]
       rfl)

theorem convertBlock_length (env : Env) (ltr : Bool) (l : List ast.Statement)
    (st st2 : ConvState) (b : StatementBlock)
    (h : convertBlock env ltr l st = .ok (b, st2)) : b.length = l.length := by
  induction l generalizing st st2 b with
  | nil =>
    rw [convertBlock] at h
    simp only [Except.ok.injEq, Prod.mk.injEq] at h
    rw [← h.1]
    rfl
  | cons t rest ih =>
    rw [convertBlock] at h
    split at h
    · simp at h
    · split at h
      · simp at h
      · rename_i block st3 hb
        simp only [Except.ok.injEq, Prod.mk.injEq] at h
        rw [← h.1]
        simp [ih _ _ _ hb]

/-- The statement at position `i` of a converted block is the conversion of the
source statement at position `i`, in the state left by the conversion of the
statements before it. -/
theorem convertBlock_index (env : Env) (ltr : Bool) (l : List ast.Statement)
    (st st2 : ConvState) (b : StatementBlock)
    (h : convertBlock env ltr l st = .ok (b, st2)) (i : Nat) (t : ast.Statement)
    (ht : l[i]? = some t) :
    ∃ sti r sti2 b2, convertBlock env ltr (l.take i) st = .ok (b.take i, sti) ∧
      convertStatement env ltr t sti = .ok (r, sti2) ∧ b[i]? = some r ∧
      convertBlock env ltr (l.drop (i + 1)) sti2 = .ok (b2, st2) := by
  have hi : i < l.length := by
    by_contra hc
    rw [List.getElem?_eq_none (by omega)] at ht
    simp at ht
  have hl : l = l.take i ++ t :: l.drop (i + 1) := by
    have h1 : l.drop i = t :: l.drop (i + 1) := by
      rw [List.drop_eq_getElem_cons hi]
      have h2 : l[i] = t := by
        rw [List.getElem?_eq_getElem hi] at ht
        exact Option.some.inj ht
      rw [h2]
    rw [← h1]
    exact (List.take_append_drop i l).symm
  rw [hl] at h
  obtain ⟨b1, st1, s1, st3, b2, h1, h2, h3, h4⟩ := convertBlock_append _ _ _ _ _ _ _ _ h
  have hlen : b1.length = i := by
    rw [convertBlock_length _ _ _ _ _ _ h1]
    simp
    omega
  refine ⟨st1, s1, st3, b2, ?_, h2, ?_, h3⟩
  · rw [h4, List.take_left' hlen]
    exact h1
  · rw [h4, ← hlen, List.getElem?_append_right (le_refl _)]
    simp

/-- C22: when a top-level block made of statements that are no function
declarations, followed by function declarations only, is converted to a
Program, the main function of the Program is named `__DBMain`, has no
arguments, and its body has one statement per leading source statement: the
statement at position `i` is the conversion of the source statement at
position `i`, made in the state that the conversion of the statements before
it left. -/
theorem main_holds_leading_statements (s : Settings) (main funcs : List ast.Statement)
    (p : Program) (hmain : ∀ u ∈ main, asFuncDecl u = none)
    (hfuncs : ∀ u ∈ funcs, asFuncDecl u ≠ none)
    (hp : generateProgram s (main ++ funcs) = .ok (some p)) :
    p.mainFunction.name = "__DBMain" ∧ p.mainFunction.arguments = [] ∧
    p.mainFunction.statements.length = main.length ∧
    ∃ sk, collectFunctions (main ++ funcs) false
        { astMainStatements := [], functionDefinitions := [], functionMap := [] } = .ok sk ∧
      sk.astMainStatements = main ∧
      ∀ (i : Nat) (t : ast.Statement), main[i]? = some t →
        ∃ sti r sti2,
          convertBlock (s.env sk.functionMap sk.functionDefinitions) s.leftToRight
            (main.take i) { scope := [], errorOccurred := false } =
            .ok (p.mainFunction.statements.take i, sti) ∧
          convertStatement (s.env sk.functionMap sk.functionDefinitions) s.leftToRight t sti =
            .ok (some r, sti2) ∧
          p.mainFunction.statements[i]? = some (some r) := by
  obtain ⟨sk, block, stm, defs, hsk, hb, hflag, _, hprog⟩ := generateProgram_some s _ p hp
  have hms : sk.astMainStatements = main := by
    rw [collectFunctions_astMainStatements _ _ _ _ hsk]
    simp only [List.nil_append, List.filter_append]
    have h1 : main.filter (fun t => (asFuncDecl t).isNone) = main := by
      apply List.filter_eq_self.mpr
      intro u hu
      simp [hmain u hu]
    have h2 : funcs.filter (fun t => (asFuncDecl t).isNone) = [] := by
      apply List.filter_eq_nil_iff.mpr
      intro u hu
      cases hd : asFuncDecl u with
      | none => exact absurd hd (hfuncs u hu)
      | some q => simp
    rw [h1, h2]
    simp
  rw [hms] at hb
  subst hprog
  refine ⟨rfl, rfl, convertBlock_length _ _ _ _ _ _ hb, sk, hsk, hms, ?_⟩
  intro i t ht
  obtain ⟨sti, r, sti2, b2, h1, h2, h3, h4⟩ := convertBlock_index _ _ _ _ _ _ hb i t ht
  cases r with
  | none =>
    have hf := convertStatement_none _ _ _ _ _ h2
    have := convertBlock_errorOccurred _ _ _ _ _ _ h4 hf
    rw [hflag] at this
    exact absurd this Bool.false_ne_true
  | some r => exact ⟨sti, r, sti2, h1, h2, h3⟩

/-- Witness of C22: the program `f(1)` followed by `function f(a)`. -/
theorem main_holds_leading_statements_witness :
    examples.callThenFunctionProgram.mainFunction.name = "__DBMain" ∧
    examples.callThenFunctionProgram.mainFunction.arguments = [] ∧
    examples.callThenFunctionProgram.mainFunction.statements.length = 1 :=
  have h := main_holds_leading_statements examples.settings
    [.FuncCallStmnt "f" (some [.Literal (.Integer 1)])]
    [.FuncDecl "f" (some [.VarRef "a" .NONE])
       (some [.VarAssignment "b" .NONE (.Literal (.Integer 2))])
       (some (.Literal (.Integer 3)))]
    examples.callThenFunctionProgram (by simp [asFuncDecl]) (by simp [asFuncDecl]) rfl
  ⟨h.1, h.2.1, h.2.2.1⟩

/-! ## The conditions of loops -/

/-- C26 (evaluation of the code at the failing input): the program
`while 1 : endwhile : repeat : until 1` is converted to a Program, without any
error, in which the conditions of the WhileLoop and of the UntilLoop are the
Integer literal itself, of Type Integer and not Boolean; the same condition in
`if 1 then endif` is cast to Boolean. -/
theorem loop_conditions_are_not_cast :
    generateProgram examples.settings examples.loopsOnInteger =
      .ok (some
        { mainFunction :=
            { name := "__DBMain", arguments := [],
              statements :=
                [some (.WhileLoop (.literal (.Integer 1)) []),
                 some (.UntilLoop (.literal (.Integer 1)) [])],
              returnExpression := none, scope := [] },
          functions := [] }) ∧
    blockConditions
        [some (.WhileLoop (.literal (.Integer 1)) []),
         some (.UntilLoop (.literal (.Integer 1)) [])] =
      [(.whileLoop, .literal (.Integer 1)), (.untilLoop, .literal (.Integer 1))] ∧
    Expression.getType (.literal (.Integer 1)) = .builtin .Integer ∧
    IRType.builtin .Integer ≠ IRType.builtin .Boolean ∧
    generateProgram examples.settings examples.conditionalOnInteger =
      .ok (some
        { mainFunction :=
            { name := "__DBMain", arguments := [],
              statements :=
                [some (.Conditional (.cast (.literal (.Integer 1)) (.builtin .Boolean)) [] [])],
              returnExpression := none, scope := [] },
          functions := [] }) := by
  refine ⟨rfl, ?_, rfl, by decide, rfl⟩
  simp [blockConditions, Statement.conditions]

/-! ## The conditions of Conditional statements -/

theorem ensureType_clean (e : Expression) (t : IRType) (st : ConvState)
    (h : (ensureType e t st).2.errorOccurred = false) :
    st.errorOccurred = false ∧ (ensureType e t st).1.getType = t := by
  unfold ensureType at h ⊢
  split
  · rename_i heq
    rw [if_pos heq] at h
    exact ⟨h, heq⟩
  · rename_i hne
    rw [if_neg hne] at h
    split
    · rename_i hconv
      rw [if_pos hconv] at h
      exact ⟨h, rfl⟩
    · rename_i hconv
      rw [if_neg hconv] at h
      simp [semanticError] at h

theorem convertExpression_clean (env : Env) (e : ast.Expression) (st st2 : ConvState)
    (r : Expression) (h : convertExpression env e st = .ok (r, st2))
    (hclean : st2.errorOccurred = false) : st.errorOccurred = false := by
  cases hf : st.errorOccurred with
  | false => rfl
  | true =>
    have := convertExpression_errorOccurred env e st st2 r h hf
    rw [hclean] at this
    exact absurd this Bool.false_ne_true

theorem convertStatement_clean (env : Env) (ltr : Bool) (s : ast.Statement)
    (st st2 : ConvState) (r : Option Statement)
    (h : convertStatement env ltr s st = .ok (r, st2))
    (hclean : st2.errorOccurred = false) : st.errorOccurred = false := by
  cases hf : st.errorOccurred with
  | false => rfl
  | true =>
    have := convertStatement_errorOccurred env ltr s st st2 r h hf
    rw [hclean] at this
    exact absurd this Bool.false_ne_true

theorem convertBlock_clean (env : Env) (ltr : Bool) (l : List ast.Statement)
    (st st2 : ConvState) (r : StatementBlock)
    (h : convertBlock env ltr l st = .ok (r, st2))
    (hclean : st2.errorOccurred = false) : st.errorOccurred = false := by
  cases hf : st.errorOccurred with
  | false => rfl
  | true =>
    have := convertBlock_errorOccurred env ltr l st st2 r h hf
    rw [hclean] at this
    exact absurd this Bool.false_ne_true

theorem convertMaybeNullBlock_clean (env : Env) (ltr : Bool)
    (b : Option (List ast.Statement)) (st st2 : ConvState) (r : StatementBlock)
    (h : convertMaybeNullBlock env ltr b st = .ok (r, st2))
    (hclean : st2.errorOccurred = false) : st.errorOccurred = false := by
  cases hf : st.errorOccurred with
  | false => rfl
  | true =>
    have := convertMaybeNullBlock_errorOccurred env ltr b st st2 r h hf
    rw [hclean] at this
    exact absurd this Bool.false_ne_true

mutual

theorem convertStatement_conditions (env : Env) (ltr : Bool) :
    ∀ (s : ast.Statement) (st st2 : ConvState) (r : Statement),
      convertStatement env ltr s st = .ok (some r, st2) → st2.errorOccurred = false →
      ∀ x, (ConditionKind.conditional, x) ∈ r.conditions → x.getType = .builtin .Boolean
  | .ConstDecl, st, st2, r, h, hclean, x, hmem => by
    rw [convertStatement] at h
    simp at h
  | .VarDecl name ann varType initialValue, st, st2, r, h, hclean, x, hmem => by
    rw [convertStatement] at h
    repeat' (split at h)
    all_goals first
      | (simp at h; done)
      | (simp only [Except.ok.injEq, Prod.mk.injEq, Option.some.injEq] at h
         obtain ⟨hr, _⟩ := h
         subst hr
         simp [Statement.conditions] at hmem)
  | .VarAssignment name ann e, st, st2, r, h, hclean, x, hmem => by
    rw [convertStatement] at h
    repeat' (split at h)
    all_goals first
      | (simp at h; done)
      | (simp only [Except.ok.injEq, Prod.mk.injEq, Option.some.injEq] at h
         obtain ⟨hr, _⟩ := h
         subst hr
         simp [Statement.conditions] at hmem)
  | .Conditional c tb fb, st, st2, r, h, hclean, x, hmem => by
    rw [convertStatement] at h
    cases ltr with
    | true =>
      simp only [if_true] at h
      split at h
      · simp at h
      · rename_i c1 st1 hc
        split at h
        · simp at h
        · rename_i t st3 ht
          split at h
          · simp at h
          · rename_i f st4 hf
            simp only [Except.ok.injEq, Prod.mk.injEq, Option.some.injEq] at h
            obtain ⟨hr, hst⟩ := h
            subst hr
            subst hst
            have h3 := convertMaybeNullBlock_clean env true fb st3 st4 f hf hclean
            have h2 := convertMaybeNullBlock_clean env true tb _ st3 t ht h3
            have hty := (ensureType_clean c1 _ st1 h2).2
            simp only [Statement.conditions, List.mem_cons, List.mem_append, Prod.mk.injEq,
              true_and] at hmem
            rcases hmem with heq | hin | hin
            · rw [heq]; exact hty
            · exact convertMaybeNullBlock_conditions env true tb _ st3 t ht h3 x hin
            · exact convertMaybeNullBlock_conditions env true fb st3 st4 f hf hclean x hin
    | false =>
      simp only [Bool.false_eq_true, if_false] at h
      split at h
      · simp at h
      · rename_i f st1 hf
        split at h
        · simp at h
        · rename_i t st3 ht
          split at h
          · simp at h
          · rename_i c1 st4 hc
            simp only [Except.ok.injEq, Prod.mk.injEq, Option.some.injEq] at h
            obtain ⟨hr, hst⟩ := h
            subst hr
            subst hst
            have h4 := ensureType_clean c1 _ st4 hclean
            have h3 := convertExpression_clean env c st3 st4 c1 hc h4.1
            have h1 := convertMaybeNullBlock_clean env false tb st1 st3 t ht h3
            simp only [Statement.conditions, List.mem_cons, List.mem_append, Prod.mk.injEq,
              true_and] at hmem
            rcases hmem with heq | hin | hin
            · rw [heq]; exact h4.2
            · exact convertMaybeNullBlock_conditions env false tb st1 st3 t ht h3 x hin
            · exact convertMaybeNullBlock_conditions env false fb st st1 f hf h1 x hin
  | .SubReturn, st, st2, r, h, hclean, x, hmem => by
    rw [convertStatement] at h
    simp only [Except.ok.injEq, Prod.mk.injEq, Option.some.injEq] at h
    obtain ⟨hr, _⟩ := h
    subst hr
    simp [Statement.conditions] at hmem
  | .FuncExit rv, st, st2, r, h, hclean, x, hmem => by
    rw [convertStatement] at h
    repeat' (split at h)
    all_goals first
      | (simp at h; done)
      | (simp only [Except.ok.injEq, Prod.mk.injEq, Option.some.injEq] at h
         obtain ⟨hr, _⟩ := h
         subst hr
         simp [Statement.conditions] at hmem)
  | .WhileLoop c body, st, st2, r, h, hclean, x, hmem => by
    rw [convertStatement] at h
    cases ltr with
    | true =>
      simp only [if_true] at h
      split at h
      · simp at h
      · rename_i c1 st1 hc
        split at h
        · simp at h
        · rename_i b st3 hb
          simp only [Except.ok.injEq, Prod.mk.injEq, Option.some.injEq] at h
          obtain ⟨hr, hst⟩ := h
          subst hr
          subst hst
          simp only [Statement.conditions, List.mem_cons, Prod.mk.injEq, false_and,
            false_or, reduceCtorEq] at hmem
          exact convertMaybeNullBlock_conditions env true body st1 st3 b hb hclean x hmem
    | false =>
      simp only [Bool.false_eq_true, if_false] at h
      split at h
      · simp at h
      · rename_i b st1 hb
        split at h
        · simp at h
        · rename_i c1 st3 hc
          simp only [Except.ok.injEq, Prod.mk.injEq, Option.some.injEq] at h
          obtain ⟨hr, hst⟩ := h
          subst hr
          subst hst
          simp only [Statement.conditions, List.mem_cons, Prod.mk.injEq, false_and,
            false_or, reduceCtorEq] at hmem
          exact convertMaybeNullBlock_conditions env false body st st1 b hb
            (convertExpression_clean env c st1 st3 c1 hc hclean) x hmem
  | .UntilLoop c body, st, st2, r, h, hclean, x, hmem => by
    rw [convertStatement] at h
    cases ltr with
    | true =>
      simp only [if_true] at h
      split at h
      · simp at h
      · rename_i c1 st1 hc
        split at h
        · simp at h
        · rename_i b st3 hb
          simp only [Except.ok.injEq, Prod.mk.injEq, Option.some.injEq] at h
          obtain ⟨hr, hst⟩ := h
          subst hr
          subst hst
          simp only [Statement.conditions, List.mem_cons, Prod.mk.injEq, false_and,
            false_or, reduceCtorEq] at hmem
          exact convertMaybeNullBlock_conditions env true body st1 st3 b hb hclean x hmem
    | false =>
      simp only [Bool.false_eq_true, if_false] at h
      split at h
      · simp at h
      · rename_i b st1 hb
        split at h
        · simp at h
        · rename_i c1 st3 hc
          simp only [Except.ok.injEq, Prod.mk.injEq, Option.some.injEq] at h
          obtain ⟨hr, hst⟩ := h
          subst hr
          subst hst
          simp only [Statement.conditions, List.mem_cons, Prod.mk.injEq, false_and,
            false_or, reduceCtorEq] at hmem
          exact convertMaybeNullBlock_conditions env false body st st1 b hb
            (convertExpression_clean env c st1 st3 c1 hc hclean) x hmem
  | .InfiniteLoop body, st, st2, r, h, hclean, x, hmem => by
    rw [convertStatement] at h
    split at h
    · simp at h
    · rename_i b st1 hb
      simp only [Except.ok.injEq, Prod.mk.injEq, Option.some.injEq] at h
      obtain ⟨hr, hst⟩ := h
      subst hr
      subst hst
      simp only [Statement.conditions] at hmem
      exact convertMaybeNullBlock_conditions env ltr body st st1 b hb hclean x hmem
  | .Break, st, st2, r, h, hclean, x, hmem => by
    rw [convertStatement] at h
    simp only [Except.ok.injEq, Prod.mk.injEq, Option.some.injEq] at h
    obtain ⟨hr, _⟩ := h
    subst hr
    simp [Statement.conditions] at hmem
  | .Label name, st, st2, r, h, hclean, x, hmem => by
    rw [convertStatement] at h
    simp only [Except.ok.injEq, Prod.mk.injEq, Option.some.injEq] at h
    obtain ⟨hr, _⟩ := h
    subst hr
    simp [Statement.conditions] at hmem
  | .IncrementVar name ann e, st, st2, r, h, hclean, x, hmem => by
    rw [convertStatement] at h
    repeat' (split at h)
    all_goals first
      | (simp at h; done)
      | (simp only [Except.ok.injEq, Prod.mk.injEq, Option.some.injEq] at h
         obtain ⟨hr, _⟩ := h
         subst hr
         simp [Statement.conditions] at hmem)
  | .DecrementVar name ann e, st, st2, r, h, hclean, x, hmem => by
    rw [convertStatement] at h
    repeat' (split at h)
    all_goals first
      | (simp at h; done)
      | (simp only [Except.ok.injEq, Prod.mk.injEq, Option.some.injEq] at h
         obtain ⟨hr, _⟩ := h
         subst hr
         simp [Statement.conditions] at hmem)
  | .FuncCallStmnt symbol args, st, st2, r, h, hclean, x, hmem => by
    rw [convertStatement] at h
    repeat' (split at h)
    all_goals first
      | (simp at h; done)
      | (simp only [Except.ok.injEq, Prod.mk.injEq, Option.some.injEq] at h
         obtain ⟨hr, _⟩ := h
         subst hr
         simp [Statement.conditions] at hmem)
  | .GotoSymbol label, st, st2, r, h, hclean, x, hmem => by
    rw [convertStatement] at h
    simp only [Except.ok.injEq, Prod.mk.injEq, Option.some.injEq] at h
    obtain ⟨hr, _⟩ := h
    subst hr
    simp [Statement.conditions] at hmem
  | .SubCallSymbol label, st, st2, r, h, hclean, x, hmem => by
    rw [convertStatement] at h
    simp only [Except.ok.injEq, Prod.mk.injEq, Option.some.injEq] at h
    obtain ⟨hr, _⟩ := h
    subst hr
    simp [Statement.conditions] at hmem
  | .CommandStmntSymbol command args, st, st2, r, h, hclean, x, hmem => by
    rw [convertStatement] at h
    repeat' (split at h)
    all_goals first
      | (simp at h; done)
      | (simp only [Except.ok.injEq, Prod.mk.injEq, Option.some.injEq] at h
         obtain ⟨hr, _⟩ := h
         subst hr
         simp [Statement.conditions] at hmem)
  | .FuncDecl name args body rv, st, st2, r, h, hclean, x, hmem => by
    rw [convertStatement] at h
    simp at h
  | .Other, st, st2, r, h, hclean, x, hmem => by
    rw [convertStatement] at h
    simp at h

theorem convertBlock_conditions (env : Env) (ltr : Bool) :
    ∀ (l : List ast.Statement) (st st2 : ConvState) (b : StatementBlock),
      convertBlock env ltr l st = .ok (b, st2) → st2.errorOccurred = false →
      ∀ x, (ConditionKind.conditional, x) ∈ blockConditions b → x.getType = .builtin .Boolean
  | [], st, st2, b, h, hclean, x, hmem => by
    rw [convertBlock] at h
    simp only [Except.ok.injEq, Prod.mk.injEq] at h
    obtain ⟨hb, _⟩ := h
    subst hb
    simp [blockConditions] at hmem
  | s :: rest, st, st2, b, h, hclean, x, hmem => by
    rw [convertBlock] at h
    split at h
    · simp at h
    · rename_i s1 st1 hs
      split at h
      · simp at h
      · rename_i block st3 hb
        simp only [Except.ok.injEq, Prod.mk.injEq] at h
        obtain ⟨hr, hst⟩ := h
        subst hr
        subst hst
        have h1 := convertBlock_clean env ltr rest st1 st3 block hb hclean
        cases s1 with
        | none =>
          simp only [blockConditions] at hmem
          exact convertBlock_conditions env ltr rest st1 st3 block hb hclean x hmem
        | some r =>
          simp only [blockConditions, List.mem_append] at hmem
          rcases hmem with hin | hin
          · exact convertStatement_conditions env ltr s st st1 r hs h1 x hin
          · exact convertBlock_conditions env ltr rest st1 st3 block hb hclean x hin

theorem convertMaybeNullBlock_conditions (env : Env) (ltr : Bool) :
    ∀ (l : Option (List ast.Statement)) (st st2 : ConvState) (b : StatementBlock),
      convertMaybeNullBlock env ltr l st = .ok (b, st2) → st2.errorOccurred = false →
      ∀ x, (ConditionKind.conditional, x) ∈ blockConditions b → x.getType = .builtin .Boolean
  | none, st, st2, b, h, hclean, x, hmem => by
    rw [convertMaybeNullBlock] at h
    simp only [Except.ok.injEq, Prod.mk.injEq] at h
    obtain ⟨hb, _⟩ := h
    subst hb
    simp [blockConditions] at hmem
  | some l, st, st2, b, h, hclean, x, hmem => by
    rw [convertMaybeNullBlock] at h
    exact convertBlock_conditions env ltr l st st2 b h hclean x hmem

end

theorem blockConditions_append (a b : StatementBlock) :
    blockConditions (a ++ b) = blockConditions a ++ blockConditions b := by
  induction a with
  | nil => simp [blockConditions]
  | cons x rest ih =>
    cases x with
    | none => simp [blockConditions, ih]
    | some s => simp [blockConditions, ih]

theorem convertFunctionWithoutBody_empty (name : String)
    (args : Option (List ast.Expression)) (d : FunctionDefinition)
    (h : convertFunctionWithoutBody name args = .ok d) :
    d.name = name ∧ d.statements = [] ∧ d.returnExpression = none ∧ d.scope = [] := by
  unfold convertFunctionWithoutBody at h
  repeat' (split at h)
  all_goals first
    | (simp at h; done)
    | (simp only [Except.ok.injEq] at h
       subst h
       exact ⟨rfl, rfl, rfl, rfl⟩)

/-- The definitions the first loop of `generateProgram` makes have no body, no
return expression and an empty scope. -/
theorem skeleton_definitions_empty (tree : List ast.Statement) (sk : Skeleton)
    (hsk : collectFunctions tree false
      { astMainStatements := [], functionDefinitions := [], functionMap := [] } = .ok sk) :
    ∀ d ∈ sk.functionDefinitions,
      d.statements = [] ∧ d.returnExpression = none ∧ d.scope = [] := by
  have hinv := collectFunctions_skeletonFor tree false _ sk [] hsk skeletonFor_empty
  obtain ⟨hlen, hdefs, _, _⟩ := hinv
  intro d hd
  obtain ⟨i, hi, hget⟩ := List.getElem_of_mem hd
  have hi2 : i < ([] ++ functionDeclarations tree).length := by rw [← hlen]; exact hi
  obtain ⟨d2, hd2, hconv⟩ := hdefs i _ (List.getElem?_eq_getElem hi2)
  rw [List.getElem?_eq_getElem hi, hget] at hd2
  have hdd : d = d2 := Option.some.inj hd2
  subst hdd
  exact (convertFunctionWithoutBody_empty _ _ _ hconv).2

theorem convertFunctionBody_conditions (s : Settings) (m : List (String × Function))
    (f : Function) (defs defs2 : List FunctionDefinition) (err : Bool)
    (h : convertFunctionBody s m f defs err = .ok (defs2, false))
    (hdefs : ∀ d ∈ defs, ConditionalsBoolean d.statements) :
    ∀ d ∈ defs2, ConditionalsBoolean d.statements := by
  unfold convertFunctionBody at h
  split at h
  · simp at h
  · rename_i d0 hd0
    split at h
    · simp at h
    · rename_i statements _
      split at h
      · simp at h
      · rename_i block st1 hb
        have hd0mem : d0 ∈ defs := List.getElem?_mem hd0
        have key : st1.errorOccurred = false →
            ConditionalsBoolean (d0.statements ++ block) := by
          intro hclean x hx
          rw [blockConditions_append, List.mem_append] at hx
          rcases hx with hx | hx
          · exact hdefs d0 hd0mem x hx
          · exact convertBlock_conditions _ _ _ _ _ _ hb hclean x hx
        split at h
        · simp only [Except.ok.injEq, Prod.mk.injEq] at h
          obtain ⟨hset, hflag⟩ := h
          subst hset
          intro d hd
          rcases List.mem_or_eq_of_mem_set hd with hold | hnew
          · exact hdefs d hold
          · subst hnew
            exact key hflag
        · rename_i rv _
          split at h
          · simp at h
          · rename_i e st2 he
            simp only [Except.ok.injEq, Prod.mk.injEq] at h
            obtain ⟨hset, hflag⟩ := h
            subst hset
            intro d hd
            rcases List.mem_or_eq_of_mem_set hd with hold | hnew
            · exact hdefs d hold
            · subst hnew
              exact key (convertExpression_clean _ _ _ _ _ he hflag)

theorem convertFunctionBodies_clean (s : Settings) (m : List (String × Function))
    (entries : List (String × Function)) (defs defs2 : List FunctionDefinition)
    (err err2 : Bool)
    (h : convertFunctionBodies s m entries defs err = .ok (defs2, err2))
    (hclean : err2 = false) : err = false := by
  cases herr : err with
  | false => rfl
  | true =>
    have := convertFunctionBodies_errorOccurred s m entries defs defs2 err err2 h herr
    rw [hclean] at this
    exact absurd this Bool.false_ne_true

theorem convertFunctionBodies_conditions (s : Settings) (m : List (String × Function))
    (entries : List (String × Function)) (defs defs2 : List FunctionDefinition) (err : Bool)
    (h : convertFunctionBodies s m entries defs err = .ok (defs2, false))
    (hdefs : ∀ d ∈ defs, ConditionalsBoolean d.statements) :
    ∀ d ∈ defs2, ConditionalsBoolean d.statements := by
  induction entries generalizing defs err with
  | nil =>
    rw [convertFunctionBodies] at h
    simp only [Except.ok.injEq, Prod.mk.injEq] at h
    rw [← h.1]
    exact hdefs
  | cons e rest ih =>
    rw [convertFunctionBodies] at h
    split at h
    · simp at h
    · rename_i defs1 err1 he
      have h1 : err1 = false := convertFunctionBodies_clean s m rest defs1 defs2 err1 false h rfl
      subst h1
      exact ih defs1 false h (convertFunctionBody_conditions s m e.2 defs defs1 err he hdefs)

/-- C25: in a Program that `generateProgram` returns, the condition of every
Conditional statement, at any depth of the body of main or of the body of a
function, has Type Boolean. -/
theorem conditional_conditions_are_boolean (s : Settings) (tree : List ast.Statement)
    (p : Program) (hp : generateProgram s tree = .ok (some p)) :
    (∀ x, (ConditionKind.conditional, x) ∈ blockConditions p.mainFunction.statements →
      x.getType = .builtin .Boolean) ∧
    (∀ d ∈ p.functions, ∀ x, (ConditionKind.conditional, x) ∈ blockConditions d.statements →
      x.getType = .builtin .Boolean) := by
  obtain ⟨sk, block, stm, defs, hsk, hb, hflag, hbodies, hprog⟩ :=
    generateProgram_some s tree p hp
  subst hprog
  constructor
  · exact convertBlock_conditions _ _ _ _ _ _ hb hflag
  · refine convertFunctionBodies_conditions s _ _ _ _ _ hbodies ?_
    intro d hd x hx
    rw [(skeleton_definitions_empty tree sk hsk d hd).1] at hx
    simp [blockConditions] at hx

/-- Witness of C25: the program `if 1 then endif`. -/
theorem conditional_conditions_are_boolean_witness :
    generateProgram examples.settings examples.conditionalOnInteger =
      .ok (some
        { mainFunction :=
            { name := "__DBMain", arguments := [],
              statements :=
                [some (.Conditional (.cast (.literal (.Integer 1)) (.builtin .Boolean)) [] [])],
              returnExpression := none, scope := [] },
          functions := [] }) ∧
    Expression.getType (.cast (.literal (.Integer 1)) (.builtin .Boolean)) = .builtin .Boolean :=
  ⟨rfl,
    (conditional_conditions_are_boolean examples.settings examples.conditionalOnInteger
      { mainFunction :=
          { name := "__DBMain", arguments := [],
            statements :=
              [some (.Conditional (.cast (.literal (.Integer 1)) (.builtin .Boolean)) [] [])],
            returnExpression := none, scope := [] },
        functions := [] } rfl).1 _ (by simp [blockConditions, Statement.conditions])⟩

/-! ## Variables and scopes -/

theorem scopeHolds_refl (st : ConvState) : ScopeHolds [] st st :=
  ⟨fun _ h => h, fun _ h => by simp at h⟩

theorem scopeHolds_append (v1 v2 : List Variable) (st st1 st2 : ConvState)
    (h1 : ScopeHolds v1 st st1) (h2 : ScopeHolds v2 st1 st2) :
    ScopeHolds (v1 ++ v2) st st2 := by
  refine ⟨fun v hv => h2.1 v (h1.1 v hv), ?_⟩
  intro v hv
  rcases List.mem_append.mp hv with h | h
  · exact h2.1 v (h1.2 v h)
  · exact h2.2 v h

theorem scopeHolds_end (vars : List Variable) (st st1 st2 : ConvState)
    (h : ScopeHolds vars st st1) (heq : st2.scope = st1.scope) : ScopeHolds vars st st2 := by
  unfold ScopeHolds
  rw [heq]
  exact h

theorem scopeHolds_start (vars : List Variable) (st st1 st2 : ConvState)
    (h : ScopeHolds vars st1 st2) (heq : st1.scope = st.scope) : ScopeHolds vars st st2 := by
  unfold ScopeHolds at h ⊢
  rw [← heq]
  exact h

theorem scopeHolds_vars (vars vars2 : List Variable) (st st2 : ConvState)
    (h : ScopeHolds vars st st2) (hsub : ∀ v ∈ vars2, v ∈ vars) : ScopeHolds vars2 st st2 :=
  ⟨h.1, fun v hv => h.2 v (hsub v hv)⟩

theorem ensureType_scope (e : Expression) (t : IRType) (st : ConvState) :
    (ensureType e t st).2.scope = st.scope := by
  unfold ensureType
  split
  · rfl
  · split <;> rfl

theorem ensureType_variables (e : Expression) (t : IRType) (st : ConvState) :
    (ensureType e t st).1.variables = e.variables := by
  unfold ensureType
  split
  · rfl
  · split
    · simp [Expression.variables]
    · rfl

theorem resolveVariableRef_scopeHolds (name : String) ( astAnnotation : ast.Annotation)
    (st : ConvState) :
    ScopeHolds [(resolveVariableRef name astAnnotation st).1] st
      (resolveVariableRef name astAnnotation st).2 := by
  unfold resolveVariableRef
  cases h : scopeLookup st.scope name ( getAnnotation astAnnotation) with
  | none =>
    refine ⟨fun v hv => List.mem_append_left _ hv, ?_⟩
    intro v hv
    simp only [List.mem_singleton] at hv
    subst hv
    simp
  | some w =>
    refine ⟨fun v hv => hv, ?_⟩
    intro v hv
    simp only [List.mem_singleton] at hv
    subst hv
    exact (scopeLookup_some _ _ _ _ h).1

theorem declareVariable_scopeHolds (name : String) ( astAnnotation : ast.Annotation)
    (t : IRType) (st : ConvState) :
    ScopeHolds [(declareVariable name astAnnotation t st).1] st
      (declareVariable name astAnnotation t st).2 := by
  unfold declareVariable
  refine ⟨fun v hv => List.mem_append_left _ hv, ?_⟩
  intro v hv
  simp only [List.mem_singleton] at hv
  subst hv
  simp

theorem ensureArgumentTypes_variables (as : List Expression) (ps : List Arg)
    (st st2 : ConvState) (r : List Expression)
    (h : ensureArgumentTypes as ps st = .ok (r, st2)) :
    st2.scope = st.scope ∧ variablesOfExpressions r = variablesOfExpressions as := by
  induction as generalizing ps st st2 r with
  | nil =>
    rw [ensureArgumentTypes] at h
    simp only [Except.ok.injEq, Prod.mk.injEq] at h
    rw [← h.1, ← h.2]
    exact ⟨rfl, rfl⟩
  | cons a as ih =>
    cases ps with
    | nil => rw [ensureArgumentTypes] at h; simp at h
    | cons p ps =>
      rw [ensureArgumentTypes] at h
      split at h
      · simp at h
      · rename_i t _
        split at h
        · simp at h
        · rename_i rest st3 hrec
          simp only [Except.ok.injEq, Prod.mk.injEq] at h
          obtain ⟨hr, hst⟩ := h
          subst hr
          subst hst
          obtain ⟨h1, h2⟩ := ih ps _ _ _ hrec
          refine ⟨?_, ?_⟩
          · rw [h1, ensureType_scope]
          · simp [variablesOfExpressions, ensureType_variables, h2]

theorem resolveCommandCall_variables (sort : Sorter) (idx : CommandIndex) (name : String)
    (args : List Expression) (st st2 : ConvState) (call : FunctionCallExpression)
    (h : resolveCommandCall sort idx name args st = .ok (call, st2)) :
    st2.scope = st.scope ∧
      variablesOfExpressions call.args = variablesOfExpressions args := by
  unfold resolveCommandCall at h
  split at h
  · simp at h
  · split at h
    · simp at h
    · rename_i args2 st3 hens
      split at h
      · simp at h
      · simp only [Except.ok.injEq, Prod.mk.injEq] at h
        obtain ⟨hr, hst⟩ := h
        subst hr
        subst hst
        exact ensureArgumentTypes_variables _ _ _ _ _ hens

mutual

theorem convertExpression_scope (env : Env) :
    ∀ (e : ast.Expression) (st st2 : ConvState) (r : Expression),
      convertExpression env e st = .ok (r, st2) → ScopeHolds r.variables st st2
  | .UnaryOp op expr, st, st2, r, h => by
    rw [convertExpression] at h
    split at h
    · simp at h
    · rename_i inner st1 hc
      simp only [Except.ok.injEq, Prod.mk.injEq] at h
      obtain ⟨hr, hst⟩ := h
      subst hr
      subst hst
      simpa [Expression.variables] using convertExpression_scope env expr st st1 inner hc
  | .BinaryOp op l r0, st, st2, r, h => by
    rw [convertExpression] at h
    split at h
    · simp at h
    · rename_i lhs st1 hl
      split at h
      · simp at h
      · rename_i rhs st3 hr0
        simp only [Except.ok.injEq, Prod.mk.injEq] at h
        obtain ⟨hr, hst⟩ := h
        subst hr
        subst hst
        have h1 := convertExpression_scope env l st st1 lhs hl
        have h2 := convertExpression_scope env r0 st1 st3 rhs hr0
        have h3 := scopeHolds_append _ _ _ _ _ h1 h2
        simp only [Expression.variables, ensureType_variables]
        exact scopeHolds_end _ _ _ _ h3 (by rw [ensureType_scope, ensureType_scope])
  | .VarRef name ann, st, st2, r, h => by
    rw [convertExpression] at h
    simp only [Except.ok.injEq, Prod.mk.injEq] at h
    obtain ⟨hr, hst⟩ := h
    subst hr
    subst hst
    simpa [Expression.variables] using resolveVariableRef_scopeHolds name ann st
  | .Literal value, st, st2, r, h => by
    rw [convertExpression] at h
    simp only [Except.ok.injEq, Prod.mk.injEq] at h
    obtain ⟨hr, hst⟩ := h
    subst hr
    subst hst
    simpa [Expression.variables] using scopeHolds_refl st
  | .CommandExprSymbol command args, st, st2, r, h => by
    rw [convertExpression] at h
    split at h
    · simp at h
    · rename_i call st1 hc
      simp only [Except.ok.injEq, Prod.mk.injEq] at h
      obtain ⟨hr, hst⟩ := h
      subst hr
      subst hst
      simpa [Expression.variables] using
        convertCommandCallExpression_scope env command args st st1 call hc
  | .FuncCallExpr symbol args, st, st2, r, h => by
    rw [convertExpression] at h
    split at h
    · simp at h
    · rename_i call st1 hc
      simp only [Except.ok.injEq, Prod.mk.injEq] at h
      obtain ⟨hr, hst⟩ := h
      subst hr
      subst hst
      simpa [Expression.variables] using
        convertFunctionCallExpression_scope env symbol args st st1 call hc
  | .Other, st, st2, r, h => by
    rw [convertExpression] at h
    simp at h

theorem convertExpressionList_scope (env : Env) :
    ∀ (es : List ast.Expression) (st st2 : ConvState) (r : List Expression),
      convertExpressionList env es st = .ok (r, st2) →
      ScopeHolds (variablesOfExpressions r) st st2
  | [], st, st2, r, h => by
    rw [convertExpressionList] at h
    simp only [Except.ok.injEq, Prod.mk.injEq] at h
    obtain ⟨hr, hst⟩ := h
    subst hr
    subst hst
    simpa [variablesOfExpressions] using scopeHolds_refl st
  | e :: es, st, st2, r, h => by
    rw [convertExpressionList] at h
    split at h
    · simp at h
    · rename_i e1 st1 hc
      split at h
      · simp at h
      · rename_i rest st3 hrest
        simp only [Except.ok.injEq, Prod.mk.injEq] at h
        obtain ⟨hr, hst⟩ := h
        subst hr
        subst hst
        simp only [variablesOfExpressions]
        exact scopeHolds_append _ _ _ _ _ (convertExpression_scope env e st st1 e1 hc)
          (convertExpressionList_scope env es st1 st3 rest hrest)

theorem convertCommandCallExpression_scope (env : Env) (name : String) :
    ∀ (astArgs : Option (List ast.Expression)) (st st2 : ConvState)
      (call : FunctionCallExpression),
      convertCommandCallExpression env name astArgs st = .ok (call, st2) →
      ScopeHolds (variablesOfExpressions call.args) st st2
  | none, st, st2, call, h => by
    rw [convertCommandCallExpression] at h
    obtain ⟨h1, h2⟩ := resolveCommandCall_variables _ _ _ _ _ _ _ h
    rw [h2]
    exact scopeHolds_end _ _ _ _ (by simpa [variablesOfExpressions] using scopeHolds_refl st) h1
  | some es, st, st2, call, h => by
    rw [convertCommandCallExpression] at h
    split at h
    · simp at h
    · rename_i args st1 hc
      obtain ⟨h1, h2⟩ := resolveCommandCall_variables _ _ _ _ _ _ _ h
      rw [h2]
      exact scopeHolds_end _ _ _ _ (convertExpressionList_scope env es st st1 args hc) h1

theorem convertFunctionArguments_scope (env : Env) :
    ∀ (es : List ast.Expression) (ps : List Argument) (st st2 : ConvState)
      (r : List Expression),
      convertFunctionArguments env es ps st = .ok (r, st2) →
      ScopeHolds (variablesOfExpressions r) st st2
  | [], ps, st, st2, r, h => by
    rw [convertFunctionArguments] at h
    simp only [Except.ok.injEq, Prod.mk.injEq] at h
    obtain ⟨hr, hst⟩ := h
    subst hr
    subst hst
    simpa [variablesOfExpressions] using scopeHolds_refl st
  | e :: es, [], st, st2, r, h => by
    rw [convertFunctionArguments] at h
    simp at h
  | e :: es, p :: ps, st, st2, r, h => by
    rw [convertFunctionArguments] at h
    split at h
    · simp at h
    · rename_i e1 st1 hc
      split at h
      · simp at h
      · rename_i rest st3 hrest
        simp only [Except.ok.injEq, Prod.mk.injEq] at h
        obtain ⟨hr, hst⟩ := h
        subst hr
        subst hst
        simp only [variablesOfExpressions, ensureType_variables]
        exact scopeHolds_append _ _ _ _ _ (convertExpression_scope env e st st1 e1 hc)
          (scopeHolds_start _ _ _ _
            (convertFunctionArguments_scope env es ps _ st3 rest hrest)
            (ensureType_scope _ _ _))

theorem convertFunctionCallExpression_scope (env : Env) (name : String) :
    ∀ (astArgs : Option (List ast.Expression)) (st st2 : ConvState)
      (call : FunctionCallExpression),
      convertFunctionCallExpression env name astArgs st = .ok (call, st2) →
      ScopeHolds (variablesOfExpressions call.args) st st2
  | none, st, st2, call, h => by
    rw [convertFunctionCallExpression] at h
    repeat' (split at h)
    all_goals first
      | (simp at h; done)
      | contradiction
  | some es, st, st2, call, h => by
    rw [convertFunctionCallExpression] at h
    split at h
    · simp at h
    · simp only [Option.isNone_some, Bool.and_false, Bool.false_eq_true, if_false] at h
      split at h
      · simp at h
      · split at h
        · simp at h
        · rename_i args st1 hc
          simp only [Except.ok.injEq, Prod.mk.injEq] at h
          obtain ⟨hr, hst⟩ := h
          subst hr
          subst hst
          exact convertFunctionArguments_scope env es _ st st1 args hc

end

theorem convertExpressionPointer_scope (env : Env) (p : Option ast.Expression)
    (st st2 : ConvState) (r : Expression)
    (h : convertExpressionPointer env p st = .ok (r, st2)) : ScopeHolds r.variables st st2 := by
  cases p with
  | none => simp [convertExpressionPointer] at h
  | some e => exact convertExpression_scope env e st st2 r h

mutual

theorem convertStatement_scope (env : Env) (ltr : Bool) :
    ∀ (s : ast.Statement) (st st2 : ConvState) (r : Option Statement),
      convertStatement env ltr s st = .ok (r, st2) → ScopeHolds (optionVariables r) st st2
  | .ConstDecl, st, st2, r, h => by
    rw [convertStatement] at h
    simp at h
  | .FuncDecl name args body rv, st, st2, r, h => by
    rw [convertStatement] at h
    simp at h
  | .Other, st, st2, r, h => by
    rw [convertStatement] at h
    simp at h
  | .SubReturn, st, st2, r, h => by
    rw [convertStatement] at h
    simp only [Except.ok.injEq, Prod.mk.injEq] at h
    obtain ⟨hr, hst⟩ := h
    subst hr
    subst hst
    simpa [optionVariables, Statement.variables] using scopeHolds_refl st
  | .Break, st, st2, r, h => by
    rw [convertStatement] at h
    simp only [Except.ok.injEq, Prod.mk.injEq] at h
    obtain ⟨hr, hst⟩ := h
    subst hr
    subst hst
    simpa [optionVariables, Statement.variables] using scopeHolds_refl st
  | .Label name, st, st2, r, h => by
    rw [convertStatement] at h
    simp only [Except.ok.injEq, Prod.mk.injEq] at h
    obtain ⟨hr, hst⟩ := h
    subst hr
    subst hst
    simpa [optionVariables, Statement.variables] using scopeHolds_refl st
  | .GotoSymbol label, st, st2, r, h => by
    rw [convertStatement] at h
    simp only [Except.ok.injEq, Prod.mk.injEq] at h
    obtain ⟨hr, hst⟩ := h
    subst hr
    subst hst
    simpa [optionVariables, Statement.variables] using scopeHolds_refl st
  | .SubCallSymbol label, st, st2, r, h => by
    rw [convertStatement] at h
    simp only [Except.ok.injEq, Prod.mk.injEq] at h
    obtain ⟨hr, hst⟩ := h
    subst hr
    subst hst
    simpa [optionVariables, Statement.variables] using scopeHolds_refl st
  | .VarDecl name ann varType initialValue, st, st2, r, h => by
    rw [convertStatement] at h
    split at h
    · simp only [Except.ok.injEq, Prod.mk.injEq] at h
      obtain ⟨hr, hst⟩ := h
      subst hr
      subst hst
      simpa [optionVariables] using scopeHolds_refl st
    · split at h
      · simp at h
      · rename_i e1 st1 hc
        simp only [Except.ok.injEq, Prod.mk.injEq] at h
        obtain ⟨hr, hst⟩ := h
        subst hr
        subst hst
        have h1 := declareVariable_scopeHolds name ann (declaredType varType) st
        have h2 := convertExpressionPointer_scope env _ _ st1 e1 hc
        have h3 := scopeHolds_append _ _ _ _ _ h1 h2
        simp only [optionVariables, Statement.variables, ensureType_variables]
        exact scopeHolds_end _ _ _ _ (by simpa using h3) (ensureType_scope _ _ _)
  | .VarAssignment name ann e, st, st2, r, h => by
    rw [convertStatement] at h
    split at h
    · simp at h
    · rename_i e1 st1 hc
      simp only [Except.ok.injEq, Prod.mk.injEq] at h
      obtain ⟨hr, hst⟩ := h
      subst hr
      subst hst
      have h1 := resolveVariableRef_scopeHolds name ann st
      have h2 := convertExpression_scope env e _ st1 e1 hc
      have h3 := scopeHolds_append _ _ _ _ _ h1 h2
      simp only [optionVariables, Statement.variables, ensureType_variables]
      exact scopeHolds_end _ _ _ _ (by simpa using h3) (ensureType_scope _ _ _)
  | .FuncExit rv, st, st2, r, h => by
    rw [convertStatement] at h
    split at h
    · simp at h
    · rename_i e1 st1 hc
      simp only [Except.ok.injEq, Prod.mk.injEq] at h
      obtain ⟨hr, hst⟩ := h
      subst hr
      subst hst
      simpa [optionVariables, Statement.variables] using
        convertExpressionPointer_scope env rv st st1 e1 hc
  | .IncrementVar name ann e, st, st2, r, h => by
    rw [convertStatement] at h
    cases ltr with
    | true =>
      simp only [if_true] at h
      split at h
      · simp at h
      · rename_i e1 st1 hc
        simp only [Except.ok.injEq, Prod.mk.injEq] at h
        obtain ⟨hr, hst⟩ := h
        subst hr
        subst hst
        have h1 := resolveVariableRef_scopeHolds name ann st
        have h2 := convertExpression_scope env e _ st1 e1 hc
        have h3 := scopeHolds_append _ _ _ _ _ h1 h2
        simp only [optionVariables, Statement.variables]
        simpa using h3
    | false =>
      simp only [Bool.false_eq_true, if_false] at h
      split at h
      · simp at h
      · rename_i e1 st1 hc
        simp only [Except.ok.injEq, Prod.mk.injEq] at h
        obtain ⟨hr, hst⟩ := h
        subst hr
        subst hst
        have h1 := convertExpression_scope env e st st1 e1 hc
        have h2 := resolveVariableRef_scopeHolds name ann st1
        have h3 := scopeHolds_append _ _ _ _ _ h1 h2
        simp only [optionVariables, Statement.variables]
        exact scopeHolds_vars _ _ _ _ h3 (by intro v hv; simp only [List.mem_append, List.mem_cons, List.mem_singleton] at hv ⊢; tauto)
  | .DecrementVar name ann e, st, st2, r, h => by
    rw [convertStatement] at h
    cases ltr with
    | true =>
      simp only [if_true] at h
      split at h
      · simp at h
      · rename_i e1 st1 hc
        simp only [Except.ok.injEq, Prod.mk.injEq] at h
        obtain ⟨hr, hst⟩ := h
        subst hr
        subst hst
        have h1 := resolveVariableRef_scopeHolds name ann st
        have h2 := convertExpression_scope env e _ st1 e1 hc
        have h3 := scopeHolds_append _ _ _ _ _ h1 h2
        simp only [optionVariables, Statement.variables]
        simpa using h3
    | false =>
      simp only [Bool.false_eq_true, if_false] at h
      split at h
      · simp at h
      · rename_i e1 st1 hc
        simp only [Except.ok.injEq, Prod.mk.injEq] at h
        obtain ⟨hr, hst⟩ := h
        subst hr
        subst hst
        have h1 := convertExpression_scope env e st st1 e1 hc
        have h2 := resolveVariableRef_scopeHolds name ann st1
        have h3 := scopeHolds_append _ _ _ _ _ h1 h2
        simp only [optionVariables, Statement.variables]
        exact scopeHolds_vars _ _ _ _ h3 (by intro v hv; simp only [List.mem_append, List.mem_cons, List.mem_singleton] at hv ⊢; tauto)
  | .FuncCallStmnt symbol args, st, st2, r, h => by
    rw [convertStatement] at h
    split at h
    · simp at h
    · rename_i call st1 hc
      simp only [Except.ok.injEq, Prod.mk.injEq] at h
      obtain ⟨hr, hst⟩ := h
      subst hr
      subst hst
      simpa [optionVariables, Statement.variables] using
        convertFunctionCallExpression_scope env symbol args st st1 call hc
  | .CommandStmntSymbol command args, st, st2, r, h => by
    rw [convertStatement] at h
    split at h
    · simp at h
    · rename_i call st1 hc
      simp only [Except.ok.injEq, Prod.mk.injEq] at h
      obtain ⟨hr, hst⟩ := h
      subst hr
      subst hst
      simpa [optionVariables, Statement.variables] using
        convertCommandCallExpression_scope env command args st st1 call hc
  | .Conditional c tb fb, st, st2, r, h => by
    rw [convertStatement] at h
    cases ltr with
    | true =>
      simp only [if_true] at h
      split at h
      · simp at h
      · rename_i c1 st1 hc
        split at h
        · simp at h
        · rename_i t st3 ht
          split at h
          · simp at h
          · rename_i f st4 hf
            simp only [Except.ok.injEq, Prod.mk.injEq] at h
            obtain ⟨hr, hst⟩ := h
            subst hr
            subst hst
            have h1 := convertExpression_scope env c st st1 c1 hc
            have h2 := scopeHolds_start _ _ _ _
              (convertMaybeNullBlock_scope env true tb _ st3 t ht) (ensureType_scope _ _ _)
            have h3 := convertMaybeNullBlock_scope env true fb st3 st4 f hf
            have h4 := scopeHolds_append _ _ _ _ _ (scopeHolds_append _ _ _ _ _ h1 h2) h3
            simp only [optionVariables, Statement.variables, ensureType_variables]
            exact scopeHolds_vars _ _ _ _ h4 (by intro v hv; simp only [List.mem_append, List.mem_cons, List.mem_singleton] at hv ⊢; tauto)
    | false =>
      simp only [Bool.false_eq_true, if_false] at h
      split at h
      · simp at h
      · rename_i f st1 hf
        split at h
        · simp at h
        · rename_i t st3 ht
          split at h
          · simp at h
          · rename_i c1 st4 hc
            simp only [Except.ok.injEq, Prod.mk.injEq] at h
            obtain ⟨hr, hst⟩ := h
            subst hr
            subst hst
            have h1 := convertMaybeNullBlock_scope env false fb st st1 f hf
            have h2 := convertMaybeNullBlock_scope env false tb st1 st3 t ht
            have h3 := convertExpression_scope env c st3 st4 c1 hc
            have h4 := scopeHolds_append _ _ _ _ _ (scopeHolds_append _ _ _ _ _ h1 h2) h3
            simp only [optionVariables, Statement.variables, ensureType_variables]
            exact scopeHolds_end _ _ _ _
              (scopeHolds_vars _ _ _ _ h4 (by intro v hv; simp only [List.mem_append, List.mem_cons, List.mem_singleton] at hv ⊢; tauto)) (ensureType_scope _ _ _)
  | .WhileLoop c body, st, st2, r, h => by
    rw [convertStatement] at h
    cases ltr with
    | true =>
      simp only [if_true] at h
      split at h
      · simp at h
      · rename_i c1 st1 hc
        split at h
        · simp at h
        · rename_i b st3 hb
          simp only [Except.ok.injEq, Prod.mk.injEq] at h
          obtain ⟨hr, hst⟩ := h
          subst hr
          subst hst
          have h1 := convertExpression_scope env c st st1 c1 hc
          have h2 := convertMaybeNullBlock_scope env true body st1 st3 b hb
          simp only [optionVariables, Statement.variables]
          exact scopeHolds_append _ _ _ _ _ h1 h2
    | false =>
      simp only [Bool.false_eq_true, if_false] at h
      split at h
      · simp at h
      · rename_i b st1 hb
        split at h
        · simp at h
        · rename_i c1 st3 hc
          simp only [Except.ok.injEq, Prod.mk.injEq] at h
          obtain ⟨hr, hst⟩ := h
          subst hr
          subst hst
          have h1 := convertMaybeNullBlock_scope env false body st st1 b hb
          have h2 := convertExpression_scope env c st1 st3 c1 hc
          simp only [optionVariables, Statement.variables]
          exact scopeHolds_vars _ _ _ _ (scopeHolds_append _ _ _ _ _ h1 h2) (by intro v hv; simp only [List.mem_append, List.mem_cons, List.mem_singleton] at hv ⊢; tauto)
  | .UntilLoop c body, st, st2, r, h => by
    rw [convertStatement] at h
    cases ltr with
    | true =>
      simp only [if_true] at h
      split at h
      · simp at h
      · rename_i c1 st1 hc
        split at h
        · simp at h
        · rename_i b st3 hb
          simp only [Except.ok.injEq, Prod.mk.injEq] at h
          obtain ⟨hr, hst⟩ := h
          subst hr
          subst hst
          have h1 := convertExpression_scope env c st st1 c1 hc
          have h2 := convertMaybeNullBlock_scope env true body st1 st3 b hb
          simp only [optionVariables, Statement.variables]
          exact scopeHolds_append _ _ _ _ _ h1 h2
    | false =>
      simp only [Bool.false_eq_true, if_false] at h
      split at h
      · simp at h
      · rename_i b st1 hb
        split at h
        · simp at h
        · rename_i c1 st3 hc
          simp only [Except.ok.injEq, Prod.mk.injEq] at h
          obtain ⟨hr, hst⟩ := h
          subst hr
          subst hst
          have h1 := convertMaybeNullBlock_scope env false body st st1 b hb
          have h2 := convertExpression_scope env c st1 st3 c1 hc
          simp only [optionVariables, Statement.variables]
          exact scopeHolds_vars _ _ _ _ (scopeHolds_append _ _ _ _ _ h1 h2) (by intro v hv; simp only [List.mem_append, List.mem_cons, List.mem_singleton] at hv ⊢; tauto)
  | .InfiniteLoop body, st, st2, r, h => by
    rw [convertStatement] at h
    split at h
    · simp at h
    · rename_i b st1 hb
      simp only [Except.ok.injEq, Prod.mk.injEq] at h
      obtain ⟨hr, hst⟩ := h
      subst hr
      subst hst
      simpa [optionVariables, Statement.variables] using
        convertMaybeNullBlock_scope env ltr body st st1 b hb

theorem convertBlock_scope (env : Env) (ltr : Bool) :
    ∀ (l : List ast.Statement) (st st2 : ConvState) (b : StatementBlock),
      convertBlock env ltr l st = .ok (b, st2) → ScopeHolds (blockVariables b) st st2
  | [], st, st2, b, h => by
    rw [convertBlock] at h
    simp only [Except.ok.injEq, Prod.mk.injEq] at h
    obtain ⟨hr, hst⟩ := h
    subst hr
    subst hst
    simpa [blockVariables] using scopeHolds_refl st
  | s :: rest, st, st2, b, h => by
    rw [convertBlock] at h
    split at h
    · simp at h
    · rename_i s1 st1 hs
      split at h
      · simp at h
      · rename_i block st3 hb
        simp only [Except.ok.injEq, Prod.mk.injEq] at h
        obtain ⟨hr, hst⟩ := h
        subst hr
        subst hst
        have h1 := convertStatement_scope env ltr s st st1 s1 hs
        have h2 := convertBlock_scope env ltr rest st1 st3 block hb
        have h3 := scopeHolds_append _ _ _ _ _ h1 h2
        cases s1 with
        | none => simpa [blockVariables, optionVariables] using h3
        | some x => simpa [blockVariables, optionVariables] using h3

theorem convertMaybeNullBlock_scope (env : Env) (ltr : Bool) :
    ∀ (l : Option (List ast.Statement)) (st st2 : ConvState) (b : StatementBlock),
      convertMaybeNullBlock env ltr l st = .ok (b, st2) → ScopeHolds (blockVariables b) st st2
  | none, st, st2, b, h => by
    rw [convertMaybeNullBlock] at h
    simp only [Except.ok.injEq, Prod.mk.injEq] at h
    obtain ⟨hr, hst⟩ := h
    subst hr
    subst hst
    simpa [blockVariables] using scopeHolds_refl st
  | some l, st, st2, b, h => by
    rw [convertMaybeNullBlock] at h
    exact convertBlock_scope env ltr l st st2 b h

end

theorem blockVariables_append (a b : StatementBlock) :
    blockVariables (a ++ b) = blockVariables a ++ blockVariables b := by
  induction a with
  | nil => simp [blockVariables]
  | cons x rest ih =>
    cases x with
    | none => simp [blockVariables, ih]
    | some s => simp [blockVariables, ih]

theorem convertFunctionBody_scope (s : Settings) (m : List (String × Function))
    (f : Function) (defs defs2 : List FunctionDefinition) (err err2 : Bool)
    (h : convertFunctionBody s m f defs err = .ok (defs2, err2))
    (hdefs : ∀ d ∈ defs, VariablesInScope d) : ∀ d ∈ defs2, VariablesInScope d := by
  unfold convertFunctionBody at h
  split at h
  · simp at h
  · rename_i d0 hd0
    split at h
    · simp at h
    · rename_i statements _
      split at h
      · simp at h
      · rename_i block st1 hb
        have hd0mem : d0 ∈ defs := List.getElem?_mem hd0
        obtain ⟨hold1, hold2⟩ := hdefs d0 hd0mem
        obtain ⟨hgrow, hblock⟩ := convertBlock_scope _ _ _ _ _ _ hb
        have hstmts : ∀ v ∈ blockVariables (d0.statements ++ block), v ∈ st1.scope := by
          intro v hv
          rw [blockVariables_append, List.mem_append] at hv
          rcases hv with hv | hv
          · exact hgrow v (hold1 v hv)
          · exact hblock v hv
        split at h
        · simp only [Except.ok.injEq, Prod.mk.injEq] at h
          obtain ⟨hset, _⟩ := h
          subst hset
          intro d hd
          rcases List.mem_or_eq_of_mem_set hd with hold | hnew
          · exact hdefs d hold
          · subst hnew
            exact ⟨hstmts, fun e he v hv => hgrow v (hold2 e he v hv)⟩
        · rename_i rv _
          split at h
          · simp at h
          · rename_i e st2 he
            simp only [Except.ok.injEq, Prod.mk.injEq] at h
            obtain ⟨hset, _⟩ := h
            subst hset
            obtain ⟨hgrow2, hexpr⟩ := convertExpression_scope _ _ _ _ _ he
            intro d hd
            rcases List.mem_or_eq_of_mem_set hd with hold | hnew
            · exact hdefs d hold
            · subst hnew
              refine ⟨fun v hv => hgrow2 v (hstmts v hv), ?_⟩
              intro e2 he2 v hv
              have : e = e2 := by simpa using he2
              subst this
              exact hexpr v hv

theorem convertFunctionBodies_scope (s : Settings) (m : List (String × Function))
    (entries : List (String × Function)) (defs defs2 : List FunctionDefinition)
    (err err2 : Bool)
    (h : convertFunctionBodies s m entries defs err = .ok (defs2, err2))
    (hdefs : ∀ d ∈ defs, VariablesInScope d) : ∀ d ∈ defs2, VariablesInScope d := by
  induction entries generalizing defs err with
  | nil =>
    rw [convertFunctionBodies] at h
    simp only [Except.ok.injEq, Prod.mk.injEq] at h
    rw [← h.1]
    exact hdefs
  | cons e rest ih =>
    rw [convertFunctionBodies] at h
    split at h
    · simp at h
    · rename_i defs1 err1 he
      exact ih defs1 err1 h (convertFunctionBody_scope s m e.2 defs defs1 err err1 he hdefs)

/-- C27: in a Program that `generateProgram` returns, every Variable that the
body or the return expression of a function, main included, refers to (as the
target of an assignment, of an increment or of a decrement, or in a variable
reference of one of its expressions, at any depth) is an element of the scope
of that same function. -/
theorem variables_are_in_scope (s : Settings) (tree : List ast.Statement) (p : Program)
    (hp : generateProgram s tree = .ok (some p)) :
    ((∀ v ∈ blockVariables p.mainFunction.statements, v ∈ p.mainFunction.scope) ∧
      (∀ e, p.mainFunction.returnExpression = some e →
        ∀ v ∈ e.variables, v ∈ p.mainFunction.scope)) ∧
    (∀ d ∈ p.functions,
      (∀ v ∈ blockVariables d.statements, v ∈ d.scope) ∧
      (∀ e, d.returnExpression = some e → ∀ v ∈ e.variables, v ∈ d.scope)) := by
  obtain ⟨sk, block, stm, defs, hsk, hb, _, hbodies, hprog⟩ := generateProgram_some s tree p hp
  subst hprog
  constructor
  · refine ⟨(convertBlock_scope _ _ _ _ _ _ hb).2, ?_⟩
    intro e he
    simp at he
  · refine convertFunctionBodies_scope s _ _ _ _ _ _ hbodies ?_
    intro d hd
    obtain ⟨h1, h2, _⟩ := skeleton_definitions_empty tree sk hsk d hd
    refine ⟨?_, ?_⟩
    · intro v hv
      rw [h1] at hv
      simp [blockVariables] at hv
    · intro e he
      rw [h2] at he
      simp at he

/-- Witness of C27: in the Program of `f(1)` followed by `function f(a)` with the
body `b = 2`, the Variable `b` assigned in `f` is in the scope of `f`. -/
theorem variables_are_in_scope_witness :
    generateProgram examples.settings examples.callThenFunction =
      .ok (some examples.callThenFunctionProgram) ∧
    examples.convertedF ∈ examples.callThenFunctionProgram.functions ∧
    blockVariables examples.convertedF.statements =
      [{ name := "b", annotation := .None, type := .builtin .Integer }] ∧
    ({ name := "b", annotation := .None, type := .builtin .Integer } : Variable) ∈
      examples.convertedF.scope :=
  ⟨rfl, List.mem_singleton_self _, by simp [examples.convertedF, blockVariables,
      Statement.variables, Expression.variables],
    ((variables_are_in_scope examples.settings examples.callThenFunction
      examples.callThenFunctionProgram rfl).2 examples.convertedF
        (List.mem_singleton_self _)).1 _
      (by simp [examples.convertedF, blockVariables, Statement.variables,
        Expression.variables])⟩

/-! ## The error flag does not steer the conversion -/

theorem ensureType_flag_fst (e : Expression) (t : IRType) (st : ConvState) :
    (ensureType e t (semanticError st)).1 = (ensureType e t st).1 := by
  unfold ensureType
  split
  · rfl
  · split <;> rfl

theorem ensureType_flag_snd (e : Expression) (t : IRType) (st : ConvState) :
    (ensureType e t (semanticError st)).2 = semanticError (ensureType e t st).2 := by
  unfold ensureType
  split
  · rfl
  · split <;> rfl

theorem resolveVariableRef_flag_fst (name : String) ( astAnnotation : ast.Annotation)
    (st : ConvState) :
    (resolveVariableRef name astAnnotation (semanticError st)).1 =
      (resolveVariableRef name astAnnotation st).1 := by
  unfold resolveVariableRef
  show (match scopeLookup st.scope name ( getAnnotation astAnnotation) with
    | some v => (v, semanticError st)
    | none => _).1 = _
  split <;> rfl

theorem resolveVariableRef_flag_snd (name : String) ( astAnnotation : ast.Annotation)
    (st : ConvState) :
    (resolveVariableRef name astAnnotation (semanticError st)).2 =
      semanticError (resolveVariableRef name astAnnotation st).2 := by
  unfold resolveVariableRef
  show (match scopeLookup st.scope name ( getAnnotation astAnnotation) with
    | some v => (v, semanticError st)
    | none => _).2 = _
  split <;> rfl

theorem ensureArgumentTypes_flag (as : List Expression) (ps : List Arg) (st : ConvState) :
    ensureArgumentTypes as ps (semanticError st) =
      withErrorFlag (ensureArgumentTypes as ps st) := by
  induction as generalizing ps st with
  | nil => rw [ensureArgumentTypes, ensureArgumentTypes]; rfl
  | cons a as ih =>
    cases ps with
    | nil => rw [ensureArgumentTypes, ensureArgumentTypes]; rfl
    | cons p ps =>
      rw [ensureArgumentTypes, ensureArgumentTypes]
      cases getTypeFromCommandType p.type with
      | none => rfl
      | some t =>
        simp only [ensureType_flag_fst, ensureType_flag_snd, ih]
        cases ensureArgumentTypes as ps (ensureType a t st).2 with
        | error x => rfl
        | ok v =>
          obtain ⟨rest, st2⟩ := v
          rfl

theorem resolveCommandCall_flag (sort : Sorter) (idx : CommandIndex) (name : String)
    (args : List Expression) (st : ConvState) :
    resolveCommandCall sort idx name args (semanticError st) =
      withErrorFlag (resolveCommandCall sort idx name args st) := by
  unfold resolveCommandCall
  cases selectOverload sort idx name args with
  | error x => rfl
  | ok command =>
    simp only [ensureArgumentTypes_flag]
    cases ensureArgumentTypes args command.args st with
    | error x => rfl
    | ok v =>
      obtain ⟨args2, st2⟩ := v
      simp only [withErrorFlag]
      cases getTypeFromCommandType command.returnType with
      | none => rfl
      | some t => rfl

mutual

theorem convertExpression_flag (env : Env) :
    ∀ (e : ast.Expression) (st : ConvState) (res : Except Fatal (Expression × ConvState)),
      convertExpression env e st = res →
      convertExpression env e (semanticError st) = withErrorFlag res
  | .UnaryOp op expr, st, res, h => by
    have ih1 := fun st => convertExpression_flag env expr st _ rfl
    rw [convertExpression] at h ⊢
    repeat' (split at h)
    all_goals
      subst h
      simp only [ih1, withErrorFlag, ensureType_flag_fst, ensureType_flag_snd,
        resolveVariableRef_flag_fst, resolveVariableRef_flag_snd, *]
  | .BinaryOp op l r, st, res, h => by
    have ih1 := fun st => convertExpression_flag env l st _ rfl
    have ih2 := fun st => convertExpression_flag env r st _ rfl
    rw [convertExpression] at h ⊢
    repeat' (split at h)
    all_goals
      subst h
      simp only [ih1, ih2, withErrorFlag, ensureType_flag_fst, ensureType_flag_snd,
        resolveVariableRef_flag_fst, resolveVariableRef_flag_snd, *]
  | .VarRef name ann, st, res, h => by
    rw [convertExpression] at h ⊢
    subst h
    simp only [withErrorFlag, ensureType_flag_fst, ensureType_flag_snd,
      resolveVariableRef_flag_fst, resolveVariableRef_flag_snd]
  | .Literal value, st, res, h => by
    rw [convertExpression] at h ⊢
    subst h
    simp only [withErrorFlag, ensureType_flag_fst, ensureType_flag_snd,
      resolveVariableRef_flag_fst, resolveVariableRef_flag_snd]
  | .CommandExprSymbol command args, st, res, h => by
    have ih1 := fun st => convertCommandCallExpression_flag env command args st _ rfl
    rw [convertExpression] at h ⊢
    repeat' (split at h)
    all_goals
      subst h
      simp only [ih1, withErrorFlag, ensureType_flag_fst, ensureType_flag_snd,
        resolveVariableRef_flag_fst, resolveVariableRef_flag_snd, *]
  | .FuncCallExpr symbol args, st, res, h => by
    have ih1 := fun st => convertFunctionCallExpression_flag env symbol args st _ rfl
    rw [convertExpression] at h ⊢
    repeat' (split at h)
    all_goals
      subst h
      simp only [ih1, withErrorFlag, ensureType_flag_fst, ensureType_flag_snd,
        resolveVariableRef_flag_fst, resolveVariableRef_flag_snd, *]
  | .Other, st, res, h => by
    rw [convertExpression] at h ⊢
    subst h
    simp only [withErrorFlag, ensureType_flag_fst, ensureType_flag_snd,
      resolveVariableRef_flag_fst, resolveVariableRef_flag_snd]

theorem convertExpressionList_flag (env : Env) :
    ∀ (es : List ast.Expression) (st : ConvState)
      (res : Except Fatal (List Expression × ConvState)),
      convertExpressionList env es st = res →
      convertExpressionList env es (semanticError st) = withErrorFlag res
  | [], st, res, h => by
    rw [convertExpressionList] at h ⊢
    subst h
    simp only [withErrorFlag, ensureType_flag_fst, ensureType_flag_snd,
      resolveVariableRef_flag_fst, resolveVariableRef_flag_snd]
  | e :: es, st, res, h => by
    have ih1 := fun st => convertExpression_flag env e st _ rfl
    have ih2 := fun st => convertExpressionList_flag env es st _ rfl
    rw [convertExpressionList] at h ⊢
    repeat' (split at h)
    all_goals
      subst h
      simp only [ih1, ih2, withErrorFlag, ensureType_flag_fst, ensureType_flag_snd,
        resolveVariableRef_flag_fst, resolveVariableRef_flag_snd, *]

theorem convertCommandCallExpression_flag (env : Env) (name : String) :
    ∀ (astArgs : Option (List ast.Expression)) (st : ConvState)
      (res : Except Fatal (FunctionCallExpression × ConvState)),
      convertCommandCallExpression env name astArgs st = res →
      convertCommandCallExpression env name astArgs (semanticError st) = withErrorFlag res
  | none, st, res, h => by
    rw [convertCommandCallExpression] at h ⊢
    subst h
    exact resolveCommandCall_flag _ _ _ _ _
  | some es, st, res, h => by
    have ih1 := fun st => convertExpressionList_flag env es st _ rfl
    rw [convertCommandCallExpression] at h ⊢
    split at h
    · subst h
      simp only [ih1, withErrorFlag, *]
    · subst h
      simp only [ih1, withErrorFlag, resolveCommandCall_flag, *]

theorem convertFunctionArguments_flag (env : Env) :
    ∀ (es : List ast.Expression) (ps : List Argument) (st : ConvState)
      (res : Except Fatal (List Expression × ConvState)),
      convertFunctionArguments env es ps st = res →
      convertFunctionArguments env es ps (semanticError st) = withErrorFlag res
  | [], ps, st, res, h => by
    rw [convertFunctionArguments] at h ⊢
    subst h
    rfl
  | e :: es, [], st, res, h => by
    rw [convertFunctionArguments] at h ⊢
    subst h
    rfl
  | e :: es, p :: ps, st, res, h => by
    have ih1 := fun st => convertExpression_flag env e st _ rfl
    have ih2 := fun st => convertFunctionArguments_flag env es ps st _ rfl
    rw [convertFunctionArguments] at h ⊢
    repeat' (split at h)
    all_goals
      subst h
      simp only [ih1, ih2, withErrorFlag, ensureType_flag_fst, ensureType_flag_snd,
        resolveVariableRef_flag_fst, resolveVariableRef_flag_snd, *]

theorem convertFunctionCallExpression_flag (env : Env) (name : String) :
    ∀ (astArgs : Option (List ast.Expression)) (st : ConvState)
      (res : Except Fatal (FunctionCallExpression × ConvState)),
      convertFunctionCallExpression env name astArgs st = res →
      convertFunctionCallExpression env name astArgs (semanticError st) = withErrorFlag res
  | none, st, res, h => by
    rw [convertFunctionCallExpression] at h ⊢
    subst h
    cases findFunction env name with
    | none => rfl
    | some entry =>
      simp only [Option.isNone_none, Bool.and_true]
      split
      · rfl
      · rfl
  | some es, st, res, h => by
    have ih1 := fun ps st => convertFunctionArguments_flag env es ps st _ rfl
    rw [convertFunctionCallExpression] at h ⊢
    subst h
    cases findFunction env name with
    | none => rfl
    | some entry =>
      simp only [Option.isNone_some, Bool.and_false, Bool.false_eq_true, if_false, ih1]
      split
      · rfl
      · cases convertFunctionArguments env es entry.functionDefinition.arguments st with
        | error x => rfl
        | ok v =>
          obtain ⟨args, st1⟩ := v
          rfl

end

theorem semanticError_scope (st : ConvState) : (semanticError st).scope = st.scope := rfl

theorem declareVariable_flag_fst (name : String) ( astAnnotation : ast.Annotation)
    (t : IRType) (st : ConvState) :
    (declareVariable name astAnnotation t (semanticError st)).1 =
      (declareVariable name astAnnotation t st).1 := rfl

theorem declareVariable_flag_snd (name : String) ( astAnnotation : ast.Annotation)
    (t : IRType) (st : ConvState) :
    (declareVariable name astAnnotation t (semanticError st)).2 =
      semanticError (declareVariable name astAnnotation t st).2 := rfl

theorem convertExpressionPointer_flag (env : Env) (p : Option ast.Expression)
    (st : ConvState) (res : Except Fatal (Expression × ConvState))
    (h : convertExpressionPointer env p st = res) :
    convertExpressionPointer env p (semanticError st) = withErrorFlag res := by
  cases p with
  | none =>
    subst h
    rfl
  | some e => exact convertExpression_flag env e st res h

mutual

theorem convertStatement_flag (env : Env) (ltr : Bool) :
    ∀ (s : ast.Statement) (st : ConvState) (res : Except Fatal (Option Statement × ConvState)),
      convertStatement env ltr s st = res →
      convertStatement env ltr s (semanticError st) = withErrorFlag res
  | .ConstDecl, st, res, h => by
    rw [convertStatement] at h ⊢
    subst h
    rfl
  | .FuncDecl name args body rv, st, res, h => by
    rw [convertStatement] at h ⊢
    subst h
    rfl
  | .Other, st, res, h => by
    rw [convertStatement] at h ⊢
    subst h
    rfl
  | .SubReturn, st, res, h => by
    rw [convertStatement] at h ⊢
    subst h
    rfl
  | .Break, st, res, h => by
    rw [convertStatement] at h ⊢
    subst h
    rfl
  | .Label name, st, res, h => by
    rw [convertStatement] at h ⊢
    subst h
    rfl
  | .GotoSymbol label, st, res, h => by
    rw [convertStatement] at h ⊢
    subst h
    rfl
  | .SubCallSymbol label, st, res, h => by
    rw [convertStatement] at h ⊢
    subst h
    rfl
  | .VarDecl name ann varType initialValue, st, res, h => by
    have ihP := fun st =>
      convertExpressionPointer_flag env (localInitialValue varType initialValue) st _ rfl
    rw [convertStatement] at h ⊢
    repeat' (split at h)
    all_goals
      subst h
      simp only [ihP, withErrorFlag, ensureType_flag_fst, ensureType_flag_snd,
        resolveVariableRef_flag_fst, resolveVariableRef_flag_snd, declareVariable_flag_fst,
        declareVariable_flag_snd, semanticError_scope, *]
  | .VarAssignment name ann e, st, res, h => by
    have ihE := fun st => convertExpression_flag env e st _ rfl
    rw [convertStatement] at h ⊢
    repeat' (split at h)
    all_goals
      subst h
      simp only [ihE, withErrorFlag, ensureType_flag_fst, ensureType_flag_snd,
        resolveVariableRef_flag_fst, resolveVariableRef_flag_snd, declareVariable_flag_fst,
        declareVariable_flag_snd, semanticError_scope, *]
  | .FuncExit rv, st, res, h => by
    have ihP := fun st => convertExpressionPointer_flag env rv st _ rfl
    rw [convertStatement] at h ⊢
    repeat' (split at h)
    all_goals
      subst h
      simp only [ihP, withErrorFlag, ensureType_flag_fst, ensureType_flag_snd,
        resolveVariableRef_flag_fst, resolveVariableRef_flag_snd, declareVariable_flag_fst,
        declareVariable_flag_snd, semanticError_scope, *]
  | .IncrementVar name ann e, st, res, h => by
    cases ltr with
    | true =>
      have ihE := fun st => convertExpression_flag env e st _ rfl
      rw [convertStatement] at h ⊢
      simp only [if_true] at h ⊢
      repeat' (split at h)
      all_goals
        subst h
        simp only [ihE, withErrorFlag, ensureType_flag_fst, ensureType_flag_snd,
          resolveVariableRef_flag_fst, resolveVariableRef_flag_snd, declareVariable_flag_fst,
          declareVariable_flag_snd, semanticError_scope, *]
    | false =>
      have ihE := fun st => convertExpression_flag env e st _ rfl
      rw [convertStatement] at h ⊢
      simp only [Bool.false_eq_true, if_false] at h ⊢
      repeat' (split at h)
      all_goals
        subst h
        simp only [ihE, withErrorFlag, ensureType_flag_fst, ensureType_flag_snd,
          resolveVariableRef_flag_fst, resolveVariableRef_flag_snd, declareVariable_flag_fst,
          declareVariable_flag_snd, semanticError_scope, *]
  | .DecrementVar name ann e, st, res, h => by
    cases ltr with
    | true =>
      have ihE := fun st => convertExpression_flag env e st _ rfl
      rw [convertStatement] at h ⊢
      simp only [if_true] at h ⊢
      repeat' (split at h)
      all_goals
        subst h
        simp only [ihE, withErrorFlag, ensureType_flag_fst, ensureType_flag_snd,
          resolveVariableRef_flag_fst, resolveVariableRef_flag_snd, declareVariable_flag_fst,
          declareVariable_flag_snd, semanticError_scope, *]
    | false =>
      have ihE := fun st => convertExpression_flag env e st _ rfl
      rw [convertStatement] at h ⊢
      simp only [Bool.false_eq_true, if_false] at h ⊢
      repeat' (split at h)
      all_goals
        subst h
        simp only [ihE, withErrorFlag, ensureType_flag_fst, ensureType_flag_snd,
          resolveVariableRef_flag_fst, resolveVariableRef_flag_snd, declareVariable_flag_fst,
          declareVariable_flag_snd, semanticError_scope, *]
  | .FuncCallStmnt symbol args, st, res, h => by
    have ihF := fun st => convertFunctionCallExpression_flag env symbol args st _ rfl
    rw [convertStatement] at h ⊢
    repeat' (split at h)
    all_goals
      subst h
      simp only [ihF, withErrorFlag, ensureType_flag_fst, ensureType_flag_snd,
        resolveVariableRef_flag_fst, resolveVariableRef_flag_snd, declareVariable_flag_fst,
        declareVariable_flag_snd, semanticError_scope, *]
  | .CommandStmntSymbol command args, st, res, h => by
    have ihC := fun st => convertCommandCallExpression_flag env command args st _ rfl
    rw [convertStatement] at h ⊢
    repeat' (split at h)
    all_goals
      subst h
      simp only [ihC, withErrorFlag, ensureType_flag_fst, ensureType_flag_snd,
        resolveVariableRef_flag_fst, resolveVariableRef_flag_snd, declareVariable_flag_fst,
        declareVariable_flag_snd, semanticError_scope, *]
  | .Conditional c tb fb, st, res, h => by
    cases ltr with
    | true =>
      have ihE := fun st => convertExpression_flag env c st _ rfl
      have ihT := fun st => convertMaybeNullBlock_flag env true tb st _ rfl
      have ihF := fun st => convertMaybeNullBlock_flag env true fb st _ rfl
      rw [convertStatement] at h ⊢
      simp only [if_true] at h ⊢
      repeat' (split at h)
      all_goals
        subst h
        simp only [ihE, ihT, ihF, withErrorFlag, ensureType_flag_fst, ensureType_flag_snd,
          resolveVariableRef_flag_fst, resolveVariableRef_flag_snd, declareVariable_flag_fst,
          declareVariable_flag_snd, semanticError_scope, *]
    | false =>
      have ihE := fun st => convertExpression_flag env c st _ rfl
      have ihT := fun st => convertMaybeNullBlock_flag env false tb st _ rfl
      have ihF := fun st => convertMaybeNullBlock_flag env false fb st _ rfl
      rw [convertStatement] at h ⊢
      simp only [Bool.false_eq_true, if_false] at h ⊢
      repeat' (split at h)
      all_goals
        subst h
        simp only [ihE, ihT, ihF, withErrorFlag, ensureType_flag_fst, ensureType_flag_snd,
          resolveVariableRef_flag_fst, resolveVariableRef_flag_snd, declareVariable_flag_fst,
          declareVariable_flag_snd, semanticError_scope, *]
  | .WhileLoop c body, st, res, h => by
    cases ltr with
    | true =>
      have ihE := fun st => convertExpression_flag env c st _ rfl
      have ihB := fun st => convertMaybeNullBlock_flag env true body st _ rfl
      rw [convertStatement] at h ⊢
      simp only [if_true] at h ⊢
      repeat' (split at h)
      all_goals
        subst h
        simp only [ihE, ihB, withErrorFlag, ensureType_flag_fst, ensureType_flag_snd,
          resolveVariableRef_flag_fst, resolveVariableRef_flag_snd, declareVariable_flag_fst,
          declareVariable_flag_snd, semanticError_scope, *]
    | false =>
      have ihE := fun st => convertExpression_flag env c st _ rfl
      have ihB := fun st => convertMaybeNullBlock_flag env false body st _ rfl
      rw [convertStatement] at h ⊢
      simp only [Bool.false_eq_true, if_false] at h ⊢
      repeat' (split at h)
      all_goals
        subst h
        simp only [ihE, ihB, withErrorFlag, ensureType_flag_fst, ensureType_flag_snd,
          resolveVariableRef_flag_fst, resolveVariableRef_flag_snd, declareVariable_flag_fst,
          declareVariable_flag_snd, semanticError_scope, *]
  | .UntilLoop c body, st, res, h => by
    cases ltr with
    | true =>
      have ihE := fun st => convertExpression_flag env c st _ rfl
      have ihB := fun st => convertMaybeNullBlock_flag env true body st _ rfl
      rw [convertStatement] at h ⊢
      simp only [if_true] at h ⊢
      repeat' (split at h)
      all_goals
        subst h
        simp only [ihE, ihB, withErrorFlag, ensureType_flag_fst, ensureType_flag_snd,
          resolveVariableRef_flag_fst, resolveVariableRef_flag_snd, declareVariable_flag_fst,
          declareVariable_flag_snd, semanticError_scope, *]
    | false =>
      have ihE := fun st => convertExpression_flag env c st _ rfl
      have ihB := fun st => convertMaybeNullBlock_flag env false body st _ rfl
      rw [convertStatement] at h ⊢
      simp only [Bool.false_eq_true, if_false] at h ⊢
      repeat' (split at h)
      all_goals
        subst h
        simp only [ihE, ihB, withErrorFlag, ensureType_flag_fst, ensureType_flag_snd,
          resolveVariableRef_flag_fst, resolveVariableRef_flag_snd, declareVariable_flag_fst,
          declareVariable_flag_snd, semanticError_scope, *]
  | .InfiniteLoop body, st, res, h => by
    have ihB := fun st => convertMaybeNullBlock_flag env ltr body st _ rfl
    rw [convertStatement] at h ⊢
    repeat' (split at h)
    all_goals
      subst h
      simp only [ihB, withErrorFlag, ensureType_flag_fst, ensureType_flag_snd,
        resolveVariableRef_flag_fst, resolveVariableRef_flag_snd, declareVariable_flag_fst,
        declareVariable_flag_snd, semanticError_scope, *]

theorem convertBlock_flag (env : Env) (ltr : Bool) :
    ∀ (l : List ast.Statement) (st : ConvState) (res : Except Fatal (StatementBlock × ConvState)),
      convertBlock env ltr l st = res →
      convertBlock env ltr l (semanticError st) = withErrorFlag res
  | [], st, res, h => by
    rw [convertBlock] at h ⊢
    subst h
    rfl
  | s :: rest, st, res, h => by
    have ihS := fun st => convertStatement_flag env ltr s st _ rfl
    have ihB := fun st => convertBlock_flag env ltr rest st _ rfl
    rw [convertBlock] at h ⊢
    repeat' (split at h)
    all_goals
      subst h
      simp only [ihS, ihB, withErrorFlag, ensureType_flag_fst, ensureType_flag_snd,
        resolveVariableRef_flag_fst, resolveVariableRef_flag_snd, declareVariable_flag_fst,
        declareVariable_flag_snd, semanticError_scope, *]

theorem convertMaybeNullBlock_flag (env : Env) (ltr : Bool) :
    ∀ (l : Option (List ast.Statement)) (st : ConvState)
      (res : Except Fatal (StatementBlock × ConvState)),
      convertMaybeNullBlock env ltr l st = res →
      convertMaybeNullBlock env ltr l (semanticError st) = withErrorFlag res
  | none, st, res, h => by
    rw [convertMaybeNullBlock] at h ⊢
    subst h
    rfl
  | some l, st, res, h => by
    rw [convertMaybeNullBlock] at h ⊢
    exact convertBlock_flag env ltr l st res h

end

theorem convertFunctionBody_flag (s : Settings) (m : List (String × Function))
    (f : Function) (defs : List FunctionDefinition) (err : Bool) :
    convertFunctionBody s m f defs true = withFlagSet (convertFunctionBody s m f defs err) := by
  unfold convertFunctionBody
  cases defs[f.functionDefinition.index]? with
  | none => rfl
  | some d =>
    cases f.body with
    | none => rfl
    | some statements =>
      have hst : ({ scope := d.scope, errorOccurred := true } : ConvState) =
          semanticError { scope := d.scope, errorOccurred := err } := rfl
      simp only [hst, convertBlock_flag _ _ _ _ _ rfl]
      cases convertBlock (s.env m defs) s.leftToRight statements
          { scope := d.scope, errorOccurred := err } with
      | error x => rfl
      | ok v =>
        obtain ⟨block, st1⟩ := v
        simp only [withErrorFlag]
        cases f.returnValue with
        | none => rfl
        | some rv =>
          simp only [convertExpression_flag _ _ _ _ rfl]
          cases convertExpression (s.env m defs) rv st1 with
          | error x => rfl
          | ok w =>
            obtain ⟨e, st2⟩ := w
            rfl

theorem convertFunctionBodies_flag (s : Settings) (m : List (String × Function))
    (entries : List (String × Function)) (defs : List FunctionDefinition) (err : Bool) :
    convertFunctionBodies s m entries defs true =
      withFlagSet (convertFunctionBodies s m entries defs err) := by
  induction entries generalizing defs err with
  | nil => rfl
  | cons e rest ih =>
    rw [convertFunctionBodies, convertFunctionBodies, convertFunctionBody_flag s m e.2 defs err]
    cases convertFunctionBody s m e.2 defs err with
    | error x => rfl
    | ok v =>
      obtain ⟨defs1, err1⟩ := v
      simp only [withFlagSet]
      cases err1 with
      | true => rw [ih defs1 true]; cases convertFunctionBodies s m rest defs1 true with
        | error x => rfl
        | ok w => rfl
      | false => exact ih defs1 false

/-- C24: when a run of `generateProgram` reaches its final test, it returns a
Program exactly when the error flag is unset then, and the flag is unset then
only if it was unset after main too (it is never reset). The two errors that
are flagged without ending the run, a conversion between Types that are not
convertible and the re-declaration of a variable, leave the conversion going:
the statements and the functions after them are converted as they would be
without the error, only with the flag set; and `generateProgram` then returns
no Program, if it returns. -/
theorem program_iff_no_error_flagged (s : Settings) (tree : List ast.Statement) :
    (∀ sk block st defs err,
      collectFunctions tree false
        { astMainStatements := [], functionDefinitions := [], functionMap := [] } = .ok sk →
      convertBlock (s.env sk.functionMap sk.functionDefinitions) s.leftToRight
        sk.astMainStatements { scope := [], errorOccurred := false } = .ok (block, st) →
      convertFunctionBodies s sk.functionMap (s.iterationOrder sk.functionMap)
        sk.functionDefinitions st.errorOccurred = .ok (defs, err) →
      generateProgram s tree =
        .ok (if err then none
          else some
            { mainFunction :=
                { name := "__DBMain", arguments := [], statements := block,
                  returnExpression := none, scope := st.scope },
              functions := defs }) ∧
      ((∃ p, generateProgram s tree = .ok (some p)) ↔ err = false) ∧
      (st.errorOccurred = true → err = true)) ∧
    (∀ (e : Expression) (t : IRType) (st : ConvState),
      isTypeConvertible e.getType t = false → ensureType e t st = (e, semanticError st)) ∧
    (∀ (env : Env) (ltr : Bool) (name : String) ( annotation : ast.Annotation)
        (varType : Option BuiltinType) (initialValue : Option ast.Expression)
        (st : ConvState) (v : Variable),
      scopeLookup st.scope name ( getAnnotation annotation) = some v →
      convertStatement env ltr (.VarDecl name annotation varType initialValue) st =
        .ok (none, semanticError st)) ∧
    (∀ (env : Env) (ltr : Bool) (l : List ast.Statement) (st : ConvState),
      convertBlock env ltr l (semanticError st) = withErrorFlag (convertBlock env ltr l st)) ∧
    (∀ (m entries : List (String × Function)) (defs : List FunctionDefinition) (err : Bool),
      convertFunctionBodies s m entries defs true =
        withFlagSet (convertFunctionBodies s m entries defs err)) := by
  refine ⟨?_, ?_, ?_, ?_, ?_⟩
  · intro sk block st defs err hsk hb hbodies
    have hg : generateProgram s tree =
        .ok (if err then none
          else some
            { mainFunction :=
                { name := "__DBMain", arguments := [], statements := block,
                  returnExpression := none, scope := st.scope },
              functions := defs }) := by
      unfold generateProgram
      simp only [hsk, hb, hbodies]
      cases err <;> rfl
    refine ⟨hg, ?_, ?_⟩
    · rw [hg]
      cases err with
      | true => simp
      | false => simp
    · intro hflag
      exact convertFunctionBodies_errorOccurred s _ _ _ _ _ _ hbodies hflag
  · intro e t st h
    have hne : e.getType ≠ t := by
      intro heq
      rw [heq, isTypeConvertible_self] at h
      exact Bool.noConfusion h
    unfold ensureType
    rw [if_neg hne, if_neg (by rw [h]; exact Bool.false_ne_true)]
  · intro env ltr name annotation varType initialValue st v h
    exact convertStatement_redeclared env ltr name annotation varType initialValue st v h
  · intro env ltr l st
    exact convertBlock_flag env ltr l st _ rfl
  · intro m entries defs err
    exact convertFunctionBodies_flag s m entries defs err

/-- Witness of C24: in `a$ = 1` followed by `b = 2` the first assignment flags a
conversion error, the second is converted all the same, and no Program is
returned; `a$ = "hi"` flags nothing and is returned as a Program. -/
theorem program_iff_no_error_flagged_witness :
    convertBlock (examples.settingsWithoutCommands.env [] []) true
      examples.typeErrorThenAssignment { scope := [], errorOccurred := false } =
      .ok ([some (.VarAssignment examples.variableA (.literal (.Integer 1))),
            some (.VarAssignment { name := "b", annotation := .None, type := .builtin .Integer }
              (.literal (.Integer 2)))],
          { scope := [examples.variableA,
                      { name := "b", annotation := .None, type := .builtin .Integer }],
            errorOccurred := true }) ∧
    generateProgram examples.settingsWithoutCommands examples.typeErrorThenAssignment =
      .ok none ∧
    (∃ p, generateProgram examples.settingsWithoutCommands examples.assignString =
      .ok (some p)) :=
  ⟨rfl,
    ((program_iff_no_error_flagged examples.settingsWithoutCommands
      examples.typeErrorThenAssignment).1
      { astMainStatements := examples.typeErrorThenAssignment, functionDefinitions := [],
        functionMap := [] } _ _ [] true rfl rfl rfl).1,
    (((program_iff_no_error_flagged examples.settingsWithoutCommands
      examples.assignString).1
      { astMainStatements := examples.assignString, functionDefinitions := [],
        functionMap := [] } _ _ [] false rfl rfl rfl).2.1).mpr rfl⟩

/-! ## Running the converter twice -/

/-- On a converter that has not run, with no earlier definitions, the member
function is `generateProgram`. -/
theorem generateProgramOn_fresh (s : Settings) (tree : List ast.Statement) :
    generateProgram s tree =
      match generateProgramOn s Converter.fresh [] tree with
      | .error x => .error x
      | .ok r => .ok r.1 := by
  unfold generateProgram generateProgramOn Converter.fresh
  simp only [List.length_nil, List.drop_zero]
  cases collectFunctions tree false
      { astMainStatements := [], functionDefinitions := [], functionMap := [] } with
  | error x => rfl
  | ok sk =>
    simp only
    cases convertBlock (s.env sk.functionMap sk.functionDefinitions) s.leftToRight
        sk.astMainStatements { scope := [], errorOccurred := false } with
    | error x => rfl
    | ok v =>
      obtain ⟨block, st⟩ := v
      simp only
      cases convertFunctionBodies s sk.functionMap (s.iterationOrder sk.functionMap)
          sk.functionDefinitions st.errorOccurred with
      | error x => rfl
      | ok w =>
        obtain ⟨defs, err⟩ := w
        cases err <;> rfl

/-- C28 (counterexample): one converter runs
`generateProgram` twice on the block `f(1)` followed by `function f(a)` with the
body `b = 2` and the return value `3`. The first run returns the Program with
the body and the return expression of `f`, and leaves the entry of `f` in
`functionMap_`. In the second run `emplace` keeps that entry, so the body is
converted once more into the definition of the first Program, and the Program
returned has a definition of `f` without body and without return expression,
and a call in main of Type Integer where the first Program has Type void. -/
theorem second_run_differs :
    generateProgramOn examples.settings Converter.fresh [] examples.callThenFunction =
      .ok (some examples.callThenFunctionProgram, examples.converterAfterRun,
        examples.callThenFunctionProgram.functions) ∧
    generateProgram examples.settings examples.callThenFunction =
      .ok (some examples.callThenFunctionProgram) ∧
    generateProgramOn examples.settings examples.converterAfterRun
        examples.callThenFunctionProgram.functions examples.callThenFunction =
      .ok (some examples.secondRunProgram, examples.converterAfterRun,
        [examples.firstDefinitionAfterSecondRun] ++ examples.secondRunProgram.functions) ∧
    examples.callThenFunctionProgram.functions.map (fun d => d.statements.length) = [1] ∧
    examples.secondRunProgram.functions.map (fun d => d.statements.length) = [0] ∧
    examples.callThenFunctionProgram.functions.map (fun d => d.returnExpression.isSome) =
      [true] ∧
    examples.secondRunProgram.functions.map (fun d => d.returnExpression.isSome) = [false] := by
  refine ⟨rfl, rfl, rfl, rfl, rfl, rfl, rfl⟩

/-- C23 (counterexample): in the block `function f(1)` followed by `x = 1` a
statement that is no function declaration stands after a function
declaration, yet `generateProgram` does not end in the structural error: the
assertion of `convertFunctionWithoutBody` fails at the declaration, whose
parameter is no variable reference, before the assignment is looked at. -/
theorem malformed_declaration_fails_first :
    asFuncDecl (.FuncDecl "f" (some [.Literal (.Integer 1)]) (some []) none) =
      some ("f", some [.Literal (.Integer 1)], some [], none) ∧
    asFuncDecl (.VarAssignment "x" .NONE (.Literal (.Integer 1))) = none ∧
    examples.statementAfterMalformedFunction =
      [.FuncDecl "f" (some [.Literal (.Integer 1)]) (some []) none,
       .VarAssignment "x" .NONE (.Literal (.Integer 1))] ∧
    convertFunctionWithoutBody "f" (some [.Literal (.Integer 1)]) = .error .assertionFailed ∧
    generateProgram examples.settings examples.statementAfterMalformedFunction =
      .error .assertionFailed ∧
    Fatal.assertionFailed ≠ Fatal.nonFunctionAfterFunction := by
  refine ⟨rfl, rfl, rfl, rfl, rfl, by decide⟩

theorem collectFunctions_no_declarations (tree : List ast.Statement) (acc : Skeleton)
    (h : ∀ t ∈ tree, asFuncDecl t = none) :
    collectFunctions tree false acc =
      .ok { acc with astMainStatements := acc.astMainStatements ++ tree } := by
  induction tree generalizing acc with
  | nil =>
    rw [collectFunctions]
    simp
  | cons t rest ih =>
    rw [collectFunctions, h t (List.mem_cons_self _ _)]
    simp only [Bool.false_eq_true, if_false]
    rw [ih _ (fun u hu => h u (List.mem_cons_of_mem _ hu))]
    simp

theorem semanticError_of_flagged (st : ConvState) (h : st.errorOccurred = true) :
    semanticError st = st := by
  cases st with
  | mk scope flag =>
    simp only at h
    subst h
    rfl

/-- C28 (amended): two runs of `generateProgram` on the same block with the same
settings give the same result when each starts on a converter that has not
run (unset flag, empty `functionMap_`, no earlier definitions), where the
member function is `generateProgram`; and a second run on the converter of the
first gives the result of the first, a Program equal to the first or no
Program both times, when the block declares no function. -/
theorem runs_on_unused_converter_agree (s : Settings) (tree : List ast.Statement) :
    (∀ c1 c2 : Converter, c1.errorOccurred = false → c1.functionMap = [] →
      c2.errorOccurred = false → c2.functionMap = [] →
      generateProgramOn s c1 [] tree = generateProgramOn s c2 [] tree ∧
      generateProgram s tree =
        match generateProgramOn s c1 [] tree with
        | .error x => .error x
        | .ok r => .ok r.1) ∧
    (IsIterationOrder s.iterationOrder → (∀ t ∈ tree, asFuncDecl t = none) →
      ∀ r c store, generateProgramOn s Converter.fresh [] tree = .ok (r, c, store) →
        generateProgramOn s c store tree = .ok (r, c, store)) := by
  constructor
  · intro c1 c2 h1 h2 h3 h4
    have e1 : c1 = Converter.fresh := by
      cases c1
      simp only at h1 h2
      subst h1
      subst h2
      rfl
    have e2 : c2 = Converter.fresh := by
      cases c2
      simp only at h3 h4
      subst h3
      subst h4
      rfl
    subst e1
    subst e2
    exact ⟨rfl, generateProgramOn_fresh s tree⟩
  · intro horder hnone r c store h
    have hnil : s.iterationOrder [] = [] := List.Perm.eq_nil (horder [])
    have hcollect := collectFunctions_no_declarations tree
      { astMainStatements := [], functionDefinitions := [], functionMap := [] } hnone
    simp only [List.nil_append] at hcollect
    unfold generateProgramOn Converter.fresh at h
    simp only [hcollect] at h
    split at h
    · simp at h
    · rename_i block st hb
      simp only [hnil, convertFunctionBodies, List.length_nil, List.drop_zero, Except.ok.injEq,
        Prod.mk.injEq] at h
      obtain ⟨hr, hc, hstore⟩ := h
      subst hr
      subst hc
      subst hstore
      unfold generateProgramOn
      simp only [hcollect]
      cases hflag : st.errorOccurred with
      | false =>
        simp only [hb, hnil, convertFunctionBodies, hflag, List.length_nil, List.drop_zero]
      | true =>
        have hst : ({ scope := [], errorOccurred := true } : ConvState) =
            semanticError { scope := [], errorOccurred := false } := rfl
        simp only [hst, convertBlock_flag _ _ _ _ _ rfl, hb, withErrorFlag,
          semanticError_of_flagged st hflag, hnil, convertFunctionBodies, hflag,
          List.length_nil, List.drop_zero]

/-- Witness of C28 (amended): the program `a$ = "hi"`, which declares no
function, run twice on one converter. -/
theorem runs_on_unused_converter_agree_witness :
    generateProgramOn examples.settingsWithoutCommands Converter.fresh []
        examples.assignString =
      .ok (some
        { mainFunction :=
            { name := "__DBMain", arguments := [],
              statements :=
                [some (.VarAssignment examples.variableA (.literal (.String "hi")))],
              returnExpression := none, scope := [examples.variableA] },
          functions := [] },
        Converter.fresh, []) ∧
    generateProgramOn examples.settingsWithoutCommands Converter.fresh []
        examples.assignString =
      generateProgramOn examples.settingsWithoutCommands
        { errorOccurred := false, functionMap := [] } [] examples.assignString :=
  ⟨(runs_on_unused_converter_agree examples.settingsWithoutCommands
      examples.assignString).2 (fun m => List.Perm.refl m) (by simp [examples.assignString,
        asFuncDecl]) _ _ _ rfl,
    ((runs_on_unused_converter_agree examples.settingsWithoutCommands
      examples.assignString).1 Converter.fresh { errorOccurred := false, functionMap := [] }
      rfl rfl rfl rfl).1⟩


/-! ## The name of the output file -/


theorem substr_eq_iff_endsIn (name : String) (h : 4 ≤ name.length) :
    cli.substr name (name.length - 4) 4 = ".exe" ↔ cli.EndsIn name ".exe" := by
  unfold cli.substr cli.EndsIn
  constructor
  · intro hs
    refine ⟨⟨name.data.take (name.length - 4)⟩, ?_⟩
    apply String.ext
    have hd : (name.data.drop (name.length - 4)).length = 4 := by
      rw [List.length_drop]; show name.length - (name.length - 4) = 4; omega
    have h1 : (name.data.drop (name.length - 4)).take 4 = name.data.drop (name.length - 4) := by
      apply List.take_of_length_le; omega
    have h2 := congrArg String.data hs
    simp only at h2
    rw [h1] at h2
    rw [String.data_append]
    show name.data = name.data.take (name.length - 4) ++ ".exe".data
    have h3 : ".exe".data = name.data.drop (name.length - 4) := h2.symm
    rw [h3, List.take_append_drop]
  · rintro ⟨stem, rfl⟩
    apply String.ext
    simp only [String.length_append, String.data_append]
    have : stem.length + ".exe".length - 4 = stem.data.length := by
      show stem.length + 4 - 4 = stem.length; omega
    rw [this, List.drop_left]
    rfl

/-- C35 (amended): in executable mode on Windows the output file is opened
under the given name with `.exe` appended if and only if the given name has
fewer than five characters or does not end in `.exe`; every name of at least
five characters that ends in `.exe` is used unchanged, and no other name is. -/
theorem exe_suffix_appended (outputType_ : cli.OutputType) (name : String) (rest : List String) :
    (cli.outputName true (cli.setOutputType outputType_ ["exe"]).1 (name :: rest) = some name ↔
      5 ≤ name.length ∧ cli.EndsIn name ".exe") ∧
    (cli.outputName true (cli.setOutputType outputType_ ["exe"]).1 (name :: rest) =
        some (name ++ ".exe") ↔
      name.length < 5 ∨ ¬ cli.EndsIn name ".exe") := by
  have hne : name ++ ".exe" ≠ name := by
    intro h
    have := congrArg String.length h
    simp at this
    exact absurd this (by decide)
  have hset : (cli.setOutputType outputType_ ["exe"]).1 = .Executable := by
    simp [cli.setOutputType]
  rw [hset]
  unfold cli.outputName
  simp only [if_true]
  have hcond : (name.length < 5 ∨ cli.substr name (name.length - 4) 4 ≠ ".exe") ↔
      (name.length < 5 ∨ ¬ cli.EndsIn name ".exe") := by
    by_cases h5 : name.length < 5
    · simp [h5]
    · rw [ne_eq, substr_eq_iff_endsIn name (by omega)]
  by_cases hc : name.length < 5 ∨ cli.substr name (name.length - 4) 4 ≠ ".exe"
  · rw [if_pos hc]
    have hc2 := hcond.mp hc
    refine ⟨⟨fun h => absurd (Option.some.inj h) hne, fun h => ?_⟩, fun _ => hc2, fun _ => rfl⟩
    rcases hc2 with h5 | he
    · omega
    · exact absurd h.2 he
  · rw [if_neg hc]
    have hc2 := fun h => hc (hcond.mpr h)
    refine ⟨⟨fun _ => ?_, fun _ => rfl⟩, fun h => absurd (Option.some.inj h) hne.symm,
      fun h => absurd h hc2⟩
    constructor
    · by_contra h5
      exact hc2 (Or.inl (by omega))
    · by_contra he
      exact hc2 (Or.inr he)

/-- C35 (counterexample): the name `.exe` ends in `.exe`, and in executable mode
on Windows the output file is opened under `.exe.exe`, not under the name as
given. -/
theorem bare_exe_suffix_is_extended :
    cli.EndsIn ".exe" ".exe" ∧
    cli.outputName true (cli.setOutputType .ObjectFile ["exe"]).1 [".exe"] = some ".exe.exe" ∧
    cli.outputName true (cli.setOutputType .ObjectFile ["exe"]).1 [".exe"] ≠ some ".exe" :=
  ⟨⟨"", rfl⟩, by decide, by decide⟩

/-! ## The order of the plugins other than the core -/

theorem moveCoreToFront_at (l : List PluginInfo) (i : Nat) (pre : List PluginInfo)
    (core : PluginInfo) (post : List PluginInfo)
    (hpre : ∀ p ∈ pre, isCorePlugin p = false) (hcore : isCorePlugin core = true) :
    moveCoreToFront l i (pre ++ core :: post) = swapWithFront l (i + pre.length) := by
  induction pre generalizing i with
  | nil => simp [moveCoreToFront, hcore]
  | cons a pre ih =>
    rw [List.cons_append, moveCoreToFront, hpre a (List.mem_cons_self _ _)]
    simp only [Bool.false_eq_true, if_false]
    rw [ih (i + 1) (fun p hp => hpre p (List.mem_cons_of_mem _ hp))]
    simp only [List.length_cons]
    congr 1
    omega

theorem swapWithFront_split (first core : PluginInfo) (pre post : List PluginInfo) :
    swapWithFront (first :: pre ++ core :: post) (0 + (first :: pre).length) =
      core :: pre ++ first :: post := by
  unfold swapWithFront
  simp
  rw [List.getElem_append_right (le_refl _)]
  simp

/-- C39 (amended): for every plugin list containing DBProCore the plugins are
loaded in the order of the input list with its first DBProCore and its first
plugin exchanged: a list that begins with DBProCore is loaded as it stands, and
a list `first, pre, DBProCore, post` in which neither `first` nor a plugin of
`pre` is DBProCore is loaded as `DBProCore, pre, first, post`. So when DBProCore
stands first or second the other plugins are loaded after it in the relative
order of the input list, as `[Basic2D, DBProCore, Text]` is loaded as
`DBProCore, Basic2D, Text`. -/
theorem generateEntryPoint_swaps_core_with_front (first core : PluginInfo)
    (pre post : List PluginInfo) (hcore : core.name = "DBProCore")
    (hfirst : first.name ≠ "DBProCore") (hpre : ∀ p ∈ pre, p.name ≠ "DBProCore") :
    generateEntryPoint (core :: post) = .ok (core :: post) ∧
    generateEntryPoint (first :: pre ++ core :: post) = .ok (core :: pre ++ first :: post) ∧
    generateEntryPoint (first :: core :: post) = .ok (core :: first :: post) := by
  have hc : isCorePlugin core = true := (isCorePlugin_iff core).mpr hcore
  have hnot : ∀ p : PluginInfo, p.name ≠ "DBProCore" → isCorePlugin p = false := by
    intro p hp
    cases h : isCorePlugin p with
    | false => rfl
    | true => exact absurd ((isCorePlugin_iff p).mp h) hp
  have general : ∀ pre : List PluginInfo, (∀ p ∈ pre, p.name ≠ "DBProCore") →
      generateEntryPoint (first :: pre ++ core :: post) =
        .ok (core :: pre ++ first :: post) := by
    intro pre hpre
    have hm := moveCoreToFront_at (first :: pre ++ core :: post) 0 (first :: pre) core post
      (by
        intro p hp
        rcases List.mem_cons.mp hp with h | h
        · subst h; exact hnot _ hfirst
        · exact hnot p (hpre p h))
      hc
    rw [swapWithFront_split] at hm
    unfold generateEntryPoint
    simp only [List.cons_append] at hm
    simp [hm, hc]
  refine ⟨?_, general pre hpre, general [] (by simp)⟩
  unfold generateEntryPoint
  simp [moveCoreToFront, hc, swapWithFront]

/-- Witness of C39 (amended): `[Basic2D, Text, DBProCore]` is loaded as
`[DBProCore, Text, Basic2D]` and `[Basic2D, DBProCore, Text]` as
`[DBProCore, Basic2D, Text]`. -/
theorem generateEntryPoint_swaps_core_with_front_witness :
    generateEntryPoint examples.coreLast =
      .ok [{ name := "DBProCore", path := "plugins/DBProCore.dll" },
           { name := "Text", path := "plugins/Text.dll" },
           { name := "Basic2D", path := "plugins/Basic2D.dll" }] ∧
    generateEntryPoint examples.threePlugins =
      .ok [{ name := "DBProCore", path := "plugins/DBProCore.dll" },
           { name := "Basic2D", path := "plugins/Basic2D.dll" },
           { name := "Text", path := "plugins/Text.dll" }] :=
  ⟨(generateEntryPoint_swaps_core_with_front
      { name := "Basic2D", path := "plugins/Basic2D.dll" }
      { name := "DBProCore", path := "plugins/DBProCore.dll" }
      [{ name := "Text", path := "plugins/Text.dll" }] [] rfl (by decide) (by decide)).2.1,
   (generateEntryPoint_swaps_core_with_front
      { name := "Basic2D", path := "plugins/Basic2D.dll" }
      { name := "DBProCore", path := "plugins/DBProCore.dll" }
      [] [{ name := "Text", path := "plugins/Text.dll" }] rfl (by decide) (by decide)).2.2⟩

/-- C39 (counterexample): the list `[Basic2D, Text, DBProCore]` contains
DBProCore and is loaded as `[DBProCore, Text, Basic2D]`: the plugins other than
DBProCore are loaded as `Text, Basic2D`, while they stand as `Basic2D, Text` in
the input list. -/
theorem core_in_third_place_reverses_the_others :
    (∃ p ∈ examples.coreLast, p.name = "DBProCore") ∧
    generateEntryPoint examples.coreLast =
      .ok [{ name := "DBProCore", path := "plugins/DBProCore.dll" },
           { name := "Text", path := "plugins/Text.dll" },
           { name := "Basic2D", path := "plugins/Basic2D.dll" }] ∧
    examples.coreLast.filter (fun p => !isCorePlugin p) =
      [{ name := "Basic2D", path := "plugins/Basic2D.dll" },
       { name := "Text", path := "plugins/Text.dll" }] ∧
    ([{ name := "DBProCore", path := "plugins/DBProCore.dll" },
      { name := "Text", path := "plugins/Text.dll" },
      { name := "Basic2D", path := "plugins/Basic2D.dll" }] : List PluginInfo).filter
        (fun p => !isCorePlugin p) ≠
      examples.coreLast.filter (fun p => !isCorePlugin p) :=
  ⟨⟨{ name := "DBProCore", path := "plugins/DBProCore.dll" }, by decide, rfl⟩, rfl, by decide,
    by decide⟩

/-! ## Calls that carry no argument list -/

/-- C37 (evaluation of the code at the failing input): for `function foo()`
without parameters, the conversion of the statement `foo()` and of the
assignment `x = foo()`, whose calls carry no argument list, ends at the access
to the expressions of the absent list; the call with a list that holds no
expression is converted into a call node without arguments. -/
theorem call_without_argument_list_is_dereferenced :
    generateProgram examples.settingsWithoutCommands examples.callWithoutArgumentList =
      .error .nullArgumentList ∧
    generateProgram examples.settingsWithoutCommands examples.assignCallWithoutArgumentList =
      .error .nullArgumentList ∧
    (generateProgram examples.settingsWithoutCommands examples.callWithEmptyArgumentList).map
        (fun p => p.map (fun q => q.mainFunction.statements)) =
      .ok (some [some (.FunctionCall
        { callee := .function { index := 0, name := "foo", arguments := [] }, args := [],
          returnType := .void })]) := by
  refine ⟨rfl, rfl, rfl⟩

/-! ## Declarations that share a name -/

/-- C38 (evaluation of the code at the failing input): the block of two
declarations of `f` converts without error into a Program of two definitions
named `f`; the first holds the conversion of the first body and return value,
the second holds no statement and no return expression, although the
conversion of the body `b = 2` of the second declaration is one assignment. -/
theorem second_declaration_of_a_name_keeps_no_body :
    (generateProgram examples.settingsWithoutCommands examples.twoDeclarationsOfF).map
        (fun p => p.map (fun q => q.functions.map
          (fun d => (d.name, d.statements.length, d.returnExpression)))) =
      .ok (some [("f", 1, some (.literal (.Integer 1))), ("f", 0, none)]) ∧
    (convertBlock (examples.settingsWithoutCommands.env [] []) true
        [.VarAssignment "b" .NONE (.Literal (.Integer 2))]
        { scope := [], errorOccurred := false }).map (fun r => r.1) =
      .ok [some (.VarAssignment examples.variableB (.literal (.Integer 2)))] := by
  refine ⟨rfl, rfl⟩

/-! ## Command thunks -/

/-- C40: for every thunk signature the thunk made by `generateCommandCall` has
this signature and calls the plugin function, and nothing else but the runtime
function `getFunctionAddress`, once: with the thunk's own parameter types and
variadic flag and with the thunk's return type, save that a thunk returning
float types the plugin function as returning the dword. A float thunk stores
the result in one stack slot, casts the address of the slot to a pointer to
float, loads and returns the float; a void thunk returns nothing; every other
thunk returns the result of the call as it is, without a stack slot. -/
theorem generateCommandCall_marshals_return (command : cmd.Command) (functionName : String)
    (functionType : FunctionType) :
    (generateCommandCall command functionName functionType).functionType = functionType ∧
    (generateCommandCall command functionName functionType).basicBlock.take 4 =
      [.load (.pluginHandleVar command.library),
       .call getFunctionAddressType .getFunctionAddressFunc
         [.result 0, .globalStringPtr command.cppSymbol (functionName ++ "Symbol")],
       .bitCast (.result 1) (.pointerTo (pluginTypeOf functionType)),
       .call (pluginTypeOf functionType) (.result 2)
         ((List.range functionType.params.length).map Value.argument)] ∧
    pluginCalls (generateCommandCall command functionName functionType).basicBlock =
      [pluginTypeOf functionType] ∧
    (generateCommandCall command functionName functionType).basicBlock.drop 4 =
      (match functionType.returnType with
        | .void => [.retVoid]
        | .float =>
          [.alloca dwordTy, .store (.result 3) (.result 4),
           .bitCast (.result 4) (.type (.pointer .float)), .load (.result 6),
           .ret (.result 7)]
        | _ => [.ret (.result 3)]) ∧
    stackSlots (generateCommandCall command functionName functionType).basicBlock =
      (if functionType.returnType = .float then 1 else 0) := by
  obtain ⟨returnType, params, isVarArg⟩ := functionType
  cases returnType <;>
    simp [generateCommandCall, getPluginFunction, create, pluginTypeOf, pluginCalls, stackSlots,
      LLVMType.isFloatTy, LLVMType.isVoidTy, dwordTy]

/-! ## The order in which `accept` visits -/

/-- C36: `accept` visits in pre-order. A visitor that records its calls, run on
children whose `accept` makes it receive the calls of their subtrees, receives
from the `accept` of a `VarAssignment` the callback of the assignment node,
then all calls of the lvalue and then all calls of the expression; from the
`accept` of an `InfiniteLoop`, a `WhileLoop` or an `UntilLoop` the callback of
the loop node, then all calls of the condition when the loop has one and then
all calls of the body when there is one, and nothing for an absent body: the
node is visited once, before its children, and each child is traversed once.
For every visitor, children and state the `accept` for a `ConstVisitor` does
what the `accept` for a `Visitor` does. -/
theorem accept_visits_in_preorder {σ : Type} (visitor : ast.Visitor σ)
    (children : ast.ChildAccept σ) (state : σ)
    (lvalue : String → ast.Annotation → List ast.Visit)
    (expression : ast.Expression → List ast.Visit)
    (block : List ast.Statement → List ast.Visit) (log : List ast.Visit)
    (name : String) ( annotation : ast.Annotation) (e : ast.Expression)
    (body : Option (List ast.Statement)) :
    ast.VarAssignment.accept ast.recorder (ast.recordedChildren lvalue expression block)
        name annotation e log =
      log ++ (.visitVarAssignment (.VarAssignment name annotation e) ::
        (lvalue name annotation ++ expression e)) ∧
    ast.InfiniteLoop.accept ast.recorder (ast.recordedChildren lvalue expression block)
        body log =
      log ++ (.visitInfiniteLoop (.InfiniteLoop body) :: ast.whenPresent block body) ∧
    ast.WhileLoop.accept ast.recorder (ast.recordedChildren lvalue expression block)
        e body log =
      log ++ (.visitWhileLoop (.WhileLoop e body) ::
        (expression e ++ ast.whenPresent block body)) ∧
    ast.UntilLoop.accept ast.recorder (ast.recordedChildren lvalue expression block)
        e body log =
      log ++ (.visitUntilLoop (.UntilLoop e body) ::
        (expression e ++ ast.whenPresent block body)) ∧
    ast.VarAssignment.acceptConst visitor children name annotation e state =
      ast.VarAssignment.accept visitor children name annotation e state ∧
    ast.InfiniteLoop.acceptConst visitor children body state =
      ast.InfiniteLoop.accept visitor children body state ∧
    ast.WhileLoop.acceptConst visitor children e body state =
      ast.WhileLoop.accept visitor children e body state ∧
    ast.UntilLoop.acceptConst visitor children e body state =
      ast.UntilLoop.accept visitor children e body state := by
  refine ⟨?_, ?_, ?_, ?_, rfl, rfl, rfl, rfl⟩
  · simp [ast.VarAssignment.accept, ast.recorder, ast.recordedChildren]
  · cases body <;>
      simp [ast.InfiniteLoop.accept, ast.recorder, ast.recordedChildren, ast.whenPresent]
  · cases body <;>
      simp [ast.WhileLoop.accept, ast.recorder, ast.recordedChildren, ast.whenPresent]
  · cases body <;>
      simp [ast.UntilLoop.accept, ast.recorder, ast.recordedChildren, ast.whenPresent]

/-! ## The argument documentation of an action -/

open adg

theorem intercalate_go_append (s x y : String) (l : List String) :
    String.intercalate.go (x ++ y) s l = x ++ String.intercalate.go y s l := by
  induction l generalizing y with
  | nil => rfl
  | cons a l ih =>
    simp only [String.intercalate.go]
    rw [String.append_assoc, String.append_assoc, ih, String.append_assoc]

theorem intercalate_go_eq (s acc : String) (l : List String) :
    String.intercalate.go acc s l = acc ++ String.intercalate.go "" s l := by
  have h := intercalate_go_append s acc "" l
  rwa [String.append_empty] at h

theorem intercalate_cons_cons (s a b : String) (l : List String) :
    s.intercalate (a :: b :: l) = a ++ s ++ s.intercalate (b :: l) := by
  simp only [String.intercalate, String.intercalate.go]
  rw [intercalate_go_append]

theorem append_argnames_succ (argname : Node) (i : Nat) (arg_doc : String) :
    append_argnames argname (i + 1) arg_doc =
      arg_doc ++ String.intercalate.go "" "|" (argnamesOf argname) := by
  induction argname generalizing i arg_doc with
  | null => simp [append_argnames, argnamesOf, String.intercalate.go]
  | node type left next str shortopt continued _ ih =>
    rw [append_argnames]
    simp only [ne_eq, Nat.add_one_ne_zero, not_false_eq_true, if_true]
    rw [ih, argnamesOf, String.intercalate.go, intercalate_go_eq "|" ("" ++ "|" ++ str)]
    simp [String.append_assoc]

theorem append_argnames_zero (argname : Node) (arg_doc : String) :
    append_argnames argname 0 arg_doc = arg_doc ++ "|".intercalate (argnamesOf argname) := by
  cases argname with
  | null => simp [append_argnames, argnamesOf, String.intercalate]
  | node type left next str shortopt continued =>
    rw [append_argnames]
    simp only [ne_eq, not_true_eq_false, if_false]
    rw [append_argnames_succ, argnamesOf, String.intercalate, intercalate_go_eq "|" str,
      String.append_assoc]

theorem declaredArgs_null_iff (arg : Node) (args : List ArgDecl)
    (h : declaredArgs arg = some args) : arg = .null ↔ args = [] := by
  cases arg with
  | null => simp [declaredArgs] at h; simp [h]
  | node type argnames next str shortopt continued =>
    rw [declaredArgs] at h
    split at h
    · obtain ⟨rest, _, hrest⟩ := Option.map_eq_some'.mp h
      simp [← hrest]
    · split at h
      · obtain ⟨rest, _, hrest⟩ := Option.map_eq_some'.mp h
        simp [← hrest]
      · simp at h

theorem renderArgs_cons (d : ArgDecl) (rest : List ArgDecl) :
    renderArgs (d :: rest) =
      renderArg d ++ (if rest = [] then "" else " ") ++ renderArgs rest := by
  cases rest with
  | nil => simp [renderArgs, String.intercalate, String.intercalate.go]
  | cons e rest =>
    simp only [renderArgs, List.map_cons, intercalate_cons_cons]
    simp

theorem append_args_arg_doc (arg : Node) (args : List ArgDecl) (action : Action)
    (h : declaredArgs arg = some args) :
    ∃ result, append_args arg action = .ok result ∧
      result.arg_doc = action.arg_doc ++ renderArgs args ∧
      result.action_name = action.action_name ∧
      result.section_name = action.section_name ∧
      result.is_implicit = action.is_implicit := by
  induction arg generalizing args action with
  | null =>
    simp only [declaredArgs, Option.some.injEq] at h
    subst h
    exact ⟨action, rfl, by simp [renderArgs, String.intercalate], rfl, rfl, rfl⟩
  | node type argnames next str shortopt continued _ ih =>
    rw [declaredArgs] at h
    rw [append_args]
    by_cases h1 : type = .ADG_ARG
    · rw [if_pos h1] at h ⊢
      obtain ⟨rest, hrest, hargs⟩ := Option.map_eq_some'.mp h
      subst hargs
      have hnull := declaredArgs_null_iff next rest hrest
      obtain ⟨result, hres, hdoc, hname, hs, hi⟩ := ih rest
        { action with
          arg_doc :=
            if next ≠ .null then
              append_argnames argnames 0 (action.arg_doc ++ "<") ++ ">" ++ " "
            else append_argnames argnames 0 (action.arg_doc ++ "<") ++ ">",
          arg_range := { l := action.arg_range.l + 1, h := action.arg_range.h + 1 } } hrest
      refine ⟨result, hres, ?_, hname, hs, hi⟩
      rw [hdoc, renderArgs_cons, append_argnames_zero]
      by_cases hn : next = .null
      · simp [hn, hnull.mp hn, renderArg, String.append_assoc]
      · have : rest ≠ [] := fun h => hn (hnull.mpr h)
        simp [hn, this, renderArg, String.append_assoc]
    · rw [if_neg h1] at h ⊢
      by_cases h2 : type = .ADG_OPTIONAL_ARG
      · rw [if_pos h2] at h ⊢
        obtain ⟨rest, hrest, hargs⟩ := Option.map_eq_some'.mp h
        subst hargs
        have hnull := declaredArgs_null_iff next rest hrest
        obtain ⟨result, hres, hdoc, hname, hs, hi⟩ := ih rest
          { action with
            arg_doc :=
              if next ≠ .null then
                (if continued then
                    append_argnames argnames 0 (action.arg_doc ++ "[") ++ "..."
                  else append_argnames argnames 0 (action.arg_doc ++ "[")) ++ "]" ++ " "
              else
                (if continued then
                    append_argnames argnames 0 (action.arg_doc ++ "[") ++ "..."
                  else append_argnames argnames 0 (action.arg_doc ++ "[")) ++ "]",
            arg_range :=
              if continued then { l := action.arg_range.l, h := -1 }
              else { l := action.arg_range.l, h := action.arg_range.h + 1 } } hrest
        refine ⟨result, hres, ?_, hname, hs, hi⟩
        rw [hdoc, renderArgs_cons, append_argnames_zero]
        by_cases hn : next = .null
        · cases continued <;> simp [hn, hnull.mp hn, renderArg, String.append_assoc]
        · have : rest ≠ [] := fun h => hn (hnull.mpr h)
          cases continued <;> simp [hn, this, renderArg, String.append_assoc]
      · rw [if_neg h2] at h
        simp at h

/-- C34: for every explicit action node with a help text and a handler, whose
first argument attribute begins the list of the declared arguments `args`, the
action made for the node has as `arg_doc` the renderings of the declared
arguments in order, a required one as its names joined by a bar between angle
brackets, an optional one as its names joined by a bar between square brackets
with three dots before the closing bracket when it is continued, joined by one
space, so without a leading or trailing space; an action without arguments has
the empty string. -/
theorem arg_doc_renders_declared_args (type : NodeType) (attrs right : Node) (longopt : String)
    (shortopt : Char) (continued : Bool) (section_name help func_name : String) (arg : Node)
    (args : List ArgDecl)
    (hexplicit : type = .ADG_EXPLICIT_ACTION ∨ type = .ADG_EXPLICIT_META_ACTION)
    (hhelp : find_help (.node type attrs right longopt shortopt continued) = .ok (some help))
    (hfunc : find_func_name (.node type attrs right longopt shortopt continued) =
      .ok (some func_name))
    (harg : find_args_node (.node type attrs right longopt shortopt continued) = .ok arg)
    (hargs : declaredArgs arg = some args) :
    ∃ action,
      action_from_node (.node type attrs right longopt shortopt continued) section_name =
        .ok action ∧
      action.action_name = longopt ∧ action.section_name = section_name ∧
      action.is_implicit = false ∧
      action.arg_doc = " ".intercalate (args.map renderArg) ∧
      (args = [] → action.arg_doc = "") := by
  have hlong : get_long_option (.node type attrs right longopt shortopt continued) =
      .ok longopt := by
    rcases hexplicit with h | h <;> subst h <;> rfl
  have hshort : get_short_option (.node type attrs right longopt shortopt continued) =
      .ok shortopt := by
    rcases hexplicit with h | h <;> subst h <;> rfl
  have hcond : type = .ADG_EXPLICIT_META_ACTION ∨ type = .ADG_EXPLICIT_ACTION :=
    hexplicit.symm
  unfold action_from_node
  simp only [hhelp, hlong, hfunc, hshort, if_pos hcond]
  unfold init_action_argdoc_and_range
  simp only [harg]
  obtain ⟨result, hres, hdoc, hname, hsection, himplicit⟩ := append_args_arg_doc arg args _ hargs
  refine ⟨result, hres, ?_, ?_, ?_, ?_, ?_⟩
  · rw [hname]
    split <;> rfl
  · rw [hsection]
    split <;> rfl
  · rw [himplicit]
    split <;> rfl
  · rw [hdoc]
    simp [renderArgs]
  · intro hnil
    rw [hdoc, hnil]
    simp [renderArgs, String.intercalate]

/-- Witness of C34: the action `copy(c) <src|source> [dst...]` has the argument
documentation `<src|source> [dst...]`. -/
theorem arg_doc_renders_declared_args_witness :
    (action_from_node examples.copyAction "general").map (fun a => a.arg_doc) =
      .ok "<src|source> [dst...]" ∧
    ∃ action,
      action_from_node examples.copyAction "general" = .ok action ∧
      action.action_name = "copy" ∧ action.section_name = "general" ∧
      action.is_implicit = false ∧
      action.arg_doc = " ".intercalate
        (([{ optional := false, names := ["src", "source"], continued := false },
           { optional := true, names := ["dst"], continued := true }] : List ArgDecl).map
          renderArg) ∧
      (([{ optional := false, names := ["src", "source"], continued := false },
         { optional := true, names := ["dst"], continued := true }] : List ArgDecl) = [] →
        action.arg_doc = "") :=
  ⟨rfl,
    arg_doc_renders_declared_args .ADG_EXPLICIT_ACTION _ .null "copy" (Char.ofNat 99) false
      "general" "Copies files" "copyFiles"
      (examples.arg (examples.argname "src" (examples.argname "source" .null))
        (examples.optional_arg (examples.argname "dst" .null) .null true))
      [{ optional := false, names := ["src", "source"], continued := false },
       { optional := true, names := ["dst"], continued := true }]
      (Or.inl rfl) rfl rfl rfl rfl⟩

/-! ## The range of the argument count -/

/-- C33 (evaluation of the code at the failing input): for the explicit action
`pack(p) [files...] <target>`, whose argument list holds a continued optional
argument followed by a required one, `init_action_argdoc_and_range` sets
`arg_range.l` to 1 and `arg_range.h` to 0, the sentinel `-1` of the continued
argument incremented for the argument after it; the range in the words of the
specification has `h = -1`. -/
theorem continued_argument_before_another_is_counted :
    (find_args_node examples.packAction).map declaredArgs =
      .ok (some [{ optional := true, names := ["files"], continued := true },
                 { optional := false, names := ["target"], continued := false }]) ∧
    (init_action_argdoc_and_range adg_action_create examples.packAction).map
        (fun action => (action.arg_range, action.arg_doc)) =
      .ok ({ l := 1, h := 0 }, "[files...] <target>") ∧
    specArgRange [{ optional := true, names := ["files"], continued := true },
                  { optional := false, names := ["target"], continued := false }] =
      { l := 1, h := -1 } := by
  refine ⟨rfl, rfl, rfl⟩


/-! ### The dependency lists -/

theorem realloc_append (xs : List Int) (i : Nat) :
    ((realloc (xs ++ [-1]) (xs.length + 2)).set xs.length (Int.ofNat i)).set (xs.length + 1) (-1) =
      (xs ++ [Int.ofNat i]) ++ [-1] := by
  unfold realloc
  have h1 : (xs ++ [-1]).take (xs.length + 2) = xs ++ [-1] := by
    apply List.take_of_length_le
    simp
  have h2 : xs.length + 2 - (xs ++ [-1]).length = 1 := by simp
  rw [h1, h2]
  simp [List.set_append]

theorem matchingIndices_from (str : String) (pre table : List Action) :
    (List.range' pre.length table.length).filter (fun i =>
        match (pre ++ table)[i]? with
        | some a => decide (a.section_name = str ∨ a.action_name = str)
        | none => false) =
      indicesFrom str pre.length table := by
  induction table generalizing pre with
  | nil => simp [indicesFrom]
  | cons a rest ih =>
    have h := ih (pre ++ [a])
    simp only [List.length_append, List.length_singleton, List.append_assoc,
      List.singleton_append] at h
    have ha : (pre ++ a :: rest)[pre.length]? = some a := by
      rw [List.getElem?_append_right (le_refl _)]
      simp
    simp only [List.length_cons, List.range'_succ, List.filter_cons]
    rw [h, ha, indicesFrom]
    simp only [decide_eq_true_eq]

theorem matchingIndices_eq (table : List Action) (str : String) :
    matchingIndices table str = indicesFrom str 0 table := by
  have h := matchingIndices_from str [] table
  simp only [List.length_nil, List.nil_append] at h
  unfold matchingIndices
  rw [List.range_eq_range']
  exact h

theorem indicesFrom_lt (str : String) (i : Nat) (table : List Action) :
    ∀ j ∈ indicesFrom str i table, i ≤ j ∧ j < i + table.length := by
  induction table generalizing i with
  | nil => simp [indicesFrom]
  | cons a rest ih =>
    intro j hj
    rw [indicesFrom] at hj
    split at hj
    · rcases List.mem_cons.mp hj with h | h
      · subst h; simp
      · have := ih (i + 1) j h
        simp only [List.length_cons]
        omega
    · have := ih (i + 1) j hj
      simp only [List.length_cons]
      omega

theorem indicesFrom_congr (str : String) (i : Nat) (t1 t2 : List Action)
    (h : t1.map (fun a => (a.section_name, a.action_name)) =
      t2.map (fun a => (a.section_name, a.action_name))) :
    indicesFrom str i t1 = indicesFrom str i t2 := by
  induction t1 generalizing i t2 with
  | nil =>
    cases t2 with
    | nil => rfl
    | cons b t2 => simp at h
  | cons a t1 ih =>
    cases t2 with
    | nil => simp at h
    | cons b t2 =>
      simp only [List.map_cons, List.cons.injEq, Prod.mk.injEq] at h
      rw [indicesFrom, indicesFrom, h.1.1, h.1.2, ih (i + 1) t2 h.2]

theorem append_matches_eq (str : String) (table : List Action) (i : Nat) (xs : List Int)
    (found : Bool) :
    append_matches str table i (xs ++ [-1]) xs.length found =
      ((xs ++ (indicesFrom str i table).map Int.ofNat) ++ [-1],
        xs.length + (indicesFrom str i table).length,
        found || !(indicesFrom str i table).isEmpty) := by
  induction table generalizing i xs found with
  | nil => simp [append_matches, indicesFrom]
  | cons a rest ih =>
    rw [append_matches, indicesFrom]
    by_cases hc : a.section_name = str ∨ a.action_name = str
    · rw [if_pos hc, if_pos hc]
      simp only
      rw [realloc_append]
      have h := ih (i + 1) (xs ++ [Int.ofNat i]) true
      simp only [List.length_append, List.length_singleton] at h
      rw [h]
      simp [Nat.add_assoc, Nat.add_comm 1]
    · rw [if_neg hc, if_neg hc]
      exact ih (i + 1) xs found

theorem resolve_names_eq (table : List Action) (node : Node) (xs : List Int) (list : List Int)
    (h : resolve_names table node (xs ++ [-1]) xs.length = .ok list) :
    list = (xs ++ ((dependencyNames node).flatMap (fun n => indicesFrom n 0 table)).map
        Int.ofNat) ++ [-1] ∧
      ∀ name ∈ dependencyNames node, indicesFrom name 0 table ≠ [] := by
  induction node generalizing xs with
  | null =>
    simp only [resolve_names, Except.ok.injEq] at h
    subst h
    simp [dependencyNames]
  | node type left next str shortopt continued _ ih =>
    rw [resolve_names, append_matches_eq] at h
    simp only [Bool.false_or] at h
    by_cases hempty : indicesFrom str 0 table = []
    · simp [hempty] at h
    · have hne : (!(indicesFrom str 0 table).isEmpty) = true := by
        cases hl : indicesFrom str 0 table with
        | nil => exact absurd hl hempty
        | cons a l => rfl
      rw [hne] at h
      simp only [Bool.true_eq_false, if_false] at h
      have h2 := ih (xs ++ (indicesFrom str 0 table).map Int.ofNat)
        (by simpa [List.length_append, List.length_map] using h)
      refine ⟨?_, ?_⟩
      · rw [h2.1]
        simp [dependencyNames, List.append_assoc]
      · intro name hname
        rw [dependencyNames] at hname
        rcases List.mem_cons.mp hname with h3 | h3
        · subst h3; exact hempty
        · exact h2.2 name h3

theorem fill_dependency_list_eq (table : List Action) (type : NodeType)
    (t : NodeType) (left right : Node) (str : String) (shortopt : Char) (continued : Bool)
    (list : List Int)
    (h : fill_dependency_list table (.node t left right str shortopt continued) type =
      .ok list) :
    list = resolvedList table
        (dependencyNames (find_node (.node t left right str shortopt continued) type)) ∧
      ∀ name ∈ dependencyNames (find_node (.node t left right str shortopt continued) type),
        matchingIndices table name ≠ [] := by
  unfold fill_dependency_list at h
  simp only at h
  unfold resolvedList
  have hm : matchingIndices table = fun n => indicesFrom n 0 table := by
    funext n
    exact matchingIndices_eq table n
  rw [hm]
  split at h
  · have h2 := resolve_names_eq table _ [] list (by simpa using h)
    simpa using h2
  · rename_i hnull
    simp only [ne_eq, not_not] at hnull
    simp only [Except.ok.injEq] at h
    subst h
    simp [hnull, dependencyNames]


/-! ### The table and the action nodes of the tree -/

theorem get_long_option_of_action (n : Node) (h : adg_node_is_action n = true) :
    get_long_option n = .ok n.str := by
  cases n with
  | null => simp [adg_node_is_action] at h
  | node type left right str shortopt continued =>
    cases type <;> first | rfl | (simp [adg_node_is_action] at h)

theorem mem_actionNodes (node n : Node) (h : n ∈ actionNodes node) :
    adg_node_is_action n = true := by
  induction node with
  | null => simp [actionNodes] at h
  | node type left right str shortopt continued ihl ihr =>
    rw [actionNodes] at h
    rcases List.mem_append.mp h with h1 | h1
    · rcases List.mem_append.mp h1 with h2 | h2
      · split at h2
        · rw [List.mem_singleton] at h2
          subst h2
          assumption
        · simp at h2
      · exact ihl h2
    · exact ihr h1

theorem append_args_names (arg : Node) (action result : Action)
    (h : append_args arg action = .ok result) :
    result.action_name = action.action_name ∧ result.section_name = action.section_name := by
  induction arg generalizing action with
  | null =>
    simp only [append_args, Except.ok.injEq] at h
    subst h
    exact ⟨rfl, rfl⟩
  | node type argnames next str shortopt continued _ ih =>
    rw [append_args] at h
    split at h
    · dsimp only at h
      have h2 := ih _ h
      exact h2
    · split at h
      · dsimp only at h
        have h2 := ih _ h
        cases continued <;> exact h2
      · simp at h

theorem action_from_node_names (n : Node) (section_name : String) (a : Action)
    (hn : adg_node_is_action n = true) (h : action_from_node n section_name = .ok a) :
    a.action_name = n.str ∧ a.section_name = section_name := by
  unfold action_from_node at h
  rw [get_long_option_of_action n hn] at h
  unfold init_action_argdoc_and_range at h
  dsimp only at h
  repeat' (split at h)
  all_goals first
    | (simp at h; done)
    | (have h2 := append_args_names _ _ _ h
       exact ⟨by rw [h2.1], by rw [h2.2]⟩)
    | (simp only [Except.ok.injEq] at h
       subst h
       exact ⟨rfl, rfl⟩)

theorem populate_action_table_from_tree_eq (node : Node) (section_name : String)
    (table result : List Action)
    (h : populate_action_table_from_tree node section_name table = .ok result) :
    ∃ added, result = table ++ added ∧
      List.Forall₂ (fun (a : Action) (n : Node) => a.action_name = n.str) added
        (actionNodes node) := by
  induction node generalizing section_name table result with
  | null =>
    simp only [populate_action_table_from_tree, Except.ok.injEq] at h
    subst h
    exact ⟨[], by simp, by simp [actionNodes]⟩
  | node type left right str shortopt continued ihl ihr =>
    rw [populate_action_table_from_tree] at h
    rw [actionNodes]
    by_cases hact : adg_node_is_action (.node type left right str shortopt continued) = true
    · simp only [hact, if_true] at h ⊢
      cases ha : action_from_node (.node type left right str shortopt continued) section_name with
      | error x => simp [ha] at h
      | ok a =>
        simp only [ha] at h
        cases hl : populate_action_table_from_tree left
            (if type = .ADG_SECTION then str else section_name) (table ++ [a]) with
        | error x => simp [hl] at h
        | ok t1 =>
          simp only [hl] at h
          obtain ⟨add1, h1, f1⟩ := ihl _ _ _ hl
          obtain ⟨add2, h2, f2⟩ := ihr _ _ _ h
          refine ⟨[a] ++ add1 ++ add2, by rw [h2, h1]; simp, ?_⟩
          refine List.rel_append (List.rel_append ?_ f1) f2
          exact List.Forall₂.cons (action_from_node_names _ _ _ hact ha).1 List.Forall₂.nil
    · simp only [hact, Bool.false_eq_true, if_false] at h ⊢
      cases hl : populate_action_table_from_tree left
          (if type = .ADG_SECTION then str else section_name) table with
      | error x => simp [hl] at h
      | ok t1 =>
        simp only [hl] at h
        obtain ⟨add1, h1, f1⟩ := ihl _ _ _ hl
        obtain ⟨add2, h2, f2⟩ := ihr _ _ _ h
        refine ⟨add1 ++ add2, by rw [h2, h1]; simp, ?_⟩
        simpa using List.rel_append f1 f2

theorem find_action_node_eq (node : Node) (name : String) :
    find_action_node node name =
      .ok (((actionNodes node).find? (fun n => decide (n.str = name))).getD .null) := by
  induction node with
  | null => simp [find_action_node, actionNodes]
  | node type left right str shortopt continued ihl ihr =>
    rw [find_action_node, actionNodes]
    have hnull : ∀ l : List Node, (∀ n ∈ l, adg_node_is_action n = true) →
        ((l.find? (fun n => decide (n.str = name))).getD .null ≠ .null ↔
          (l.find? (fun n => decide (n.str = name))).isSome = true) := by
      intro l hl
      cases hf : l.find? (fun n => decide (n.str = name)) with
      | none => simp
      | some n =>
        have := hl n (List.mem_of_find?_eq_some hf)
        cases n with
        | null => simp [adg_node_is_action] at this
        | node _ _ _ _ _ _ => simp
    have hrest : (match find_action_node left name with
        | .error x => Except.error x
        | .ok found =>
          if found ≠ Node.null then Except.ok found else find_action_node right name) =
        Except.ok (((actionNodes left ++ actionNodes right).find?
          (fun (n : Node) => decide (n.str = name))).getD Node.null) := by
      rw [ihl, ihr]
      simp only
      rw [List.find?_append]
      by_cases hs : ((actionNodes left).find? (fun n => decide (n.str = name))).isSome = true
      · rw [if_pos ((hnull _ (fun n hn => mem_actionNodes left n hn)).mpr hs)]
        obtain ⟨n, hn⟩ := Option.isSome_iff_exists.mp hs
        simp [hn]
      · rw [if_neg (fun h => hs ((hnull _ (fun n hn => mem_actionNodes left n hn)).mp h))]
        simp only [Bool.not_eq_true, Option.not_isSome, Option.isNone_iff_eq_none] at hs
        simp [hs]
    by_cases hact : adg_node_is_action (.node type left right str shortopt continued) = true
    · simp only [hact, if_true]
      rw [get_long_option_of_action _ hact]
      simp only [Node.str]
      by_cases hname : str = name
      · simp [hname, Node.str]
      · simp only [hname, decide_False]
        rw [hrest]
        simp [List.find?_cons, Node.str, hname]
    · simp only [hact, Bool.false_eq_true, if_false]
      rw [hrest]
      simp


theorem forall2_at {α β : Type} (R : α → β → Prop) (l1 : List α) (l2 : List β)
    (h : List.Forall₂ R l1 l2) (k : Nat) (a : α) (b : β) (h1 : l1[k]? = some a)
    (h2 : l2[k]? = some b) : R a b := by
  induction h generalizing k with
  | nil => simp at h1
  | cons hab _ ih =>
    cases k with
    | zero =>
      simp only [List.getElem?_cons_zero, Option.some.injEq] at h1 h2
      subst h1 h2
      exact hab
    | succ k =>
      simp only [List.getElem?_cons_succ] at h1 h2
      exact ih k h1 h2

theorem forall2_map_eq {α β γ : Type} (f : α → γ) (g : β → γ) (l1 : List α) (l2 : List β)
    (h : List.Forall₂ (fun a b => f a = g b) l1 l2) : l1.map f = l2.map g := by
  induction h with
  | nil => rfl
  | cons hab _ ih => simp [hab, ih]

theorem duplicate_action_name_false (table : List Action)
    (h : duplicate_action_name table = false) :
    (table.map (fun a => a.action_name)).Nodup := by
  induction table with
  | nil => simp
  | cons a rest ih =>
    rw [duplicate_action_name] at h
    split at h
    · simp at h
    · rename_i hany
      simp only [List.map_cons, List.nodup_cons]
      refine ⟨?_, ih h⟩
      intro hmem
      apply hany
      obtain ⟨b, hb, hname⟩ := List.mem_map.mp hmem
      simp only [List.any_eq_true, decide_eq_true_eq]
      exact ⟨b, hb, hname.symm⟩

theorem find_of_nodup (l : List Node) (h : (l.map Node.str).Nodup) (k : Nat) (n : Node)
    (hk : l[k]? = some n) : l.find? (fun m => decide (m.str = n.str)) = some n := by
  induction l generalizing k with
  | nil => simp at hk
  | cons m rest ih =>
    simp only [List.map_cons, List.nodup_cons] at h
    cases k with
    | zero =>
      simp only [List.getElem?_cons_zero, Option.some.injEq] at hk
      subst hk
      simp
    | succ k =>
      simp only [List.getElem?_cons_succ] at hk
      have hne : m.str ≠ n.str := by
        intro heq
        apply h.1
        rw [heq]
        exact List.mem_map.mpr ⟨n, List.getElem?_mem hk, rfl⟩
      rw [List.find?_cons]
      simp only [hne, decide_False]
      exact ih h.2 k hk

theorem resolvedList_congr (t1 t2 : List Action) (names : List String)
    (h : t1.map (fun a => (a.section_name, a.action_name)) =
      t2.map (fun a => (a.section_name, a.action_name))) :
    resolvedList t1 names = resolvedList t2 names ∧
      ∀ name, matchingIndices t1 name = matchingIndices t2 name := by
  have hm : ∀ name, matchingIndices t1 name = matchingIndices t2 name := by
    intro name
    rw [matchingIndices_eq, matchingIndices_eq, indicesFrom_congr name 0 t1 t2 h]
  refine ⟨?_, hm⟩
  unfold resolvedList
  have : matchingIndices t1 = matchingIndices t2 := funext hm
  rw [this]

theorem init_action_dependencies_eq (table : List Action) (root : Node) (a result : Action)
    (h : init_action_dependencies table root a = .ok result) :
    ∃ node, find_action_node root a.action_name = .ok node ∧
      result = { a with
        runafter := resolvedList table (declaredDependencies node .ADG_RUNAFTER),
        requires := resolvedList table (declaredDependencies node .ADG_REQUIRES),
        metadeps := resolvedList table (declaredDependencies node .ADG_METADEP) } ∧
      ∀ type, type = NodeType.ADG_RUNAFTER ∨ type = NodeType.ADG_REQUIRES ∨
          type = NodeType.ADG_METADEP →
        ∀ name ∈ declaredDependencies node type, matchingIndices table name ≠ [] := by
  unfold init_action_dependencies at h
  cases hf : find_action_node root a.action_name with
  | error x => simp [hf] at h
  | ok node =>
    rw [hf] at h
    cases node with
    | null => simp at h
    | node type attrs right str shortopt continued =>
      simp only at h
      cases attrs with
      | null => simp [fill_dependency_list] at h
      | node t l r s so c =>
        cases h1 : fill_dependency_list table (.node t l r s so c) .ADG_RUNAFTER with
        | error x => simp [h1] at h
        | ok runafter =>
          cases h2 : fill_dependency_list table (.node t l r s so c) .ADG_REQUIRES with
          | error x => simp [h1, h2] at h
          | ok requires =>
            cases h3 : fill_dependency_list table (.node t l r s so c) .ADG_METADEP with
            | error x => simp [h1, h2, h3] at h
            | ok metadeps =>
              simp only [h1, h2, h3, Except.ok.injEq] at h
              have e1 := fill_dependency_list_eq table _ t l r s so c _ h1
              have e2 := fill_dependency_list_eq table _ t l r s so c _ h2
              have e3 := fill_dependency_list_eq table _ t l r s so c _ h3
              refine ⟨_, rfl, ?_, ?_⟩
              · rw [← h]
                simp only [declaredDependencies]
                rw [← e1.1, ← e2.1, ← e3.1]
              · intro type htype name hname
                simp only [declaredDependencies] at hname
                rcases htype with ht | ht | ht
                · subst ht; exact e1.2 name hname
                · subst ht; exact e2.2 name hname
                · subst ht; exact e3.2 name hname

theorem init_action_table_dependencies_from_eq (root : Node) (done todo result : List Action)
    (h : init_action_table_dependencies_from root done todo = .ok result) :
    ∃ todo1, result = done ++ todo1 ∧
      List.Forall₂ (fun (a a1 : Action) =>
        ∃ table, table.map (fun b => (b.section_name, b.action_name)) =
            (done ++ todo).map (fun b => (b.section_name, b.action_name)) ∧
          init_action_dependencies table root a = .ok a1) todo todo1 := by
  induction todo generalizing done with
  | nil =>
    simp only [init_action_table_dependencies_from, Except.ok.injEq] at h
    subst h
    exact ⟨[], by simp, List.Forall₂.nil⟩
  | cons a rest ih =>
    rw [init_action_table_dependencies_from] at h
    cases ha : init_action_dependencies (done ++ a :: rest) root a with
    | error x => simp [ha] at h
    | ok a1 =>
      simp only [ha] at h
      obtain ⟨todo1, hres, hall⟩ := ih (done ++ [a1]) h
      obtain ⟨node, _, ha1, _⟩ := init_action_dependencies_eq _ _ _ _ ha
      have hkeys : ((done ++ [a1]) ++ rest).map (fun b => (b.section_name, b.action_name)) =
          (done ++ a :: rest).map (fun b => (b.section_name, b.action_name)) := by
        rw [ha1]
        simp
      refine ⟨a1 :: todo1, by rw [hres]; simp, ?_⟩
      refine List.Forall₂.cons ⟨done ++ a :: rest, rfl, ha⟩ ?_
      refine List.Forall₂.imp ?_ hall
      rintro b b1 ⟨table, htable, hb⟩
      exact ⟨table, htable.trans hkeys, hb⟩


theorem mem_matchingIndices_lt (table : List Action) (name : String) (j : Nat)
    (h : j ∈ matchingIndices table name) : j < table.length := by
  unfold matchingIndices at h
  exact List.mem_range.mp (List.mem_filter.mp h).1

theorem mem_resolvedList_dropLast (table : List Action) (names : List String) (x : Int)
    (h : x ∈ (resolvedList table names).dropLast) : 0 ≤ x ∧ x < table.length := by
  unfold resolvedList at h
  rw [List.dropLast_concat] at h
  obtain ⟨j, hj, hx⟩ := List.mem_map.mp h
  obtain ⟨name, _, hmem⟩ := List.mem_flatMap.mp hj
  have := mem_matchingIndices_lt table name j hmem
  subst hx
  constructor
  · exact Int.ofNat_nonneg j
  · exact Int.ofNat_lt.mpr this

/-- C32: for every table that `adg_action_table_from_nodes` builds, the actions
of the table are the action nodes of the tree in the order in which the tree
is walked, and for the action at every position of the table each of the lists
`runafter`, `requires` and `metadeps` holds, for each dependency name that the
node of the action declares in its list of this kind, in the order of the
declaration, the ascending table indices of the actions whose section name or
action name is that name, followed by one terminator `-1`; every declared name
matches an action (a build with a name that matches none fails) and every
stored index is a position of the table. -/
theorem dependencies_resolve_to_indices (root : Node) (table : List Action)
    (h : adg_action_table_from_nodes root = .ok table) :
    table.length = (actionNodes root).length ∧
    ∀ (k : Nat) (action : Action) (node : Node),
      table[k]? = some action → (actionNodes root)[k]? = some node →
      action.action_name = node.str ∧
      action.runafter = resolvedList table (declaredDependencies node .ADG_RUNAFTER) ∧
      action.requires = resolvedList table (declaredDependencies node .ADG_REQUIRES) ∧
      action.metadeps = resolvedList table (declaredDependencies node .ADG_METADEP) ∧
      (∀ type, type = NodeType.ADG_RUNAFTER ∨ type = NodeType.ADG_REQUIRES ∨
          type = NodeType.ADG_METADEP →
        ∀ name ∈ declaredDependencies node type, matchingIndices table name ≠ []) ∧
      (∀ x, x ∈ action.runafter.dropLast ∨ x ∈ action.requires.dropLast ∨
          x ∈ action.metadeps.dropLast → 0 ≤ x ∧ x < table.length) := by
  unfold adg_action_table_from_nodes at h
  cases root with
  | null => simp at h
  | node type left right name shortopt continued =>
    simp only at h
    split at h
    · simp at h
    · cases hp : populate_action_table_from_tree (.node type left right name shortopt continued)
          name [] with
      | error x => simp [hp] at h
      | ok t0 =>
        simp only [hp] at h
        split at h
        · simp at h
        · rename_i hverify
          obtain ⟨added, hadded, hnames⟩ := populate_action_table_from_tree_eq _ _ _ _ hp
          simp only [List.nil_append] at hadded
          subst hadded
          have hdup : duplicate_action_name t0 = false := by
            unfold verify_actions_and_sections_are_unique at hverify
            cases hd : duplicate_action_name t0 with
            | false => rfl
            | true => simp [hd] at hverify
          have hnodup := duplicate_action_name_false t0 hdup
          have hstr : t0.map (fun a => a.action_name) =
              (actionNodes (.node type left right name shortopt continued)).map Node.str :=
            forall2_map_eq _ _ _ _ hnames
          rw [hstr] at hnodup
          unfold init_action_table_dependencies at h
          obtain ⟨todo1, htable, hall⟩ := init_action_table_dependencies_from_eq _ _ _ _ h
          simp only [List.nil_append] at htable hall
          subst htable
          have hlen1 := List.Forall₂.length_eq hnames
          have hlen2 := List.Forall₂.length_eq hall
          refine ⟨by rw [← hlen2, hlen1], ?_⟩
          intro k action node hk hnode
          have hk0 : ∃ a0, t0[k]? = some a0 := by
            have hlt : k < t0.length := by
              rw [hlen2]
              exact (List.getElem?_eq_some_iff.mp hk).1
            exact ⟨t0[k], List.getElem?_eq_getElem hlt⟩
          obtain ⟨a0, ha0⟩ := hk0
          have hname0 : a0.action_name = node.str := forall2_at _ _ _ hnames k a0 node ha0 hnode
          obtain ⟨t, hkeys, hdeps⟩ := forall2_at _ _ _ hall k a0 action ha0 hk
          obtain ⟨found, hfound, haction, hresolve⟩ := init_action_dependencies_eq _ _ _ _ hdeps
          rw [find_action_node_eq, hname0, find_of_nodup _ hnodup k node hnode] at hfound
          simp only [Option.getD_some, Except.ok.injEq] at hfound
          subst hfound
          have hkeys2 : t.map (fun b => (b.section_name, b.action_name)) =
              table.map (fun b => (b.section_name, b.action_name)) := by
            rw [hkeys]
            apply forall2_map_eq
            refine List.Forall₂.imp ?_ hall
            rintro b b1 ⟨t2, _, hb⟩
            obtain ⟨_, _, hb1, _⟩ := init_action_dependencies_eq _ _ _ _ hb
            rw [hb1]
          have hc := fun names => (resolvedList_congr t table names hkeys2).1
          have hm := (resolvedList_congr t table [] hkeys2).2
          have h1 : action.runafter =
              resolvedList table (declaredDependencies node .ADG_RUNAFTER) := by
            rw [haction, ← hc]
          have h2 : action.requires =
              resolvedList table (declaredDependencies node .ADG_REQUIRES) := by
            rw [haction, ← hc]
          have h3 : action.metadeps =
              resolvedList table (declaredDependencies node .ADG_METADEP) := by
            rw [haction, ← hc]
          refine ⟨by rw [haction]; exact hname0, h1, h2, h3, ?_, ?_⟩
          · intro type htype name hname
            rw [← hm]
            exact hresolve type htype name hname
          · intro x hx
            rcases hx with hx | hx | hx
            · rw [h1] at hx
              exact mem_resolvedList_dropLast _ _ _ hx
            · rw [h2] at hx
              exact mem_resolvedList_dropLast _ _ _ hx
            · rw [h3] at hx
              exact mem_resolvedList_dropLast _ _ _ hx

/-- Witness of C32: the table built from the tree of the sections `general`
(actions `build` and `test`) and `tools` (actions `lint` and `fmt`): `test` runs
after `[0]`, requires `[0, 2, 3]`, and `lint` has the meta dependencies `[0, 1]`;
the tree whose action requires the undefined name `nothing` builds no table. -/
theorem dependencies_resolve_to_indices_witness :
    adg_action_table_from_nodes examples.dependencyTree = .ok examples.dependencyTable ∧
    examples.dependencyTable.length = (actionNodes examples.dependencyTree).length ∧
    (∀ (k : Nat) (action : Action) (node : Node),
      examples.dependencyTable[k]? = some action →
      (actionNodes examples.dependencyTree)[k]? = some node →
      action.action_name = node.str ∧
      action.runafter =
        resolvedList examples.dependencyTable (declaredDependencies node .ADG_RUNAFTER) ∧
      action.requires =
        resolvedList examples.dependencyTable (declaredDependencies node .ADG_REQUIRES) ∧
      action.metadeps =
        resolvedList examples.dependencyTable (declaredDependencies node .ADG_METADEP) ∧
      (∀ type, type = NodeType.ADG_RUNAFTER ∨ type = NodeType.ADG_REQUIRES ∨
          type = NodeType.ADG_METADEP →
        ∀ name ∈ declaredDependencies node type,
          matchingIndices examples.dependencyTable name ≠ []) ∧
      (∀ x, x ∈ action.runafter.dropLast ∨ x ∈ action.requires.dropLast ∨
          x ∈ action.metadeps.dropLast → 0 ≤ x ∧ x < examples.dependencyTable.length)) ∧
    examples.dependencyTable.map (fun a => (a.action_name, a.runafter, a.requires, a.metadeps)) =
      [("build", [-1], [-1], [-1]), ("test", [0, -1], [0, 2, 3, -1], [-1]),
       ("lint", [-1], [-1], [0, 1, -1]), ("fmt", [-1], [-1], [-1])] ∧
    adg_action_table_from_nodes examples.undefinedDependency = .error .failed :=
  ⟨rfl, (dependencies_resolve_to_indices examples.dependencyTree examples.dependencyTable rfl).1,
    (dependencies_resolve_to_indices examples.dependencyTree examples.dependencyTable rfl).2,
    rfl, rfl⟩

/-! ## Names shared by an action and a section -/

/-- C31 (evaluation of the code at the failing input): for the tree in which the
action `build` of the section `general` comes before the section `build` with
its action `run`, the name of the first action is the section name of the
second, the check `verify_actions_and_sections_are_unique` returns `0` and
`adg_action_table_from_nodes` returns the table of the two actions; the same
sections and actions in the other order, and two actions of one name, yield no
table. -/
theorem action_named_as_a_later_section_passes :
    (adg_action_table_from_nodes examples.actionNamedAsLaterSection).map
        (fun table => table.map (fun a => (a.action_name, a.section_name))) =
      .ok [("build", "general"), ("run", "build")] ∧
    (populate_action_table_from_tree examples.actionNamedAsLaterSection "general" []).map
        verify_actions_and_sections_are_unique = .ok 0 ∧
    adg_action_table_from_nodes examples.actionNamedAsEarlierSection = .error .failed ∧
    adg_action_table_from_nodes examples.twoActionsNamedBuild = .error .failed := by
  refine ⟨rfl, rfl, rfl, rfl⟩

end odb
